import Mathlib

/-!
# Vertex-data store of panda3d (`panda/src/gobj/qpgeomVertexData.cxx`)

A shallow embedding of `qpGeomVertexData`: the copy-on-write array store, its
resize operations and the conversion cache, followed by theorems about them.

Conventions of the embedding

* A `PTA_uchar` is a possibly-null pointer to a reference-counted byte vector
  that lives in a `Heap`.  Addresses are never reused: a vector whose count
  drops to zero stays in the heap as garbage.
* The methods of a store take the address `this` of the store, the value of
  the store and the `Runtime` (heap, global cache manager, assertion log) and
  return the new values.  Only the current pipeline stage is modelled, so the
  cycler is its `CData`.
* `int` values are mathematical integers; parameters that are only meaningful
  when non-negative (`n` of `set_num_vertices`, a vertex index) are naturals.
  `x / stride` is the source's division whenever `stride` is positive, which
  the theorems assume where the source divides.
* A failed `nassertv`/`nassertr` appends the source line of the assertion to
  `Runtime.nassert_failed` and returns, as the source does.
* Releasing the references held by a cached store when it is dropped from the
  conversion cache (object destruction) is outside the model.
-/

namespace Panda

/-- One byte of vertex data. -/
abbrev uchar := Fin 256

/-- The object a `PTA_uchar` points to: the vector `v()` and its reference count. -/
structure RefCountObj where
  v : List uchar
  ref_count : Nat
deriving DecidableEq

/-- Modelled from the spec: `PTA_uchar` (pointerToArray.h is not among the
sources), a shared-ownership handle to a byte buffer.  `none` is the null
handle produced by `PTA_uchar()`. -/
abbrev PTA_uchar := Option Nat

/-- The buffers allocated so far; `next` is the address the next allocation gets. -/
structure Heap where
  cell : Nat → RefCountObj
  next : Nat

namespace Heap

/-- Replace the bytes of the vector at address `a`. -/
def set_v (h : Heap) (a : Nat) (bytes : List uchar) : Heap :=
  { h with cell := Function.update h.cell a { h.cell a with v := bytes } }

/-- Add one reference to the buffer `p` points to (copying a handle). -/
def ref (h : Heap) : PTA_uchar → Heap
  | none => h
  | some a =>
    { h with cell := Function.update h.cell a { h.cell a with ref_count := (h.cell a).ref_count + 1 } }

/-- Drop one reference to the buffer `p` points to (destroying or re-seating a handle). -/
def unref (h : Heap) : PTA_uchar → Heap
  | none => h
  | some a =>
    { h with cell := Function.update h.cell a { h.cell a with ref_count := (h.cell a).ref_count - 1 } }

/-- Allocate a new vector holding `bytes`, owned by one handle. -/
def alloc (h : Heap) (bytes : List uchar) : Nat × Heap :=
  (h.next, { cell := Function.update h.cell h.next { v := bytes, ref_count := 1 }, next := h.next + 1 })

end Heap

namespace PTA_uchar

/-- The bytes seen through a handle; a null handle has none. -/
def bytes (h : Heap) : PTA_uchar → List uchar
  | none => []
  | some a => (h.cell a).v

/-- Modelled from the spec: `PointerToArray::size()`, zero for a null handle. -/
def size (h : Heap) (p : PTA_uchar) : Nat := (bytes h p).length

/-- Modelled from the spec: `PointerToArray::get_ref_count()`, zero for a null handle. -/
def get_ref_count (h : Heap) : PTA_uchar → Nat
  | none => 0
  | some a => (h.cell a).ref_count

/-- Modelled from the spec: `p.insert(p.end(), k, uchar())`.  A null handle first
gets a vector of its own, which is why the handle is returned as well. -/
def insert_end (h : Heap) (p : PTA_uchar) (k : Nat) : PTA_uchar × Heap :=
  match p with
  | none => let r := h.alloc (List.replicate k 0); (some r.1, r.2)
  | some a => (some a, h.set_v a ((h.cell a).v ++ List.replicate k 0))

/-- Modelled from the spec: `p.erase(p.begin() + k, p.end())`. -/
def erase_from (h : Heap) (p : PTA_uchar) (k : Nat) : Heap :=
  match p with
  | none => h
  | some a => h.set_v a ((h.cell a).v.take k)

/-- Writing through a handle: the vector it points to now holds `data`. -/
def write (h : Heap) (p : PTA_uchar) (data : List uchar) : Heap :=
  match p with
  | none => h
  | some a => h.set_v a data

end PTA_uchar

/-- The effect of `memcpy(dst, src, k)` on the bytes of `dst`. -/
def memcpy (dst src : List uchar) (k : Nat) : List uchar :=
  src.take k ++ dst.drop k

/-- The numeric encodings of `qpGeomVertexDataType::NumericType`. -/
inductive NumericType where
  | NT_uint8
  | NT_packed_argb
  | NT_float
deriving DecidableEq

/-- The accessors of `qpGeomVertexDataType` the store uses (its declaration is
not among the sources, so each accessor is a field). -/
structure qpGeomVertexDataType where
  get_name : Nat
  get_num_components : Nat
  get_num_values : Nat
  get_numeric_type : NumericType
  get_start : Nat
  get_total_bytes : Nat
deriving DecidableEq

/-- One array of a format: its stride and its data types. -/
structure qpGeomVertexArrayFormat where
  get_stride : Nat
  data_types : List qpGeomVertexDataType
deriving DecidableEq

/-- A vertex format.  Formats are interned, so comparing two format pointers
is comparing the formats. -/
structure qpGeomVertexFormat where
  arrays : List qpGeomVertexArrayFormat
  is_registered : Bool
deriving DecidableEq

namespace qpGeomVertexFormat

def get_num_arrays (f : qpGeomVertexFormat) : Nat := f.arrays.length

def get_array (f : qpGeomVertexFormat) (i : Nat) : qpGeomVertexArrayFormat :=
  f.arrays.getD i { get_stride := 0, data_types := [] }

end qpGeomVertexFormat

/-- One entry of the global cache manager: the store that owns the cached
conversion, the format it was converted to and the size of the result. -/
structure CacheEntry where
  source : Nat
  modifier : qpGeomVertexFormat
  result_size : Nat
deriving DecidableEq

/-- Modelled from the spec: the Global Cache Budget Manager
(qpGeomVertexCacheManager is not among the sources); its entries, least
recently used first. -/
structure qpGeomVertexCacheManager where
  entries : List CacheEntry
  max_size : Nat
deriving DecidableEq

/-- Modelled from the spec: `remove(owner_id, format)` deletes the entry if
present; removing a non-existent entry is not an error. -/
def qpGeomVertexCacheManager.remove_data (m : qpGeomVertexCacheManager) (source : Nat)
    (modifier : qpGeomVertexFormat) : qpGeomVertexCacheManager :=
  { m with entries := m.entries.filter fun e => ¬ (e.source = source ∧ e.modifier = modifier) }

/-- The per-stage data of a store: its arrays and its conversion cache, the
latter in the iteration order of the map, each format with the address of the
converted store. -/
structure CData where
  _arrays : List PTA_uchar
  _converted_cache : List (qpGeomVertexFormat × Nat)
deriving DecidableEq

/-- A vertex-data store. -/
structure qpGeomVertexData where
  _format : qpGeomVertexFormat
  _cycler : CData
deriving DecidableEq

/-- The handle `cdata->_arrays[i]`. -/
def slot (arrays : List PTA_uchar) (i : Nat) : PTA_uchar := arrays.getD i none

/-- The bytes seen through `cdata->_arrays[i]`. -/
def slot_bytes (arrays : List PTA_uchar) (h : Heap) (i : Nat) : List uchar :=
  PTA_uchar.bytes h (slot arrays i)

/-- Everything a method of a store can reach besides the store itself. -/
structure Runtime where
  heap : Heap
  cache_mgr : qpGeomVertexCacheManager
  nassert_failed : List Nat

/-- Record a failed assertion by its source line. -/
def Runtime.nassert (rt : Runtime) (line : Nat) : Runtime :=
  { rt with nassert_failed := rt.nassert_failed ++ [line] }

namespace qpGeomVertexData

/-- The constructor (lines 42-52): one null array per array of the format. -/
def new (format : qpGeomVertexFormat) (rt : Runtime) : qpGeomVertexData × Runtime :=
  if ¬ format.is_registered then
    ({ _format := format, _cycler := { _arrays := [], _converted_cache := [] } }, rt.nassert 46)
  else
    ({ _format := format,
       _cycler := { _arrays := List.replicate format.get_num_arrays none, _converted_cache := [] } }, rt)

/-- The bytes of array `i` of a store. -/
def array_bytes (self : qpGeomVertexData) (h : Heap) (i : Nat) : List uchar :=
  slot_bytes self._cycler._arrays h i

/-- Lines 114-126. -/
def get_num_vertices (self : qpGeomVertexData) (rt : Runtime) : Nat × Runtime :=
  if self._format.get_num_arrays ≠ self._cycler._arrays.length then (0, rt.nassert 117)
  else if self._format.get_num_arrays = 0 then (0, rt)
  else
    let stride := (self._format.get_array 0).get_stride
    (PTA_uchar.size rt.heap (slot self._cycler._arrays 0) / stride, rt)

/-- Lines 408-422: tell the cache manager to forget every cached conversion,
then empty the cache. -/
def clear_cache (this : Nat) (self : qpGeomVertexData) (rt : Runtime) : qpGeomVertexData × Runtime :=
  let mgr := self._cycler._converted_cache.foldl
    (fun m ci => m.remove_data this ci.1) rt.cache_mgr
  ({ self with _cycler := { self._cycler with _converted_cache := [] } },
   { rt with cache_mgr := mgr })

/-- The body of the loop of `set_num_vertices` (lines 143-169) for index `i`;
the state is the arrays, the heap and `any_changed`. -/
def set_num_vertices_body (format : qpGeomVertexFormat) (n : Nat) (i : Nat)
    (st : List PTA_uchar × Heap × Bool) : List PTA_uchar × Heap × Bool :=
  let arrays := st.1
  let heap := st.2.1
  let stride := (format.get_array i).get_stride
  let p := slot arrays i
  let delta : Int := (n : Int) - ((PTA_uchar.size heap p / stride : Nat) : Int)
  if delta ≠ 0 then
    if PTA_uchar.get_ref_count heap p > 1 then
      let zeros : List uchar := List.replicate (n * stride) 0
      let copied := memcpy zeros (PTA_uchar.bytes heap p) (min (n * stride) (PTA_uchar.size heap p))
      let r := heap.alloc copied
      (arrays.set i (some r.1), r.2.unref p, true)
    else if delta > 0 then
      let r := PTA_uchar.insert_end heap p (delta.toNat * stride)
      (arrays.set i r.1, r.2, true)
    else
      (arrays, PTA_uchar.erase_from heap p (n * stride), true)
  else st

/-- The loop of `set_num_vertices` (line 142) run for `i = 0, ..., count - 1`. -/
def set_num_vertices_loop (format : qpGeomVertexFormat) (n : Nat) (count : Nat)
    (st : List PTA_uchar × Heap × Bool) : List PTA_uchar × Heap × Bool :=
  (List.range count).foldl (fun st i => set_num_vertices_body format n i st) st

/-- Lines 135-175. -/
def set_num_vertices (this : Nat) (self : qpGeomVertexData) (n : Nat) (rt : Runtime) :
    qpGeomVertexData × Runtime :=
  if self._format.get_num_arrays ≠ self._cycler._arrays.length then (self, rt.nassert 138)
  else
    let st := set_num_vertices_loop self._format n self._cycler._arrays.length
      (self._cycler._arrays, rt.heap, false)
    let self1 := { self with _cycler := { self._cycler with _arrays := st.1 } }
    let rt1 := { rt with heap := st.2.1 }
    if st.2.2 then clear_cache this self1 rt1 else (self1, rt1)

/-- Lines 184-195.  `PointerToArray::clear()` (pointerToArray.h is not among
the sources) re-seats the handle to null, which releases its reference; the
buffer itself is not touched. -/
def clear_vertices (self : qpGeomVertexData) (rt : Runtime) : qpGeomVertexData × Runtime :=
  if self._format.get_num_arrays ≠ self._cycler._arrays.length then (self, rt.nassert 187)
  else
    ({ self with _cycler := { self._cycler with _arrays := self._cycler._arrays.map fun _ => none } },
     { rt with heap := self._cycler._arrays.foldl Heap.unref rt.heap })

/-- Lines 206-223.  The handle returned holds a reference of its own. -/
def modify_array_data (this : Nat) (self : qpGeomVertexData) (array : Int) (rt : Runtime) :
    PTA_uchar × qpGeomVertexData × Runtime :=
  if ¬ (array ≥ 0 ∧ array < self._cycler._arrays.length) then (none, self, rt.nassert 213)
  else
    let p := slot self._cycler._arrays array.toNat
    let st : List PTA_uchar × Heap :=
      if PTA_uchar.get_ref_count rt.heap p > 1 then
        let r := rt.heap.alloc (PTA_uchar.bytes rt.heap p)
        (self._cycler._arrays.set array.toNat (some r.1), r.2.unref p)
      else (self._cycler._arrays, rt.heap)
    let r := clear_cache this { self with _cycler := { self._cycler with _arrays := st.1 } }
      { rt with heap := st.2 }
    let q := slot st.1 array.toNat
    (q, r.1, { r.2 with heap := r.2.heap.ref q })

/-- Lines 233-238. -/
def set_array_data (self : qpGeomVertexData) (array : Int) (array_data : PTA_uchar)
    (rt : Runtime) : qpGeomVertexData × Runtime :=
  if ¬ (array ≥ 0 ∧ array < self._cycler._arrays.length) then (self, rt.nassert 236)
  else
    let old := slot self._cycler._arrays array.toNat
    ({ self with _cycler :=
        { self._cycler with _arrays := self._cycler._arrays.set array.toNat array_data } },
     { rt with heap := (rt.heap.ref array_data).unref old })

/-- Lines 246-258. -/
def get_num_bytes (self : qpGeomVertexData) (rt : Runtime) : Nat :=
  self._cycler._arrays.foldl (fun num_bytes ai => num_bytes + PTA_uchar.size rt.heap ai) 0

end qpGeomVertexData

/-- What `set_data` needs from the machine: the float arithmetic of the typed
accessors and the object representation of a `float` and of a `PN_uint32`.
`F` is the type of `float` values. -/
structure Machine (F : Type) where
  /-- The value of `(int)(x * 255.0f)`. -/
  scale_int : F → Int
  /-- The value of `(unsigned int)(x * 255.0f)`. -/
  scale_uint : F → Nat
  /-- The bytes of a `float` in memory. -/
  float_raw : F → Fin 4 → uchar
  /-- The bytes of a `PN_uint32` in memory. -/
  word_raw : Nat → Fin 4 → uchar
  /-- The value of `(float)value / 255.0f`. -/
  unscale : Nat → F
  /-- The `float` read from four bytes of memory. -/
  float_of_raw : (Fin 4 → uchar) → F
  /-- The `PN_uint32` read from four bytes of memory. -/
  word_of_raw : (Fin 4 → uchar) → Nat

/-- Conversion of an `int` to `unsigned char`. -/
def to_uchar (value : Int) : uchar := Fin.ofNat (value % 256).toNat

/-- Storing `data` byte by byte into `v` from index `offset` on. -/
def store_at (v : List uchar) (offset : Nat) : List uchar → List uchar
  | [] => v
  | b :: bs => store_at (v.set offset b) (offset + 1) bs

/-- Storing bytes through a handle at `offset`. -/
def PTA_uchar.store (h : Heap) (p : PTA_uchar) (offset : Nat) (data : List uchar) : Heap :=
  PTA_uchar.write h p (store_at (PTA_uchar.bytes h p) offset data)

namespace qpGeomVertexData

/-- Lines 643-650. -/
def pack_argb {F : Type} (m : Machine F) (data : Nat → F) : Nat :=
  let r := m.scale_uint (data 0) &&& 0xff
  let g := m.scale_uint (data 1) &&& 0xff
  let b := m.scale_uint (data 2) &&& 0xff
  let a := m.scale_uint (data 3) &&& 0xff
  (a <<< 24) ||| (r <<< 16) ||| (g <<< 8) ||| b

/-- The bytes the switch of `set_data` (lines 455-478) stores at `element`, or
the line of the `num_values` assertion that fails. -/
def set_data_bytes {F : Type} (m : Machine F) (data_type : qpGeomVertexDataType)
    (data : Nat → F) (num_values : Int) : Except Nat (List uchar) :=
  match data_type.get_numeric_type with
  | .NT_uint8 =>
    if ¬ (num_values ≤ data_type.get_num_values) then .error 458
    else .ok ((List.range num_values.toNat).map fun i => to_uchar (m.scale_int (data i)))
  | .NT_packed_argb =>
    if ¬ (num_values = 4) then .error 469
    else .ok (List.ofFn (m.word_raw (pack_argb m data)))
  | .NT_float =>
    if ¬ (num_values = data_type.get_num_values) then .error 475
    else .ok ((List.range data_type.get_total_bytes).map fun k =>
      m.float_raw (data (k / 4)) (Fin.ofNat k))

/-- Lines 658-664: the four floats written to `data`, in the order R, G, B, A. -/
def unpack_argb {F : Type} (m : Machine F) (packed_argb : Nat) : List F :=
  [m.unscale ((packed_argb >>> 16) &&& 0xff),
   m.unscale ((packed_argb >>> 8) &&& 0xff),
   m.unscale (packed_argb &&& 0xff),
   m.unscale ((packed_argb >>> 24) &&& 0xff)]

/-- The floats the switch of `get_data` (lines 500-523) writes to `data[0]`,
`data[1]`, ... when it reads at `element` of the bytes `array_data`, or the
line of the `num_values` assertion that fails. -/
def get_data_values {F : Type} (m : Machine F) (data_type : qpGeomVertexDataType)
    (array_data : List uchar) (element : Nat) (num_values : Int) : Except Nat (List F) :=
  match data_type.get_numeric_type with
  | .NT_uint8 =>
    if ¬ (num_values ≤ data_type.get_num_values) then .error 503
    else .ok ((List.range num_values.toNat).map fun i =>
      m.unscale (array_data.getD (element + i) 0).val)
  | .NT_packed_argb =>
    if ¬ (num_values = 4) then .error 514
    else .ok (unpack_argb m (m.word_of_raw fun k => array_data.getD (element + k.val) 0))
  | .NT_float =>
    if ¬ (num_values ≤ data_type.get_num_values) then .error 520
    else .ok ((List.range num_values.toNat).map fun i =>
      m.float_of_raw fun k => array_data.getD (element + 4 * i + k.val) 0)

/-- Lines 492-524: the floats written to `data`, none when an assertion fails. -/
def get_data {F : Type} (m : Machine F) (self : qpGeomVertexData) (array : Nat)
    (data_type : qpGeomVertexDataType) (vertex : Nat) (num_values : Int) (rt : Runtime) :
    List F × Runtime :=
  let array_data := self.array_bytes rt.heap array
  let stride := (self._format.get_array array).get_stride
  let element := vertex * stride + data_type.get_start
  if ¬ (element + data_type.get_total_bytes ≤ array_data.length) then ([], rt.nassert 498)
  else
    match get_data_values m data_type array_data element num_values with
    | .error line => ([], rt.nassert line)
    | .ok values => (values, rt)

/-- Lines 443-450 of `set_data`: vertices are added when `vertex` lies beyond
the array. -/
def set_data_grown (this : Nat) (self : qpGeomVertexData) (array : Nat)
    (data_type : qpGeomVertexDataType) (vertex : Nat) (rt : Runtime) :
    qpGeomVertexData × Runtime :=
  let stride := (self._format.get_array array).get_stride
  let element := vertex * stride + data_type.get_start
  let array_size := PTA_uchar.size rt.heap (slot self._cycler._arrays array)
  if element + data_type.get_total_bytes > array_size
    then set_num_vertices this self (vertex + 1) rt else (self, rt)

/-- Lines 437-479.  The handle `array_data` is released on every way out. -/
def set_data {F : Type} (m : Machine F) (this : Nat) (self : qpGeomVertexData) (array : Nat)
    (data_type : qpGeomVertexDataType) (vertex : Nat) (data : Nat → F) (num_values : Int)
    (rt : Runtime) : qpGeomVertexData × Runtime :=
  let stride := (self._format.get_array array).get_stride
  let element := vertex * stride + data_type.get_start
  let r1 := set_data_grown this self array data_type vertex rt
  let r2 := modify_array_data this r1.1 array r1.2
  let array_data := r2.1
  let self2 := r2.2.1
  let rt2 := r2.2.2
  if ¬ (element + data_type.get_total_bytes ≤ PTA_uchar.size rt2.heap array_data) then
    (self2, { rt2.nassert 453 with heap := rt2.heap.unref array_data })
  else
    match set_data_bytes m data_type data num_values with
    | .error line => (self2, { rt2.nassert line with heap := rt2.heap.unref array_data })
    | .ok stored =>
      (self2, { rt2 with heap := (PTA_uchar.store rt2.heap array_data element stored).unref array_data })

end qpGeomVertexData

/-! ### Predicates used in the statements -/

/-- A handle is sound in a heap when it is null, or points to an allocated
buffer whose reference count covers the handles to it among `arrays`. -/
def handle_ok (arrays : List PTA_uchar) (h : Heap) : PTA_uchar → Prop
  | none => True
  | some a => a < h.next ∧ arrays.count (some a) ≤ (h.cell a).ref_count

instance (arrays : List PTA_uchar) (h : Heap) : DecidablePred (handle_ok arrays h) :=
  fun p => match p with
  | none => isTrue trivial
  | some a =>
    inferInstanceAs (Decidable (a < h.next ∧ arrays.count (some a) ≤ (h.cell a).ref_count))

/-- The reference-counting discipline, as far as one store is concerned: every
handle of the store points to an allocated buffer, and a buffer is counted at
least once for every handle of the store that points to it. -/
def RefsOk (arrays : List PTA_uchar) (h : Heap) : Prop :=
  ∀ p ∈ arrays, handle_ok arrays h p

instance (arrays : List PTA_uchar) (h : Heap) : Decidable (RefsOk arrays h) :=
  inferInstanceAs (Decidable (∀ p ∈ arrays, handle_ok arrays h p))

/-- The buffer at `a` is allocated and has an owner besides the handles in `arrays`. -/
def HeldElsewhere (arrays : List PTA_uchar) (h : Heap) (a : Nat) : Prop :=
  a < h.next ∧ arrays.count (some a) < (h.cell a).ref_count

instance (arrays : List PTA_uchar) (h : Heap) (a : Nat) : Decidable (HeldElsewhere arrays h a) :=
  inferInstanceAs (Decidable (a < h.next ∧ arrays.count (some a) < (h.cell a).ref_count))

/-- What one iteration of the loop of `set_num_vertices` may have made of the
bytes `old` of an array: nothing when it already holds `n` vertices, otherwise
the copy of lines 151-156, the insertion of line 162 or the erasure of lines
165-166. -/
def ResizeOutcome (n stride : Nat) (old new : List uchar) : Prop :=
  if old.length / stride = n then new = old
  else
    new = memcpy (List.replicate (n * stride) 0) old (min (n * stride) old.length) ∨
    (old.length / stride < n ∧ new = old ++ List.replicate ((n - old.length / stride) * stride) 0) ∨
    (n < old.length / stride ∧ new = old.take (n * stride))

/-- How one iteration of a loop over the arrays acts on handle `i`: it leaves
everything alone, or re-seats the handle to a newly allocated buffer holding
`b` (releasing the old buffer), or changes in place, to `b`, a buffer that no
other handle shares. -/
def Effect (i : Nat) (b : List uchar) (arrays : List PTA_uchar) (h : Heap)
    (arrays1 : List PTA_uchar) (h1 : Heap) : Prop :=
  (arrays1 = arrays ∧ h1 = h ∧ b = slot_bytes arrays h i) ∨
  (arrays1 = arrays.set i (some h.next) ∧ h1 = (h.alloc b).2.unref (slot arrays i)) ∨
  (∃ a, slot arrays i = some a ∧ (h.cell a).ref_count ≤ 1 ∧ arrays1 = arrays ∧ h1 = h.set_v a b)

/-- The state of the loop of `set_num_vertices` after `k` iterations. -/
structure LoopInv (format : qpGeomVertexFormat) (n : Nat) (arrays : List PTA_uchar) (heap : Heap)
    (k : Nat) (st : List PTA_uchar × Heap × Bool) : Prop where
  length_eq : st.1.length = arrays.length
  refsOk : RefsOk st.1 st.2.1
  next_le : heap.next ≤ st.2.1.next
  todo : ∀ j, k ≤ j → slot st.1 j = slot arrays j ∧ slot_bytes st.1 st.2.1 j = slot_bytes arrays heap j
  done : ∀ j, j < k → ResizeOutcome n (format.get_array j).get_stride (slot_bytes arrays heap j)
    (slot_bytes st.1 st.2.1 j)
  changed : st.2.2 = true ↔
    ∃ j, j < k ∧ (slot_bytes arrays heap j).length / (format.get_array j).get_stride ≠ n
  held : ∀ a, HeldElsewhere arrays heap a →
    (st.2.1.cell a).v = (heap.cell a).v ∧ HeldElsewhere st.1 st.2.1 a ∧
    ∀ j, j < k → slot arrays j = some a →
      (slot_bytes arrays heap j).length / (format.get_array j).get_stride ≠ n →
      ∃ q, slot st.1 j = some q ∧ heap.next ≤ q

namespace qpGeomVertexData

/-- The stride of array `i` of the store's format. -/
def stride (self : qpGeomVertexData) (i : Nat) : Nat := (self._format.get_array i).get_stride

/-- The invariant of the store: all arrays hold the same number of vertices. -/
def SameCount (self : qpGeomVertexData) (h : Heap) : Prop :=
  ∃ c, ∀ i, i < self._cycler._arrays.length → (self.array_bytes h i).length = c * self.stride i

/-- A store as the constructor and the methods leave it: one handle per array
of the format, every stride positive, and reference counts that cover the
handles of the store. -/
def WF (self : qpGeomVertexData) (h : Heap) : Prop :=
  self._format.get_num_arrays = self._cycler._arrays.length ∧
  (∀ i, i < self._cycler._arrays.length → 0 < self.stride i) ∧
  RefsOk self._cycler._arrays h

instance (self : qpGeomVertexData) (h : Heap) : Decidable (self.WF h) :=
  inferInstanceAs (Decidable (self._format.get_num_arrays = self._cycler._arrays.length ∧
    (∀ i, i < self._cycler._arrays.length → 0 < self.stride i) ∧
    RefsOk self._cycler._arrays h))

end qpGeomVertexData

/-! ### Concrete stores on which the theorems are exercised -/

/-- A registered format without arrays. -/
def format_none : qpGeomVertexFormat := { arrays := [], is_registered := true }

/-- A registered format with one array of stride 2. -/
def format_one : qpGeomVertexFormat :=
  { arrays := [{ get_stride := 2, data_types := [] }], is_registered := true }

/-- A registered format with two arrays, of stride 2 and of stride 1. -/
def format_two : qpGeomVertexFormat :=
  { arrays := [{ get_stride := 2, data_types := [] }, { get_stride := 1, data_types := [] }],
    is_registered := true }

/-- A heap without buffers. -/
def heap_empty : Heap := { cell := fun _ => { v := [], ref_count := 0 }, next := 0 }

/-- A runtime in which nothing has happened yet. -/
def runtime_empty : Runtime :=
  { heap := heap_empty, cache_mgr := { entries := [], max_size := 0 }, nassert_failed := [] }

/-- A heap with buffer 0 holding the bytes 1, 2 and counted twice, and buffer
1 holding the byte 3 and counted once. -/
def heap_shared : Heap :=
  { cell := fun a =>
      if a = 0 then { v := [1, 2], ref_count := 2 }
      else if a = 1 then { v := [3], ref_count := 1 }
      else { v := [], ref_count := 0 },
    next := 2 }

/-- A runtime over `heap_shared` whose cache manager knows one conversion of
the store at address 7. -/
def runtime_shared : Runtime :=
  { heap := heap_shared,
    cache_mgr := { entries := [{ source := 7, modifier := format_none, result_size := 0 }],
                   max_size := 100 },
    nassert_failed := [] }

/-- The store at address 7: one vertex in two arrays, the first of them the
shared buffer 0, and one cached conversion. -/
def store_two : qpGeomVertexData :=
  { _format := format_two,
    _cycler := { _arrays := [some 0, some 1], _converted_cache := [(format_none, 9)] } }

/-- Another store, whose only array is the shared buffer 0. -/
def store_other : qpGeomVertexData :=
  { _format := format_one, _cycler := { _arrays := [some 0], _converted_cache := [] } }

/-- The store the constructor makes for `format_none`. -/
def store_none : qpGeomVertexData := (qpGeomVertexData.new format_none runtime_empty).1

/-- A machine whose `float` values are natural numbers, to run `set_data` on
concrete inputs. -/
def machine_nat : Machine Nat :=
  { scale_int := fun x => 255 * (x : Int),
    scale_uint := fun x => 255 * x,
    float_raw := fun x k => Fin.ofNat (x / 256 ^ k.val),
    word_raw := fun w k => Fin.ofNat (w / 256 ^ k.val),
    unscale := fun c => c / 255,
    float_of_raw := fun raw => (raw 0).val + 256 * ((raw 1).val + 256 * ((raw 2).val + 256 * (raw 3).val)),
    word_of_raw := fun raw => (raw 0).val + 256 * ((raw 1).val + 256 * ((raw 2).val + 256 * (raw 3).val)) }

/-- Conversion of a rational to an integer as a C cast does it, towards zero. -/
def trunc (q : ℚ) : Int := if 0 ≤ q then ⌊q⌋ else ⌈q⌉

/-- The machine of exact arithmetic: `float` values are rationals and products
and quotients are not rounded.  Words and (the integer part of) floats are laid
out in memory with the least significant byte first. -/
def machine_exact : Machine ℚ :=
  { scale_int := fun x => trunc (x * 255),
    scale_uint := fun x => (trunc (x * 255)).toNat % 2 ^ 32,
    float_raw := fun x k => Fin.ofNat ((trunc x).toNat / 256 ^ k.val),
    word_raw := fun w k => Fin.ofNat (w / 256 ^ k.val),
    unscale := fun c => (c : ℚ) / 255,
    float_of_raw := fun raw =>
      (((raw 0).val + 256 * ((raw 1).val + 256 * ((raw 2).val + 256 * (raw 3).val)) : Nat) : ℚ),
    word_of_raw := fun raw =>
      (raw 0).val + 256 * ((raw 1).val + 256 * ((raw 2).val + 256 * (raw 3).val)) }

/-- A machine of rational `float` values computes exactly when its products by
255, its casts to integers and its quotients by 255 are those of the rational
numbers (no rounding); `scale_uint` is only constrained where the cast to
`unsigned int` is defined. -/
def Machine.Exact (m : Machine ℚ) : Prop :=
  (∀ x, m.scale_int x = trunc (x * 255)) ∧
  (∀ x, 0 ≤ x * 255 → x * 255 < 2 ^ 32 → m.scale_uint x = (trunc (x * 255)).toNat) ∧
  (∀ c, m.unscale c = (c : ℚ) / 255)

/-- The four floats `r, g, b, a` as the array `data` handed to `pack_argb`. -/
def channels (r g b a : ℚ) : Nat → ℚ := fun i => [r, g, b, a].getD i 0

/-- A colour of four normalized 8-bit components at the start of a vertex. -/
def color_type : qpGeomVertexDataType :=
  { get_name := 0, get_num_components := 4, get_num_values := 4,
    get_numeric_type := .NT_uint8, get_start := 0, get_total_bytes := 4 }

/-- A registered format whose only array holds `color_type`. -/
def format_color : qpGeomVertexFormat :=
  { arrays := [{ get_stride := 4, data_types := [color_type] }], is_registered := true }

/-- The store the constructor makes for `format_color`. -/
def store_color : qpGeomVertexData := (qpGeomVertexData.new format_color runtime_empty).1

/-! ### Format conversion (`convert_to`, lines 268-380) -/

namespace qpGeomVertexArrayFormat

def get_num_data_types (a : qpGeomVertexArrayFormat) : Nat := a.data_types.length

def get_data_type (a : qpGeomVertexArrayFormat) (i : Nat) : qpGeomVertexDataType :=
  a.data_types.getD i
    { get_name := 0, get_num_components := 0, get_num_values := 0,
      get_numeric_type := .NT_uint8, get_start := 0, get_total_bytes := 0 }

/-- Modelled from the spec: `get_data_type(name)` of an array format
(qpGeomVertexArrayFormat is not among the sources), the data type of that
name, if the array has one. -/
def get_data_type_named (a : qpGeomVertexArrayFormat) (name : Nat) :
    Option qpGeomVertexDataType :=
  a.data_types.find? fun dt => dt.get_name = name

/-- Modelled from the spec: `is_data_subset_of` (qpGeomVertexArrayFormat is not
among the sources).  The layout of `a` is a byte-compatible subset of the
layout of `other`: the same stride, and every data type of `a` is a data type
of `other`, with the same name, encoding, offset and size. -/
def is_data_subset_of (a other : qpGeomVertexArrayFormat) : Bool :=
  decide (a.get_stride = other.get_stride) && a.data_types.all fun dt => decide (dt ∈ other.data_types)

end qpGeomVertexArrayFormat

/-- Modelled from the spec: `get_array_with(name)` of a format
(qpGeomVertexFormat is not among the sources), the index of the first array
that has a data type of that name, or -1. -/
def qpGeomVertexFormat.get_array_with (f : qpGeomVertexFormat) (name : Nat) : Int :=
  match f.arrays.findIdx? fun a => (a.get_data_type_named name).isSome with
  | some i => (i : Int)
  | none => -1

/-- Modelled from the spec: the conversion of one record by the Typed Accessor
Layer, from the bytes of a value of the source data type (second argument) to
the bytes of the same value as the target data type (first argument).  It is a
parameter of the conversion, because qpGeomVertexDataType::copy_records is not
among the sources. -/
abbrev Converter := qpGeomVertexDataType → qpGeomVertexDataType → List uchar → List uchar

/-- The record of `data_type` for vertex `v` in the bytes of an array of the
given stride. -/
def record_at (bytes : List uchar) (stride : Nat) (data_type : qpGeomVertexDataType) (v : Nat) :
    List uchar :=
  (bytes.drop (v * stride + data_type.get_start)).take data_type.get_total_bytes

/-- Modelled from the spec: `to_type->copy_records(to, to_stride, src, src_stride,
src_type, num_records)` copies the values vertex by vertex from the source
encoding to the target encoding.  `dst` and `src` are the bytes of the two
arrays; the pointers handed over are `dst + to_type.get_start` and
`src + src_type.get_start`.  The result is the new contents of `dst`. -/
def copy_records (cv : Converter) (to_type : qpGeomVertexDataType) (dst : List uchar)
    (to_stride : Nat) (src : List uchar) (src_stride : Nat) (src_type : qpGeomVertexDataType)
    (num_records : Nat) : List uchar :=
  (List.range num_records).foldl
    (fun dst v => store_at dst (v * to_stride + to_type.get_start)
      (cv to_type src_type (record_at src src_stride src_type v))) dst

/-- Looking a format up in a conversion cache (`_converted_cache.find`). -/
def cache_find (format : qpGeomVertexFormat) : List (qpGeomVertexFormat × Nat) → Option Nat
  | [] => none
  | ci :: rest => if ci.1 = format then some ci.2 else cache_find format rest

/-- The assignment `_converted_cache[format] = new_data`. -/
def cache_insert (cache : List (qpGeomVertexFormat × Nat)) (format : qpGeomVertexFormat)
    (new_data : Nat) : List (qpGeomVertexFormat × Nat) :=
  (cache.filter fun ci => ¬ (ci.1 = format)) ++ [(format, new_data)]

/-- Lines 673-685: the entry for `format`, if there is one, is erased from the
cache of the store. -/
def qpGeomVertexData.remove_cache_entry (self : qpGeomVertexData) (format : qpGeomVertexFormat) :
    qpGeomVertexData :=
  { self with _cycler :=
      { self._cycler with
        _converted_cache := self._cycler._converted_cache.filter fun ci => ¬ (ci.1 = format) } }

/-- The stores by address. -/
abbrev Objects := Nat → qpGeomVertexData

/-- The whole state: the runtime, the stores that exist, and the address the
next `new qpGeomVertexData` gets. -/
structure World where
  rt : Runtime
  objects : Objects
  next_object : Nat

namespace qpGeomVertexCacheManager

/-- Modelled from the spec: the running total of the bytes of all entries. -/
def get_total_size (entries : List CacheEntry) : Nat :=
  (entries.map fun e => e.result_size).sum

/-- Modelled from the spec: while the total is over the budget, the least
recently used entry is evicted and its owner is called back to drop the cached
store.  `candidates` are the entries that may be evicted, least recently used
first; the entry just recorded, of size `kept_size`, is not among them. -/
def evict (max_size kept_size : Nat) :
    List CacheEntry → Objects → List CacheEntry × Objects
  | [], objects => ([], objects)
  | e :: rest, objects =>
    if get_total_size (e :: rest) + kept_size > max_size then
      evict max_size kept_size rest
        (Function.update objects e.source ((objects e.source).remove_cache_entry e.modifier))
    else (e :: rest, objects)

end qpGeomVertexCacheManager

/-- Modelled from the spec: `record(owner_id, format, byte_size)` adds the entry
or updates its size, marks it most recently used, and evicts least recently
used entries while the total exceeds the budget, never the entry just
recorded. -/
def World.record_data (w : World) (source : Nat) (modifier : qpGeomVertexFormat)
    (result_size : Nat) : World :=
  let others := w.rt.cache_mgr.entries.filter fun e => ¬ (e.source = source ∧ e.modifier = modifier)
  let r := qpGeomVertexCacheManager.evict w.rt.cache_mgr.max_size result_size others w.objects
  { w with
    rt := { w.rt with cache_mgr :=
      { w.rt.cache_mgr with
        entries := r.1 ++ [{ source := source, modifier := modifier, result_size := result_size }] } },
    objects := r.2 }

namespace qpGeomVertexData

/-- The body of the inner loop of lines 321-333 for one `new_array`; the state
is the new store, the runtime, `done_arrays` and `array_done`. -/
def convert_alias_body (self : qpGeomVertexData) (new_format : qpGeomVertexFormat) (array : Nat)
    (new_array : Nat) (st : qpGeomVertexData × Runtime × List Nat × Bool) :
    qpGeomVertexData × Runtime × List Nat × Bool :=
  if st.2.2.2 then st
  else if (new_format.get_array new_array).is_data_subset_of (self._format.get_array array) then
    let r := set_array_data st.1 new_array (slot self._cycler._arrays array) st.2.1
    (r.1, r.2, new_array :: st.2.2.1, true)
  else st

/-- The body of the outer loop of lines 314-334 for one `array` of this store;
the state is the new store, the runtime and `done_arrays`. -/
def convert_alias_step (self : qpGeomVertexData) (new_format : qpGeomVertexFormat)
    (st : qpGeomVertexData × Runtime × List Nat) (array : Nat) :
    qpGeomVertexData × Runtime × List Nat :=
  let r := (List.range new_format.get_num_arrays).foldl
    (fun st new_array => convert_alias_body self new_format array new_array st)
    (st.1, st.2.1, st.2.2, false)
  (r.1, r.2.1, r.2.2.1)

/-- Lines 314-334: arrays of this store that can be appropriated for the new
format are handed to the new store. -/
def convert_alias (self : qpGeomVertexData) (new_format : qpGeomVertexFormat)
    (new_data : qpGeomVertexData) (rt : Runtime) : qpGeomVertexData × Runtime × List Nat :=
  (List.range self._format.get_num_arrays).foldl (convert_alias_step self new_format)
    (new_data, rt, [])

/-- The body of the inner loop of lines 345-363 for the data type `di` of the
array `array`, whose handle is `array_data`. -/
def convert_copy_body (cv : Converter) (self : qpGeomVertexData)
    (new_format : qpGeomVertexFormat) (new_addr : Nat) (done_arrays : List Nat)
    (num_vertices : Nat) (array : Nat) (array_data : PTA_uchar) (di : Nat)
    (st : qpGeomVertexData × Runtime) : qpGeomVertexData × Runtime :=
  let array_format := self._format.get_array array
  let data_type := array_format.get_data_type di
  let new_array := new_format.get_array_with data_type.get_name
  if new_array ≥ 0 ∧ new_array.toNat ∉ done_arrays then
    let r := modify_array_data new_addr st.1 new_array st.2
    let new_array_data := r.1
    let new_array_format := new_format.get_array new_array.toNat
    match new_array_format.get_data_type_named data_type.get_name with
    | none => (r.2.1, { r.2.2 with heap := r.2.2.heap.unref new_array_data })
    | some new_data_type =>
      let copied := copy_records cv new_data_type (PTA_uchar.bytes r.2.2.heap new_array_data)
        new_array_format.get_stride (PTA_uchar.bytes r.2.2.heap array_data)
        array_format.get_stride data_type num_vertices
      (r.2.1, { r.2.2 with
        heap := (PTA_uchar.write r.2.2.heap new_array_data copied).unref new_array_data })
  else st

/-- The body of the outer loop of lines 340-364 for one `array` of this store.
The handle `array_data` holds a reference to the array during the iteration. -/
def convert_copy_step (cv : Converter) (self : qpGeomVertexData)
    (new_format : qpGeomVertexFormat) (new_addr : Nat) (done_arrays : List Nat)
    (num_vertices : Nat) (st : qpGeomVertexData × Runtime) (array : Nat) :
    qpGeomVertexData × Runtime :=
  let array_data := slot self._cycler._arrays array
  let r := (List.range (self._format.get_array array).get_num_data_types).foldl
    (fun st di => convert_copy_body cv self new_format new_addr done_arrays num_vertices
      array array_data di st)
    (st.1, { st.2 with heap := st.2.heap.ref array_data })
  (r.1, { r.2 with heap := r.2.heap.unref array_data })

/-- Lines 340-364: the data that is left over is copied. -/
def convert_copy (cv : Converter) (self : qpGeomVertexData) (new_format : qpGeomVertexFormat)
    (new_addr : Nat) (done_arrays : List Nat) (num_vertices : Nat)
    (new_data : qpGeomVertexData) (rt : Runtime) : qpGeomVertexData × Runtime :=
  (List.range self._format.get_num_arrays).foldl
    (convert_copy_step cv self new_format new_addr done_arrays num_vertices) (new_data, rt)

/-- Lines 297-364: the new store built on a cache miss, the runtime after it,
and `done_arrays`.  The new store is at the address `new_addr`. -/
def convert_build (cv : Converter) (self : qpGeomVertexData) (new_format : qpGeomVertexFormat)
    (new_addr : Nat) (rt : Runtime) : qpGeomVertexData × Runtime × List Nat :=
  let nv := get_num_vertices self rt
  let r0 := new new_format nv.2
  let r1 := convert_alias self new_format r0.1 r0.2
  let r2 := set_num_vertices new_addr r1.1 nv.1 r1.2.1
  let r3 := convert_copy cv self new_format new_addr r1.2.2 nv.1 r2.1 r2.2
  (r3.1, r3.2, r1.2.2)

/-- Lines 366-370 after lines 297-364: the world in which the new store exists
and is in the conversion cache of this store, before the cache manager is
told. -/
def convert_cached (cv : Converter) (this : Nat) (new_format : qpGeomVertexFormat) (w : World) :
    World :=
  let self := w.objects this
  let r := convert_build cv self new_format w.next_object w.rt
  let self1 := { self with _cycler := { self._cycler with
    _converted_cache := cache_insert self._cycler._converted_cache new_format w.next_object } }
  { rt := r.2.1,
    objects := Function.update (Function.update w.objects this self1) w.next_object r.1,
    next_object := w.next_object + 1 }

/-- Lines 268-380: the address of the store returned, and the world after the
call. -/
def convert_to (cv : Converter) (this : Nat) (new_format : qpGeomVertexFormat) (w : World) :
    Nat × World :=
  if new_format = (w.objects this)._format then (this, w)
  else
    match cache_find new_format (w.objects this)._cycler._converted_cache with
    | some cached =>
      (cached, w.record_data this new_format (get_num_bytes (w.objects cached) w.rt))
    | none =>
      let w1 := convert_cached cv this new_format w
      (w.next_object,
       w1.record_data this new_format (get_num_bytes (w1.objects w.next_object) w1.rt))

end qpGeomVertexData

/-- The converter that copies the bytes of a record unchanged. -/
def converter_copy : Converter := fun _ _ record => record

/-- A world with `store_two` at address 7, `store_other` at address 3 and the
store without arrays everywhere else; the next store gets address 10. -/
def world_two : World :=
  { rt := runtime_shared,
    objects := fun a => if a = 7 then store_two else if a = 3 then store_other else store_none,
    next_object := 10 }

/-- The world `world_two` with a cache budget of one byte. -/
def world_tight : World :=
  { world_two with
    rt := { runtime_shared with
      cache_mgr := { runtime_shared.cache_mgr with max_size := 1 } } }

/-- A position: one byte at offset 0. -/
def type_pos : qpGeomVertexDataType :=
  { get_name := 1, get_num_components := 1, get_num_values := 1, get_numeric_type := .NT_uint8,
    get_start := 0, get_total_bytes := 1 }

/-- A colour: one byte at offset 1. -/
def type_col : qpGeomVertexDataType :=
  { get_name := 2, get_num_components := 1, get_num_values := 1, get_numeric_type := .NT_uint8,
    get_start := 1, get_total_bytes := 1 }

/-- A normal: one byte at offset 1. -/
def type_nrm : qpGeomVertexDataType :=
  { get_name := 3, get_num_components := 1, get_num_values := 1, get_numeric_type := .NT_uint8,
    get_start := 1, get_total_bytes := 1 }

/-- A registered format with one array of stride 2 that interleaves position
and colour. -/
def format_pc : qpGeomVertexFormat :=
  { arrays := [{ get_stride := 2, data_types := [type_pos, type_col] }], is_registered := true }

/-- A registered format with two arrays of stride 2, the first with the
position and the second with the colour, both at the offsets of `format_pc`. -/
def format_split : qpGeomVertexFormat :=
  { arrays := [{ get_stride := 2, data_types := [type_pos] },
               { get_stride := 2, data_types := [type_col] }],
    is_registered := true }

/-- A registered format with one array of stride 2 that interleaves position
and normal. -/
def format_pn : qpGeomVertexFormat :=
  { arrays := [{ get_stride := 2, data_types := [type_pos, type_nrm] }], is_registered := true }

/-- A store of format `format_pc` with two vertices: positions 1 and 3,
colours 2 and 4. -/
def store_pc : qpGeomVertexData :=
  { _format := format_pc, _cycler := { _arrays := [some 0], _converted_cache := [] } }

/-- A world with `store_pc` at address 7 and the store without arrays
everywhere else; buffer 0 holds the bytes of `store_pc`. -/
def world_pc : World :=
  { rt :=
      { heap :=
          { cell := fun a =>
              if a = 0 then { v := [1, 2, 3, 4], ref_count := 1 }
              else { v := [], ref_count := 0 },
            next := 1 },
        cache_mgr := { entries := [], max_size := 100 },
        nassert_failed := [] },
    objects := fun a => if a = 7 then store_pc else store_none,
    next_object := 10 }

/-- A converter whose records always have the size of the target data type:
the bytes of the source record, cut or padded with zeros. -/
def converter_pad : Converter :=
  fun to_type _ record =>
    (record ++ List.replicate to_type.get_total_bytes 0).take to_type.get_total_bytes

/-- The layout of an array format is sound: every data type lies within the
stride, and two different data types share no byte. -/
def qpGeomVertexArrayFormat.Layout (a : qpGeomVertexArrayFormat) : Prop :=
  (∀ t ∈ a.data_types, t.get_start + t.get_total_bytes ≤ a.get_stride) ∧
  (∀ t ∈ a.data_types, ∀ t' ∈ a.data_types, t ≠ t' →
    t.get_start + t.get_total_bytes ≤ t'.get_start ∨
    t'.get_start + t'.get_total_bytes ≤ t.get_start)

instance (a : qpGeomVertexArrayFormat) : Decidable a.Layout :=
  inferInstanceAs (Decidable (
    (∀ t ∈ a.data_types, t.get_start + t.get_total_bytes ≤ a.get_stride) ∧
    (∀ t ∈ a.data_types, ∀ t' ∈ a.data_types, t ≠ t' →
      t.get_start + t.get_total_bytes ≤ t'.get_start ∨
      t'.get_start + t'.get_total_bytes ≤ t.get_start)))

/-- The name occurs in the format: some array of the format has a data type
of that name. -/
def qpGeomVertexFormat.has_name (f : qpGeomVertexFormat) (name : Nat) : Prop :=
  ∃ i, i < f.get_num_arrays ∧ ∃ s ∈ (f.get_array i).data_types, s.get_name = name

instance (f : qpGeomVertexFormat) (name : Nat) : Decidable (f.has_name name) :=
  inferInstanceAs (Decidable
    (∃ i, i < f.get_num_arrays ∧ ∃ s ∈ (f.get_array i).data_types, s.get_name = name))

/-- No record that the copy loop may write into array `j` of the new format
covers the byte `p`. -/
def Untouched (format new_format : qpGeomVertexFormat) (j p : Nat) : Prop :=
  ∀ t ∈ (new_format.get_array j).data_types, format.has_name t.get_name →
    ∀ v, p < v * (new_format.get_array j).get_stride + t.get_start ∨
      v * (new_format.get_array j).get_stride + t.get_start + t.get_total_bytes ≤ p

/-- A name occurs at most once in the format: two data types of the same name
are the same data type of the same array. -/
def qpGeomVertexFormat.UniqueNames (f : qpGeomVertexFormat) : Prop :=
  ∀ i, i < f.get_num_arrays → ∀ i', i' < f.get_num_arrays →
    ∀ t ∈ (f.get_array i).data_types, ∀ t' ∈ (f.get_array i').data_types,
      t.get_name = t'.get_name → i = i' ∧ t = t'

instance (f : qpGeomVertexFormat) : Decidable f.UniqueNames :=
  inferInstanceAs (Decidable (
    ∀ i, i < f.get_num_arrays → ∀ i', i' < f.get_num_arrays →
      ∀ t ∈ (f.get_array i).data_types, ∀ t' ∈ (f.get_array i').data_types,
        t.get_name = t'.get_name → i = i' ∧ t = t'))

/-- The first array of `new_format` (lowest index) that is a data subset of array
`array` of `format`, which is where the inner loop of lines 321-333 stops. -/
def first_match (new_format format : qpGeomVertexFormat) (array : Nat) : Option Nat :=
  (List.range new_format.get_num_arrays).find? fun new_array =>
    (new_format.get_array new_array).is_data_subset_of (format.get_array array)

/-- The state of the loop of lines 314-334 after `t` arrays of this store: the
new store has the format and one handle per array, the reference counts cover
the handles of both stores, no byte of any buffer has changed, and the arrays
in `done_arrays` are exactly the first matches of the arrays seen so far, each
holding the handle of such an array, while the other handles are null. -/
structure AliasInv (source : qpGeomVertexData) (new_format : qpGeomVertexFormat) (rt0 : Runtime)
    (t : Nat) (st : qpGeomVertexData × Runtime × List Nat) : Prop where
  format_eq : st.1._format = new_format
  length_eq : st.1._cycler._arrays.length = new_format.get_num_arrays
  cache_eq : st.1._cycler._converted_cache = []
  refsOk : RefsOk (source._cycler._arrays ++ st.1._cycler._arrays) st.2.1.heap
  bytes_eq : ∀ a, (st.2.1.heap.cell a).v = (rt0.heap.cell a).v
  next_eq : st.2.1.heap.next = rt0.heap.next
  mgr_eq : st.2.1.cache_mgr = rt0.cache_mgr
  log_eq : st.2.1.nassert_failed = rt0.nassert_failed
  done_iff : ∀ j, j ∈ st.2.2 ↔ ∃ i, i < t ∧ first_match new_format source._format i = some j
  aliased : ∀ j, j ∈ st.2.2 → ∃ i, i < t ∧ first_match new_format source._format i = some j ∧
    slot st.1._cycler._arrays j = slot source._cycler._arrays i
  fresh : ∀ j, j ∉ st.2.2 → slot st.1._cycler._arrays j = none

/-- The state of the loop of `set_num_vertices` after `k` iterations, as seen
from handles `pre` outside the store that live in the same heap: the reference
counts cover both sets of handles, the bytes seen through `pre` are unchanged,
an array that already held `n` vertices keeps its handle, and every handle is
the one it was or points to a buffer allocated by the loop. -/
structure LoopInv2 (pre : List PTA_uchar) (format : qpGeomVertexFormat) (n : Nat)
    (arrays : List PTA_uchar) (heap : Heap) (k : Nat) (st : List PTA_uchar × Heap × Bool) :
    Prop where
  refsOk : RefsOk (pre ++ st.1) st.2.1
  pre_bytes : ∀ j, slot_bytes pre st.2.1 j = slot_bytes pre heap j
  kept : ∀ j, j < k →
    (slot_bytes arrays heap j).length / (format.get_array j).get_stride = n →
    slot st.1 j = slot arrays j
  moved : ∀ j, slot st.1 j = slot arrays j ∨ ∃ q, slot st.1 j = some q ∧ heap.next ≤ q

/-- What the body of the inner loop of lines 345-363 does to the bytes of the
arrays of the new store: `contents new_array` are the bytes of array
`new_array` of the new store, `src array` the bytes of array `array` of this
store. -/
def copy_plan_body (cv : Converter) (format new_format : qpGeomVertexFormat)
    (done_arrays : List Nat) (num_vertices : Nat) (src : Nat → List uchar) (array di : Nat)
    (contents : Nat → List uchar) : Nat → List uchar :=
  let array_format := format.get_array array
  let data_type := array_format.get_data_type di
  let new_array := new_format.get_array_with data_type.get_name
  if new_array ≥ 0 ∧ new_array.toNat ∉ done_arrays then
    match (new_format.get_array new_array.toNat).get_data_type_named data_type.get_name with
    | none => contents
    | some new_data_type =>
      Function.update contents new_array.toNat
        (copy_records cv new_data_type (contents new_array.toNat)
          (new_format.get_array new_array.toNat).get_stride (src array) array_format.get_stride
          data_type num_vertices)
  else contents

/-- The bytes of the arrays of the new store after the data types `0, ..., count - 1`
of one array of this store have been seen. -/
def copy_plan_inner (cv : Converter) (format new_format : qpGeomVertexFormat)
    (done_arrays : List Nat) (num_vertices : Nat) (src : Nat → List uchar) (array count : Nat)
    (contents : Nat → List uchar) : Nat → List uchar :=
  (List.range count).foldl
    (fun contents di =>
      copy_plan_body cv format new_format done_arrays num_vertices src array di contents)
    contents

/-- The bytes of the arrays of the new store after the arrays `0, ..., count - 1`
of this store have been copied from. -/
def copy_plan (cv : Converter) (format new_format : qpGeomVertexFormat)
    (done_arrays : List Nat) (num_vertices : Nat) (src : Nat → List uchar) (count : Nat)
    (contents : Nat → List uchar) : Nat → List uchar :=
  (List.range count).foldl
    (fun contents array =>
      copy_plan_inner cv format new_format done_arrays num_vertices src array
        (format.get_array array).get_num_data_types contents)
    contents

/-- The state of the loops of lines 340-364: the new store has the format and
one handle per array, the reference counts cover the handles `handles` of this
store and those of the new store, the bytes of this store are `src`, the bytes
of the new store are `contents`, the arrays in `done_arrays` keep the handles
`arrays2` they had before the loops, and every handle is the one it had or
points to a buffer allocated since. -/
structure CopyInv (handles : List PTA_uchar) (new_format : qpGeomVertexFormat) (rt2 : Runtime)
    (arrays2 : List PTA_uchar) (done_arrays : List Nat) (src contents : Nat → List uchar)
    (st : qpGeomVertexData × Runtime) : Prop where
  format_eq : st.1._format = new_format
  length_eq : st.1._cycler._arrays.length = new_format.get_num_arrays
  cache_eq : st.1._cycler._converted_cache = []
  mgr_eq : st.2.cache_mgr = rt2.cache_mgr
  log_eq : st.2.nassert_failed = rt2.nassert_failed
  refsOk : RefsOk (handles ++ st.1._cycler._arrays) st.2.heap
  next_le : rt2.heap.next ≤ st.2.heap.next
  src_bytes : ∀ i, slot_bytes handles st.2.heap i = src i
  new_bytes : ∀ j, slot_bytes st.1._cycler._arrays st.2.heap j = contents j
  done_kept : ∀ j, j ∈ done_arrays → slot st.1._cycler._arrays j = slot arrays2 j
  moved : ∀ j, slot st.1._cycler._arrays j = slot arrays2 j ∨
    ∃ q, slot st.1._cycler._arrays j = some q ∧ rt2.heap.next ≤ q

/-- What lines 297-364 have built on a cache miss from the store `source` in
the runtime `rt`, with `n` the number of vertices of `source` and `sized j` the
bytes of array `j` of the new store between the two loops: the new store has
the format `new_format`, one handle per array and an empty cache; the cache
manager and the assertion log are as before; the reference counts cover the
handles of both stores, and no byte of `source` has changed; `done_arrays` are
the first matches of the arrays of `source`; such an array was resized from
the bytes of a matching array of `source` and holds its handle when nothing had
to be resized; any other array was resized from nothing, and its handle is null
or new; and the bytes of the new store are what the copy loop makes of
`sized`. -/
structure BuildInv (cv : Converter) (source : qpGeomVertexData) (new_format : qpGeomVertexFormat)
    (rt : Runtime) (n : Nat) (sized : Nat → List uchar)
    (r : qpGeomVertexData × Runtime × List Nat) : Prop where
  format_eq : r.1._format = new_format
  length_eq : r.1._cycler._arrays.length = new_format.get_num_arrays
  cache_eq : r.1._cycler._converted_cache = []
  mgr_eq : r.2.1.cache_mgr = rt.cache_mgr
  log_eq : r.2.1.nassert_failed = rt.nassert_failed
  refsOk : RefsOk (source._cycler._arrays ++ r.1._cycler._arrays) r.2.1.heap
  next_le : rt.heap.next ≤ r.2.1.heap.next
  src_bytes : ∀ i, slot_bytes source._cycler._arrays r.2.1.heap i =
    slot_bytes source._cycler._arrays rt.heap i
  done_iff : ∀ j, j ∈ r.2.2 ↔
    ∃ i, i < source._format.get_num_arrays ∧ first_match new_format source._format i = some j
  aliased : ∀ j, j ∈ r.2.2 →
    ∃ i, i < source._format.get_num_arrays ∧ first_match new_format source._format i = some j ∧
      ResizeOutcome n (new_format.get_array j).get_stride
        (slot_bytes source._cycler._arrays rt.heap i) (sized j) ∧
      ((slot_bytes source._cycler._arrays rt.heap i).length /
          (new_format.get_array j).get_stride = n →
        slot r.1._cycler._arrays j = slot source._cycler._arrays i) ∧
      (slot r.1._cycler._arrays j = slot source._cycler._arrays i ∨
        ∃ q, slot r.1._cycler._arrays j = some q ∧ rt.heap.next ≤ q)
  fresh : ∀ j, j < new_format.get_num_arrays → j ∉ r.2.2 →
    ResizeOutcome n (new_format.get_array j).get_stride [] (sized j) ∧
    (slot r.1._cycler._arrays j = none ∨
      ∃ q, slot r.1._cycler._arrays j = some q ∧ rt.heap.next ≤ q)
  contents : ∀ j, slot_bytes r.1._cycler._arrays r.2.1.heap j =
    copy_plan cv source._format new_format r.2.2 n (slot_bytes source._cycler._arrays rt.heap)
      source._format.get_num_arrays sized j

/-! ### Widening and narrowing of data elements (`to_vec2`, `to_vec3`, `to_vec4`) -/

namespace qpGeomVertexData

/-- Lines 565-581: the vector `vec` is set to.  `F` is the type of `float`
values, with its `0.0f` and its division. -/
def to_vec2 {F : Type} [Zero F] [Div F] (data : Nat → F) (num_values : Int) : F × F :=
  if num_values = 1 then (data 0, 0)
  else if num_values = 2 ∨ num_values = 3 then (data 0, data 1)
  else (data 0 / data 3, data 1 / data 3)

/-- Lines 589-608. -/
def to_vec3 {F : Type} [Zero F] [Div F] (data : Nat → F) (num_values : Int) : F × F × F :=
  if num_values = 1 then (data 0, 0, 0)
  else if num_values = 2 then (data 0, data 1, 0)
  else if num_values = 3 then (data 0, data 1, data 2)
  else (data 0 / data 3, data 1 / data 3, data 2 / data 3)

/-- Lines 616-635. -/
def to_vec4 {F : Type} [Zero F] [One F] (data : Nat → F) (num_values : Int) : F × F × F × F :=
  if num_values = 1 then (data 0, 0, 0, 1)
  else if num_values = 2 then (data 0, data 1, 0, 1)
  else if num_values = 3 then (data 0, data 1, data 2, 1)
  else (data 0, data 1, data 2, data 3)

end qpGeomVertexData

/-- The four floats of a vec4 as the array `data` handed to `to_vec2` and
`to_vec3` (`LVecBase4f::get_data`). -/
def vec4_data {F : Type} [Zero F] (vec : F × F × F × F) : Nat → F :=
  fun i => [vec.1, vec.2.1, vec.2.2.1, vec.2.2.2].getD i 0

/-! ### The persisted representation (lines 704-788) -/

/-- A datagram: the bytes written to it. -/
abbrev Datagram := List uchar

/-- Lines 761-763: the body of `CData::write_datagram` is empty. -/
def CData.write_datagram (_cdata : CData) (dg : Datagram) : Datagram := dg

/-- Lines 786-788: the body of `CData::fillin` is empty. -/
def CData.fillin (cdata : CData) (_scan : Datagram) : CData := cdata

namespace qpGeomVertexData

/-- Lines 704-709.  `TypedWritable::write_datagram` is not among the sources
and is the parameter `base`; `BamWriter::write_cdata` hands the datagram to
`write_datagram` of the data of the cycler. -/
def write_datagram (base : Datagram → Datagram) (self : qpGeomVertexData) (dg : Datagram) :
    Datagram :=
  CData.write_datagram self._cycler (base dg)

/-- Lines 738-743.  `BamReader::read_cdata` hands the datagram to `fillin` of
the data of the cycler; what `TypedWritable::fillin` reads is no part of the
store. -/
def fillin (self : qpGeomVertexData) (scan : Datagram) : qpGeomVertexData :=
  { self with _cycler := CData.fillin self._cycler scan }

/-- Lines 720-729.  The default constructor (lines 33-35) leaves the format
pointer null, for which `null_format` stands, and the cycler without arrays. -/
def make_from_bam (null_format : qpGeomVertexFormat) (scan : Datagram) : qpGeomVertexData :=
  fillin { _format := null_format, _cycler := { _arrays := [], _converted_cache := [] } } scan

end qpGeomVertexData

/-! ### The collision plane (`panda/src/collide/collisionPlane.cxx`) -/

/-- A point or a vector of three coordinates (`LPoint3`, `LVector3`, `LVecBase3`
of linmath, not among the sources). -/
structure LVecBase3 (K : Type) where
  x : K
  y : K
  z : K
deriving DecidableEq

namespace LVecBase3

variable {K : Type} [LinearOrderedField K]

instance : Add (LVecBase3 K) := ⟨fun p q => ⟨p.x + q.x, p.y + q.y, p.z + q.z⟩⟩

instance : Sub (LVecBase3 K) := ⟨fun p q => ⟨p.x - q.x, p.y - q.y, p.z - q.z⟩⟩

instance : HMul (LVecBase3 K) K (LVecBase3 K) := ⟨fun p t => ⟨p.x * t, p.y * t, p.z * t⟩⟩

instance : HMul K (LVecBase3 K) (LVecBase3 K) := ⟨fun t p => ⟨t * p.x, t * p.y, t * p.z⟩⟩

/-- The dot product. -/
def dot (p q : LVecBase3 K) : K := p.x * q.x + p.y * q.y + p.z * q.z

end LVecBase3

/-- The plane `a x + b y + c z + d = 0` (`LPlane` of linmath, not among the
sources); the coefficients are `_plane[0]`, ..., `_plane[3]`, as `fill_viz_geom`
reads them. -/
structure LPlane (K : Type) where
  a : K
  b : K
  c : K
  d : K
deriving DecidableEq

namespace LPlane

variable {K : Type} [LinearOrderedField K]

/-- The normal of the plane, `(a, b, c)`. -/
def get_normal (p : LPlane K) : LVecBase3 K := ⟨p.a, p.b, p.c⟩

/-- Modelled from the spec: `dist_to_plane` of `LPlane`, the signed distance of
a point to the plane, which is the plane equation evaluated at the point;
positive in front of the plane. -/
def dist_to_plane (p : LPlane K) (point : LVecBase3 K) : K :=
  p.a * point.x + p.b * point.y + p.c * point.z + p.d

/-- Modelled from the spec: `intersects_line` of `LPlane`: the parameter `t` at
which the line `from + t * delta` meets the plane, none when the line is
parallel to the plane. -/
def intersects_line (p : LPlane K) (origin delta : LVecBase3 K) : Option K :=
  if p.get_normal.dot delta = 0 then none
  else some (-(p.dist_to_plane origin) / p.get_normal.dot delta)

end LPlane

/-- The `from` solids of the tests of the plane (their declarations are not
among the sources), each with its `get_respect_effective_normal`. -/
inductive CollisionSolid (K : Type) where
  | sphere (center : LVecBase3 K) (radius : K) (respect : Bool)
  | line (origin direction : LVecBase3 K) (respect : Bool)
  | ray (origin direction : LVecBase3 K) (respect : Bool)
  | segment (point_a point_b : LVecBase3 K) (respect : Bool)
  | box (center dimensions : LVecBase3 K) (respect : Bool)
  | other

/-- The matrix `wrt_mat` of an entry (`LMatrix4` is not among the sources):
`rows i j` is the entry of row `i` and column `j`; points and vectors are rows
and are multiplied from the left. -/
structure LMatrix4 (K : Type) where
  rows : Fin 4 → Fin 4 → K

namespace LMatrix4

variable {K : Type} [LinearOrderedField K]

/-- The product `point * mat` of a point, whose fourth coordinate is 1. -/
def xform_point (m : LMatrix4 K) (p : LVecBase3 K) : LVecBase3 K :=
  ⟨p.x * m.rows 0 0 + p.y * m.rows 1 0 + p.z * m.rows 2 0 + m.rows 3 0,
   p.x * m.rows 0 1 + p.y * m.rows 1 1 + p.z * m.rows 2 1 + m.rows 3 1,
   p.x * m.rows 0 2 + p.y * m.rows 1 2 + p.z * m.rows 2 2 + m.rows 3 2⟩

/-- The product `vector * mat` of a vector, whose fourth coordinate is 0. -/
def xform_vec (m : LMatrix4 K) (v : LVecBase3 K) : LVecBase3 K :=
  ⟨v.x * m.rows 0 0 + v.y * m.rows 1 0 + v.z * m.rows 2 0,
   v.x * m.rows 0 1 + v.y * m.rows 1 1 + v.z * m.rows 2 1,
   v.x * m.rows 0 2 + v.y * m.rows 1 2 + v.z * m.rows 2 2⟩

/-- The identity matrix. -/
def ident : LMatrix4 K := ⟨fun i j => if i = j then 1 else 0⟩

end LMatrix4

/-- What the tests read and set of a `CollisionEntry` (its declaration is not
among the sources): the `from` solid, the matrix `wrt_mat`, and the surface
normal, surface point and interior point, each of which may be unset. -/
structure CollisionEntry (K : Type) where
  get_from : CollisionSolid K
  get_wrt_mat : LMatrix4 K
  surface_normal : Option (LVecBase3 K)
  surface_point : Option (LVecBase3 K)
  interior_point : Option (LVecBase3 K)

/-- A collision plane: the plane and the effective normal of the solid, if it
has one. -/
structure CollisionPlane (K : Type) where
  _plane : LPlane K
  effective_normal : Option (LVecBase3 K)

namespace CollisionPlane

variable {K : Type} [LinearOrderedField K]

def get_normal (self : CollisionPlane K) : LVecBase3 K := self._plane.get_normal

def dist_to_plane (self : CollisionPlane K) (point : LVecBase3 K) : K :=
  self._plane.dist_to_plane point

/-- The normal the tests report: the effective normal when the plane has one
and the `from` solid respects it, the normal of the plane otherwise. -/
def reported_normal (self : CollisionPlane K) (respect : Bool) : LVecBase3 K :=
  match self.effective_normal with
  | some n => if respect then n else self.get_normal
  | none => self.get_normal

/-- Lines 270-322: the entry returned, none for `NULL`. -/
def test_intersection_from_segment (self : CollisionPlane K) (entry : CollisionEntry K) :
    Option (CollisionEntry K) :=
  match entry.get_from with
  | .segment point_a point_b respect =>
    let from_a := entry.get_wrt_mat.xform_point point_a
    let from_b := entry.get_wrt_mat.xform_point point_b
    let dist_a := self._plane.dist_to_plane from_a
    let dist_b := self._plane.dist_to_plane from_b
    if dist_a ≥ 0 ∧ dist_b ≥ 0 then none
    else
      let e1 := { entry with surface_normal := some (self.reported_normal respect) }
      let from_direction := from_b - from_a
      let e2 :=
        match self._plane.intersects_line from_a from_direction with
        | some t =>
          if t ≥ 0 ∧ t ≤ 1 then { e1 with surface_point := some (from_a + t * from_direction) }
          else e1
        | none => e1
      if dist_a < dist_b then some { e2 with interior_point := some from_a }
      else if dist_b < dist_a then some { e2 with interior_point := some from_b }
      else some { e2 with interior_point := some ((from_a + from_b) * (1 / 2 : K)) }
  | _ => none

end CollisionPlane

/-- The segment from (0, 0, 1) to (0, 0, -3), met by an untransformed entry
on which nothing is set yet. -/
def entry_segment : CollisionEntry ℚ :=
  { get_from := .segment ⟨0, 0, 1⟩ ⟨0, 0, -3⟩ false,
    get_wrt_mat := LMatrix4.ident,
    surface_normal := none, surface_point := none, interior_point := none }

/-- The plane `z = 0`, facing up. -/
def plane_floor : CollisionPlane ℚ :=
  { _plane := ⟨0, 0, 1, 0⟩, effective_normal := none }

/-- A float attribute of one component at the start of a vertex. -/
def float_type : qpGeomVertexDataType :=
  { get_name := 0, get_num_components := 1, get_num_values := 1,
    get_numeric_type := .NT_float, get_start := 0, get_total_bytes := 4 }

/-- A registered format whose only array holds `float_type`. -/
def format_float : qpGeomVertexFormat :=
  { arrays := [{ get_stride := 4, data_types := [float_type] }], is_registered := true }

/-- The store the constructor makes for `format_float`. -/
def store_float : qpGeomVertexData := (qpGeomVertexData.new format_float runtime_empty).1

/-- The values `set_data` writes for the data type fit the bytes of the data
type: one byte per value of a normalized 8-bit data type, and the four bytes
of the word of a packed data type. -/
def qpGeomVertexDataType.Supported (t : qpGeomVertexDataType) : Prop :=
  (t.get_numeric_type = .NT_uint8 → t.get_num_values ≤ t.get_total_bytes) ∧
  (t.get_numeric_type = .NT_packed_argb → 4 ≤ t.get_total_bytes)

instance (t : qpGeomVertexDataType) : Decidable t.Supported :=
  inferInstanceAs (Decidable (
    (t.get_numeric_type = .NT_uint8 → t.get_num_values ≤ t.get_total_bytes) ∧
    (t.get_numeric_type = .NT_packed_argb → 4 ≤ t.get_total_bytes)))

/-- A heap with buffer 0 holding two vertices of `color_type`. -/
def runtime_color : Runtime :=
  { heap :=
      { cell := fun a =>
          if a = 0 then { v := [1, 2, 3, 4, 5, 6, 7, 8], ref_count := 1 }
          else { v := [], ref_count := 0 },
        next := 1 },
    cache_mgr := { entries := [], max_size := 100 },
    nassert_failed := [] }

/-- A store of format `format_color` with the two vertices of `runtime_color`. -/
def store_color2 : qpGeomVertexData :=
  { _format := format_color, _cycler := { _arrays := [some 0], _converted_cache := [] } }

/-- The row `i` of the matrix without its fourth entry (`get_row3`). -/
def LMatrix4.get_row3 {K : Type} (m : LMatrix4 K) (i : Fin 4) : LVecBase3 K :=
  ⟨m.rows i 0, m.rows i 1, m.rows i 2⟩

namespace CollisionPlane

variable {K : Type} [LinearOrderedField K]

/-- Lines 128-162: the entry returned, none for `NULL`.  `length` of linmath
(not among the sources), the length of a vector, is the parameter `length`. -/
def test_intersection_from_sphere (length : LVecBase3 K → K) (self : CollisionPlane K)
    (entry : CollisionEntry K) : Option (CollisionEntry K) :=
  match entry.get_from with
  | .sphere center radius respect =>
    let from_center := entry.get_wrt_mat.xform_point center
    let from_radius_v := entry.get_wrt_mat.xform_vec ⟨radius, 0, 0⟩
    let from_radius := length from_radius_v
    let dist := self.dist_to_plane from_center
    if dist > from_radius then none
    else
      some { entry with
        surface_normal := some (self.reported_normal respect),
        surface_point := some (from_center - self.get_normal * dist),
        interior_point := some (from_center - self.get_normal * from_radius) }
  | _ => none

/-- Lines 216-263: the entry returned, none for `NULL`. -/
def test_intersection_from_ray (self : CollisionPlane K) (entry : CollisionEntry K) :
    Option (CollisionEntry K) :=
  match entry.get_from with
  | .ray origin direction respect =>
    let from_origin := entry.get_wrt_mat.xform_point origin
    let from_direction := entry.get_wrt_mat.xform_vec direction
    let found : K → Option (CollisionEntry K) := fun t =>
      some { entry with
        surface_normal := some (self.reported_normal respect),
        surface_point := some (from_origin + t * from_direction) }
    if self._plane.dist_to_plane from_origin < 0 then found 0
    else
      match self._plane.intersects_line from_origin from_direction with
      | none => none
      | some t => if t < 0 then none else found t
  | _ => none

/-- Lines 400-436: the entry returned, none for `NULL`. -/
def test_intersection_from_box (self : CollisionPlane K) (entry : CollisionEntry K) :
    Option (CollisionEntry K) :=
  match entry.get_from with
  | .box center dimensions respect =>
    let from_center := entry.get_wrt_mat.xform_point center
    let from_extents := entry.get_wrt_mat.xform_vec dimensions * (1 / 2 : K)
    let dist := self._plane.dist_to_plane from_center
    let box_x := entry.get_wrt_mat.get_row3 0
    let box_y := entry.get_wrt_mat.get_row3 1
    let box_z := entry.get_wrt_mat.get_row3 2
    if |dist| >
        |box_x.dot self._plane.get_normal * from_extents.x| +
        |box_y.dot self._plane.get_normal * from_extents.y| +
        |box_z.dot self._plane.get_normal * from_extents.z| then none
    else
      some { entry with
        surface_normal := some (self.reported_normal respect),
        surface_point := some (from_center - self.get_normal * dist) }
  | _ => none

/-- Lines 467-485 of `fill_viz_geom`: the centre point `cp`, the first corner
point, and the vector `p1` from the centre to that corner before it is
normalised.  The polygon built from them (lines 487-523) is not modelled. -/
def fill_viz_geom (self : CollisionPlane K) : LVecBase3 K × LVecBase3 K × LVecBase3 K :=
  let normal := self.get_normal
  let D := self._plane.d
  if |normal.x| > |normal.y| ∧ |normal.x| > |normal.z| then
    let cp : LVecBase3 K := ⟨-D / normal.x, 0, 0⟩
    let corner : LVecBase3 K := ⟨-(normal.y + normal.z + D) / normal.x, 1, 1⟩
    (cp, corner, corner - cp)
  else if |normal.y| > |normal.z| then
    let cp : LVecBase3 K := ⟨0, -D / normal.y, 0⟩
    let corner : LVecBase3 K := ⟨1, -(normal.x + normal.z + D) / normal.y, 1⟩
    (cp, corner, corner - cp)
  else
    let cp : LVecBase3 K := ⟨0, 0, -D / normal.z⟩
    let corner : LVecBase3 K := ⟨1, 1, -(normal.x + normal.y + D) / normal.z⟩
    (cp, corner, corner - cp)

end CollisionPlane

/-- The length of a vector that lies along an axis. -/
def length_axis (v : LVecBase3 ℚ) : ℚ := |v.x| + |v.y| + |v.z|

/-- An untransformed entry, on which nothing is set yet, for the solid `solid`. -/
def entry_of (solid : CollisionSolid ℚ) : CollisionEntry ℚ :=
  { get_from := solid, get_wrt_mat := LMatrix4.ident,
    surface_normal := none, surface_point := none, interior_point := none }

/-- The segment from (0, 0, -1) to (0, 0, -3), wholly behind the plane `z = 0`. -/
def segment_behind : CollisionSolid ℚ := .segment ⟨0, 0, -1⟩ ⟨0, 0, -3⟩ false

/-- The sphere of radius 1 around (0, 0, -5), wholly behind the plane `z = 0`. -/
def sphere_behind : CollisionSolid ℚ := .sphere ⟨0, 0, -5⟩ 1 false

/-- The box of dimensions (2, 2, 2) around (0, 0, -5), wholly behind the plane
`z = 0`. -/
def box_behind : CollisionSolid ℚ := .box ⟨0, 0, -5⟩ ⟨2, 2, 2⟩ false

/-- The ray from (0, 0, 2) downwards. -/
def ray_down : CollisionSolid ℚ := .ray ⟨0, 0, 2⟩ ⟨0, 0, -1⟩ false

/-- The plane `x + 2 y - 2 z + 6 = 0`. -/
def plane_tilted : CollisionPlane ℚ :=
  { _plane := ⟨1, 2, -2, 6⟩, effective_normal := none }

/-- The world reached from `world_pc` by `convert_to(format_split)` on the store
at address 7, which caches the conversion (store 10, whose second array is the
new buffer 1), followed by `set_array_data(0, buffer 1)` on the same store:
its array now holds the bytes [0, 2, 0, 4]. -/
def world_stale : World :=
  let w := (qpGeomVertexData.convert_to converter_pad 7 format_split world_pc).2
  let r := qpGeomVertexData.set_array_data (w.objects 7) 0 (some 1) w.rt
  { rt := r.2, objects := fun a => if a = 7 then r.1 else w.objects a,
    next_object := w.next_object }

end Panda

namespace Panda
open qpGeomVertexData

/-! ### Handles and heaps -/

theorem slot_set_self {l : List PTA_uchar} {i : Nat} (h : i < l.length) (p : PTA_uchar) :
    slot (l.set i p) i = p := by
  unfold slot
  rw [List.getD_eq_getElem?_getD, List.getElem?_set_self h]; rfl

theorem slot_set_ne {l : List PTA_uchar} {i j : Nat} (h : i ≠ j) (p : PTA_uchar) :
    slot (l.set i p) j = slot l j := by
  unfold slot
  rw [List.getD_eq_getElem?_getD, List.getD_eq_getElem?_getD, List.getElem?_set_ne h]

theorem slot_some_lt {l : List PTA_uchar} {i a : Nat} (h : slot l i = some a) : i < l.length := by
  by_contra hlt
  unfold slot at h
  rw [List.getD_eq_getElem?_getD, List.getElem?_eq_none (by omega)] at h
  simp at h

theorem slot_eq_getElem {l : List PTA_uchar} {i : Nat} (h : i < l.length) : slot l i = l[i] := by
  unfold slot
  rw [List.getD_eq_getElem?_getD, List.getElem?_eq_getElem h]; rfl

theorem slot_mem {l : List PTA_uchar} {i : Nat} (h : i < l.length) : slot l i ∈ l := by
  rw [slot_eq_getElem h]; exact List.getElem_mem h

theorem set_slot_self {l : List PTA_uchar} {i : Nat} (h : i < l.length) :
    l.set i (slot l i) = l := by
  rw [slot_eq_getElem h]
  apply List.ext_getElem?
  intro j
  rw [List.getElem?_set]
  by_cases hij : i = j
  · subst hij; simp [h]
  · simp [hij]

theorem count_set_slot (l : List PTA_uchar) (i : Nat) (h : i < l.length) (p q : PTA_uchar) :
    (l.set i p).count q =
      l.count q - (if slot l i = q then 1 else 0) + (if p = q then 1 else 0) := by
  rw [List.count_set _ _ _ _ h, slot_eq_getElem h]
  simp

theorem one_le_count_of_slot {l : List PTA_uchar} {i a : Nat} (h : slot l i = some a) :
    1 ≤ l.count (some a) := by
  have hi := slot_some_lt h
  have := slot_mem hi
  rw [h] at this
  exact List.count_pos_iff.mpr this

theorem two_le_count_of_slots {l : List PTA_uchar} {i j a : Nat} (hij : i ≠ j)
    (hi : slot l i = some a) (hj : slot l j = some a) : 2 ≤ l.count (some a) := by
  have hlt := slot_some_lt hi
  have h1 : slot (l.set i none) j = some a := by rw [slot_set_ne hij]; exact hj
  have h2 := one_le_count_of_slot h1
  rw [count_set_slot l i hlt, hi] at h2
  simp at h2
  omega

theorem refsOk_slot {arrays : List PTA_uchar} {h : Heap} (hok : RefsOk arrays h) {i a : Nat}
    (hs : slot arrays i = some a) :
    a < h.next ∧ arrays.count (some a) ≤ (h.cell a).ref_count := by
  have hi := slot_some_lt hs
  have hm := slot_mem hi
  rw [hs] at hm
  exact hok _ hm

theorem refsOk_mem {arrays : List PTA_uchar} {h : Heap} (hok : RefsOk arrays h) {a : Nat}
    (hm : some a ∈ arrays) :
    a < h.next ∧ arrays.count (some a) ≤ (h.cell a).ref_count := hok _ hm

theorem next_not_mem {arrays : List PTA_uchar} {h : Heap} (hok : RefsOk arrays h) :
    arrays.count (some h.next) = 0 := by
  rw [List.count_eq_zero]
  intro hm
  have := (refsOk_mem hok hm).1
  omega

theorem reseat_next (h : Heap) (b : List uchar) (p : PTA_uchar) :
    ((h.alloc b).2.unref p).next = h.next + 1 := by
  cases p <;> rfl

theorem reseat_cell_new (h : Heap) (b : List uchar) (p : PTA_uchar)
    (hp : ∀ a, p = some a → a < h.next) :
    ((h.alloc b).2.unref p).cell h.next = { v := b, ref_count := 1 } := by
  cases p with
  | none => simp [Heap.alloc, Heap.unref]
  | some a =>
    have : h.next ≠ a := by have := hp a rfl; omega
    simp [Heap.alloc, Heap.unref, Function.update_apply, this]

theorem reseat_cell_v (h : Heap) (b : List uchar) (p : PTA_uchar) {x : Nat} (hx : x < h.next) :
    (((h.alloc b).2.unref p).cell x).v = (h.cell x).v := by
  have hne : x ≠ h.next := by omega
  cases p with
  | none => simp [Heap.alloc, Heap.unref, Function.update_apply, hne]
  | some a =>
    by_cases hxa : x = a
    · subst hxa; simp [Heap.alloc, Heap.unref, Function.update_apply, hne]
    · simp [Heap.alloc, Heap.unref, Function.update_apply, hne, hxa]

theorem reseat_cell_ref (h : Heap) (b : List uchar) (p : PTA_uchar) {x : Nat} (hx : x < h.next) :
    (((h.alloc b).2.unref p).cell x).ref_count =
      (h.cell x).ref_count - (if p = some x then 1 else 0) := by
  have hne : x ≠ h.next := by omega
  cases p with
  | none => simp [Heap.alloc, Heap.unref, Function.update_apply, hne]
  | some a =>
    by_cases hxa : x = a
    · subst hxa; simp [Heap.alloc, Heap.unref, Function.update_apply, hne]
    · have : a ≠ x := fun h => hxa h.symm
      simp [Heap.alloc, Heap.unref, Function.update_apply, hne, hxa, this]

theorem effect_length {i : Nat} {b : List uchar} {arrays arrays1 : List PTA_uchar} {h h1 : Heap}
    (he : Effect i b arrays h arrays1 h1) : arrays1.length = arrays.length := by
  rcases he with ⟨rfl, -, -⟩ | ⟨rfl, -⟩ | ⟨a, -, -, rfl, -⟩ <;> simp

theorem effect_next {i : Nat} {b : List uchar} {arrays arrays1 : List PTA_uchar} {h h1 : Heap}
    (he : Effect i b arrays h arrays1 h1) : h.next ≤ h1.next := by
  rcases he with ⟨-, rfl, -⟩ | ⟨-, rfl⟩ | ⟨a, -, -, -, rfl⟩
  · exact le_refl _
  · rw [reseat_next]; omega
  · exact le_refl _

theorem effect_refsOk {i : Nat} {b : List uchar} {arrays arrays1 : List PTA_uchar} {h h1 : Heap}
    (hok : RefsOk arrays h) (hi : i < arrays.length) (he : Effect i b arrays h arrays1 h1) :
    RefsOk arrays1 h1 := by
  rcases he with ⟨rfl, rfl, -⟩ | ⟨rfl, rfl⟩ | ⟨a, -, -, rfl, rfl⟩
  · exact hok
  · have hvalid : ∀ a, slot arrays i = some a → a < h.next := fun a ha => (refsOk_slot hok ha).1
    intro p hp
    cases p with
    | none => trivial
    | some x =>
      show x < _ ∧ _ ≤ _
      rw [reseat_next, count_set_slot arrays i hi]
      rcases List.mem_or_eq_of_mem_set hp with hm | heq
      · have hx := refsOk_mem hok hm
        have hne : h.next ≠ x := by omega
        rw [reseat_cell_ref h b _ hx.1]
        refine ⟨by omega, ?_⟩
        have hne2 : ¬ (some h.next = some x) := by simpa using hne
        rw [if_neg hne2]
        by_cases hs : slot arrays i = some x
        · have := one_le_count_of_slot hs
          simp only [hs, if_true]; omega
        · simp only [hs, if_false]; omega
      · cases heq
        rw [reseat_cell_new h b _ hvalid, next_not_mem hok]
        refine ⟨by omega, ?_⟩
        simp
  · intro p hp
    cases p with
    | none => trivial
    | some x =>
      have hx := refsOk_mem hok hp
      show x < _ ∧ _ ≤ _
      refine ⟨hx.1, ?_⟩
      by_cases hxa : x = a
      · subst hxa; simpa [Heap.set_v] using hx.2
      · simpa [Heap.set_v, Function.update_apply, hxa] using hx.2

theorem effect_self {i : Nat} {b : List uchar} {arrays arrays1 : List PTA_uchar} {h h1 : Heap}
    (hok : RefsOk arrays h) (hi : i < arrays.length) (he : Effect i b arrays h arrays1 h1) :
    slot_bytes arrays1 h1 i = b := by
  rcases he with ⟨rfl, rfl, rfl⟩ | ⟨rfl, rfl⟩ | ⟨a, hs, -, rfl, rfl⟩
  · rfl
  · have hvalid : ∀ a, slot arrays i = some a → a < h.next := fun a ha => (refsOk_slot hok ha).1
    unfold slot_bytes
    rw [slot_set_self hi]
    show (((h.alloc b).2.unref (slot arrays i)).cell h.next).v = b
    rw [reseat_cell_new h b _ hvalid]
  · unfold slot_bytes
    rw [hs]
    simp [PTA_uchar.bytes, Heap.set_v]

theorem effect_frame {i : Nat} {b : List uchar} {arrays arrays1 : List PTA_uchar} {h h1 : Heap}
    (hok : RefsOk arrays h) (he : Effect i b arrays h arrays1 h1) {j : Nat} (hj : j ≠ i) :
    slot arrays1 j = slot arrays j ∧ slot_bytes arrays1 h1 j = slot_bytes arrays h j := by
  rcases he with ⟨rfl, rfl, -⟩ | ⟨rfl, rfl⟩ | ⟨a, hs, href, rfl, rfl⟩
  · exact ⟨rfl, rfl⟩
  · have hsl : slot (arrays.set i (some h.next)) j = slot arrays j := slot_set_ne (Ne.symm hj) _
    refine ⟨hsl, ?_⟩
    unfold slot_bytes
    rw [hsl]
    cases hp : slot arrays j with
    | none => rfl
    | some x =>
      have hx := (refsOk_slot hok hp).1
      exact reseat_cell_v h b _ hx
  · refine ⟨rfl, ?_⟩
    unfold slot_bytes
    cases hp : slot arrays1 j with
    | none => rfl
    | some x =>
      have hxa : x ≠ a := by
        intro hxa
        subst hxa
        have h2 := two_le_count_of_slots hj hp hs
        have h1 := (refsOk_slot hok hs).2
        omega
      simp [PTA_uchar.bytes, Heap.set_v, Function.update_apply, hxa]

theorem effect_held {i : Nat} {b : List uchar} {arrays arrays1 : List PTA_uchar} {h h1 : Heap}
    (hi : i < arrays.length) (he : Effect i b arrays h arrays1 h1) {a : Nat}
    (ha : HeldElsewhere arrays h a) :
    (h1.cell a).v = (h.cell a).v ∧ HeldElsewhere arrays1 h1 a := by
  obtain ⟨halloc, hcount⟩ := ha
  rcases he with ⟨rfl, rfl, -⟩ | ⟨rfl, rfl⟩ | ⟨x, hs, href, rfl, rfl⟩
  · exact ⟨rfl, halloc, hcount⟩
  · refine ⟨reseat_cell_v h b _ halloc, ?_, ?_⟩
    · rw [reseat_next]; omega
    · rw [reseat_cell_ref h b _ halloc, count_set_slot arrays i hi]
      have hne : ¬ (some h.next = some a) := by
        intro hh; cases hh; omega
      rw [if_neg hne]
      by_cases hs : slot arrays i = some a
      · have := one_le_count_of_slot hs
        simp only [hs, if_true]; omega
      · simp only [hs, if_false]; omega
  · have hxa : a ≠ x := by
      intro hxa
      subst hxa
      have := one_le_count_of_slot hs
      omega
    refine ⟨?_, halloc, ?_⟩
    · simp [Heap.set_v, Function.update_apply, hxa]
    · simpa [Heap.set_v, Function.update_apply, hxa] using hcount

theorem size_slot (arrays : List PTA_uchar) (heap : Heap) (i : Nat) :
    PTA_uchar.size heap (slot arrays i) = (slot_bytes arrays heap i).length := rfl

theorem body_effect (format : qpGeomVertexFormat) (n i : Nat) (arrays : List PTA_uchar)
    (heap : Heap) (any : Bool) :
    ∃ b, Effect i b arrays heap (set_num_vertices_body format n i (arrays, heap, any)).1
        (set_num_vertices_body format n i (arrays, heap, any)).2.1 ∧
      ResizeOutcome n (format.get_array i).get_stride (slot_bytes arrays heap i) b ∧
      (set_num_vertices_body format n i (arrays, heap, any)).2.2 =
        (any || decide ((slot_bytes arrays heap i).length / (format.get_array i).get_stride ≠ n)) ∧
      ((slot_bytes arrays heap i).length / (format.get_array i).get_stride ≠ n →
        1 < PTA_uchar.get_ref_count heap (slot arrays i) →
        (set_num_vertices_body format n i (arrays, heap, any)).1 = arrays.set i (some heap.next)) := by
  unfold set_num_vertices_body
  simp only [size_slot]
  by_cases hd : (slot_bytes arrays heap i).length / (format.get_array i).get_stride = n
  · have h0 : ¬ ((n : Int) - (((slot_bytes arrays heap i).length /
        (format.get_array i).get_stride : Nat) : Int) ≠ 0) := by omega
    rw [if_neg h0]
    refine ⟨slot_bytes arrays heap i, Or.inl ⟨rfl, rfl, rfl⟩, ?_, ?_, ?_⟩
    · simp [ResizeOutcome, hd]
    · simp [hd]
    · intro h; exact absurd hd h
  · have h0 : ((n : Int) - (((slot_bytes arrays heap i).length /
        (format.get_array i).get_stride : Nat) : Int) ≠ 0) := by omega
    rw [if_pos h0]
    by_cases href : PTA_uchar.get_ref_count heap (slot arrays i) > 1
    · rw [if_pos href]
      refine ⟨_, Or.inr (Or.inl ⟨rfl, rfl⟩), ?_, ?_, ?_⟩
      · unfold ResizeOutcome; rw [if_neg hd]
        exact Or.inl rfl
      · simp [hd]
      · intro _ _; rfl
    · rw [if_neg href]
      by_cases hpos : ((n : Int) - (((slot_bytes arrays heap i).length /
          (format.get_array i).get_stride : Nat) : Int) > 0)
      · rw [if_pos hpos]
        have hlt : (slot_bytes arrays heap i).length / (format.get_array i).get_stride < n := by
          omega
        have htn : ((n : Int) - (((slot_bytes arrays heap i).length /
            (format.get_array i).get_stride : Nat) : Int)).toNat =
            n - (slot_bytes arrays heap i).length / (format.get_array i).get_stride := by omega
        rw [htn]
        refine ⟨slot_bytes arrays heap i ++ List.replicate ((n - (slot_bytes arrays heap i).length /
            (format.get_array i).get_stride) * (format.get_array i).get_stride) 0, ?_, ?_, ?_, ?_⟩
        · cases hs : slot arrays i with
          | none =>
            refine Or.inr (Or.inl ⟨?_, ?_⟩)
            · simp [PTA_uchar.insert_end, Heap.alloc]
            · simp [PTA_uchar.insert_end, slot_bytes, hs, PTA_uchar.bytes, Heap.unref]
          | some a =>
            refine Or.inr (Or.inr ⟨a, hs, ?_, ?_, ?_⟩)
            · rw [hs] at href
              simp only [PTA_uchar.get_ref_count] at href
              omega
            · simp only [PTA_uchar.insert_end]
              rw [← hs]; exact set_slot_self (slot_some_lt hs)
            · simp [PTA_uchar.insert_end, slot_bytes, hs, PTA_uchar.bytes]
        · unfold ResizeOutcome; rw [if_neg hd]
          exact Or.inr (Or.inl ⟨hlt, rfl⟩)
        · simp [hd]
        · intro _ h; exact absurd h href
      · rw [if_neg hpos]
        have hlt : n < (slot_bytes arrays heap i).length / (format.get_array i).get_stride := by
          omega
        refine ⟨(slot_bytes arrays heap i).take (n * (format.get_array i).get_stride), ?_, ?_, ?_, ?_⟩
        · cases hs : slot arrays i with
          | none =>
            exfalso
            simp [slot_bytes, hs, PTA_uchar.bytes] at hlt
          | some a =>
            refine Or.inr (Or.inr ⟨a, hs, ?_, rfl, ?_⟩)
            · rw [hs] at href
              simp only [PTA_uchar.get_ref_count] at href
              omega
            · simp [PTA_uchar.erase_from, slot_bytes, hs, PTA_uchar.bytes]
        · unfold ResizeOutcome; rw [if_neg hd]
          exact Or.inr (Or.inr ⟨hlt, rfl⟩)
        · simp [hd]
        · intro _ h; exact absurd h href

theorem set_num_vertices_loop_succ (format : qpGeomVertexFormat) (n k : Nat)
    (st : List PTA_uchar × Heap × Bool) :
    set_num_vertices_loop format n (k + 1) st =
      set_num_vertices_body format n k (set_num_vertices_loop format n k st) := by
  unfold set_num_vertices_loop
  rw [List.range_succ, List.foldl_append]
  rfl

theorem loopInv_zero (format : qpGeomVertexFormat) (n : Nat) (arrays : List PTA_uchar)
    (heap : Heap) (hok : RefsOk arrays heap) :
    LoopInv format n arrays heap 0 (arrays, heap, false) where
  length_eq := rfl
  refsOk := hok
  next_le := le_refl _
  todo := fun _ _ => ⟨rfl, rfl⟩
  done := fun j hj => absurd hj (Nat.not_lt_zero j)
  changed := by simp
  held := fun a ha => ⟨rfl, ha, fun j hj => absurd hj (Nat.not_lt_zero j)⟩

theorem loopInv_step (format : qpGeomVertexFormat) (n : Nat) (arrays : List PTA_uchar)
    (heap : Heap) (k : Nat) (hk : k < arrays.length) (st : List PTA_uchar × Heap × Bool)
    (inv : LoopInv format n arrays heap k st) :
    LoopInv format n arrays heap (k + 1) (set_num_vertices_body format n k st) := by
  obtain ⟨b, heff, hout, hflag, hres⟩ := body_effect format n k st.1 st.2.1 st.2.2
  have hst : (st.1, st.2.1, st.2.2) = st := rfl
  rw [hst] at heff hflag hres
  have hk' : k < st.1.length := by rw [inv.length_eq]; exact hk
  have hbk := (inv.todo k (le_refl k)).2
  have hsk := (inv.todo k (le_refl k)).1
  rw [hbk] at hout hflag hres
  refine ⟨?_, ?_, ?_, ?_, ?_, ?_, ?_⟩
  · rw [effect_length heff]; exact inv.length_eq
  · exact effect_refsOk inv.refsOk hk' heff
  · exact le_trans inv.next_le (effect_next heff)
  · intro j hj
    have hjk : j ≠ k := by omega
    obtain ⟨h1, h2⟩ := effect_frame inv.refsOk heff hjk
    obtain ⟨h3, h4⟩ := inv.todo j (by omega)
    exact ⟨h1.trans h3, h2.trans h4⟩
  · intro j hj
    by_cases hjk : j = k
    · subst hjk
      rw [effect_self inv.refsOk hk' heff]
      exact hout
    · rw [(effect_frame inv.refsOk heff hjk).2]
      exact inv.done j (by omega)
  · rw [hflag, Bool.or_eq_true, inv.changed]
    constructor
    · rintro (⟨j, hj, hne⟩ | h)
      · exact ⟨j, by omega, hne⟩
      · exact ⟨k, by omega, by simpa using h⟩
    · rintro ⟨j, hj, hne⟩
      by_cases hjk : j = k
      · subst hjk; right; simpa using hne
      · left; exact ⟨j, by omega, hne⟩
  · intro a ha
    obtain ⟨hv, hheld, hfresh⟩ := inv.held a ha
    obtain ⟨hv', hheld'⟩ := effect_held hk' heff hheld
    refine ⟨hv'.trans hv, hheld', ?_⟩
    intro j hj hsa hne
    by_cases hjk : j = k
    · subst hjk
      have hcur : slot st.1 j = some a := hsk.trans hsa
      have h1 := one_le_count_of_slot hcur
      have href : 1 < PTA_uchar.get_ref_count st.2.1 (slot st.1 j) := by
        rw [hcur]
        have := hheld.2
        simp only [PTA_uchar.get_ref_count]
        omega
      rw [hres hne href, slot_set_self hk']
      exact ⟨_, rfl, inv.next_le⟩
    · rw [(effect_frame inv.refsOk heff hjk).1]
      exact hfresh j (by omega) hsa hne

theorem loopInv_loop (format : qpGeomVertexFormat) (n : Nat) (arrays : List PTA_uchar)
    (heap : Heap) (hok : RefsOk arrays heap) (k : Nat) (hk : k ≤ arrays.length) :
    LoopInv format n arrays heap k (set_num_vertices_loop format n k (arrays, heap, false)) := by
  induction k with
  | zero => exact loopInv_zero format n arrays heap hok
  | succ k ih =>
    rw [set_num_vertices_loop_succ]
    exact loopInv_step format n arrays heap k (by omega) _ (ih (by omega))

theorem resizeOutcome_count {n s : Nat} {old new : List uchar} (hs : 0 < s)
    (h : ResizeOutcome n s old new) : new.length / s = n := by
  unfold ResizeOutcome at h
  split at h
  · rename_i heq
    rw [h]; exact heq
  · rcases h with h | ⟨hlt, h⟩ | ⟨hlt, h⟩
    · rw [h]
      have : (memcpy (List.replicate (n * s) 0) old (min (n * s) old.length)).length = n * s := by
        simp only [memcpy, List.length_append, List.length_take, List.length_drop,
          List.length_replicate]
        omega
      rw [this]
      exact Nat.mul_div_cancel n hs
    · rw [h]
      simp only [List.length_append, List.length_replicate]
      rw [Nat.add_mul_div_right _ _ hs]
      omega
    · rw [h]
      have hle : n * s ≤ old.length := by
        have h1 : (n + 1) * s ≤ (old.length / s) * s := Nat.mul_le_mul_right s hlt
        have h2 : (old.length / s) * s ≤ old.length := Nat.div_mul_le_self _ _
        have h3 : n * s ≤ (n + 1) * s := Nat.mul_le_mul_right s (by omega)
        omega
      rw [List.length_take, Nat.min_eq_left hle]
      exact Nat.mul_div_cancel n hs

theorem resizeOutcome_canonical {n s c : Nat} {old new : List uchar} (hs : 0 < s)
    (hold : old.length = c * s) (h : ResizeOutcome n s old new) :
    new = old.take (n * s) ++ List.replicate (n * s - old.length) 0 := by
  have hc : old.length / s = c := by rw [hold]; exact Nat.mul_div_cancel c hs
  unfold ResizeOutcome at h
  rw [hc] at h
  split at h
  · rename_i heq
    subst heq
    rw [h, hold]
    simp [← hold]
  · rcases h with h | ⟨hlt, h⟩ | ⟨hlt, h⟩
    · rw [h]
      unfold memcpy
      by_cases hle : n * s ≤ old.length
      · rw [Nat.min_eq_left hle]
        have h0 : n * s - old.length = 0 := by omega
        simp [h0]
      · have hle' : old.length ≤ n * s := by omega
        rw [Nat.min_eq_right hle']
        rw [List.take_of_length_le (le_refl _), List.take_of_length_le hle']
        simp
    · rw [h]
      have hle : old.length ≤ n * s := by rw [hold]; exact Nat.mul_le_mul_right s (by omega)
      rw [List.take_of_length_le hle, hold, Nat.sub_mul]
    · rw [h]
      have hle : n * s ≤ old.length := by rw [hold]; exact Nat.mul_le_mul_right s (by omega)
      have h0 : n * s - old.length = 0 := by omega
      simp [h0]

theorem canonical_length {m : Nat} (old : List uchar) :
    (old.take m ++ List.replicate (m - old.length) (0 : uchar)).length = m := by
  simp
  omega

theorem canonical_take {m k : Nat} (old : List uchar) (hk : k ≤ m) (hk2 : k ≤ old.length) :
    (old.take m ++ List.replicate (m - old.length) (0 : uchar)).take k = old.take k := by
  rw [List.take_append_of_le_length (by simp; omega), List.take_take, Nat.min_eq_left hk]

theorem canonical_zero {m k : Nat} (old : List uchar) (hk : old.length ≤ k) (hk2 : k < m) :
    (old.take m ++ List.replicate (m - old.length) (0 : uchar))[k]? = some 0 := by
  have hl : (old.take m).length = old.length := by simp; omega
  rw [List.getElem?_append_right (by omega), hl, List.getElem?_replicate]
  have : k - old.length < m - old.length := by omega
  simp [this]

theorem mem_fold_remove_data (this : Nat) (cache : List (qpGeomVertexFormat × Nat))
    (m : qpGeomVertexCacheManager) (e : CacheEntry) :
    e ∈ (cache.foldl (fun m ci => m.remove_data this ci.1) m).entries ↔
      e ∈ m.entries ∧ ∀ ci ∈ cache, ¬ (e.source = this ∧ e.modifier = ci.1) := by
  induction cache generalizing m with
  | nil => simp
  | cons c cs ih =>
    rw [List.foldl_cons, ih]
    simp only [qpGeomVertexCacheManager.remove_data, List.mem_filter, List.mem_cons,
      decide_eq_true_eq, forall_eq_or_imp]
    tauto

theorem clear_cache_arrays (this : Nat) (self : qpGeomVertexData) (rt : Runtime) :
    (clear_cache this self rt).1._cycler._arrays = self._cycler._arrays ∧
    (clear_cache this self rt).1._format = self._format ∧
    (clear_cache this self rt).2.heap = rt.heap ∧
    (clear_cache this self rt).2.nassert_failed = rt.nassert_failed ∧
    (clear_cache this self rt).1._cycler._converted_cache = [] := ⟨rfl, rfl, rfl, rfl, rfl⟩

theorem set_num_vertices_state (this : Nat) (self : qpGeomVertexData) (n : Nat) (rt : Runtime)
    (hlen : self._format.get_num_arrays = self._cycler._arrays.length) :
    (set_num_vertices this self n rt).1._cycler._arrays =
      (set_num_vertices_loop self._format n self._cycler._arrays.length
        (self._cycler._arrays, rt.heap, false)).1 ∧
    (set_num_vertices this self n rt).2.heap =
      (set_num_vertices_loop self._format n self._cycler._arrays.length
        (self._cycler._arrays, rt.heap, false)).2.1 ∧
    (set_num_vertices this self n rt).1._format = self._format ∧
    (set_num_vertices this self n rt).2.nassert_failed = rt.nassert_failed := by
  unfold set_num_vertices
  rw [if_neg (not_not.mpr hlen)]
  simp only []
  split <;> exact ⟨rfl, rfl, rfl, rfl⟩

theorem set_num_vertices_cache (this : Nat) (self : qpGeomVertexData) (n : Nat) (rt : Runtime)
    (hlen : self._format.get_num_arrays = self._cycler._arrays.length)
    (hflag : (set_num_vertices_loop self._format n self._cycler._arrays.length
        (self._cycler._arrays, rt.heap, false)).2.2 = true) :
    (set_num_vertices this self n rt).1._cycler._converted_cache = [] ∧
    (set_num_vertices this self n rt).2.cache_mgr =
      self._cycler._converted_cache.foldl (fun m ci => m.remove_data this ci.1) rt.cache_mgr := by
  unfold set_num_vertices
  rw [if_neg (not_not.mpr hlen)]
  simp only []
  rw [if_pos hflag]
  exact ⟨rfl, rfl⟩

theorem set_num_vertices_inv (this : Nat) (self : qpGeomVertexData) (n : Nat) (rt : Runtime)
    (hwf : self.WF rt.heap) :
    LoopInv self._format n self._cycler._arrays rt.heap self._cycler._arrays.length
      ((set_num_vertices this self n rt).1._cycler._arrays,
       (set_num_vertices this self n rt).2.heap,
       (set_num_vertices_loop self._format n self._cycler._arrays.length
        (self._cycler._arrays, rt.heap, false)).2.2) := by
  obtain ⟨h1, h2, -, -⟩ := set_num_vertices_state this self n rt hwf.1
  rw [h1, h2]
  exact loopInv_loop self._format n self._cycler._arrays rt.heap hwf.2.2 _ (le_refl _)

theorem set_num_vertices_wf (this : Nat) (self : qpGeomVertexData) (n : Nat) (rt : Runtime)
    (hwf : self.WF rt.heap) :
    (set_num_vertices this self n rt).1.WF (set_num_vertices this self n rt).2.heap := by
  have inv := set_num_vertices_inv this self n rt hwf
  obtain ⟨-, -, h3, -⟩ := set_num_vertices_state this self n rt hwf.1
  refine ⟨?_, ?_, inv.refsOk⟩
  · rw [h3, inv.length_eq]; exact hwf.1
  · intro i hi
    unfold stride
    rw [h3]
    exact hwf.2.1 i (by rw [← inv.length_eq]; exact hi)

theorem set_num_vertices_outcome (this : Nat) (self : qpGeomVertexData) (n : Nat) (rt : Runtime)
    (hwf : self.WF rt.heap) (i : Nat) (hi : i < self._cycler._arrays.length) :
    ResizeOutcome n (self.stride i) (self.array_bytes rt.heap i)
      ((set_num_vertices this self n rt).1.array_bytes (set_num_vertices this self n rt).2.heap i) :=
  (set_num_vertices_inv this self n rt hwf).done i hi

theorem modify_array_data_shared (this : Nat) (self : qpGeomVertexData) (rt : Runtime)
    (i a : Nat) (hi : i < self._cycler._arrays.length)
    (hself : slot self._cycler._arrays i = some a)
    (hshared : 1 < (rt.heap.cell a).ref_count) :
    modify_array_data this self (i : Int) rt =
      (some rt.heap.next,
       { self with _cycler := { _arrays := self._cycler._arrays.set i (some rt.heap.next),
                                _converted_cache := [] } },
       { rt with
         heap := (((rt.heap.alloc (rt.heap.cell a).v).2.unref (some a)).ref (some rt.heap.next)),
         cache_mgr := (clear_cache this self rt).2.cache_mgr }) := by
  have hc : ((i : Int) ≥ 0 ∧ (i : Int) < self._cycler._arrays.length) := ⟨by omega, by omega⟩
  have hg : slot (self._cycler._arrays.set i (some rt.heap.next)) i = some rt.heap.next :=
    slot_set_self hi _
  simp only [modify_array_data, clear_cache, Int.toNat_ofNat, hself, PTA_uchar.get_ref_count,
    hc, not_true_eq_false, if_false, hshared, gt_iff_lt, if_true, Heap.alloc, PTA_uchar.bytes, hg,
    and_self]

theorem modify_array_data_unshared (this : Nat) (self : qpGeomVertexData) (rt : Runtime)
    (i : Nat) (hi : i < self._cycler._arrays.length)
    (hunshared : ¬ 1 < PTA_uchar.get_ref_count rt.heap (slot self._cycler._arrays i)) :
    modify_array_data this self (i : Int) rt =
      (slot self._cycler._arrays i,
       { self with _cycler := { self._cycler with _converted_cache := [] } },
       { rt with
         heap := rt.heap.ref (slot self._cycler._arrays i),
         cache_mgr := (clear_cache this self rt).2.cache_mgr }) := by
  have hc : ((i : Int) ≥ 0 ∧ (i : Int) < self._cycler._arrays.length) := ⟨by omega, by omega⟩
  simp only [modify_array_data, clear_cache, Int.toNat_ofNat, 
    hc, not_true_eq_false, if_false, hunshared, gt_iff_lt, and_self]

theorem set_num_vertices_bytes (this : Nat) (self : qpGeomVertexData) (n old : Nat) (rt : Runtime)
    (hwf : self.WF rt.heap)
    (hold : ∀ i, i < self._cycler._arrays.length →
      (self.array_bytes rt.heap i).length = old * self.stride i)
    (i : Nat) (hi : i < self._cycler._arrays.length) :
    ((set_num_vertices this self n rt).1.array_bytes
        (set_num_vertices this self n rt).2.heap i).length = n * self.stride i ∧
    ((set_num_vertices this self n rt).1.array_bytes
        (set_num_vertices this self n rt).2.heap i).take (min old n * self.stride i) =
      (self.array_bytes rt.heap i).take (min old n * self.stride i) ∧
    (∀ k, old * self.stride i ≤ k → k < n * self.stride i →
      ((set_num_vertices this self n rt).1.array_bytes
        (set_num_vertices this self n rt).2.heap i)[k]? = some 0) := by
  have hout := set_num_vertices_outcome this self n rt hwf i hi
  have hs := hwf.2.1 i hi
  have hcan := resizeOutcome_canonical hs (hold i hi) hout
  rw [hcan]
  have h1 : min old n * self.stride i ≤ n * self.stride i :=
    Nat.mul_le_mul_right _ (Nat.min_le_right old n)
  have h2 : min old n * self.stride i ≤ (self.array_bytes rt.heap i).length := by
    rw [hold i hi]; exact Nat.mul_le_mul_right _ (Nat.min_le_left old n)
  refine ⟨canonical_length _, canonical_take _ h1 h2, ?_⟩
  intro k hk1 hk2
  exact canonical_zero _ (by rw [hold i hi]; exact hk1) hk2

theorem bytes_ref (h : Heap) (q p : PTA_uchar) :
    PTA_uchar.bytes (h.ref q) p = PTA_uchar.bytes h p := by
  cases p with
  | none => rfl
  | some x =>
    cases q with
    | none => rfl
    | some y =>
      by_cases hxy : x = y
      · subst hxy; simp [PTA_uchar.bytes, Heap.ref]
      · simp [PTA_uchar.bytes, Heap.ref, Function.update_apply, hxy]

theorem bytes_unref (h : Heap) (q p : PTA_uchar) :
    PTA_uchar.bytes (h.unref q) p = PTA_uchar.bytes h p := by
  cases p with
  | none => rfl
  | some x =>
    cases q with
    | none => rfl
    | some y =>
      by_cases hxy : x = y
      · subst hxy; simp [PTA_uchar.bytes, Heap.unref]
      · simp [PTA_uchar.bytes, Heap.unref, Function.update_apply, hxy]

theorem get_num_vertices_eq (self : qpGeomVertexData) (rt : Runtime)
    (hlen : self._format.get_num_arrays = self._cycler._arrays.length)
    (hpos : 0 < self._cycler._arrays.length) :
    get_num_vertices self rt = ((self.array_bytes rt.heap 0).length / self.stride 0, rt) := by
  unfold get_num_vertices
  rw [if_neg (not_not.mpr hlen), if_neg (by omega)]
  rfl

theorem sameCount_count (self : qpGeomVertexData) (rt : Runtime) (hwf : self.WF rt.heap)
    (hsame : self.SameCount rt.heap) (i : Nat) (hi : i < self._cycler._arrays.length) :
    (self.array_bytes rt.heap i).length / self.stride i = (get_num_vertices self rt).1 := by
  obtain ⟨c, hc⟩ := hsame
  have hpos : 0 < self._cycler._arrays.length := by omega
  rw [get_num_vertices_eq self rt hwf.1 hpos, hc i hi, hc 0 hpos]
  show c * self.stride i / self.stride i = c * self.stride 0 / self.stride 0
  rw [Nat.mul_div_cancel c (hwf.2.1 i hi), Nat.mul_div_cancel c (hwf.2.1 0 hpos)]

theorem body_noop (format : qpGeomVertexFormat) (n i : Nat) (st : List PTA_uchar × Heap × Bool)
    (h : (slot_bytes st.1 st.2.1 i).length / (format.get_array i).get_stride = n) :
    set_num_vertices_body format n i st = st := by
  unfold set_num_vertices_body
  simp only [size_slot]
  rw [if_neg (by omega)]

theorem loop_noop (format : qpGeomVertexFormat) (n : Nat) (st : List PTA_uchar × Heap × Bool)
    (k : Nat)
    (h : ∀ i, i < k → (slot_bytes st.1 st.2.1 i).length / (format.get_array i).get_stride = n) :
    set_num_vertices_loop format n k st = st := by
  induction k with
  | zero => rfl
  | succ k ih =>
    rw [set_num_vertices_loop_succ, ih (fun i hi => h i (by omega))]
    exact body_noop format n k st (h k (by omega))

theorem modify_array_data_valid (this : Nat) (self : qpGeomVertexData) (rt : Runtime) (i : Nat)
    (hi : i < self._cycler._arrays.length) (hok : RefsOk self._cycler._arrays rt.heap) :
    (modify_array_data this self (i : Int) rt).2.1._cycler._converted_cache = [] ∧
    (modify_array_data this self (i : Int) rt).2.2.cache_mgr =
      self._cycler._converted_cache.foldl (fun m ci => m.remove_data this ci.1) rt.cache_mgr ∧
    (∀ ci, ci ∈ self._cycler._converted_cache →
      ∀ e, e ∈ (modify_array_data this self (i : Int) rt).2.2.cache_mgr.entries →
        ¬ (e.source = this ∧ e.modifier = ci.1)) ∧
    (modify_array_data this self (i : Int) rt).2.1._cycler._arrays.length =
      self._cycler._arrays.length ∧
    (∀ j, (modify_array_data this self (i : Int) rt).2.1.array_bytes
        (modify_array_data this self (i : Int) rt).2.2.heap j = self.array_bytes rt.heap j) ∧
    (modify_array_data this self (i : Int) rt).2.2.nassert_failed = rt.nassert_failed := by
  have hmgr : ∀ ci, ci ∈ self._cycler._converted_cache →
      ∀ e, e ∈ (self._cycler._converted_cache.foldl (fun m ci => m.remove_data this ci.1)
        rt.cache_mgr).entries → ¬ (e.source = this ∧ e.modifier = ci.1) := by
    intro ci hci e he
    rw [mem_fold_remove_data] at he
    exact he.2 ci hci
  by_cases hsh : 1 < PTA_uchar.get_ref_count rt.heap (slot self._cycler._arrays i)
  · cases hs : slot self._cycler._arrays i with
    | none => rw [hs] at hsh; simp [PTA_uchar.get_ref_count] at hsh
    | some a =>
      rw [hs] at hsh
      rw [modify_array_data_shared this self rt i a hi hs hsh]
      refine ⟨rfl, rfl, hmgr, by simp, ?_, rfl⟩
      intro j
      have heff : Effect i (rt.heap.cell a).v self._cycler._arrays rt.heap
          (self._cycler._arrays.set i (some rt.heap.next))
          ((rt.heap.alloc (rt.heap.cell a).v).2.unref (some a)) :=
        Or.inr (Or.inl ⟨rfl, by rw [hs]⟩)
      simp only [array_bytes, slot_bytes]
      rw [bytes_ref]
      by_cases hji : j = i
      · subst hji
        have hb := effect_self hok hi heff
        unfold slot_bytes at hb
        rw [hb, hs]; rfl
      · exact (effect_frame hok heff hji).2
  · rw [modify_array_data_unshared this self rt i hi hsh]
    refine ⟨rfl, rfl, hmgr, rfl, ?_, rfl⟩
    intro j
    simp only [array_bytes, slot_bytes]
    rw [bytes_ref]

theorem modify_array_data_out_of_range (this : Nat) (self : qpGeomVertexData) (rt : Runtime) (i : Int)
    (hi : i < 0 ∨ i ≥ self._cycler._arrays.length) :
    modify_array_data this self i rt = (none, self, rt.nassert 213) ∧
    (rt.nassert 213).heap = rt.heap ∧
    (rt.nassert 213).cache_mgr = rt.cache_mgr ∧
    (rt.nassert 213).nassert_failed = rt.nassert_failed ++ [213] := by
  refine ⟨?_, rfl, rfl, rfl⟩
  unfold modify_array_data
  rw [if_pos (by omega)]

theorem modify_array_data_format (this : Nat) (self : qpGeomVertexData) (array : Int)
    (rt : Runtime) : (modify_array_data this self array rt).2.1._format = self._format := by
  unfold modify_array_data
  split <;> rfl

theorem modify_array_data_frame (this : Nat) (self : qpGeomVertexData) (array : Int)
    (rt : Runtime) (hok : RefsOk self._cycler._arrays rt.heap) :
    (modify_array_data this self array rt).2.1._cycler._arrays.length =
      self._cycler._arrays.length ∧
    ∀ j, (modify_array_data this self array rt).2.1.array_bytes
        (modify_array_data this self array rt).2.2.heap j = self.array_bytes rt.heap j := by
  by_cases hr : array < 0 ∨ array ≥ self._cycler._arrays.length
  · rw [(modify_array_data_out_of_range this self rt array hr).1]
    exact ⟨rfl, fun _ => rfl⟩
  · have h0 : 0 ≤ array := by omega
    obtain ⟨i, rfl⟩ := Int.eq_ofNat_of_zero_le h0
    have hi : i < self._cycler._arrays.length := by omega
    obtain ⟨-, -, -, h4, h5, -⟩ := modify_array_data_valid this self rt i hi hok
    exact ⟨h4, h5⟩

theorem store_at_length (v : List uchar) (offset : Nat) (data : List uchar) :
    (store_at v offset data).length = v.length := by
  induction data generalizing v offset with
  | nil => rfl
  | cons b bs ih => rw [store_at, ih, List.length_set]

theorem store_bytes_length (h : Heap) (q : PTA_uchar) (offset : Nat) (data : List uchar)
    (p : PTA_uchar) :
    (PTA_uchar.bytes (PTA_uchar.store h q offset data) p).length = (PTA_uchar.bytes h p).length := by
  cases q with
  | none => rfl
  | some a =>
    cases p with
    | none => rfl
    | some x =>
      by_cases hxa : x = a
      · subst hxa
        simp [PTA_uchar.store, PTA_uchar.write, PTA_uchar.bytes, Heap.set_v, store_at_length]
      · simp [PTA_uchar.store, PTA_uchar.write, PTA_uchar.bytes, Heap.set_v,
          Function.update_apply, hxa]

theorem slot_replicate_none (k i : Nat) : slot (List.replicate k none) i = none := by
  unfold slot
  rw [List.getD_eq_getElem?_getD]
  by_cases h : i < k
  · rw [List.getElem?_replicate, if_pos h]; rfl
  · rw [List.getElem?_replicate, if_neg h]; rfl

theorem slot_map_none (l : List PTA_uchar) (i : Nat) :
    slot (l.map fun _ => (none : PTA_uchar)) i = none := by
  unfold slot
  rw [List.getD_eq_getElem?_getD, List.getElem?_map]
  cases l[i]? <;> rfl

theorem sameCount_new (format : qpGeomVertexFormat) (rt : Runtime) :
    (new format rt).1.SameCount (new format rt).2.heap := by
  refine ⟨0, fun i _ => ?_⟩
  unfold new
  split
  · simp [array_bytes, slot_bytes, slot, PTA_uchar.bytes]
  · simp [array_bytes, slot_bytes, slot_replicate_none, PTA_uchar.bytes]

theorem sameCount_set_num_vertices (this : Nat) (self : qpGeomVertexData) (n : Nat)
    (rt : Runtime) (hwf : self.WF rt.heap) (hsame : self.SameCount rt.heap) :
    (set_num_vertices this self n rt).1.SameCount (set_num_vertices this self n rt).2.heap := by
  obtain ⟨c, hc⟩ := hsame
  have inv := set_num_vertices_inv this self n rt hwf
  obtain ⟨-, -, hfmt, -⟩ := set_num_vertices_state this self n rt hwf.1
  refine ⟨n, fun i hi => ?_⟩
  have hi' : i < self._cycler._arrays.length := by rw [← inv.length_eq]; exact hi
  have h3 := (set_num_vertices_bytes this self n c rt hwf hc i hi').1
  rw [h3]
  unfold stride
  rw [hfmt]

theorem sameCount_clear_vertices (self : qpGeomVertexData) (rt : Runtime)
    (hsame : self.SameCount rt.heap) :
    (clear_vertices self rt).1.SameCount (clear_vertices self rt).2.heap := by
  unfold clear_vertices
  split
  · exact hsame
  · refine ⟨0, fun i _ => ?_⟩
    simp only [array_bytes, slot_bytes, slot_map_none, PTA_uchar.bytes, List.length_nil, Nat.zero_mul]

theorem sameCount_modify_array_data (this : Nat) (self : qpGeomVertexData) (array : Int)
    (rt : Runtime) (hok : RefsOk self._cycler._arrays rt.heap) (hsame : self.SameCount rt.heap) :
    (modify_array_data this self array rt).2.1.SameCount
      (modify_array_data this self array rt).2.2.heap := by
  obtain ⟨c, hc⟩ := hsame
  obtain ⟨hlen, hb⟩ := modify_array_data_frame this self array rt hok
  refine ⟨c, fun i hi => ?_⟩
  rw [hb i, hc i (by rw [← hlen]; exact hi)]
  unfold stride
  rw [modify_array_data_format]

theorem sameCount_set_array_data (self : qpGeomVertexData) (array : Int)
    (array_data : PTA_uchar) (rt : Runtime) (hsame : self.SameCount rt.heap)
    (hsize : PTA_uchar.size rt.heap array_data =
      PTA_uchar.size rt.heap (slot self._cycler._arrays array.toNat)) :
    (set_array_data self array array_data rt).1.SameCount
      (set_array_data self array array_data rt).2.heap := by
  obtain ⟨c, hc⟩ := hsame
  unfold set_array_data
  split
  · exact ⟨c, hc⟩
  · refine ⟨c, fun i hi => ?_⟩
    have hi' : i < self._cycler._arrays.length := by simpa using hi
    simp only [array_bytes, slot_bytes]
    rw [bytes_unref, bytes_ref]
    by_cases hia : array.toNat = i
    · subst hia
      rw [slot_set_self hi']
      have := hc _ hi'
      unfold array_bytes slot_bytes at this
      unfold PTA_uchar.size at hsize
      rw [hsize, this]; rfl
    · rw [slot_set_ne hia]
      exact hc i hi'

theorem sameCount_set_data {F : Type} (m : Machine F) (this : Nat) (self : qpGeomVertexData)
    (array : Nat) (data_type : qpGeomVertexDataType) (vertex : Nat) (data : Nat → F)
    (num_values : Int) (rt : Runtime) (hwf : self.WF rt.heap) (hsame : self.SameCount rt.heap) :
    (set_data m this self array data_type vertex data num_values rt).1.SameCount
      (set_data m this self array data_type vertex data num_values rt).2.heap := by
  unfold set_data
  simp only []
  generalize hr1 : set_data_grown this self array data_type vertex rt = r1
  have h1 : r1.1.WF r1.2.heap ∧ r1.1.SameCount r1.2.heap := by
    rw [← hr1]
    unfold set_data_grown
    simp only []
    split
    · exact ⟨set_num_vertices_wf this self _ rt hwf,
        sameCount_set_num_vertices this self _ rt hwf hsame⟩
    · exact ⟨hwf, hsame⟩
  have h2 := sameCount_modify_array_data this r1.1 (array : Int) r1.2 h1.1.2.2 h1.2
  obtain ⟨c, hc⟩ := h2
  split
  · refine ⟨c, fun i hi => ?_⟩
    have := hc i hi
    simp only [array_bytes, slot_bytes] at this ⊢
    rw [bytes_unref]
    exact this
  · split
    · refine ⟨c, fun i hi => ?_⟩
      have := hc i hi
      simp only [array_bytes, slot_bytes] at this ⊢
      rw [bytes_unref]
      exact this
    · refine ⟨c, fun i hi => ?_⟩
      have := hc i hi
      simp only [array_bytes, slot_bytes] at this ⊢
      rw [bytes_unref, store_bytes_length]
      exact this

theorem trunc_of_nonneg {q : ℚ} (h : 0 ≤ q) : trunc q = ⌊q⌋ := by
  unfold trunc; rw [if_pos h]

theorem machine_exact_exact : machine_exact.Exact := by
  refine ⟨fun _ => rfl, ?_, fun _ => rfl⟩
  intro x h0 h1
  show (trunc (x * 255)).toNat % 2 ^ 32 = (trunc (x * 255)).toNat
  apply Nat.mod_eq_of_lt
  rw [trunc_of_nonneg h0]
  have hf : ⌊x * 255⌋ < 2 ^ 32 := by
    rw [Int.floor_lt]; exact_mod_cast h1
  have h2 : 0 ≤ ⌊x * 255⌋ := Int.floor_nonneg.mpr h0
  omega

theorem pack_word_eq (A R G B : Nat) (hR : R < 256) (hG : G < 256) (hB : B < 256) :
    (A <<< 24) ||| (R <<< 16) ||| (G <<< 8) ||| B = A * 2 ^ 24 + R * 2 ^ 16 + G * 2 ^ 8 + B := by
  simp only [Nat.shiftLeft_eq]
  have h1 : A * 2 ^ 24 ||| R * 2 ^ 16 = A * 2 ^ 24 + R * 2 ^ 16 := by
    have := Nat.mul_add_lt_is_or (i := 24) (b := R * 2 ^ 16) (by omega) A
    rw [Nat.mul_comm (2 ^ 24) A] at this
    exact this.symm
  have h2 : (A * 2 ^ 24 + R * 2 ^ 16) ||| G * 2 ^ 8 = A * 2 ^ 24 + R * 2 ^ 16 + G * 2 ^ 8 := by
    have := Nat.mul_add_lt_is_or (i := 16) (b := G * 2 ^ 8) (by omega) (A * 2 ^ 8 + R)
    have e : 2 ^ 16 * (A * 2 ^ 8 + R) = A * 2 ^ 24 + R * 2 ^ 16 := by ring
    rw [e] at this
    exact this.symm
  have h3 : (A * 2 ^ 24 + R * 2 ^ 16 + G * 2 ^ 8) ||| B =
      A * 2 ^ 24 + R * 2 ^ 16 + G * 2 ^ 8 + B := by
    have := Nat.mul_add_lt_is_or (i := 8) (b := B) (by omega) (A * 2 ^ 16 + R * 2 ^ 8 + G)
    have e : 2 ^ 8 * (A * 2 ^ 16 + R * 2 ^ 8 + G) = A * 2 ^ 24 + R * 2 ^ 16 + G * 2 ^ 8 := by ring
    rw [e] at this
    exact this.symm
  rw [h1, h2, h3]

theorem and_ff (x : Nat) : x &&& 0xff = x % 256 := Nat.and_pow_two_sub_one_eq_mod x 8



theorem pack_argb_eq {F : Type} (m : Machine F) (data : Nat → F) :
    pack_argb m data =
      (m.scale_uint (data 3) % 256) * 2 ^ 24 + (m.scale_uint (data 0) % 256) * 2 ^ 16 +
        (m.scale_uint (data 1) % 256) * 2 ^ 8 + m.scale_uint (data 2) % 256 := by
  unfold pack_argb
  simp only [and_ff]
  exact pack_word_eq _ _ _ _ (Nat.mod_lt _ (by decide)) (Nat.mod_lt _ (by decide))
    (Nat.mod_lt _ (by decide))

theorem word_channels (A R G B : Nat) (hA : A < 256) (hR : R < 256) (hG : G < 256)
    (hB : B < 256) :
    ((A * 2 ^ 24 + R * 2 ^ 16 + G * 2 ^ 8 + B) >>> 16) &&& 0xff = R ∧
    ((A * 2 ^ 24 + R * 2 ^ 16 + G * 2 ^ 8 + B) >>> 8) &&& 0xff = G ∧
    (A * 2 ^ 24 + R * 2 ^ 16 + G * 2 ^ 8 + B) &&& 0xff = B ∧
    ((A * 2 ^ 24 + R * 2 ^ 16 + G * 2 ^ 8 + B) >>> 24) &&& 0xff = A ∧
    (A * 2 ^ 24 + R * 2 ^ 16 + G * 2 ^ 8 + B) >>> 24 = A ∧
    A * 2 ^ 24 + R * 2 ^ 16 + G * 2 ^ 8 + B < 2 ^ 32 := by
  simp only [and_ff, Nat.shiftRight_eq_div_pow]
  refine ⟨?_, ?_, ?_, ?_, ?_, ?_⟩ <;> omega

theorem channels_of_word (w : Nat) (hw : w < 2 ^ 32) :
    (((w >>> 24) &&& 0xff) % 256) * 2 ^ 24 + (((w >>> 16) &&& 0xff) % 256) * 2 ^ 16 +
      (((w >>> 8) &&& 0xff) % 256) * 2 ^ 8 + (w &&& 0xff) % 256 = w := by
  simp only [and_ff, Nat.shiftRight_eq_div_pow]
  omega

theorem scale_uint_exact (m : Machine ℚ) (hm : m.Exact) (x : ℚ) (h0 : 0 ≤ x * 255)
    (h1 : x * 255 < 2 ^ 32) : m.scale_uint x = ⌊x * 255⌋.toNat := by
  rw [hm.2.1 x h0 h1, trunc_of_nonneg h0]

theorem scale_uint_unscale (m : Machine ℚ) (hm : m.Exact) (c : Nat) (hc : c < 256) :
    m.scale_uint (m.unscale c) = c := by
  have e : ((c : ℚ) / 255) * 255 = c := by field_simp
  rw [hm.2.2, scale_uint_exact m hm _ (by rw [e]; exact_mod_cast Nat.zero_le c)
    (by rw [e]; have : (c : ℚ) < 256 := by exact_mod_cast hc
        linarith), e]
  simp

theorem floor_scaled_unit (x : ℚ) (h0 : 0 ≤ x) (h1 : x ≤ 1) :
    ⌊x * 255⌋.toNat < 256 ∧ ((⌊x * 255⌋.toNat : ℕ) : ℚ) / 255 ≤ x ∧
      x - ((⌊x * 255⌋.toNat : ℕ) : ℚ) / 255 < 1 / 255 := by
  have hx0 : 0 ≤ x * 255 := by positivity
  have hf0 : 0 ≤ ⌊x * 255⌋ := Int.floor_nonneg.mpr hx0
  have hf1 : ⌊x * 255⌋ ≤ 255 := by
    have : ⌊x * 255⌋ ≤ ⌊(255 : ℚ)⌋ := Int.floor_mono (by linarith)
    simpa using this
  have hcast : ((⌊x * 255⌋.toNat : ℕ) : ℚ) = (⌊x * 255⌋ : ℚ) := by
    have : ((⌊x * 255⌋.toNat : ℕ) : ℤ) = ⌊x * 255⌋ := Int.toNat_of_nonneg hf0
    exact_mod_cast congrArg (fun z : ℤ => (z : ℚ)) this
  refine ⟨by omega, ?_, ?_⟩
  · rw [hcast, div_le_iff₀ (by norm_num)]
    exact Int.floor_le _
  · rw [hcast]
    have := Int.lt_floor_add_one (x * 255)
    rw [sub_lt_iff_lt_add, ← add_div, lt_div_iff₀ (by norm_num)]
    linarith



theorem pack_argb_exact (m : Machine ℚ) (hm : m.Exact) (r g b a : ℚ)
    (hr : 0 ≤ r * 255 ∧ r * 255 < 2 ^ 32) (hg : 0 ≤ g * 255 ∧ g * 255 < 2 ^ 32)
    (hb : 0 ≤ b * 255 ∧ b * 255 < 2 ^ 32) (ha : 0 ≤ a * 255 ∧ a * 255 < 2 ^ 32) :
    pack_argb m (channels r g b a) =
      (⌊a * 255⌋.toNat % 256) * 2 ^ 24 + (⌊r * 255⌋.toNat % 256) * 2 ^ 16 +
        (⌊g * 255⌋.toNat % 256) * 2 ^ 8 + ⌊b * 255⌋.toNat % 256 := by
  rw [pack_argb_eq]
  show (m.scale_uint a % 256) * 2 ^ 24 + (m.scale_uint r % 256) * 2 ^ 16 +
        (m.scale_uint g % 256) * 2 ^ 8 + m.scale_uint b % 256 = _
  rw [scale_uint_exact m hm r hr.1 hr.2, scale_uint_exact m hm g hg.1 hg.2,
    scale_uint_exact m hm b hb.1 hb.2, scale_uint_exact m hm a ha.1 ha.2]

theorem unit_range {x : ℚ} (h0 : 0 ≤ x) (h1 : x ≤ 1) : 0 ≤ x * 255 ∧ x * 255 < 2 ^ 32 := by
  constructor
  · positivity
  · have : x * 255 ≤ 255 := by linarith
    have h2 : (255 : ℚ) < 2 ^ 32 := by norm_num
    linarith

theorem unpack_pack_exact (m : Machine ℚ) (hm : m.Exact) (r g b a : ℚ)
    (hr : 0 ≤ r ∧ r ≤ 1) (hg : 0 ≤ g ∧ g ≤ 1) (hb : 0 ≤ b ∧ b ≤ 1) (ha : 0 ≤ a ∧ a ≤ 1) :
    pack_argb m (channels r g b a) =
      ⌊a * 255⌋.toNat * 2 ^ 24 + ⌊r * 255⌋.toNat * 2 ^ 16 + ⌊g * 255⌋.toNat * 2 ^ 8 +
        ⌊b * 255⌋.toNat ∧
    unpack_argb m (pack_argb m (channels r g b a)) =
      [((⌊r * 255⌋.toNat : ℕ) : ℚ) / 255, ((⌊g * 255⌋.toNat : ℕ) : ℚ) / 255,
       ((⌊b * 255⌋.toNat : ℕ) : ℚ) / 255, ((⌊a * 255⌋.toNat : ℕ) : ℚ) / 255] := by
  have hR := (floor_scaled_unit r hr.1 hr.2).1
  have hG := (floor_scaled_unit g hg.1 hg.2).1
  have hB := (floor_scaled_unit b hb.1 hb.2).1
  have hA := (floor_scaled_unit a ha.1 ha.2).1
  have hp := pack_argb_exact m hm r g b a (unit_range hr.1 hr.2) (unit_range hg.1 hg.2)
    (unit_range hb.1 hb.2) (unit_range ha.1 ha.2)
  rw [Nat.mod_eq_of_lt hR, Nat.mod_eq_of_lt hG, Nat.mod_eq_of_lt hB, Nat.mod_eq_of_lt hA] at hp
  refine ⟨hp, ?_⟩
  obtain ⟨h1, h2, h3, h4, -, -⟩ := word_channels _ _ _ _ hA hR hG hB
  unfold unpack_argb
  rw [hp, h1, h2, h3, h4, hm.2.2, hm.2.2, hm.2.2, hm.2.2]

theorem modify_array_data_handle (this : Nat) (self : qpGeomVertexData) (rt : Runtime) (i : Nat)
    (hi : i < self._cycler._arrays.length) :
    (modify_array_data this self (i : Int) rt).1 =
      slot (modify_array_data this self (i : Int) rt).2.1._cycler._arrays i := by
  by_cases hsh : 1 < PTA_uchar.get_ref_count rt.heap (slot self._cycler._arrays i)
  · cases hs : slot self._cycler._arrays i with
    | none => rw [hs] at hsh; simp [PTA_uchar.get_ref_count] at hsh
    | some a =>
      rw [hs] at hsh
      rw [modify_array_data_shared this self rt i a hi hs hsh]
      exact (slot_set_self hi _).symm
  · rw [modify_array_data_unshared this self rt i hi hsh]

theorem store_at_getD_lt (v : List uchar) (offset : Nat) (data : List uchar) (j : Nat)
    (hj : j < offset) : (store_at v offset data).getD j 0 = v.getD j 0 := by
  induction data generalizing v offset with
  | nil => rfl
  | cons b bs ih =>
    rw [store_at, ih _ _ (by omega)]
    simp only [List.getD_eq_getElem?_getD]
    rw [List.getElem?_set_ne (by omega)]

theorem store_at_getD (v : List uchar) (offset : Nat) (data : List uchar) (i : Nat)
    (hi : i < data.length) (hv : offset + i < v.length) :
    (store_at v offset data).getD (offset + i) 0 = data.getD i 0 := by
  induction data generalizing v offset i with
  | nil => simp at hi
  | cons b bs ih =>
    rw [store_at]
    cases i with
    | zero =>
      rw [store_at_getD_lt _ _ _ _ (by omega)]
      simp only [List.getD_eq_getElem?_getD, Nat.add_zero]
      rw [List.getElem?_set_self (by omega)]
      simp
    | succ i =>
      have h := ih (v.set offset b) (offset + 1) i (by simpa using hi) (by simp; omega)
      have e : offset + (i + 1) = offset + 1 + i := by omega
      rw [e, h]
      simp

theorem bytes_store_self (h : Heap) (q : PTA_uchar) (offset : Nat) (data : List uchar) :
    PTA_uchar.bytes (PTA_uchar.store h q offset data) q =
      store_at (PTA_uchar.bytes h q) offset data := by
  cases q with
  | none =>
    show [] = store_at [] offset data
    induction data generalizing offset with
    | nil => rfl
    | cons b bs ih => rw [store_at]; exact ih _
  | some a => simp [PTA_uchar.store, PTA_uchar.write, PTA_uchar.bytes, Heap.set_v]

theorem set_data_grown_fits (this : Nat) (self : qpGeomVertexData) (array : Nat)
    (data_type : qpGeomVertexDataType) (vertex : Nat) (rt : Runtime)
    (hwf : self.WF rt.heap) (hsame : self.SameCount rt.heap)
    (harray : array < self._cycler._arrays.length)
    (hfit : data_type.get_start + data_type.get_total_bytes ≤ self.stride array) :
    (set_data_grown this self array data_type vertex rt).1.WF
      (set_data_grown this self array data_type vertex rt).2.heap ∧
    (set_data_grown this self array data_type vertex rt).1._format = self._format ∧
    (set_data_grown this self array data_type vertex rt).1._cycler._arrays.length =
      self._cycler._arrays.length ∧
    (set_data_grown this self array data_type vertex rt).2.nassert_failed = rt.nassert_failed ∧
    vertex * self.stride array + data_type.get_start + data_type.get_total_bytes ≤
      ((set_data_grown this self array data_type vertex rt).1.array_bytes
        (set_data_grown this self array data_type vertex rt).2.heap array).length := by
  unfold set_data_grown
  simp only []
  split
  · obtain ⟨c, hc⟩ := hsame
    have inv := set_num_vertices_inv this self (vertex + 1) rt hwf
    obtain ⟨-, -, hfmt, hlog⟩ := set_num_vertices_state this self (vertex + 1) rt hwf.1
    refine ⟨set_num_vertices_wf this self _ rt hwf, hfmt, inv.length_eq, hlog, ?_⟩
    rw [(set_num_vertices_bytes this self (vertex + 1) c rt hwf hc array harray).1]
    have : (vertex + 1) * self.stride array = vertex * self.stride array + self.stride array := by
      ring
    omega
  · rename_i hnot
    refine ⟨hwf, rfl, rfl, rfl, ?_⟩
    show vertex * (self._format.get_array array).get_stride + data_type.get_start +
      data_type.get_total_bytes ≤ (PTA_uchar.bytes rt.heap (slot self._cycler._arrays array)).length
    unfold PTA_uchar.size at hnot
    omega

theorem set_data_stored {F : Type} (m : Machine F) (this : Nat) (self : qpGeomVertexData)
    (array : Nat) (data_type : qpGeomVertexDataType) (vertex : Nat) (data : Nat → F)
    (num_values : Int) (rt : Runtime) (stored : List uchar)
    (hwf : self.WF rt.heap) (hsame : self.SameCount rt.heap)
    (harray : array < self._cycler._arrays.length)
    (hfit : data_type.get_start + data_type.get_total_bytes ≤ self.stride array)
    (hstored : set_data_bytes m data_type data num_values = .ok stored) :
    (set_data m this self array data_type vertex data num_values rt).1.array_bytes
        (set_data m this self array data_type vertex data num_values rt).2.heap array =
      store_at ((set_data_grown this self array data_type vertex rt).1.array_bytes
        (set_data_grown this self array data_type vertex rt).2.heap array)
        (vertex * self.stride array + data_type.get_start) stored ∧
    (set_data m this self array data_type vertex data num_values rt).1._format = self._format ∧
    (set_data m this self array data_type vertex data num_values rt).2.nassert_failed =
      rt.nassert_failed := by
  obtain ⟨hwf1, hfmt1, hlen1, hlog1, hfits⟩ :=
    set_data_grown_fits this self array data_type vertex rt hwf hsame harray hfit
  unfold set_data
  simp only []
  generalize set_data_grown this self array data_type vertex rt = r1 at hwf1 hfmt1 hlen1 hlog1 hfits
  have harray1 : array < r1.1._cycler._arrays.length := by rw [hlen1]; exact harray
  obtain ⟨-, -, -, -, hb, hlog2⟩ := modify_array_data_valid this r1.1 r1.2 array harray1 hwf1.2.2
  have hq := modify_array_data_handle this r1.1 r1.2 array harray1
  have hfmt2 := modify_array_data_format this r1.1 (array : Int) r1.2
  generalize modify_array_data this r1.1 (array : Int) r1.2 = r2 at hb hlog2 hq hfmt2
  have hbq : PTA_uchar.bytes r2.2.2.heap r2.1 = r1.1.array_bytes r1.2.heap array := by
    rw [← hb array, hq]; rfl
  have hsize : vertex * (self._format.get_array array).get_stride + data_type.get_start +
      data_type.get_total_bytes ≤ PTA_uchar.size r2.2.2.heap r2.1 := by
    unfold PTA_uchar.size
    rw [hbq]
    exact hfits
  rw [if_neg (not_not.mpr hsize), hstored]
  refine ⟨?_, by rw [hfmt2, hfmt1], by show r2.2.2.nassert_failed = _; rw [hlog2, hlog1]⟩
  show PTA_uchar.bytes (Heap.unref (PTA_uchar.store r2.2.2.heap r2.1 _ stored) r2.1)
      (slot r2.2.1._cycler._arrays array) = _
  rw [bytes_unref, ← hq, bytes_store_self, hbq]
  rfl



theorem to_uchar_floor (x : ℚ) (h0 : 0 ≤ x) (h1 : x ≤ 1) :
    (to_uchar (trunc (x * 255))).val = ⌊x * 255⌋.toNat := by
  have hx0 : 0 ≤ x * 255 := by positivity
  have hlt := (floor_scaled_unit x h0 h1).1
  have hf0 : 0 ≤ ⌊x * 255⌋ := Int.floor_nonneg.mpr hx0
  rw [trunc_of_nonneg hx0]
  unfold to_uchar
  show (⌊x * 255⌋ % 256).toNat % 256 = _
  omega

theorem set_data_uint8 (m : Machine ℚ) (hm : m.Exact) (this : Nat) (self : qpGeomVertexData)
    (array : Nat) (data_type : qpGeomVertexDataType) (vertex : Nat) (data : Nat → ℚ) (k : Nat)
    (rt : Runtime)
    (hwf : self.WF rt.heap) (hsame : self.SameCount rt.heap)
    (harray : array < self._cycler._arrays.length)
    (htype : data_type.get_numeric_type = .NT_uint8)
    (hk : k ≤ data_type.get_num_values)
    (hbytes : data_type.get_num_values ≤ data_type.get_total_bytes)
    (hfit : data_type.get_start + data_type.get_total_bytes ≤ self.stride array)
    (hunit : ∀ i, i < k → 0 ≤ data i ∧ data i ≤ 1) :
    (∀ i, i < k →
      (((set_data m this self array data_type vertex data k rt).1.array_bytes
        (set_data m this self array data_type vertex data k rt).2.heap array).getD
          (vertex * self.stride array + data_type.get_start + i) 0).val =
        ⌊data i * 255⌋.toNat) ∧
    (get_data m (set_data m this self array data_type vertex data k rt).1 array data_type vertex k
        (set_data m this self array data_type vertex data k rt).2).1 =
      (List.range k).map fun i => ((⌊data i * 255⌋.toNat : ℕ) : ℚ) / 255 := by
  have hstored : set_data_bytes m data_type data (k : Int) =
      .ok ((List.range k).map fun i => to_uchar (m.scale_int (data i))) := by
    unfold set_data_bytes
    rw [htype]
    simp only []
    rw [if_neg (by omega)]
    rfl
  obtain ⟨hb, hfmt, -⟩ := set_data_stored m this self array data_type vertex data k rt _
    hwf hsame harray hfit hstored
  obtain ⟨-, -, -, -, hfits⟩ :=
    set_data_grown_fits this self array data_type vertex rt hwf hsame harray hfit
  have hbyte : ∀ i, i < k →
      (((set_data m this self array data_type vertex data k rt).1.array_bytes
        (set_data m this self array data_type vertex data k rt).2.heap array).getD
          (vertex * self.stride array + data_type.get_start + i) 0).val =
        ⌊data i * 255⌋.toNat := by
    intro i hi
    rw [hb, store_at_getD _ _ _ i (by simpa using hi) (by omega)]
    simp only [List.getD_eq_getElem?_getD]
    rw [List.getElem?_map, List.getElem?_range hi]
    show (to_uchar (m.scale_int (data i))).val = _
    rw [hm.1, to_uchar_floor _ (hunit i hi).1 (hunit i hi).2]
  refine ⟨hbyte, ?_⟩
  unfold get_data
  simp only []
  have hst : (((set_data m this self array data_type vertex data k rt).1)._format.get_array
      array).get_stride = self.stride array := by rw [hfmt]; rfl
  rw [hst]
  have hlen : vertex * self.stride array + data_type.get_start + data_type.get_total_bytes ≤
      ((set_data m this self array data_type vertex data k rt).1.array_bytes
        (set_data m this self array data_type vertex data k rt).2.heap array).length := by
    rw [hb, store_at_length]; exact hfits
  rw [if_neg (not_not.mpr hlen)]
  unfold get_data_values
  rw [htype]
  simp only []
  rw [if_neg (by omega)]
  simp only [Int.toNat_ofNat]
  apply List.map_congr_left
  intro i hi
  have hi' : i < k := List.mem_range.mp hi
  rw [hbyte i hi', hm.2.2]

theorem cache_find_filter_ne (F G : qpGeomVertexFormat) (cache : List (qpGeomVertexFormat × Nat))
    (h : G ≠ F) :
    cache_find F (cache.filter fun ci => ¬ (ci.1 = G)) = cache_find F cache := by
  induction cache with
  | nil => rfl
  | cons c cs ih =>
    by_cases hc : c.1 = G
    · have hcF : ¬ c.1 = F := fun e => h (hc.symm.trans e)
      rw [List.filter_cons_of_neg (by simpa using hc), ih, cache_find, if_neg hcF]
    · rw [List.filter_cons_of_pos (by simpa using hc), cache_find, cache_find, ih]

theorem cache_find_filter_eq (F : qpGeomVertexFormat) (cache : List (qpGeomVertexFormat × Nat)) :
    cache_find F (cache.filter fun ci => ¬ (ci.1 = F)) = none := by
  induction cache with
  | nil => rfl
  | cons c cs ih =>
    by_cases hc : c.1 = F
    · rw [List.filter_cons_of_neg (by simpa using hc), ih]
    · rw [List.filter_cons_of_pos (by simpa using hc), cache_find, if_neg hc, ih]

theorem cache_find_append (F : qpGeomVertexFormat) (l1 l2 : List (qpGeomVertexFormat × Nat)) :
    cache_find F (l1 ++ l2) = (cache_find F l1).orElse fun _ => cache_find F l2 := by
  induction l1 with
  | nil => rfl
  | cons c cs ih =>
    rw [List.cons_append, cache_find, cache_find]
    split
    · rfl
    · exact ih

theorem cache_find_insert (F G : qpGeomVertexFormat) (cache : List (qpGeomVertexFormat × Nat))
    (r : Nat) :
    cache_find F (cache_insert cache G r) = if G = F then some r else cache_find F cache := by
  unfold cache_insert
  rw [cache_find_append]
  by_cases h : G = F
  · subst h
    rw [cache_find_filter_eq, if_pos rfl]
    simp [cache_find]
  · rw [cache_find_filter_ne F G cache h, if_neg h]
    cases cache_find F cache with
    | none => simp [cache_find, h]
    | some x => rfl

theorem evict_objects (max_size kept_size : Nat) (l : List CacheEntry) (objects : Objects)
    (x : Nat) :
    ((qpGeomVertexCacheManager.evict max_size kept_size l objects).2 x)._format =
      (objects x)._format ∧
    ((qpGeomVertexCacheManager.evict max_size kept_size l objects).2 x)._cycler._arrays =
      (objects x)._cycler._arrays := by
  induction l generalizing objects with
  | nil => exact ⟨rfl, rfl⟩
  | cons e rest ih =>
    rw [qpGeomVertexCacheManager.evict]
    split
    · obtain ⟨h1, h2⟩ := ih (Function.update objects e.source
        ((objects e.source).remove_cache_entry e.modifier))
      rw [h1, h2]
      by_cases hx : x = e.source
      · subst hx; simp [remove_cache_entry]
      · simp [Function.update_apply, hx]
    · exact ⟨rfl, rfl⟩

theorem evict_cache_find (max_size kept_size : Nat) (l : List CacheEntry) (objects : Objects)
    (x : Nat) (F : qpGeomVertexFormat)
    (hl : ∀ e, e ∈ l → ¬ (e.source = x ∧ e.modifier = F)) :
    cache_find F ((qpGeomVertexCacheManager.evict max_size kept_size l objects).2
      x)._cycler._converted_cache = cache_find F (objects x)._cycler._converted_cache := by
  induction l generalizing objects with
  | nil => rfl
  | cons e rest ih =>
    rw [qpGeomVertexCacheManager.evict]
    split
    · rw [ih _ (fun e' he' => hl e' (List.mem_cons_of_mem _ he'))]
      by_cases hx : x = e.source
      · subst hx
        have hne : e.modifier ≠ F := fun hm => hl e (List.mem_cons_self _ _) ⟨rfl, hm⟩
        simp only [Function.update_same, remove_cache_entry]
        exact cache_find_filter_ne F e.modifier _ hne
      · simp [Function.update_apply, hx]
    · rfl

theorem evict_mem (max_size kept_size : Nat) (l : List CacheEntry) (objects : Objects)
    (e : CacheEntry) (he : e ∈ (qpGeomVertexCacheManager.evict max_size kept_size l objects).1) :
    e ∈ l := by
  induction l generalizing objects with
  | nil => simp [qpGeomVertexCacheManager.evict] at he
  | cons c rest ih =>
    rw [qpGeomVertexCacheManager.evict] at he
    split at he
    · exact List.mem_cons_of_mem _ (ih _ he)
    · exact he

theorem evict_stable (max_size kept_size : Nat) (l : List CacheEntry) (objects objects1 : Objects) :
    qpGeomVertexCacheManager.evict max_size kept_size
      (qpGeomVertexCacheManager.evict max_size kept_size l objects).1 objects1 =
      ((qpGeomVertexCacheManager.evict max_size kept_size l objects).1, objects1) := by
  induction l generalizing objects with
  | nil => rfl
  | cons c rest ih =>
    rw [qpGeomVertexCacheManager.evict]
    split
    · exact ih _
    · rename_i hcond
      show qpGeomVertexCacheManager.evict max_size kept_size (c :: rest) objects1 = _
      rw [qpGeomVertexCacheManager.evict, if_neg hcond]

theorem record_data_idem (w : World) (source : Nat) (modifier : qpGeomVertexFormat)
    (result_size : Nat) :
    (w.record_data source modifier result_size).record_data source modifier result_size =
      w.record_data source modifier result_size := by
  unfold World.record_data
  simp only []
  have hfilter : ((qpGeomVertexCacheManager.evict w.rt.cache_mgr.max_size result_size
        (w.rt.cache_mgr.entries.filter fun e => ¬ (e.source = source ∧ e.modifier = modifier))
        w.objects).1 ++
        [({ source := source, modifier := modifier, result_size := result_size } :
          CacheEntry)]).filter
        (fun e => ¬ (e.source = source ∧ e.modifier = modifier)) =
      (qpGeomVertexCacheManager.evict w.rt.cache_mgr.max_size result_size
        (w.rt.cache_mgr.entries.filter fun e => ¬ (e.source = source ∧ e.modifier = modifier))
        w.objects).1 := by
    rw [List.filter_append]
    have h1 : ([({ source := source, modifier := modifier, result_size := result_size } :
        CacheEntry)].filter fun e => ¬ (e.source = source ∧ e.modifier = modifier)) = [] := by
      simp
    rw [h1, List.append_nil, List.filter_eq_self]
    intro e he
    have := evict_mem _ _ _ _ e he
    exact (List.mem_filter.mp this).2
  rw [hfilter, evict_stable]



theorem record_data_frame (w : World) (source : Nat) (modifier : qpGeomVertexFormat)
    (result_size : Nat) :
    (w.record_data source modifier result_size).rt.heap = w.rt.heap ∧
    (w.record_data source modifier result_size).rt.nassert_failed = w.rt.nassert_failed ∧
    (w.record_data source modifier result_size).next_object = w.next_object ∧
    (∀ x, ((w.record_data source modifier result_size).objects x)._format = (w.objects x)._format ∧
      ((w.record_data source modifier result_size).objects x)._cycler._arrays =
        (w.objects x)._cycler._arrays) ∧
    cache_find modifier
        ((w.record_data source modifier result_size).objects source)._cycler._converted_cache =
      cache_find modifier (w.objects source)._cycler._converted_cache := by
  refine ⟨rfl, rfl, rfl, fun x => evict_objects _ _ _ _ x, ?_⟩
  exact evict_cache_find _ _ _ _ source modifier (fun e he => by
    have hp := (List.mem_filter.mp he).2
    exact of_decide_eq_true hp)

theorem get_num_bytes_congr (s1 s2 : qpGeomVertexData) (rt1 rt2 : Runtime)
    (ha : s1._cycler._arrays = s2._cycler._arrays) (hh : rt1.heap = rt2.heap) :
    get_num_bytes s1 rt1 = get_num_bytes s2 rt2 := by
  unfold get_num_bytes
  rw [ha, hh]

theorem convert_to_again (cv : Converter) (this : Nat) (new_format : qpGeomVertexFormat)
    (w0 : World) (z r : Nat)
    (hne : new_format ≠ (w0.objects this)._format)
    (hfind : cache_find new_format (w0.objects this)._cycler._converted_cache = some r)
    (hz : get_num_bytes (w0.objects r) w0.rt = z) :
    convert_to cv this new_format (w0.record_data this new_format z) =
      (r, w0.record_data this new_format z) := by
  obtain ⟨hheap, -, -, hobj, hcache⟩ := record_data_frame w0 this new_format z
  unfold convert_to
  rw [if_neg (by rw [(hobj this).1]; exact hne), hcache, hfind]
  simp only []
  rw [get_num_bytes_congr _ (w0.objects r) _ w0.rt (hobj r).2 hheap, hz, record_data_idem]

theorem convert_to_shape (cv : Converter) (this : Nat) (new_format : qpGeomVertexFormat)
    (w : World) (hne : new_format ≠ (w.objects this)._format) (hthis : this < w.next_object) :
    ∃ (w0 : World) (z : Nat), convert_to cv this new_format w =
        ((convert_to cv this new_format w).1, w0.record_data this new_format z) ∧
      (w0.objects this)._format = (w.objects this)._format ∧
      cache_find new_format (w0.objects this)._cycler._converted_cache =
        some (convert_to cv this new_format w).1 ∧
      get_num_bytes (w0.objects (convert_to cv this new_format w).1) w0.rt = z := by
  unfold convert_to
  rw [if_neg hne]
  cases hfind : cache_find new_format (w.objects this)._cycler._converted_cache with
  | some cached =>
    exact ⟨w, _, rfl, rfl, hfind, rfl⟩
  | none =>
    refine ⟨convert_cached cv this new_format w, _, rfl, ?_, ?_, rfl⟩
    · have hne2 : this ≠ w.next_object := by omega
      simp [convert_cached, Function.update_apply, hne2]
    · have hne2 : this ≠ w.next_object := by omega
      simp only [convert_cached, Function.update_apply, hne2, if_false, if_true]
      rw [cache_find_insert, if_pos rfl]

/-! ### Handles of two stores in one heap -/

theorem slot_append_left (pre l : List PTA_uchar) {j : Nat} (hj : j < pre.length) :
    slot (pre ++ l) j = slot pre j := by
  unfold slot
  rw [List.getD_eq_getElem?_getD, List.getD_eq_getElem?_getD, List.getElem?_append_left hj]

theorem slot_append_right (pre l : List PTA_uchar) (i : Nat) :
    slot (pre ++ l) (pre.length + i) = slot l i := by
  unfold slot
  rw [List.getD_eq_getElem?_getD, List.getD_eq_getElem?_getD,
    List.getElem?_append_right (by omega)]
  simp

theorem set_append_right (pre l : List PTA_uchar) (i : Nat) (p : PTA_uchar) :
    (pre ++ l).set (pre.length + i) p = pre ++ l.set i p := by
  rw [List.set_append_right _ _ (by omega)]
  simp

theorem refsOk_right {pre l : List PTA_uchar} {h : Heap} (hok : RefsOk (pre ++ l) h) :
    RefsOk l h := by
  intro p hp
  cases p with
  | none => trivial
  | some a =>
    have := hok (some a) (List.mem_append_right _ hp)
    refine ⟨this.1, le_trans ?_ this.2⟩
    rw [List.count_append]
    omega

theorem refsOk_left {pre l : List PTA_uchar} {h : Heap} (hok : RefsOk (pre ++ l) h) :
    RefsOk pre h := by
  intro p hp
  cases p with
  | none => trivial
  | some a =>
    have := hok (some a) (List.mem_append_left _ hp)
    refine ⟨this.1, le_trans ?_ this.2⟩
    rw [List.count_append]
    omega

theorem effect_lift (pre : List PTA_uchar) {i : Nat} {b : List uchar}
    {l l1 : List PTA_uchar} {h h1 : Heap} (he : Effect i b l h l1 h1) :
    Effect (pre.length + i) b (pre ++ l) h (pre ++ l1) h1 := by
  rcases he with ⟨rfl, rfl, rfl⟩ | ⟨rfl, rfl⟩ | ⟨a, hs, href, rfl, rfl⟩
  · refine Or.inl ⟨rfl, rfl, ?_⟩
    unfold slot_bytes
    rw [slot_append_right]
  · refine Or.inr (Or.inl ⟨?_, ?_⟩)
    · rw [set_append_right]
    · rw [slot_append_right]
  · exact Or.inr (Or.inr ⟨a, by rw [slot_append_right]; exact hs, href, rfl, rfl⟩)

theorem cell_ref_unref (h : Heap) (p q : PTA_uchar) (x : Nat) :
    (((h.ref p).unref q).cell x).v = (h.cell x).v ∧
    (((h.ref p).unref q).cell x).ref_count =
      (h.cell x).ref_count + (if p = some x then 1 else 0) - (if q = some x then 1 else 0) ∧
    ((h.ref p).unref q).next = h.next := by
  cases p with
  | none =>
    cases q with
    | none => simp [Heap.ref, Heap.unref]
    | some b =>
      by_cases hb : x = b
      · subst hb; simp [Heap.ref, Heap.unref]
      · have hb' : ¬ b = x := fun e => hb e.symm
        simp [Heap.ref, Heap.unref, Function.update_apply, hb, hb']
  | some a =>
    cases q with
    | none =>
      by_cases ha : x = a
      · subst ha; simp [Heap.ref, Heap.unref]
      · have ha' : ¬ a = x := fun e => ha e.symm
        simp [Heap.ref, Heap.unref, Function.update_apply, ha, ha']
    | some b =>
      by_cases ha : x = a
      · by_cases hb : x = b
        · subst ha; subst hb; simp [Heap.ref, Heap.unref]
        · have hb' : ¬ b = x := fun e => hb e.symm
          subst ha
          simp [Heap.ref, Heap.unref, Function.update_apply, hb, hb']
      · have ha' : ¬ a = x := fun e => ha e.symm
        by_cases hb : x = b
        · subst hb
          simp [Heap.ref, Heap.unref, Function.update_apply, ha, ha']
        · have hb' : ¬ b = x := fun e => hb e.symm
          simp [Heap.ref, Heap.unref, Function.update_apply, ha, ha', hb, hb']

theorem refsOk_set {l : List PTA_uchar} {h : Heap} (hok : RefsOk l h) {idx : Nat}
    (hidx : idx < l.length) (p : PTA_uchar) (hp : ∀ a, p = some a → some a ∈ l) :
    RefsOk (l.set idx p) ((h.ref p).unref (slot l idx)) := by
  intro q hq
  cases q with
  | none => trivial
  | some x =>
    obtain ⟨-, hr, hn⟩ := cell_ref_unref h p (slot l idx) x
    have hmem : some x ∈ l := by
      rcases List.mem_or_eq_of_mem_set hq with hm | heq
      · exact hm
      · exact hp x heq.symm
    have hx := refsOk_mem hok hmem
    show x < _ ∧ _ ≤ _
    rw [hn, hr, count_set_slot l idx hidx]
    refine ⟨hx.1, ?_⟩
    have h1 : (if slot l idx = some x then 1 else 0) ≤ l.count (some x) := by
      by_cases hs : slot l idx = some x
      · rw [if_pos hs]; exact one_le_count_of_slot hs
      · rw [if_neg hs]; exact Nat.zero_le _
    have h2 := hx.2
    omega

theorem set_array_data_in_range (self : qpGeomVertexData) (j : Nat) (p : PTA_uchar)
    (rt : Runtime) (hj : j < self._cycler._arrays.length) :
    set_array_data self (j : Int) p rt =
      ({ self with _cycler := { self._cycler with _arrays := self._cycler._arrays.set j p } },
       { rt with heap := (rt.heap.ref p).unref (slot self._cycler._arrays j) }) := by
  unfold set_array_data
  rw [if_neg (by
    have : ((j : Int) ≥ 0 ∧ (j : Int) < self._cycler._arrays.length) := ⟨by omega, by omega⟩
    exact not_not.mpr this)]
  simp only [Int.toNat_ofNat]



theorem alias_body_done (self : qpGeomVertexData) (new_format : qpGeomVertexFormat)
    (array new_array : Nat) (st : qpGeomVertexData × Runtime × List Nat × Bool)
    (h : st.2.2.2 = true) : convert_alias_body self new_format array new_array st = st := by
  unfold convert_alias_body
  rw [if_pos h]

theorem alias_inner (self : qpGeomVertexData) (new_format : qpGeomVertexFormat) (array : Nat)
    (new_data : qpGeomVertexData) (rt : Runtime) (done : List Nat) (k : Nat) :
    (List.range k).foldl
        (fun st new_array => convert_alias_body self new_format array new_array st)
        (new_data, rt, done, false) =
      match (List.range k).find? fun new_array =>
          (new_format.get_array new_array).is_data_subset_of (self._format.get_array array) with
      | none => (new_data, rt, done, false)
      | some j =>
        ((set_array_data new_data (j : Int) (slot self._cycler._arrays array) rt).1,
         (set_array_data new_data (j : Int) (slot self._cycler._arrays array) rt).2,
         j :: done, true) := by
  induction k with
  | zero => rfl
  | succ k ih =>
    rw [List.range_succ, List.foldl_append, ih, List.find?_append]
    cases hf : (List.range k).find? fun new_array =>
        (new_format.get_array new_array).is_data_subset_of (self._format.get_array array) with
    | some j =>
      simp only [Option.or_some, List.foldl_cons, List.foldl_nil]
      exact alias_body_done _ _ _ _ _ rfl
    | none =>
      simp only [Option.none_or, List.foldl_cons, List.foldl_nil, List.find?_cons, List.find?_nil]
      unfold convert_alias_body
      simp only [Bool.false_eq_true, if_false]
      split
      · rename_i hsub
        rw [hsub]
      · rename_i hsub
        have : (new_format.get_array k).is_data_subset_of (self._format.get_array array) = false := by
          simpa using hsub
        rw [this]

theorem convert_alias_step_eq (self : qpGeomVertexData) (new_format : qpGeomVertexFormat)
    (st : qpGeomVertexData × Runtime × List Nat) (array : Nat) :
    convert_alias_step self new_format st array =
      match first_match new_format self._format array with
      | none => st
      | some j =>
        ((set_array_data st.1 (j : Int) (slot self._cycler._arrays array) st.2.1).1,
         (set_array_data st.1 (j : Int) (slot self._cycler._arrays array) st.2.1).2,
         j :: st.2.2) := by
  unfold convert_alias_step first_match
  simp only []
  rw [alias_inner]
  generalize (List.range new_format.get_num_arrays).find? (fun new_array =>
    (new_format.get_array new_array).is_data_subset_of (self._format.get_array array)) = o
  cases o <;> rfl

theorem first_match_some {new_format format : qpGeomVertexFormat} {i j : Nat}
    (h : first_match new_format format i = some j) :
    j < new_format.get_num_arrays ∧
    (new_format.get_array j).is_data_subset_of (format.get_array i) = true := by
  unfold first_match at h
  have h2 := List.find?_some h
  exact ⟨List.mem_range.mp (List.mem_of_find?_eq_some h), h2⟩



theorem count_some_replicate_none (k a : Nat) :
    (List.replicate k (none : PTA_uchar)).count (some a) = 0 := by
  rw [List.count_eq_zero]
  intro hm
  have := List.eq_of_mem_replicate hm
  cases this

theorem refsOk_append_nones {l : List PTA_uchar} {h : Heap} (hok : RefsOk l h) (k : Nat) :
    RefsOk (l ++ List.replicate k none) h := by
  intro p hp
  cases p with
  | none => trivial
  | some a =>
    have hm : some a ∈ l := by
      rcases List.mem_append.mp hp with hm | hm
      · exact hm
      · have := List.eq_of_mem_replicate hm
        cases this
    have hx := refsOk_mem hok hm
    show a < _ ∧ _ ≤ _
    rw [List.count_append, count_some_replicate_none]
    exact ⟨hx.1, by omega⟩

theorem aliasInv_zero (self : qpGeomVertexData) (new_format : qpGeomVertexFormat) (rt0 : Runtime)
    (hreg : new_format.is_registered = true) (hok : RefsOk self._cycler._arrays rt0.heap) :
    AliasInv self new_format rt0 0 ((new new_format rt0).1, (new new_format rt0).2, []) := by
  have hnew : new new_format rt0 =
      ({ _format := new_format,
         _cycler := { _arrays := List.replicate new_format.get_num_arrays none,
                      _converted_cache := [] } }, rt0) := by
    unfold new
    rw [if_neg (by simp [hreg])]
  rw [hnew]
  refine ⟨rfl, by simp, rfl, refsOk_append_nones hok _, fun _ => rfl, rfl, rfl, rfl, ?_, ?_, ?_⟩
  · intro j
    constructor
    · intro hj; cases hj
    · rintro ⟨i, hi, -⟩; omega
  · intro j hj; cases hj
  · intro j _
    exact slot_replicate_none _ _

theorem aliasInv_step (self : qpGeomVertexData) (new_format : qpGeomVertexFormat) (rt0 : Runtime)
    (t : Nat) (st : qpGeomVertexData × Runtime × List Nat)
    (inv : AliasInv self new_format rt0 t st) :
    AliasInv self new_format rt0 (t + 1) (convert_alias_step self new_format st t) := by
  rw [convert_alias_step_eq]
  cases hf : first_match new_format self._format t with
  | none =>
    simp only []
    refine ⟨inv.format_eq, inv.length_eq, inv.cache_eq, inv.refsOk, inv.bytes_eq, inv.next_eq,
      inv.mgr_eq, inv.log_eq, ?_, ?_, inv.fresh⟩
    · intro j
      rw [inv.done_iff]
      constructor
      · rintro ⟨i, hi, hm⟩; exact ⟨i, by omega, hm⟩
      · rintro ⟨i, hi, hm⟩
        by_cases hit : i = t
        · subst hit; rw [hf] at hm; cases hm
        · exact ⟨i, by omega, hm⟩
    · intro j hj
      obtain ⟨i, hi, hm, hs⟩ := inv.aliased j hj
      exact ⟨i, by omega, hm, hs⟩
  | some j =>
    simp only []
    have hj := (first_match_some hf).1
    have hjlen : j < st.1._cycler._arrays.length := by rw [inv.length_eq]; exact hj
    rw [set_array_data_in_range st.1 j _ st.2.1 hjlen]
    refine ⟨inv.format_eq, ?_, inv.cache_eq, ?_, ?_, ?_, inv.mgr_eq, inv.log_eq, ?_, ?_, ?_⟩
    · show (st.1._cycler._arrays.set j _).length = _
      rw [List.length_set]; exact inv.length_eq
    · show RefsOk (self._cycler._arrays ++ st.1._cycler._arrays.set j _)
        ((st.2.1.heap.ref _).unref (slot st.1._cycler._arrays j))
      rw [← set_append_right, ← slot_append_right self._cycler._arrays st.1._cycler._arrays j]
      apply refsOk_set inv.refsOk (by rw [List.length_append]; omega)
      intro a ha
      have hlt := slot_some_lt ha
      have hm := slot_mem hlt
      rw [ha] at hm
      exact List.mem_append_left _ hm
    · intro a
      show (((st.2.1.heap.ref _).unref _).cell a).v = _
      rw [(cell_ref_unref _ _ _ a).1]
      exact inv.bytes_eq a
    · show ((st.2.1.heap.ref _).unref _).next = _
      rw [(cell_ref_unref _ _ _ 0).2.2]
      exact inv.next_eq
    · intro j'
      show j' ∈ j :: st.2.2 ↔ _
      rw [List.mem_cons, inv.done_iff]
      constructor
      · rintro (rfl | ⟨i, hi, hm⟩)
        · exact ⟨t, by omega, hf⟩
        · exact ⟨i, by omega, hm⟩
      · rintro ⟨i, hi, hm⟩
        by_cases hit : i = t
        · subst hit; rw [hf] at hm; left; cases hm; rfl
        · right; exact ⟨i, by omega, hm⟩
    · intro j' hj'
      show ∃ i, _ ∧ _ ∧ slot (st.1._cycler._arrays.set j _) j' = _
      by_cases hjj : j' = j
      · subst hjj
        exact ⟨t, by omega, hf, slot_set_self hjlen _⟩
      · have hmem : j' ∈ st.2.2 := by
          rcases List.mem_cons.mp hj' with h | h
          · exact absurd h hjj
          · exact h
        obtain ⟨i, hi, hm, hs⟩ := inv.aliased j' hmem
        exact ⟨i, by omega, hm, by rw [slot_set_ne (Ne.symm hjj)]; exact hs⟩
    · intro j' hj'
      show slot (st.1._cycler._arrays.set j _) j' = none
      have hjj : j' ≠ j := fun e => hj' (by rw [e]; exact List.mem_cons_self _ _)
      rw [slot_set_ne (Ne.symm hjj)]
      exact inv.fresh j' (fun hm => hj' (List.mem_cons_of_mem _ hm))

theorem aliasInv_loop (self : qpGeomVertexData) (new_format : qpGeomVertexFormat) (rt0 : Runtime)
    (hreg : new_format.is_registered = true) (hok : RefsOk self._cycler._arrays rt0.heap)
    (t : Nat) :
    AliasInv self new_format rt0 t
      ((List.range t).foldl (convert_alias_step self new_format)
        ((new new_format rt0).1, (new new_format rt0).2, [])) := by
  induction t with
  | zero => exact aliasInv_zero self new_format rt0 hreg hok
  | succ t ih =>
    rw [List.range_succ, List.foldl_append]
    exact aliasInv_step self new_format rt0 t _ ih

theorem convert_alias_inv (self : qpGeomVertexData) (new_format : qpGeomVertexFormat)
    (rt0 : Runtime) (hreg : new_format.is_registered = true)
    (hok : RefsOk self._cycler._arrays rt0.heap) :
    AliasInv self new_format rt0 self._format.get_num_arrays
      (convert_alias self new_format (new new_format rt0).1 (new new_format rt0).2) :=
  aliasInv_loop self new_format rt0 hreg hok _

theorem effect_slot {i : Nat} {b : List uchar} {l l1 : List PTA_uchar} {h h1 : Heap}
    (hi : i < l.length) (he : Effect i b l h l1 h1) :
    slot l1 i = slot l i ∨ slot l1 i = some h.next := by
  rcases he with ⟨rfl, -, -⟩ | ⟨rfl, -⟩ | ⟨a, -, -, rfl, -⟩
  · exact Or.inl rfl
  · exact Or.inr (slot_set_self hi _)
  · exact Or.inl rfl

theorem slot_bytes_append_left (pre l : List PTA_uchar) (h : Heap) (j : Nat) (hj : j < pre.length) :
    slot_bytes (pre ++ l) h j = slot_bytes pre h j := by
  unfold slot_bytes
  rw [slot_append_left pre l hj]

theorem slot_bytes_of_length_le (l : List PTA_uchar) (h : Heap) (j : Nat) (hj : l.length ≤ j) :
    slot_bytes l h j = [] := by
  unfold slot_bytes slot
  rw [List.getD_eq_getElem?_getD, List.getElem?_eq_none hj]
  rfl

theorem loopInv2_step (pre : List PTA_uchar) (format : qpGeomVertexFormat) (n : Nat)
    (arrays : List PTA_uchar) (heap : Heap) (k : Nat) (hk : k < arrays.length)
    (st : List PTA_uchar × Heap × Bool) (inv : LoopInv format n arrays heap k st)
    (inv2 : LoopInv2 pre format n arrays heap k st) :
    LoopInv2 pre format n arrays heap (k + 1) (set_num_vertices_body format n k st) := by
  obtain ⟨b, heff, -, -, -⟩ := body_effect format n k st.1 st.2.1 st.2.2
  have hst : (st.1, st.2.1, st.2.2) = st := rfl
  rw [hst] at heff
  have hk' : k < st.1.length := by rw [inv.length_eq]; exact hk
  have hlift := effect_lift pre heff
  have hok1 : RefsOk st.1 st.2.1 := refsOk_right inv2.refsOk
  refine ⟨?_, ?_, ?_, ?_⟩
  · exact effect_refsOk inv2.refsOk (by rw [List.length_append]; omega) hlift
  · intro j
    by_cases hj : j < pre.length
    · have hf := (effect_frame inv2.refsOk hlift (j := j) (by omega)).2
      rw [slot_bytes_append_left _ _ _ _ hj, slot_bytes_append_left _ _ _ _ hj] at hf
      rw [hf]; exact inv2.pre_bytes j
    · rw [slot_bytes_of_length_le _ _ _ (by omega), slot_bytes_of_length_le _ _ _ (by omega)]
  · intro j hj hcount
    by_cases hjk : j = k
    · subst hjk
      have hb := (inv.todo j (le_refl j)).2
      rw [body_noop format n j st (by rw [hb]; exact hcount)]
      exact (inv.todo j (le_refl j)).1
    · rw [(effect_frame hok1 heff hjk).1]
      exact inv2.kept j (by omega) hcount
  · intro j
    by_cases hjk : j = k
    · subst hjk
      rcases effect_slot hk' heff with h | h
      · rw [h]; exact inv2.moved j
      · exact Or.inr ⟨_, h, inv.next_le⟩
    · rw [(effect_frame hok1 heff hjk).1]
      exact inv2.moved j

theorem loopInv2_loop (pre : List PTA_uchar) (format : qpGeomVertexFormat) (n : Nat)
    (arrays : List PTA_uchar) (heap : Heap) (hok : RefsOk (pre ++ arrays) heap) (k : Nat)
    (hk : k ≤ arrays.length) :
    LoopInv2 pre format n arrays heap k (set_num_vertices_loop format n k (arrays, heap, false)) := by
  induction k with
  | zero =>
    exact ⟨hok, fun _ => rfl, fun j hj => absurd hj (Nat.not_lt_zero j), fun _ => Or.inl rfl⟩
  | succ k ih =>
    rw [set_num_vertices_loop_succ]
    exact loopInv2_step pre format n arrays heap k (by omega) _
      (loopInv_loop format n arrays heap (refsOk_right hok) k (by omega)) (ih (by omega))

theorem set_num_vertices_inv2 (pre : List PTA_uchar) (this : Nat) (self : qpGeomVertexData)
    (n : Nat) (rt : Runtime)
    (hlen : self._format.get_num_arrays = self._cycler._arrays.length)
    (hok : RefsOk (pre ++ self._cycler._arrays) rt.heap) :
    LoopInv2 pre self._format n self._cycler._arrays rt.heap self._cycler._arrays.length
      ((set_num_vertices this self n rt).1._cycler._arrays,
       (set_num_vertices this self n rt).2.heap,
       (set_num_vertices_loop self._format n self._cycler._arrays.length
        (self._cycler._arrays, rt.heap, false)).2.2) := by
  obtain ⟨h1, h2, -, -⟩ := set_num_vertices_state this self n rt hlen
  rw [h1, h2]
  exact loopInv2_loop pre self._format n self._cycler._arrays rt.heap hok _ (le_refl _)

theorem set_num_vertices_empty_cache (this : Nat) (self : qpGeomVertexData) (n : Nat)
    (rt : Runtime) (hcache : self._cycler._converted_cache = []) :
    (set_num_vertices this self n rt).1._cycler._converted_cache = [] ∧
    (set_num_vertices this self n rt).2.cache_mgr = rt.cache_mgr := by
  unfold set_num_vertices
  split
  · exact ⟨hcache, rfl⟩
  · simp only []
    split
    · refine ⟨rfl, ?_⟩
      simp [clear_cache, hcache]
    · exact ⟨hcache, rfl⟩

theorem heap_ext {h1 h2 : Heap} (hc : ∀ x, h1.cell x = h2.cell x) (hn : h1.next = h2.next) :
    h1 = h2 := by
  cases h1; cases h2
  simp only [Heap.mk.injEq]
  exact ⟨funext hc, hn⟩

theorem store_at_nil (offset : Nat) (data : List uchar) : store_at [] offset data = [] := by
  induction data generalizing offset with
  | nil => rfl
  | cons b bs ih => rw [store_at]; exact ih _

theorem copy_records_nil (cv : Converter) (to_type : qpGeomVertexDataType) (to_stride : Nat)
    (src : List uchar) (src_stride : Nat) (src_type : qpGeomVertexDataType) (n : Nat) :
    copy_records cv to_type [] to_stride src src_stride src_type n = [] := by
  unfold copy_records
  induction n with
  | zero => rfl
  | succ n ih => rw [List.range_succ, List.foldl_append, ih]; exact store_at_nil _ _

/-- The net effect on the heap of `modify_array_data`, a write of `b` through
the handle it returns, and the release of that handle. -/
theorem modify_write_release (this : Nat) (self : qpGeomVertexData) (rt : Runtime) (j : Nat)
    (b : List uchar) (hj : j < self._cycler._arrays.length)
    (hok : RefsOk self._cycler._arrays rt.heap)
    (hnull : slot self._cycler._arrays j = none → b = []) :
    Effect j b self._cycler._arrays rt.heap
      (modify_array_data this self (j : Int) rt).2.1._cycler._arrays
      ((PTA_uchar.write (modify_array_data this self (j : Int) rt).2.2.heap
        (modify_array_data this self (j : Int) rt).1 b).unref
          (modify_array_data this self (j : Int) rt).1) := by
  by_cases hsh : 1 < PTA_uchar.get_ref_count rt.heap (slot self._cycler._arrays j)
  · cases hs : slot self._cycler._arrays j with
    | none => rw [hs] at hsh; simp [PTA_uchar.get_ref_count] at hsh
    | some a =>
      rw [hs] at hsh
      rw [modify_array_data_shared this self rt j a hj hs hsh]
      refine Or.inr (Or.inl ⟨rfl, ?_⟩)
      have ha := (refsOk_slot hok hs).1
      have hne : a ≠ rt.heap.next := by omega
      rw [hs]
      apply heap_ext
      · intro x
        by_cases hx1 : x = rt.heap.next
        · subst hx1
          simp [PTA_uchar.write, Heap.alloc, Heap.unref, Heap.ref, Heap.set_v,
            Function.update_apply, hne, hne.symm]
        · by_cases hx2 : x = a
          · subst hx2
            simp [PTA_uchar.write, Heap.alloc, Heap.unref, Heap.ref, Heap.set_v,
              Function.update_apply, hne, hne.symm]
          · simp [PTA_uchar.write, Heap.alloc, Heap.unref, Heap.ref, Heap.set_v,
              Function.update_apply, hx1, hx2]
      · simp [PTA_uchar.write, Heap.alloc, Heap.unref, Heap.ref, Heap.set_v]
  · rw [modify_array_data_unshared this self rt j hj hsh]
    cases hs : slot self._cycler._arrays j with
    | none =>
      refine Or.inl ⟨rfl, ?_, ?_⟩
      · rfl
      · rw [hnull hs]
        unfold slot_bytes
        rw [hs]; rfl
    | some a =>
      refine Or.inr (Or.inr ⟨a, hs, ?_, rfl, ?_⟩)
      · rw [hs] at hsh
        simp only [PTA_uchar.get_ref_count] at hsh
        omega
      · apply heap_ext
        · intro x
          by_cases hx : x = a
          · subst hx
            simp [PTA_uchar.write, Heap.unref, Heap.ref, Heap.set_v]
          · simp [PTA_uchar.write, Heap.unref, Heap.ref, Heap.set_v, Function.update_apply, hx]
        · simp [PTA_uchar.write, Heap.unref, Heap.ref, Heap.set_v]

theorem modify_array_data_source_bytes (this : Nat) (self : qpGeomVertexData) (rt : Runtime)
    (j : Nat) (hj : j < self._cycler._arrays.length) (p : PTA_uchar)
    (hp : ∀ a, p = some a → a < rt.heap.next) :
    PTA_uchar.bytes (modify_array_data this self (j : Int) rt).2.2.heap p =
      PTA_uchar.bytes rt.heap p := by
  by_cases hsh : 1 < PTA_uchar.get_ref_count rt.heap (slot self._cycler._arrays j)
  · cases hs : slot self._cycler._arrays j with
    | none => rw [hs] at hsh; simp [PTA_uchar.get_ref_count] at hsh
    | some a =>
      rw [hs] at hsh
      rw [modify_array_data_shared this self rt j a hj hs hsh]
      simp only []
      rw [bytes_ref]
      cases p with
      | none => rfl
      | some x => exact reseat_cell_v rt.heap _ (some a) (hp x rfl)
  · rw [modify_array_data_unshared this self rt j hj hsh]
    simp only []
    rw [bytes_ref]

theorem get_array_eq_getElem (f : qpGeomVertexFormat) (j : Nat) (hj : j < f.arrays.length) :
    f.get_array j = f.arrays[j] := by
  unfold qpGeomVertexFormat.get_array
  rw [List.getD_eq_getElem?_getD, List.getElem?_eq_getElem hj]
  rfl

theorem get_array_with_spec (f : qpGeomVertexFormat) (name : Nat)
    (h : f.get_array_with name ≥ 0) :
    ∃ (j : Nat) (t : _), f.get_array_with name = (j : Int) ∧ j < f.get_num_arrays ∧
      (f.get_array j).get_data_type_named name = some t ∧
      ∀ j', j' < j → (f.get_array j').get_data_type_named name = none := by
  unfold qpGeomVertexFormat.get_array_with at h ⊢
  cases hf : f.arrays.findIdx? (fun a => (a.get_data_type_named name).isSome) with
  | none => rw [hf] at h; simp at h
  | some j =>
    simp only []
    obtain ⟨hj, hp, hmin⟩ := List.findIdx?_eq_some_iff_getElem.mp hf
    have hsome : ((f.get_array j).get_data_type_named name).isSome = true := by
      rw [get_array_eq_getElem f j hj]; exact hp
    obtain ⟨t, ht⟩ := Option.isSome_iff_exists.mp hsome
    refine ⟨j, t, rfl, hj, ht, ?_⟩
    intro j' hj'
    have := hmin j' hj'
    rw [← get_array_eq_getElem f j' (by omega)] at this
    simpa using this

theorem refsOk_ref {l : List PTA_uchar} {h : Heap} (hok : RefsOk l h) (p : PTA_uchar)
    (hp : ∀ a, p = some a → a < h.next) :
    RefsOk l (h.ref p) ∧ ∀ a, p = some a → HeldElsewhere l (h.ref p) a := by
  cases p with
  | none => exact ⟨hok, fun a ha => by cases ha⟩
  | some b =>
    constructor
    · intro q hq
      cases q with
      | none => trivial
      | some x =>
        have hx := refsOk_mem hok hq
        show x < _ ∧ _ ≤ _
        by_cases hxb : x = b
        · subst hxb
          simp only [Heap.ref, Function.update_same]
          exact ⟨hx.1, by omega⟩
        · simp only [Heap.ref, Function.update_apply, hxb, if_false]
          exact hx
    · intro a ha
      cases ha
      have hb := hp b rfl
      refine ⟨hb, ?_⟩
      simp only [Heap.ref, Function.update_same]
      by_cases hm : some b ∈ l
      · have := (refsOk_mem hok hm).2
        omega
      · rw [List.count_eq_zero.mpr hm]; omega

theorem refsOk_unref {l : List PTA_uchar} {h : Heap} (hok : RefsOk l h) (p : PTA_uchar)
    (hp : ∀ a, p = some a → HeldElsewhere l h a) : RefsOk l (h.unref p) := by
  cases p with
  | none => exact hok
  | some b =>
    intro q hq
    cases q with
    | none => trivial
    | some x =>
      have hx := refsOk_mem hok hq
      show x < _ ∧ _ ≤ _
      by_cases hxb : x = b
      · subst hxb
        simp only [Heap.unref, Function.update_same]
        have := (hp x rfl).2
        exact ⟨hx.1, by omega⟩
      · simp only [Heap.unref, Function.update_apply, hxb, if_false]
        exact hx

theorem next_ref (h : Heap) (p : PTA_uchar) : (h.ref p).next = h.next := by
  cases p <;> rfl

theorem next_unref (h : Heap) (p : PTA_uchar) : (h.unref p).next = h.next := by
  cases p <;> rfl

theorem copyInv_body (cv : Converter) (self : qpGeomVertexData) (new_format : qpGeomVertexFormat)
    (new_addr : Nat) (done_arrays : List Nat) (n i di : Nat) (rt2 : Runtime)
    (arrays2 : List PTA_uchar) (src contents : Nat → List uchar)
    (st : qpGeomVertexData × Runtime)
    (inv : CopyInv self._cycler._arrays new_format rt2 arrays2 done_arrays src contents st)
    (held : ∀ a, slot self._cycler._arrays i = some a →
      HeldElsewhere (self._cycler._arrays ++ st.1._cycler._arrays) st.2.heap a) :
    CopyInv self._cycler._arrays new_format rt2 arrays2 done_arrays src
      (copy_plan_body cv self._format new_format done_arrays n src i di contents)
      (convert_copy_body cv self new_format new_addr done_arrays n i
        (slot self._cycler._arrays i) di st) ∧
    ∀ a, slot self._cycler._arrays i = some a →
      HeldElsewhere (self._cycler._arrays ++
        (convert_copy_body cv self new_format new_addr done_arrays n i
          (slot self._cycler._arrays i) di st).1._cycler._arrays)
        (convert_copy_body cv self new_format new_addr done_arrays n i
          (slot self._cycler._arrays i) di st).2.heap a := by
  unfold convert_copy_body copy_plan_body
  simp only []
  by_cases hc : new_format.get_array_with
      ((self._format.get_array i).get_data_type di).get_name ≥ 0 ∧
      (new_format.get_array_with
        ((self._format.get_array i).get_data_type di).get_name).toNat ∉ done_arrays
  · rw [if_pos hc, if_pos hc]
    obtain ⟨j, t, hj, hjlt, ht, -⟩ := get_array_with_spec new_format _ hc.1
    have hnd : j ∉ done_arrays := by
      have := hc.2
      rw [hj] at this
      simpa using this
    rw [hj]
    simp only [Int.toNat_ofNat]
    rw [ht]
    simp only []
    have hlen : j < st.1._cycler._arrays.length := by
      rw [inv.length_eq]; exact hjlt
    have hokR := refsOk_right inv.refsOk
    obtain ⟨hv1, hv2, -, hv4, hv5, hv6⟩ :=
      modify_array_data_valid new_addr st.1 st.2 j hlen hokR
    have hfmt := modify_array_data_format new_addr st.1 (j : Int) st.2
    have hh := modify_array_data_handle new_addr st.1 st.2 j hlen
    have hb1 : PTA_uchar.bytes (modify_array_data new_addr st.1 (j : Int) st.2).2.2.heap
        (modify_array_data new_addr st.1 (j : Int) st.2).1 = contents j := by
      rw [hh, ← inv.new_bytes j]
      exact hv5 j
    have hb2 : PTA_uchar.bytes (modify_array_data new_addr st.1 (j : Int) st.2).2.2.heap
        (slot self._cycler._arrays i) = src i := by
      rw [modify_array_data_source_bytes new_addr st.1 st.2 j hlen _
        (fun a ha => (held a ha).1), ← inv.src_bytes i]
      rfl
    rw [hb1, hb2]
    have hnull : slot st.1._cycler._arrays j = none →
        copy_records cv t (contents j) (new_format.get_array j).get_stride (src i)
          (self._format.get_array i).get_stride ((self._format.get_array i).get_data_type di) n
          = [] := by
      intro hs
      have : contents j = [] := by
        rw [← inv.new_bytes j]; unfold slot_bytes; rw [hs]; rfl
      rw [this, copy_records_nil]
    have he := modify_write_release new_addr st.1 st.2 j _ hlen hokR hnull
    have hmgr : (modify_array_data new_addr st.1 (j : Int) st.2).2.2.cache_mgr =
        st.2.cache_mgr := by
      rw [hv2, inv.cache_eq]; rfl
    generalize modify_array_data new_addr st.1 (j : Int) st.2 = r at *
    have hL := effect_lift self._cycler._arrays he
    have hjL : self._cycler._arrays.length + j <
        (self._cycler._arrays ++ st.1._cycler._arrays).length := by
      rw [List.length_append]; omega
    refine ⟨⟨?_, ?_, hv1, ?_, ?_, ?_, ?_, ?_, ?_, ?_, ?_⟩, ?_⟩
    · exact hfmt.trans inv.format_eq
    · exact hv4.trans inv.length_eq
    · exact hmgr.trans inv.mgr_eq
    · exact hv6.trans inv.log_eq
    · exact effect_refsOk inv.refsOk hjL hL
    · exact le_trans inv.next_le (effect_next hL)
    · intro i'
      by_cases hi' : i' < self._cycler._arrays.length
      · rw [← inv.src_bytes i', ← slot_bytes_append_left _ r.2.1._cycler._arrays _ _ hi',
          ← slot_bytes_append_left _ st.1._cycler._arrays _ _ hi']
        exact (effect_frame inv.refsOk hL (by omega)).2
      · rw [← inv.src_bytes i', slot_bytes_of_length_le _ _ _ (by omega),
          slot_bytes_of_length_le _ _ _ (by omega)]
    · intro j'
      by_cases hj' : j' = j
      · subst hj'
        rw [Function.update_same]
        exact effect_self hokR hlen he
      · rw [Function.update_noteq hj', ← inv.new_bytes j']
        exact (effect_frame hokR he hj').2
    · intro j' hj'
      have hne : j' ≠ j := fun e => hnd (e ▸ hj')
      rw [(effect_frame hokR he hne).1]
      exact inv.done_kept j' hj'
    · intro j'
      by_cases hj' : j' = j
      · subst hj'
        rcases effect_slot hlen he with h1 | h1
        · rw [h1]; exact inv.moved j'
        · exact Or.inr ⟨_, h1, inv.next_le⟩
      · rw [(effect_frame hokR he hj').1]
        exact inv.moved j'
    · intro a ha
      exact (effect_held hjL hL (held a ha)).2
  · rw [if_neg hc, if_neg hc]
    exact ⟨inv, held⟩

theorem copyInv_inner (cv : Converter) (self : qpGeomVertexData) (new_format : qpGeomVertexFormat)
    (new_addr : Nat) (done_arrays : List Nat) (n i : Nat) (rt2 : Runtime)
    (arrays2 : List PTA_uchar) (src contents : Nat → List uchar)
    (st : qpGeomVertexData × Runtime)
    (inv : CopyInv self._cycler._arrays new_format rt2 arrays2 done_arrays src contents st)
    (held : ∀ a, slot self._cycler._arrays i = some a →
      HeldElsewhere (self._cycler._arrays ++ st.1._cycler._arrays) st.2.heap a) (c : Nat) :
    CopyInv self._cycler._arrays new_format rt2 arrays2 done_arrays src
      (copy_plan_inner cv self._format new_format done_arrays n src i c contents)
      ((List.range c).foldl (fun st di => convert_copy_body cv self new_format new_addr
        done_arrays n i (slot self._cycler._arrays i) di st) st) ∧
    ∀ a, slot self._cycler._arrays i = some a →
      HeldElsewhere (self._cycler._arrays ++
        ((List.range c).foldl (fun st di => convert_copy_body cv self new_format new_addr
          done_arrays n i (slot self._cycler._arrays i) di st) st).1._cycler._arrays)
        ((List.range c).foldl (fun st di => convert_copy_body cv self new_format new_addr
          done_arrays n i (slot self._cycler._arrays i) di st) st).2.heap a := by
  induction c with
  | zero => exact ⟨inv, held⟩
  | succ c ih =>
    unfold copy_plan_inner
    rw [List.range_succ, List.foldl_append, List.foldl_append]
    exact copyInv_body cv self new_format new_addr done_arrays n i c rt2 arrays2 src _ _
      ih.1 ih.2

theorem copyInv_step (cv : Converter) (self : qpGeomVertexData) (new_format : qpGeomVertexFormat)
    (new_addr : Nat) (done_arrays : List Nat) (n i : Nat) (rt2 : Runtime)
    (arrays2 : List PTA_uchar) (src contents : Nat → List uchar)
    (st : qpGeomVertexData × Runtime)
    (inv : CopyInv self._cycler._arrays new_format rt2 arrays2 done_arrays src contents st) :
    CopyInv self._cycler._arrays new_format rt2 arrays2 done_arrays src
      (copy_plan_inner cv self._format new_format done_arrays n src i
        (self._format.get_array i).get_num_data_types contents)
      (convert_copy_step cv self new_format new_addr done_arrays n st i) := by
  have hp : ∀ a, slot self._cycler._arrays i = some a → a < st.2.heap.next := by
    intro a ha
    have hi : i < self._cycler._arrays.length := by
      by_contra hge
      unfold slot at ha
      rw [List.getD_eq_getElem?_getD, List.getElem?_eq_none (by omega)] at ha
      cases ha
    have hm : some a ∈ self._cycler._arrays ++ st.1._cycler._arrays :=
      List.mem_append_left _ (ha ▸ slot_mem hi)
    exact (refsOk_mem inv.refsOk hm).1
  obtain ⟨hok1, hheld1⟩ := refsOk_ref inv.refsOk (slot self._cycler._arrays i) hp
  have inv1 : CopyInv self._cycler._arrays new_format rt2 arrays2 done_arrays src contents
      (st.1, { st.2 with heap := st.2.heap.ref (slot self._cycler._arrays i) }) :=
    { format_eq := inv.format_eq
      length_eq := inv.length_eq
      cache_eq := inv.cache_eq
      mgr_eq := inv.mgr_eq
      log_eq := inv.log_eq
      refsOk := hok1
      next_le := by
        show _ ≤ (st.2.heap.ref _).next
        rw [next_ref]; exact inv.next_le
      src_bytes := fun j => by
        rw [← inv.src_bytes j]
        exact bytes_ref _ _ _
      new_bytes := fun j => by
        rw [← inv.new_bytes j]
        exact bytes_ref _ _ _
      done_kept := inv.done_kept
      moved := inv.moved }
  obtain ⟨inv2, held2⟩ := copyInv_inner cv self new_format new_addr done_arrays n i rt2 arrays2
    src contents _ inv1 hheld1 (self._format.get_array i).get_num_data_types
  unfold convert_copy_step
  simp only []
  generalize (List.range (self._format.get_array i).get_num_data_types).foldl
    (fun st di => convert_copy_body cv self new_format new_addr done_arrays n i
      (slot self._cycler._arrays i) di st)
    (st.1, { st.2 with heap := st.2.heap.ref (slot self._cycler._arrays i) }) = r at inv2 held2
  exact
    { format_eq := inv2.format_eq
      length_eq := inv2.length_eq
      cache_eq := inv2.cache_eq
      mgr_eq := inv2.mgr_eq
      log_eq := inv2.log_eq
      refsOk := refsOk_unref inv2.refsOk _ held2
      next_le := by
        show _ ≤ (r.2.heap.unref _).next
        rw [next_unref]; exact inv2.next_le
      src_bytes := fun j => by
        rw [← inv2.src_bytes j]
        exact bytes_unref _ _ _
      new_bytes := fun j => by
        rw [← inv2.new_bytes j]
        exact bytes_unref _ _ _
      done_kept := inv2.done_kept
      moved := inv2.moved }

theorem copyInv_loop (cv : Converter) (self : qpGeomVertexData) (new_format : qpGeomVertexFormat)
    (new_addr : Nat) (done_arrays : List Nat) (n : Nat) (rt2 : Runtime)
    (arrays2 : List PTA_uchar) (src contents : Nat → List uchar)
    (st : qpGeomVertexData × Runtime)
    (inv : CopyInv self._cycler._arrays new_format rt2 arrays2 done_arrays src contents st)
    (c : Nat) :
    CopyInv self._cycler._arrays new_format rt2 arrays2 done_arrays src
      (copy_plan cv self._format new_format done_arrays n src c contents)
      ((List.range c).foldl (convert_copy_step cv self new_format new_addr done_arrays n) st) := by
  induction c with
  | zero => exact inv
  | succ c ih =>
    unfold copy_plan
    rw [List.range_succ, List.foldl_append, List.foldl_append]
    exact copyInv_step cv self new_format new_addr done_arrays n c rt2 arrays2 src _ _ ih

theorem copy_records_length (cv : Converter) (to_type : qpGeomVertexDataType)
    (dst : List uchar) (to_stride : Nat) (src : List uchar) (src_stride : Nat)
    (src_type : qpGeomVertexDataType) (n : Nat) :
    (copy_records cv to_type dst to_stride src src_stride src_type n).length = dst.length := by
  unfold copy_records
  induction n with
  | zero => rfl
  | succ n ih =>
    rw [List.range_succ, List.foldl_append]
    simp only [List.foldl_cons, List.foldl_nil]
    rw [store_at_length]
    exact ih

theorem copy_plan_body_done (cv : Converter) (format new_format : qpGeomVertexFormat)
    (done_arrays : List Nat) (n : Nat) (src : Nat → List uchar) (i di : Nat)
    (contents : Nat → List uchar) (j : Nat) (hj : j ∈ done_arrays) :
    copy_plan_body cv format new_format done_arrays n src i di contents j = contents j := by
  unfold copy_plan_body
  split
  · rename_i hc
    generalize (new_format.get_array (new_format.get_array_with
      ((format.get_array i).get_data_type di).get_name).toNat).get_data_type_named
      ((format.get_array i).get_data_type di).get_name = o
    cases o
    · rfl
    · show Function.update _ _ _ _ = _
      rw [Function.update_noteq]
      intro e
      exact hc.2 (e ▸ hj)
  · rfl

theorem copy_plan_body_length (cv : Converter) (format new_format : qpGeomVertexFormat)
    (done_arrays : List Nat) (n : Nat) (src : Nat → List uchar) (i di : Nat)
    (contents : Nat → List uchar) (j : Nat) :
    (copy_plan_body cv format new_format done_arrays n src i di contents j).length =
      (contents j).length := by
  unfold copy_plan_body
  split
  ·
    generalize (new_format.get_array (new_format.get_array_with
      ((format.get_array i).get_data_type di).get_name).toNat).get_data_type_named
      ((format.get_array i).get_data_type di).get_name = o
    cases o
    · rfl
    · show List.length (Function.update contents _ _ j) = _
      by_cases e : j = (new_format.get_array_with
          ((format.get_array i).get_data_type di).get_name).toNat
      · rw [e, Function.update_same, copy_records_length]
      · rw [Function.update_noteq e]
  · rfl

theorem copy_plan_inner_done (cv : Converter) (format new_format : qpGeomVertexFormat)
    (done_arrays : List Nat) (n : Nat) (src : Nat → List uchar) (i c : Nat)
    (contents : Nat → List uchar) (j : Nat) (hj : j ∈ done_arrays) :
    copy_plan_inner cv format new_format done_arrays n src i c contents j = contents j := by
  induction c with
  | zero => rfl
  | succ c ih =>
    unfold copy_plan_inner at ih ⊢
    rw [List.range_succ, List.foldl_append]
    simp only [List.foldl_cons, List.foldl_nil]
    rw [copy_plan_body_done _ _ _ _ _ _ _ _ _ _ hj]
    exact ih

theorem copy_plan_inner_length (cv : Converter) (format new_format : qpGeomVertexFormat)
    (done_arrays : List Nat) (n : Nat) (src : Nat → List uchar) (i c : Nat)
    (contents : Nat → List uchar) (j : Nat) :
    (copy_plan_inner cv format new_format done_arrays n src i c contents j).length =
      (contents j).length := by
  induction c with
  | zero => rfl
  | succ c ih =>
    unfold copy_plan_inner at ih ⊢
    rw [List.range_succ, List.foldl_append]
    simp only [List.foldl_cons, List.foldl_nil]
    rw [copy_plan_body_length]
    exact ih

theorem copy_plan_done (cv : Converter) (format new_format : qpGeomVertexFormat)
    (done_arrays : List Nat) (n : Nat) (src : Nat → List uchar) (c : Nat)
    (contents : Nat → List uchar) (j : Nat) (hj : j ∈ done_arrays) :
    copy_plan cv format new_format done_arrays n src c contents j = contents j := by
  induction c with
  | zero => rfl
  | succ c ih =>
    unfold copy_plan at ih ⊢
    rw [List.range_succ, List.foldl_append]
    simp only [List.foldl_cons, List.foldl_nil]
    rw [copy_plan_inner_done _ _ _ _ _ _ _ _ _ _ hj]
    exact ih

theorem copy_plan_length (cv : Converter) (format new_format : qpGeomVertexFormat)
    (done_arrays : List Nat) (n : Nat) (src : Nat → List uchar) (c : Nat)
    (contents : Nat → List uchar) (j : Nat) :
    (copy_plan cv format new_format done_arrays n src c contents j).length =
      (contents j).length := by
  induction c with
  | zero => rfl
  | succ c ih =>
    unfold copy_plan at ih ⊢
    rw [List.range_succ, List.foldl_append]
    simp only [List.foldl_cons, List.foldl_nil]
    rw [copy_plan_inner_length]
    exact ih

theorem get_num_vertices_rt (self : qpGeomVertexData) (rt : Runtime)
    (hlen : self._format.get_num_arrays = self._cycler._arrays.length) :
    (get_num_vertices self rt).2 = rt := by
  unfold get_num_vertices
  rw [if_neg (by simpa using hlen)]
  split <;> rfl

theorem set_num_vertices_inv1 (this : Nat) (self : qpGeomVertexData) (n : Nat) (rt : Runtime)
    (hlen : self._format.get_num_arrays = self._cycler._arrays.length)
    (hok : RefsOk self._cycler._arrays rt.heap) :
    LoopInv self._format n self._cycler._arrays rt.heap self._cycler._arrays.length
      ((set_num_vertices this self n rt).1._cycler._arrays,
       (set_num_vertices this self n rt).2.heap,
       (set_num_vertices_loop self._format n self._cycler._arrays.length
        (self._cycler._arrays, rt.heap, false)).2.2) := by
  obtain ⟨h1, h2, -, -⟩ := set_num_vertices_state this self n rt hlen
  rw [h1, h2]
  exact loopInv_loop self._format n self._cycler._arrays rt.heap hok _ (le_refl _)

theorem bytes_congr (h h1 : Heap) (hv : ∀ a, (h1.cell a).v = (h.cell a).v) (p : PTA_uchar) :
    PTA_uchar.bytes h1 p = PTA_uchar.bytes h p := by
  cases p with
  | none => rfl
  | some a => exact hv a

theorem convert_build_inv (cv : Converter) (self : qpGeomVertexData)
    (new_format : qpGeomVertexFormat) (new_addr : Nat) (rt : Runtime)
    (hreg : new_format.is_registered = true)
    (hlen : self._format.get_num_arrays = self._cycler._arrays.length)
    (hok : RefsOk self._cycler._arrays rt.heap) :
    ∃ sized, BuildInv cv self new_format rt (get_num_vertices self rt).1 sized
      (convert_build cv self new_format new_addr rt) := by
  have hnv2 := get_num_vertices_rt self rt hlen
  unfold convert_build
  simp only []
  rw [hnv2]
  generalize (get_num_vertices self rt).1 = n
  have A := convert_alias_inv self new_format rt hreg hok
  generalize convert_alias self new_format (new new_format rt).1 (new new_format rt).2 = r1
    at A ⊢
  have hlen1 : r1.1._format.get_num_arrays = r1.1._cycler._arrays.length := by
    rw [A.format_eq, A.length_eq]
  have L1 := set_num_vertices_inv1 new_addr r1.1 n r1.2.1 hlen1 (refsOk_right A.refsOk)
  have L2 := set_num_vertices_inv2 self._cycler._arrays new_addr r1.1 n r1.2.1 hlen1 A.refsOk
  have E := set_num_vertices_empty_cache new_addr r1.1 n r1.2.1 A.cache_eq
  obtain ⟨-, -, St3, St4⟩ := set_num_vertices_state new_addr r1.1 n r1.2.1 hlen1
  generalize (set_num_vertices_loop r1.1._format n r1.1._cycler._arrays.length
    (r1.1._cycler._arrays, r1.2.1.heap, false)).2.2 = flag at L1 L2
  generalize set_num_vertices new_addr r1.1 n r1.2.1 = r2 at L1 L2 E St3 St4 ⊢
  have hsrc1 : ∀ i, slot_bytes self._cycler._arrays r1.2.1.heap i =
      slot_bytes self._cycler._arrays rt.heap i :=
    fun i => bytes_congr _ _ A.bytes_eq _
  have C0 : CopyInv self._cycler._arrays new_format r2.2 r2.1._cycler._arrays r1.2.2
      (slot_bytes self._cycler._arrays rt.heap)
      (fun j => slot_bytes r2.1._cycler._arrays r2.2.heap j) (r2.1, r2.2) :=
    { format_eq := St3.trans A.format_eq
      length_eq := L1.length_eq.trans A.length_eq
      cache_eq := E.1
      mgr_eq := rfl
      log_eq := rfl
      refsOk := L2.refsOk
      next_le := le_refl _
      src_bytes := fun i => (L2.pre_bytes i).trans (hsrc1 i)
      new_bytes := fun _ => rfl
      done_kept := fun _ _ => rfl
      moved := fun _ => Or.inl rfl }
  have C := copyInv_loop cv self new_format new_addr r1.2.2 n r2.2 r2.1._cycler._arrays _ _ _
    C0 self._format.get_num_arrays
  unfold convert_copy
  generalize (List.range self._format.get_num_arrays).foldl
    (convert_copy_step cv self new_format new_addr r1.2.2 n) (r2.1, r2.2) = r3 at C ⊢
  have hnext1 : rt.heap.next ≤ r2.2.heap.next := by
    have := L1.next_le
    rw [A.next_eq] at this
    exact this
  refine ⟨fun j => slot_bytes r2.1._cycler._arrays r2.2.heap j, ?_⟩
  exact
    { format_eq := C.format_eq
      length_eq := C.length_eq
      cache_eq := C.cache_eq
      mgr_eq := C.mgr_eq.trans (E.2.trans A.mgr_eq)
      log_eq := C.log_eq.trans (St4.trans A.log_eq)
      refsOk := C.refsOk
      next_le := le_trans hnext1 C.next_le
      src_bytes := C.src_bytes
      done_iff := A.done_iff
      aliased := by
        intro j hj
        obtain ⟨i, hi, hfm, hs⟩ := A.aliased j hj
        have hjlt : j < r1.1._cycler._arrays.length := by
          rw [A.length_eq]
          exact (first_match_some hfm).1
        have hb : slot_bytes r1.1._cycler._arrays r1.2.1.heap j =
            slot_bytes self._cycler._arrays rt.heap i := by
          rw [← hsrc1 i]
          unfold slot_bytes
          rw [hs]
        have hd := L1.done j hjlt
        have hk := L2.kept j hjlt
        rw [hb, A.format_eq] at hd hk
        refine ⟨i, hi, hfm, hd, ?_, ?_⟩
        · intro hn
          exact (C.done_kept j hj).trans ((hk hn).trans hs)
        · rw [C.done_kept j hj]
          rcases L2.moved j with h | ⟨q, hq, hle⟩
          · exact Or.inl (h.trans hs)
          · exact Or.inr ⟨q, hq, by rw [A.next_eq] at hle; exact hle⟩
      fresh := by
        intro j hjlt hj
        have hs := A.fresh j hj
        have hjlt1 : j < r1.1._cycler._arrays.length := by
          rw [A.length_eq]; exact hjlt
        have hb : slot_bytes r1.1._cycler._arrays r1.2.1.heap j = [] := by
          unfold slot_bytes
          rw [hs]
          rfl
        have hd := L1.done j hjlt1
        rw [hb, A.format_eq] at hd
        refine ⟨hd, ?_⟩
        rcases C.moved j with h | ⟨q, hq, hle⟩
        · rw [h]
          rcases L2.moved j with h2 | ⟨q, hq, hle⟩
          · exact Or.inl (h2.trans hs)
          · exact Or.inr ⟨q, hq, by rw [A.next_eq] at hle; exact hle⟩
        · exact Or.inr ⟨q, hq, le_trans hnext1 hle⟩
      contents := C.new_bytes }

theorem evict_cache_find_or (max_size kept_size : Nat) (l : List CacheEntry) (objects : Objects)
    (x : Nat) (G : qpGeomVertexFormat) :
    cache_find G ((qpGeomVertexCacheManager.evict max_size kept_size l objects).2
        x)._cycler._converted_cache = cache_find G (objects x)._cycler._converted_cache ∨
    cache_find G ((qpGeomVertexCacheManager.evict max_size kept_size l objects).2
        x)._cycler._converted_cache = none := by
  induction l generalizing objects with
  | nil => exact Or.inl rfl
  | cons e rest ih =>
    unfold qpGeomVertexCacheManager.evict
    split
    · rcases ih (Function.update objects e.source
        ((objects e.source).remove_cache_entry e.modifier)) with h | h
      · by_cases hx : x = e.source
        · subst hx
          rw [h, Function.update_same]
          by_cases hG : e.modifier = G
          · right
            subst hG
            exact cache_find_filter_eq _ _
          · left
            exact cache_find_filter_ne _ _ _ hG
        · left
          rw [h, Function.update_noteq hx]
      · exact Or.inr h
    · exact Or.inl rfl

theorem evict_fits (max_size kept_size : Nat) (l : List CacheEntry) (objects : Objects)
    (h : qpGeomVertexCacheManager.get_total_size l + kept_size ≤ max_size) :
    qpGeomVertexCacheManager.evict max_size kept_size l objects = (l, objects) := by
  cases l with
  | nil => rfl
  | cons e rest =>
    unfold qpGeomVertexCacheManager.evict
    rw [if_neg (by omega)]

theorem record_data_cache_or (w : World) (source : Nat) (modifier : qpGeomVertexFormat)
    (result_size : Nat) (x : Nat) (G : qpGeomVertexFormat) :
    cache_find G ((w.record_data source modifier result_size).objects x)._cycler._converted_cache
      = cache_find G (w.objects x)._cycler._converted_cache ∨
    cache_find G ((w.record_data source modifier result_size).objects x)._cycler._converted_cache
      = none :=
  evict_cache_find_or _ _ _ _ _ _

theorem record_data_fits (w : World) (source : Nat) (modifier : qpGeomVertexFormat)
    (result_size : Nat)
    (h : qpGeomVertexCacheManager.get_total_size
        (w.rt.cache_mgr.entries.filter fun e => ¬ (e.source = source ∧ e.modifier = modifier)) +
      result_size ≤ w.rt.cache_mgr.max_size) :
    (w.record_data source modifier result_size).objects = w.objects := by
  unfold World.record_data
  simp only []
  rw [evict_fits _ _ _ _ h]

theorem record_data_last (w : World) (source : Nat) (modifier : qpGeomVertexFormat)
    (result_size : Nat) :
    (w.record_data source modifier result_size).rt.cache_mgr.entries.getLast? =
      some { source := source, modifier := modifier, result_size := result_size } := by
  unfold World.record_data
  simp

theorem foldl_add_sum (f : PTA_uchar → Nat) (l : List PTA_uchar) (acc : Nat) :
    l.foldl (fun num_bytes ai => num_bytes + f ai) acc = acc + (l.map f).sum := by
  induction l generalizing acc with
  | nil => simp
  | cons a l ih =>
    rw [List.foldl_cons, ih, List.map_cons, List.sum_cons]
    omega

theorem get_num_bytes_sum (self : qpGeomVertexData) (rt : Runtime) :
    get_num_bytes self rt = (self._cycler._arrays.map fun ai => PTA_uchar.size rt.heap ai).sum := by
  unfold get_num_bytes
  rw [foldl_add_sum, Nat.zero_add]

theorem convert_cached_objects (cv : Converter) (this : Nat) (new_format : qpGeomVertexFormat)
    (w : World) (hthis : this < w.next_object) :
    (convert_cached cv this new_format w).rt =
      (convert_build cv (w.objects this) new_format w.next_object w.rt).2.1 ∧
    (convert_cached cv this new_format w).objects w.next_object =
      (convert_build cv (w.objects this) new_format w.next_object w.rt).1 ∧
    ((convert_cached cv this new_format w).objects this)._cycler._arrays =
      (w.objects this)._cycler._arrays ∧
    ((convert_cached cv this new_format w).objects this)._cycler._converted_cache =
      cache_insert (w.objects this)._cycler._converted_cache new_format w.next_object := by
  have hne2 : this ≠ w.next_object := by omega
  refine ⟨rfl, ?_, ?_, ?_⟩
  · simp [convert_cached]
  · simp [convert_cached, Function.update_apply, hne2]
  · simp [convert_cached, Function.update_apply, hne2]

theorem convert_to_miss (cv : Converter) (this : Nat) (new_format : qpGeomVertexFormat)
    (w : World) (hne : new_format ≠ (w.objects this)._format)
    (hmiss : cache_find new_format (w.objects this)._cycler._converted_cache = none)
    (hthis : this < w.next_object) :
    convert_to cv this new_format w =
      (w.next_object, (convert_cached cv this new_format w).record_data this new_format
        (get_num_bytes (convert_build cv (w.objects this) new_format w.next_object w.rt).1
          (convert_build cv (w.objects this) new_format w.next_object w.rt).2.1)) ∧
    ((convert_to cv this new_format w).2.objects w.next_object)._format =
      (convert_build cv (w.objects this) new_format w.next_object w.rt).1._format ∧
    ((convert_to cv this new_format w).2.objects w.next_object)._cycler._arrays =
      (convert_build cv (w.objects this) new_format w.next_object w.rt).1._cycler._arrays ∧
    (convert_to cv this new_format w).2.rt.heap =
      (convert_build cv (w.objects this) new_format w.next_object w.rt).2.1.heap ∧
    (convert_to cv this new_format w).2.rt.nassert_failed =
      (convert_build cv (w.objects this) new_format w.next_object w.rt).2.1.nassert_failed ∧
    ((convert_to cv this new_format w).2.objects this)._cycler._arrays =
      (w.objects this)._cycler._arrays ∧
    ((convert_to cv this new_format w).2.objects this)._format = (w.objects this)._format := by
  obtain ⟨c1, c2, c3, c4⟩ := convert_cached_objects cv this new_format w hthis
  have heq : convert_to cv this new_format w =
      (w.next_object, (convert_cached cv this new_format w).record_data this new_format
        (get_num_bytes (convert_build cv (w.objects this) new_format w.next_object w.rt).1
          (convert_build cv (w.objects this) new_format w.next_object w.rt).2.1)) := by
    unfold convert_to
    rw [if_neg hne, hmiss]
    simp only []
    rw [c2]
    rfl
  obtain ⟨f1, f2, -, f4, -⟩ := record_data_frame (convert_cached cv this new_format w) this
    new_format (get_num_bytes (convert_build cv (w.objects this) new_format w.next_object w.rt).1
      (convert_build cv (w.objects this) new_format w.next_object w.rt).2.1)
  refine ⟨heq, ?_, ?_, ?_, ?_, ?_, ?_⟩
  · rw [heq]; exact ((f4 _).1).trans (by rw [c2])
  · rw [heq]; exact ((f4 _).2).trans (by rw [c2])
  · rw [heq]; exact f1
  · rw [heq]; exact f2
  · rw [heq]; exact ((f4 _).2).trans c3
  · rw [heq]
    refine ((f4 _).1).trans ?_
    have hne2 : this ≠ w.next_object := by omega
    simp [convert_cached, Function.update_apply, hne2]

theorem subset_stride {a other : qpGeomVertexArrayFormat}
    (h : a.is_data_subset_of other = true) : a.get_stride = other.get_stride := by
  unfold qpGeomVertexArrayFormat.is_data_subset_of at h
  rw [Bool.and_eq_true] at h
  exact of_decide_eq_true h.1

theorem subset_mem {a other : qpGeomVertexArrayFormat}
    (h : a.is_data_subset_of other = true) {dt : qpGeomVertexDataType} (hdt : dt ∈ a.data_types) :
    dt ∈ other.data_types := by
  unfold qpGeomVertexArrayFormat.is_data_subset_of at h
  rw [Bool.and_eq_true] at h
  exact of_decide_eq_true (List.all_eq_true.mp h.2 dt hdt)

theorem resizeOutcome_same {n s : Nat} {old new : List uchar}
    (h : ResizeOutcome n s old new) (hn : old.length / s = n) : new = old := by
  unfold ResizeOutcome at h
  rw [if_pos hn] at h
  exact h

theorem store_at_getElem?_out (v : List uchar) (offset : Nat) (data : List uchar) (p : Nat)
    (hp : p < offset ∨ offset + data.length ≤ p) : (store_at v offset data)[p]? = v[p]? := by
  induction data generalizing v offset with
  | nil => rfl
  | cons b bs ih =>
    rw [store_at, ih _ _ (by simp only [List.length_cons] at hp; omega)]
    rw [List.getElem?_set_ne (by simp only [List.length_cons] at hp; omega)]

theorem copy_records_out (cv : Converter) (to_type : qpGeomVertexDataType) (dst : List uchar)
    (to_stride : Nat) (src : List uchar) (src_stride : Nat) (src_type : qpGeomVertexDataType)
    (n p : Nat) (hcv : ∀ t s r, (cv t s r).length ≤ t.get_total_bytes)
    (hp : ∀ v, p < v * to_stride + to_type.get_start ∨
      v * to_stride + to_type.get_start + to_type.get_total_bytes ≤ p) :
    (copy_records cv to_type dst to_stride src src_stride src_type n)[p]? = dst[p]? := by
  unfold copy_records
  induction n with
  | zero => rfl
  | succ n ih =>
    rw [List.range_succ, List.foldl_append]
    simp only [List.foldl_cons, List.foldl_nil]
    rw [store_at_getElem?_out, ih]
    have h1 := hcv to_type src_type (record_at src src_stride src_type n)
    rcases hp n with h | h
    · exact Or.inl h
    · right; omega

theorem get_data_type_named_some {a : qpGeomVertexArrayFormat} {name : Nat}
    {t : qpGeomVertexDataType} (h : a.get_data_type_named name = some t) :
    t ∈ a.data_types ∧ t.get_name = name := by
  unfold qpGeomVertexArrayFormat.get_data_type_named at h
  have h2 := List.find?_some h
  exact ⟨List.mem_of_find?_eq_some h, of_decide_eq_true h2⟩

theorem get_data_type_mem (a : qpGeomVertexArrayFormat) (di : Nat)
    (hdi : di < a.get_num_data_types) : a.get_data_type di ∈ a.data_types := by
  unfold qpGeomVertexArrayFormat.get_data_type
  unfold qpGeomVertexArrayFormat.get_num_data_types at hdi
  rw [List.getD_eq_getElem?_getD, List.getElem?_eq_getElem hdi]
  exact List.getElem_mem hdi

theorem copy_plan_body_shape (cv : Converter) (format new_format : qpGeomVertexFormat)
    (done_arrays : List Nat) (n : Nat) (src : Nat → List uchar) (i di : Nat)
    (contents : Nat → List uchar) :
    copy_plan_body cv format new_format done_arrays n src i di contents = contents ∨
    ∃ (ja : Nat) (t : qpGeomVertexDataType), ja ∉ done_arrays ∧ ja < new_format.get_num_arrays ∧
      new_format.get_array_with ((format.get_array i).get_data_type di).get_name = (ja : Int) ∧
      (new_format.get_array ja).get_data_type_named
        ((format.get_array i).get_data_type di).get_name = some t ∧
      copy_plan_body cv format new_format done_arrays n src i di contents =
        Function.update contents ja
          (copy_records cv t (contents ja) (new_format.get_array ja).get_stride (src i)
            (format.get_array i).get_stride ((format.get_array i).get_data_type di) n) := by
  by_cases hc : new_format.get_array_with ((format.get_array i).get_data_type di).get_name ≥ 0 ∧
      (new_format.get_array_with
        ((format.get_array i).get_data_type di).get_name).toNat ∉ done_arrays
  · right
    obtain ⟨j, t, hj, hjlt, ht, -⟩ := get_array_with_spec new_format _ hc.1
    have hnd : j ∉ done_arrays := by
      have := hc.2
      rw [hj] at this
      simpa using this
    refine ⟨j, t, hnd, hjlt, hj, ht, ?_⟩
    unfold copy_plan_body
    rw [if_pos hc, hj]
    simp only [Int.toNat_ofNat]
    rw [ht]
  · left
    unfold copy_plan_body
    rw [if_neg hc]

theorem copy_plan_body_out (cv : Converter) (format new_format : qpGeomVertexFormat)
    (done_arrays : List Nat) (n : Nat) (src : Nat → List uchar) (i di : Nat)
    (contents : Nat → List uchar) (j p : Nat)
    (hcv : ∀ t s r, (cv t s r).length ≤ t.get_total_bytes)
    (hi : i < format.get_num_arrays) (hdi : di < (format.get_array i).get_num_data_types)
    (hU : Untouched format new_format j p) :
    (copy_plan_body cv format new_format done_arrays n src i di contents j)[p]? =
      (contents j)[p]? := by
  rcases copy_plan_body_shape cv format new_format done_arrays n src i di contents with
    h | ⟨ja, t, -, -, -, ht, h⟩
  · rw [h]
  · rw [h]
    by_cases e : j = ja
    · subst e
      rw [Function.update_same]
      obtain ⟨hmem, hname⟩ := get_data_type_named_some ht
      exact copy_records_out cv t _ _ _ _ _ n p hcv
        (hU t hmem ⟨i, hi, _, get_data_type_mem _ di hdi, hname.symm⟩)
    · rw [Function.update_noteq e]

theorem copy_plan_inner_out (cv : Converter) (format new_format : qpGeomVertexFormat)
    (done_arrays : List Nat) (n : Nat) (src : Nat → List uchar) (i c : Nat)
    (contents : Nat → List uchar) (j p : Nat)
    (hcv : ∀ t s r, (cv t s r).length ≤ t.get_total_bytes)
    (hi : i < format.get_num_arrays) (hc : c ≤ (format.get_array i).get_num_data_types)
    (hU : Untouched format new_format j p) :
    (copy_plan_inner cv format new_format done_arrays n src i c contents j)[p]? =
      (contents j)[p]? := by
  induction c with
  | zero => rfl
  | succ c ih =>
    unfold copy_plan_inner at ih ⊢
    rw [List.range_succ, List.foldl_append]
    simp only [List.foldl_cons, List.foldl_nil]
    rw [copy_plan_body_out cv format new_format done_arrays n src i c _ j p hcv hi (by omega) hU]
    exact ih (by omega)

theorem copy_plan_out (cv : Converter) (format new_format : qpGeomVertexFormat)
    (done_arrays : List Nat) (n : Nat) (src : Nat → List uchar) (c : Nat)
    (contents : Nat → List uchar) (j p : Nat)
    (hcv : ∀ t s r, (cv t s r).length ≤ t.get_total_bytes)
    (hc : c ≤ format.get_num_arrays)
    (hU : Untouched format new_format j p) :
    (copy_plan cv format new_format done_arrays n src c contents j)[p]? = (contents j)[p]? := by
  induction c with
  | zero => rfl
  | succ c ih =>
    unfold copy_plan at ih ⊢
    rw [List.range_succ, List.foldl_append]
    simp only [List.foldl_cons, List.foldl_nil]
    rw [copy_plan_inner_out cv format new_format done_arrays n src c _ _ j p hcv (by omega)
      (le_refl _) hU]
    exact ih (by omega)

theorem layout_untouched (format new_format : qpGeomVertexFormat) (j : Nat)
    (hlayout : (new_format.get_array j).Layout) (t : qpGeomVertexDataType)
    (ht : t ∈ (new_format.get_array j).data_types) (hname : ¬ format.has_name t.get_name)
    (v k : Nat) (hk : k < t.get_total_bytes) :
    Untouched format new_format j (v * (new_format.get_array j).get_stride + t.get_start + k) := by
  intro t' ht' hname' v'
  have hne : t ≠ t' := fun e => hname (e ▸ hname')
  have h1 := hlayout.1 t ht
  have h2 := hlayout.1 t' ht'
  have h3 := hlayout.2 t ht t' ht' hne
  rcases Nat.lt_trichotomy v' v with hlt | heq | hgt
  · right
    have : (v' + 1) * (new_format.get_array j).get_stride ≤
        v * (new_format.get_array j).get_stride := Nat.mul_le_mul_right _ hlt
    rw [Nat.add_mul, Nat.one_mul] at this
    omega
  · subst heq
    omega
  · left
    have : (v + 1) * (new_format.get_array j).get_stride ≤
        v' * (new_format.get_array j).get_stride := Nat.mul_le_mul_right _ hgt
    rw [Nat.add_mul, Nat.one_mul] at this
    omega

theorem resizeOutcome_nil {n s : Nat} {new : List uchar} (hs : 0 < s)
    (h : ResizeOutcome n s [] new) : new = List.replicate (n * s) 0 := by
  have := resizeOutcome_canonical (c := 0) hs (by simp) h
  simpa using this

theorem converter_pad_length (t s : qpGeomVertexDataType) (r : List uchar) :
    (converter_pad t s r).length = t.get_total_bytes := by
  simp [converter_pad]

theorem take_drop_congr (l1 l2 : List uchar) (off T : Nat)
    (h : ∀ k, k < T → l1[off + k]? = l2[off + k]?) :
    (l1.drop off).take T = (l2.drop off).take T := by
  apply List.ext_getElem?
  intro k
  by_cases hk : k < T
  · rw [List.getElem?_take_of_lt hk, List.getElem?_take_of_lt hk, List.getElem?_drop,
      List.getElem?_drop]
    exact h k hk
  · rw [List.getElem?_take_eq_none (by omega), List.getElem?_take_eq_none (by omega)]

theorem store_at_getElem?_in (v : List uchar) (offset : Nat) (data : List uchar) (i : Nat)
    (hi : i < data.length) (hv : offset + i < v.length) :
    (store_at v offset data)[offset + i]? = data[i]? := by
  induction data generalizing v offset i with
  | nil => simp at hi
  | cons b bs ih =>
    rw [store_at]
    cases i with
    | zero =>
      rw [store_at_getElem?_out _ _ _ _ (by omega)]
      simp only [Nat.add_zero]
      rw [List.getElem?_set_self (by omega)]
      simp
    | succ i =>
      have h := ih (v.set offset b) (offset + 1) i (by simpa using hi) (by simp; omega)
      have e : offset + (i + 1) = offset + 1 + i := by omega
      rw [e, h]
      simp

theorem store_at_take_drop (v : List uchar) (offset : Nat) (data : List uchar)
    (h : offset + data.length ≤ v.length) :
    ((store_at v offset data).drop offset).take data.length = data := by
  apply List.ext_getElem?
  intro k
  by_cases hk : k < data.length
  · rw [List.getElem?_take_of_lt hk, List.getElem?_drop]
    exact store_at_getElem?_in v offset data k hk (by omega)
  · rw [List.getElem?_take_eq_none (by omega), List.getElem?_eq_none (by omega)]

theorem record_at_length (bytes : List uchar) (stride : Nat) (t : qpGeomVertexDataType) (v : Nat)
    (h : v * stride + t.get_start + t.get_total_bytes ≤ bytes.length) :
    (record_at bytes stride t v).length = t.get_total_bytes := by
  unfold record_at
  rw [List.length_take, List.length_drop]
  omega

theorem vertex_block {v n : Nat} (s : Nat) (hv : v < n) : v * s + s ≤ n * s := by
  have : (v + 1) * s ≤ n * s := Nat.mul_le_mul_right _ hv
  rw [Nat.add_mul, Nat.one_mul] at this
  exact this

theorem copy_records_record (cv : Converter) (t : qpGeomVertexDataType) (dst : List uchar)
    (stride : Nat) (src : List uchar) (src_stride : Nat) (src_type : qpGeomVertexDataType)
    (n m : Nat) (hm : m ≤ n)
    (hcv : ∀ t s r, (cv t s r).length = t.get_total_bytes)
    (hfit : t.get_start + t.get_total_bytes ≤ stride)
    (hlen : dst.length = n * stride) (v : Nat) (hv : v < m) :
    record_at (copy_records cv t dst stride src src_stride src_type m) stride t v =
      cv t src_type (record_at src src_stride src_type v) := by
  induction m with
  | zero => omega
  | succ m ih =>
    have hl : (copy_records cv t dst stride src src_stride src_type m).length = n * stride := by
      rw [copy_records_length, hlen]
    have hstep : copy_records cv t dst stride src src_stride src_type (m + 1) =
        store_at (copy_records cv t dst stride src src_stride src_type m)
          (m * stride + t.get_start) (cv t src_type (record_at src src_stride src_type m)) := by
      unfold copy_records
      rw [List.range_succ, List.foldl_append]
      rfl
    rw [hstep]
    have hblock := vertex_block stride (show m < n by omega)
    by_cases hvm : v = m
    · subst hvm
      unfold record_at
      have := store_at_take_drop (copy_records cv t dst stride src src_stride src_type v)
        (v * stride + t.get_start) (cv t src_type (record_at src src_stride src_type v))
        (by rw [hcv, hl]; omega)
      rw [hcv] at this
      exact this
    · have hlt : v < m := by omega
      rw [← ih (by omega) hlt]
      unfold record_at
      apply take_drop_congr
      intro k hk
      apply store_at_getElem?_out
      left
      have := vertex_block stride hlt
      omega

theorem foldl_range_preserve {σ : Type} (f : σ → Nat → σ) (I Q : σ → Prop) (c : Nat)
    (hI : ∀ x, x < c → ∀ s, I s → I (f s x))
    (hpres : ∀ x, x < c → ∀ s, I s → Q s → Q (f s x)) (s0 : σ) (h0 : I s0) (q0 : Q s0) :
    I ((List.range c).foldl f s0) ∧ Q ((List.range c).foldl f s0) := by
  induction c with
  | zero => exact ⟨h0, q0⟩
  | succ c ih =>
    rw [List.range_succ, List.foldl_append]
    have h := ih (fun x hx => hI x (by omega)) (fun x hx => hpres x (by omega))
    exact ⟨hI c (by omega) _ h.1, hpres c (by omega) _ h.1 h.2⟩

theorem foldl_range_inv {σ : Type} (f : σ → Nat → σ) (I : σ → Prop) (c : Nat)
    (hI : ∀ x, x < c → ∀ s, I s → I (f s x)) (s0 : σ) (h0 : I s0) :
    I ((List.range c).foldl f s0) :=
  (foldl_range_preserve f I (fun _ => True) c hI (fun _ _ _ _ _ => trivial) s0 h0 trivial).1

theorem foldl_range_establish {σ : Type} (f : σ → Nat → σ) (I Q : σ → Prop) (c k : Nat)
    (hk : k < c) (hI : ∀ x, x < c → ∀ s, I s → I (f s x))
    (hpres : ∀ x, x < c → ∀ s, I s → Q s → Q (f s x))
    (hest : ∀ s, I s → Q (f s k)) (s0 : σ) (h0 : I s0) :
    Q ((List.range c).foldl f s0) := by
  induction c with
  | zero => omega
  | succ c ih =>
    rw [List.range_succ, List.foldl_append]
    have hinv := foldl_range_inv f I c (fun x hx => hI x (by omega)) s0 h0
    by_cases hkc : k = c
    · subst hkc
      exact hest _ hinv
    · exact hpres c (by omega) _ hinv
        (ih (by omega) (fun x hx => hI x (by omega)) (fun x hx => hpres x (by omega)))

theorem get_array_with_unique (f : qpGeomVertexFormat) (huniq : f.UniqueNames) (j : Nat)
    (hj : j < f.get_num_arrays) (t : qpGeomVertexDataType)
    (ht : t ∈ (f.get_array j).data_types) :
    f.get_array_with t.get_name = (j : Int) ∧
    (f.get_array j).get_data_type_named t.get_name = some t := by
  have hnamed : (f.get_array j).get_data_type_named t.get_name = some t := by
    cases hf : (f.get_array j).get_data_type_named t.get_name with
    | none =>
      unfold qpGeomVertexArrayFormat.get_data_type_named at hf
      have := List.find?_eq_none.mp hf t ht
      simp at this
    | some t0 =>
      obtain ⟨hm, hn⟩ := get_data_type_named_some hf
      rw [(huniq j hj j hj t0 hm t ht hn).2]
  refine ⟨?_, hnamed⟩
  have hge : f.get_array_with t.get_name ≥ 0 := by
    unfold qpGeomVertexFormat.get_array_with
    cases hf : f.arrays.findIdx? (fun a => (a.get_data_type_named t.get_name).isSome) with
    | none =>
      exfalso
      have := List.findIdx?_eq_none_iff.mp hf f.arrays[j] (List.getElem_mem hj)
      rw [← get_array_eq_getElem f j hj, hnamed] at this
      simp at this
    | some j0 => simp
  obtain ⟨j0, t0, hj0, hj0lt, ht0, -⟩ := get_array_with_spec f _ hge
  obtain ⟨hm, hn⟩ := get_data_type_named_some ht0
  rw [hj0, (huniq j0 hj0lt j hj t0 hm t ht hn).1]

theorem copy_plan_body_eq (cv : Converter) (format new_format : qpGeomVertexFormat)
    (done_arrays : List Nat) (n : Nat) (src : Nat → List uchar) (i di : Nat)
    (contents : Nat → List uchar) (j : Nat) (t : qpGeomVertexDataType)
    (hja : new_format.get_array_with ((format.get_array i).get_data_type di).get_name = (j : Int))
    (hnd : j ∉ done_arrays)
    (ht : (new_format.get_array j).get_data_type_named
      ((format.get_array i).get_data_type di).get_name = some t) :
    copy_plan_body cv format new_format done_arrays n src i di contents =
      Function.update contents j
        (copy_records cv t (contents j) (new_format.get_array j).get_stride (src i)
          (format.get_array i).get_stride ((format.get_array i).get_data_type di) n) := by
  unfold copy_plan_body
  simp only []
  rw [hja]
  simp only [Int.toNat_ofNat]
  rw [if_pos ⟨by omega, hnd⟩, ht]

theorem layout_disjoint (a : qpGeomVertexArrayFormat) (hlayout : a.Layout)
    (t t' : qpGeomVertexDataType) (ht : t ∈ a.data_types) (ht' : t' ∈ a.data_types)
    (hne : t' ≠ t) (v k v' : Nat) (hk : k < t.get_total_bytes) :
    v * a.get_stride + t.get_start + k < v' * a.get_stride + t'.get_start ∨
    v' * a.get_stride + t'.get_start + t'.get_total_bytes ≤ v * a.get_stride + t.get_start + k := by
  have h1 := hlayout.1 t ht
  have h2 := hlayout.1 t' ht'
  have h3 := hlayout.2 t ht t' ht' (Ne.symm hne)
  rcases Nat.lt_trichotomy v' v with hlt | heq | hgt
  · right
    have := vertex_block a.get_stride hlt
    omega
  · subst heq
    omega
  · left
    have := vertex_block a.get_stride hgt
    omega

theorem copy_plan_body_record (cv : Converter) (format new_format : qpGeomVertexFormat)
    (done_arrays : List Nat) (n : Nat) (src : Nat → List uchar) (i j : Nat)
    (ta tb : qpGeomVertexDataType)
    (hi : i < format.get_num_arrays)
    (hta : ta ∈ (format.get_array i).data_types)
    (htb : tb ∈ (new_format.get_array j).data_types)
    (hname : ta.get_name = tb.get_name)
    (huniq : format.UniqueNames) (hlayout : (new_format.get_array j).Layout)
    (hcv : ∀ t s r, (cv t s r).length = t.get_total_bytes)
    (i' di' : Nat) (hi' : i' < format.get_num_arrays)
    (hdi' : di' < (format.get_array i').get_num_data_types)
    (contents : Nat → List uchar)
    (hI : (contents j).length = n * (new_format.get_array j).get_stride)
    (hQ : ∀ v, v < n → record_at (contents j) (new_format.get_array j).get_stride tb v =
      cv tb ta (record_at (src i) (format.get_array i).get_stride ta v)) :
    ∀ v, v < n →
      record_at (copy_plan_body cv format new_format done_arrays n src i' di' contents j)
        (new_format.get_array j).get_stride tb v =
      cv tb ta (record_at (src i) (format.get_array i).get_stride ta v) := by
  intro v hv
  rcases copy_plan_body_shape cv format new_format done_arrays n src i' di' contents with
    h | ⟨ja, t', -, -, -, ht', h⟩
  · rw [h]; exact hQ v hv
  · rw [h]
    by_cases e : j = ja
    · subst e
      rw [Function.update_same]
      obtain ⟨hm', hn'⟩ := get_data_type_named_some ht'
      by_cases htt : t' = tb
      · subst htt
        have hdt := get_data_type_mem (format.get_array i') di' hdi'
        obtain ⟨e1, e2⟩ := huniq i' hi' i hi _ hdt ta hta (by rw [← hn', hname])
        subst e1
        rw [e2]
        exact copy_records_record cv t' _ _ _ _ _ n n (le_refl _) hcv (hlayout.1 t' hm') hI v hv
      · rw [← hQ v hv]
        unfold record_at
        apply take_drop_congr
        intro k hk
        exact copy_records_out cv t' _ _ _ _ _ n _ (fun t s r => le_of_eq (hcv t s r))
          (fun v' => layout_disjoint _ hlayout tb t' htb hm' htt v k v' hk)
    · rw [Function.update_noteq e]
      exact hQ v hv

theorem copy_plan_body_establish (cv : Converter) (format new_format : qpGeomVertexFormat)
    (done_arrays : List Nat) (n : Nat) (src : Nat → List uchar) (i j : Nat)
    (ta tb : qpGeomVertexDataType)
    (hj : j < new_format.get_num_arrays)
    (htb : tb ∈ (new_format.get_array j).data_types)
    (hname : ta.get_name = tb.get_name)
    (huniq : new_format.UniqueNames) (hlayout : (new_format.get_array j).Layout)
    (hcv : ∀ t s r, (cv t s r).length = t.get_total_bytes)
    (hnd : j ∉ done_arrays) (di : Nat) (hdi : (format.get_array i).get_data_type di = ta)
    (contents : Nat → List uchar)
    (hI : (contents j).length = n * (new_format.get_array j).get_stride) :
    ∀ v, v < n →
      record_at (copy_plan_body cv format new_format done_arrays n src i di contents j)
        (new_format.get_array j).get_stride tb v =
      cv tb ta (record_at (src i) (format.get_array i).get_stride ta v) := by
  intro v hv
  obtain ⟨hja, hnamed⟩ := get_array_with_unique new_format huniq j hj tb htb
  rw [← hname, ← hdi] at hja hnamed
  rw [copy_plan_body_eq cv format new_format done_arrays n src i di contents j tb hja hnd hnamed,
    Function.update_same, hdi]
  exact copy_records_record cv tb _ _ _ _ _ n n (le_refl _) hcv (hlayout.1 tb htb) hI v hv

theorem copy_plan_record (cv : Converter) (format new_format : qpGeomVertexFormat)
    (done_arrays : List Nat) (n : Nat) (src : Nat → List uchar) (i j : Nat)
    (ta tb : qpGeomVertexDataType)
    (hi : i < format.get_num_arrays) (hj : j < new_format.get_num_arrays)
    (hta : ta ∈ (format.get_array i).data_types)
    (htb : tb ∈ (new_format.get_array j).data_types)
    (hname : ta.get_name = tb.get_name)
    (huniqA : format.UniqueNames) (huniqB : new_format.UniqueNames)
    (hlayout : (new_format.get_array j).Layout)
    (hcv : ∀ t s r, (cv t s r).length = t.get_total_bytes)
    (hnd : j ∉ done_arrays) (contents : Nat → List uchar)
    (hI : (contents j).length = n * (new_format.get_array j).get_stride) :
    ∀ v, v < n →
      record_at (copy_plan cv format new_format done_arrays n src format.get_num_arrays
          contents j) (new_format.get_array j).get_stride tb v =
      cv tb ta (record_at (src i) (format.get_array i).get_stride ta v) := by
  unfold copy_plan
  apply foldl_range_establish
    (fun contents array => copy_plan_inner cv format new_format done_arrays n src array
      (format.get_array array).get_num_data_types contents)
    (fun contents => (contents j).length = n * (new_format.get_array j).get_stride)
    (fun contents => ∀ v, v < n →
      record_at (contents j) (new_format.get_array j).get_stride tb v =
        cv tb ta (record_at (src i) (format.get_array i).get_stride ta v))
    format.get_num_arrays i hi
  · intro x _ s hs
    show List.length _ = _
    rw [copy_plan_inner_length]; exact hs
  · intro x hx s hs hq
    unfold copy_plan_inner
    exact (foldl_range_preserve
      (fun contents di => copy_plan_body cv format new_format done_arrays n src x di contents)
      (fun contents => (contents j).length = n * (new_format.get_array j).get_stride)
      (fun contents => ∀ v, v < n →
        record_at (contents j) (new_format.get_array j).get_stride tb v =
          cv tb ta (record_at (src i) (format.get_array i).get_stride ta v))
      _ (fun y _ s1 hs1 => by
          show List.length _ = _
          rw [copy_plan_body_length]; exact hs1)
      (fun y hy s1 hs1 hq1 => copy_plan_body_record cv format new_format done_arrays n src i j
        ta tb hi hta htb hname huniqA hlayout hcv x y hx hy s1 hs1 hq1) s hs hq).2
  · intro s hs
    obtain ⟨di, hdi, hget⟩ := List.getElem_of_mem hta
    have hdt : (format.get_array i).get_data_type di = ta := by
      unfold qpGeomVertexArrayFormat.get_data_type
      rw [List.getD_eq_getElem?_getD, List.getElem?_eq_getElem hdi]
      exact hget
    unfold copy_plan_inner
    exact foldl_range_establish
      (fun contents di => copy_plan_body cv format new_format done_arrays n src i di contents)
      (fun contents => (contents j).length = n * (new_format.get_array j).get_stride)
      (fun contents => ∀ v, v < n →
        record_at (contents j) (new_format.get_array j).get_stride tb v =
          cv tb ta (record_at (src i) (format.get_array i).get_stride ta v))
      _ di hdi (fun y _ s1 hs1 => by
          show List.length _ = _
          rw [copy_plan_body_length]; exact hs1)
      (fun y hy s1 hs1 hq1 => copy_plan_body_record cv format new_format done_arrays n src i j
        ta tb hi hta htb hname huniqA hlayout hcv i y hi hy s1 hs1 hq1)
      (fun s1 hs1 => copy_plan_body_establish cv format new_format done_arrays n src i j ta tb
        hj htb hname huniqB hlayout hcv hnd di hdt s1 hs1) s hs
  · exact hI

theorem count_num_vertices (self : qpGeomVertexData) (rt : Runtime) (hwf : self.WF rt.heap)
    (n : Nat) (hcount : ∀ i, i < self._cycler._arrays.length →
      (self.array_bytes rt.heap i).length = n * self.stride i)
    (hpos : 0 < self._cycler._arrays.length) : (get_num_vertices self rt).1 = n := by
  rw [get_num_vertices_eq self rt hwf.1 hpos, hcount 0 hpos]
  exact Nat.mul_div_cancel n (hwf.2.1 0 hpos)

theorem convert_to_result (cv : Converter) (this : Nat) (new_format : qpGeomVertexFormat)
    (w : World) (hne : new_format ≠ (w.objects this)._format)
    (hmiss : cache_find new_format (w.objects this)._cycler._converted_cache = none)
    (hthis : this < w.next_object)
    (hreg : new_format.is_registered = true)
    (hwf : (w.objects this).WF w.rt.heap)
    (n : Nat) (hcount : ∀ i, i < (w.objects this)._cycler._arrays.length →
      ((w.objects this).array_bytes w.rt.heap i).length = n * (w.objects this).stride i)
    (hstride : ∀ j, j < new_format.get_num_arrays → 0 < (new_format.get_array j).get_stride) :
    (convert_to cv this new_format w).1 = w.next_object ∧
    (convert_to cv this new_format w).2.next_object = w.next_object + 1 ∧
    ((convert_to cv this new_format w).2.objects w.next_object)._format = new_format ∧
    (∀ G, cache_find G
      ((convert_to cv this new_format w).2.objects w.next_object)._cycler._converted_cache =
        none) ∧
    ((convert_to cv this new_format w).2.objects w.next_object).WF
      (convert_to cv this new_format w).2.rt.heap ∧
    (∀ j, j < ((convert_to cv this new_format w).2.objects w.next_object)._cycler._arrays.length →
      (((convert_to cv this new_format w).2.objects w.next_object).array_bytes
        (convert_to cv this new_format w).2.rt.heap j).length =
      (get_num_vertices (w.objects this) w.rt).1 *
        ((convert_to cv this new_format w).2.objects w.next_object).stride j) := by
  obtain ⟨sized, B⟩ := convert_build_inv cv (w.objects this) new_format w.next_object w.rt
    hreg hwf.1 hwf.2.2
  obtain ⟨m1, m2, m3, m4, -, -, -⟩ := convert_to_miss cv this new_format w hne hmiss hthis
  obtain ⟨-, c2, -, -⟩ := convert_cached_objects cv this new_format w hthis
  have h1 : (convert_to cv this new_format w).1 = w.next_object := congrArg Prod.fst m1
  have h2 := congrArg Prod.snd m1
  simp only [] at h2
  have hfmt := m2.trans B.format_eq
  refine ⟨h1, ?_, hfmt, ?_, ⟨?_, ?_, ?_⟩, ?_⟩
  · rw [h2, (record_data_frame _ _ _ _).2.2.1]
    rfl
  · intro G
    rw [h2]
    rcases record_data_cache_or (convert_cached cv this new_format w) this new_format
      (get_num_bytes (convert_build cv (w.objects this) new_format w.next_object w.rt).1
        (convert_build cv (w.objects this) new_format w.next_object w.rt).2.1)
      w.next_object G with h | h
    · rw [h, c2, B.cache_eq]
      rfl
    · exact h
  · rw [hfmt, m3, B.length_eq]
  · intro j hj
    unfold stride
    rw [hfmt]
    rw [m3, B.length_eq] at hj
    exact hstride j hj
  · rw [m3, m4]
    exact refsOk_right B.refsOk
  · intro j hj
    rw [m3, B.length_eq] at hj
    unfold stride
    rw [hfmt]
    show (slot_bytes _ _ j).length = _
    rw [m3, m4, B.contents j, copy_plan_length]
    by_cases hd : j ∈ (convert_build cv (w.objects this) new_format w.next_object w.rt).2.2
    · obtain ⟨i, hi, hfm, hres, -, -⟩ := B.aliased j hd
      have hi' : i < (w.objects this)._cycler._arrays.length := by
        rw [← hwf.1]; exact hi
      have hn := count_num_vertices (w.objects this) w.rt hwf n hcount (by omega)
      have hst : (new_format.get_array j).get_stride = (w.objects this).stride i :=
        subset_stride (first_match_some hfm).2
      have hl := hcount i hi'
      have hq : (slot_bytes (w.objects this)._cycler._arrays w.rt.heap i).length /
          (new_format.get_array j).get_stride = (get_num_vertices (w.objects this) w.rt).1 := by
        rw [hn, hst]
        show ((w.objects this).array_bytes w.rt.heap i).length / _ = n
        rw [hl]
        exact Nat.mul_div_cancel n (hwf.2.1 i hi')
      rw [resizeOutcome_same hres hq, hn, hst]
      exact hl
    · rw [resizeOutcome_nil (hstride j hj) (B.fresh j hj hd).1, List.length_replicate]

theorem convert_to_records (cv : Converter) (this : Nat) (new_format : qpGeomVertexFormat)
    (w : World) (hne : new_format ≠ (w.objects this)._format)
    (hmiss : cache_find new_format (w.objects this)._cycler._converted_cache = none)
    (hthis : this < w.next_object)
    (hreg : new_format.is_registered = true)
    (hwf : (w.objects this).WF w.rt.heap)
    (n : Nat) (hcount : ∀ i, i < (w.objects this)._cycler._arrays.length →
      ((w.objects this).array_bytes w.rt.heap i).length = n * (w.objects this).stride i)
    (hstride : ∀ j, j < new_format.get_num_arrays → 0 < (new_format.get_array j).get_stride)
    (hlayout : ∀ j, j < new_format.get_num_arrays → (new_format.get_array j).Layout)
    (huniqA : (w.objects this)._format.UniqueNames) (huniqB : new_format.UniqueNames)
    (hcv : ∀ t s r, (cv t s r).length = t.get_total_bytes)
    (i j : Nat) (ta tb : qpGeomVertexDataType)
    (hi : i < (w.objects this)._format.get_num_arrays) (hj : j < new_format.get_num_arrays)
    (hta : ta ∈ ((w.objects this)._format.get_array i).data_types)
    (htb : tb ∈ (new_format.get_array j).data_types)
    (hname : ta.get_name = tb.get_name) (v : Nat) (hv : v < n) :
    record_at (((convert_to cv this new_format w).2.objects w.next_object).array_bytes
        (convert_to cv this new_format w).2.rt.heap j) (new_format.get_array j).get_stride tb v =
      cv tb ta (record_at ((w.objects this).array_bytes w.rt.heap i)
        ((w.objects this)._format.get_array i).get_stride ta v) ∨
    (tb = ta ∧
      (new_format.get_array j).get_stride = ((w.objects this)._format.get_array i).get_stride ∧
      record_at (((convert_to cv this new_format w).2.objects w.next_object).array_bytes
        (convert_to cv this new_format w).2.rt.heap j) (new_format.get_array j).get_stride tb v =
      record_at ((w.objects this).array_bytes w.rt.heap i)
        ((w.objects this)._format.get_array i).get_stride ta v) := by
  obtain ⟨sized, B⟩ := convert_build_inv cv (w.objects this) new_format w.next_object w.rt
    hreg hwf.1 hwf.2.2
  obtain ⟨-, -, m3, m4, -, -, -⟩ := convert_to_miss cv this new_format w hne hmiss hthis
  have hi' : i < (w.objects this)._cycler._arrays.length := by
    rw [← hwf.1]; exact hi
  have hn := count_num_vertices (w.objects this) w.rt hwf n hcount (by omega)
  have hbytes : ((convert_to cv this new_format w).2.objects w.next_object).array_bytes
      (convert_to cv this new_format w).2.rt.heap j =
      copy_plan cv (w.objects this)._format new_format
        (convert_build cv (w.objects this) new_format w.next_object w.rt).2.2
        (get_num_vertices (w.objects this) w.rt).1
        (slot_bytes (w.objects this)._cycler._arrays w.rt.heap)
        (w.objects this)._format.get_num_arrays sized j := by
    show slot_bytes _ _ j = _
    rw [m3, m4]
    exact B.contents j
  rw [hbytes]
  by_cases hd : j ∈ (convert_build cv (w.objects this) new_format w.next_object w.rt).2.2
  · right
    obtain ⟨i0, hi0, hfm, hres, -, -⟩ := B.aliased j hd
    have hsub := (first_match_some hfm).2
    obtain ⟨e1, e2⟩ := huniqA i0 hi0 i hi tb (subset_mem hsub htb) ta hta hname.symm
    subst e1
    have hst : (new_format.get_array j).get_stride = (w.objects this).stride i0 :=
      subset_stride hsub
    have hl := hcount i0 hi'
    have hq : (slot_bytes (w.objects this)._cycler._arrays w.rt.heap i0).length /
        (new_format.get_array j).get_stride = (get_num_vertices (w.objects this) w.rt).1 := by
      rw [hn, hst]
      show ((w.objects this).array_bytes w.rt.heap i0).length / _ = n
      rw [hl]
      exact Nat.mul_div_cancel n (hwf.2.1 i0 hi')
    refine ⟨e2, hst, ?_⟩
    rw [copy_plan_done _ _ _ _ _ _ _ _ _ hd, resizeOutcome_same hres hq, hst, e2]
    rfl
  · left
    have hsz := resizeOutcome_nil (hstride j hj) (B.fresh j hj hd).1
    have hI : (sized j).length =
        (get_num_vertices (w.objects this) w.rt).1 * (new_format.get_array j).get_stride := by
      rw [hsz, List.length_replicate]
    exact copy_plan_record cv _ new_format _ _ _ i j ta tb hi hj hta htb hname huniqA huniqB
      (hlayout j hj) hcv hd sized hI v (by rw [hn]; exact hv)

theorem converter_pad_id (t : qpGeomVertexDataType) (r : List uchar)
    (hr : r.length = t.get_total_bytes) : converter_pad t t r = r := by
  unfold converter_pad
  rw [← hr, List.take_left]

theorem converter_pad_round (ta tb : qpGeomVertexDataType)
    (htot : ta.get_total_bytes = tb.get_total_bytes) (r : List uchar)
    (hr : r.length = ta.get_total_bytes) :
    converter_pad ta tb (converter_pad tb ta r) = r := by
  unfold converter_pad
  rw [← htot, ← hr, List.take_left, List.take_left]

theorem dist_midpoint {K : Type} [LinearOrderedField K] (p : LPlane K) (a b : LVecBase3 K) :
    p.dist_to_plane ((a + b) * (1 / 2 : K)) = (p.dist_to_plane a + p.dist_to_plane b) / 2 := by
  show p.a * ((a.x + b.x) * (1 / 2)) + p.b * ((a.y + b.y) * (1 / 2)) +
    p.c * ((a.z + b.z) * (1 / 2)) + p.d =
    (p.a * a.x + p.b * a.y + p.c * a.z + p.d + (p.a * b.x + p.b * b.y + p.c * b.z + p.d)) / 2
  ring

theorem segment_result {K : Type} [LinearOrderedField K] (self : CollisionPlane K)
    (entry : CollisionEntry K) (point_a point_b : LVecBase3 K) (respect : Bool)
    (hfrom : entry.get_from = .segment point_a point_b respect) :
    (self.test_intersection_from_segment entry = none ↔
      0 ≤ self.dist_to_plane (entry.get_wrt_mat.xform_point point_a) ∧
      0 ≤ self.dist_to_plane (entry.get_wrt_mat.xform_point point_b)) ∧
    ∀ e, self.test_intersection_from_segment entry = some e →
      e.interior_point = some (
        if self.dist_to_plane (entry.get_wrt_mat.xform_point point_a) <
            self.dist_to_plane (entry.get_wrt_mat.xform_point point_b)
          then entry.get_wrt_mat.xform_point point_a
        else if self.dist_to_plane (entry.get_wrt_mat.xform_point point_b) <
            self.dist_to_plane (entry.get_wrt_mat.xform_point point_a)
          then entry.get_wrt_mat.xform_point point_b
        else (entry.get_wrt_mat.xform_point point_a + entry.get_wrt_mat.xform_point point_b) *
          (1 / 2 : K)) ∧
      ∀ p, e.interior_point = some p → self.dist_to_plane p < 0 := by
  unfold CollisionPlane.test_intersection_from_segment CollisionPlane.dist_to_plane
  rw [hfrom]
  simp only []
  generalize entry.get_wrt_mat.xform_point point_a = A
  generalize entry.get_wrt_mat.xform_point point_b = B
  by_cases hc : self._plane.dist_to_plane A ≥ 0 ∧ self._plane.dist_to_plane B ≥ 0
  · rw [if_pos hc]
    exact ⟨⟨fun _ => hc, fun _ => rfl⟩, fun e he => by cases he⟩
  · rw [if_neg hc]
    have hneg : self._plane.dist_to_plane A < 0 ∨ self._plane.dist_to_plane B < 0 := by
      by_contra h
      push_neg at h
      exact hc ⟨h.1, h.2⟩
    by_cases h1 : self._plane.dist_to_plane A < self._plane.dist_to_plane B
    · simp only [if_pos h1]
      refine ⟨⟨fun h => (by cases h), fun h => absurd h hc⟩, ?_⟩
      intro e he
      cases he
      refine ⟨rfl, ?_⟩
      intro p hp
      cases hp
      rcases hneg with h | h
      · exact h
      · exact lt_trans h1 h
    · simp only [if_neg h1]
      by_cases h2 : self._plane.dist_to_plane B < self._plane.dist_to_plane A
      · simp only [if_pos h2]
        refine ⟨⟨fun h => (by cases h), fun h => absurd h hc⟩, ?_⟩
        intro e he
        cases he
        refine ⟨rfl, ?_⟩
        intro p hp
        cases hp
        rcases hneg with h | h
        · exact lt_trans h2 h
        · exact h
      · simp only [if_neg h2]
        refine ⟨⟨fun h => (by cases h), fun h => absurd h hc⟩, ?_⟩
        intro e he
        cases he
        refine ⟨rfl, ?_⟩
        intro p hp
        cases hp
        have heq : self._plane.dist_to_plane A = self._plane.dist_to_plane B :=
          le_antisymm (not_lt.mp h2) (not_lt.mp h1)
        rw [dist_midpoint, heq]
        have hB : self._plane.dist_to_plane B < 0 := by
          rcases hneg with h | h
          · rw [← heq]; exact h
          · exact h
        linarith

theorem write_bytes_self (h : Heap) (p : PTA_uchar) : PTA_uchar.write h p (PTA_uchar.bytes h p) = h := by
  cases p with
  | none => rfl
  | some a =>
    apply heap_ext
    · intro x
      by_cases hx : x = a
      · subst hx
        simp [PTA_uchar.write, PTA_uchar.bytes, Heap.set_v]
      · simp [PTA_uchar.write, PTA_uchar.bytes, Heap.set_v, Function.update_apply, hx]
    · rfl

theorem set_data_effect {F : Type} (m : Machine F) (this : Nat) (self : qpGeomVertexData)
    (array : Nat) (data_type : qpGeomVertexDataType) (vertex : Nat) (data : Nat → F)
    (num_values : Int) (rt : Runtime)
    (harray : array <
      (set_data_grown this self array data_type vertex rt).1._cycler._arrays.length)
    (hok : RefsOk (set_data_grown this self array data_type vertex rt).1._cycler._arrays
      (set_data_grown this self array data_type vertex rt).2.heap) :
    ∃ b, Effect array b (set_data_grown this self array data_type vertex rt).1._cycler._arrays
        (set_data_grown this self array data_type vertex rt).2.heap
        (set_data m this self array data_type vertex data num_values rt).1._cycler._arrays
        (set_data m this self array data_type vertex data num_values rt).2.heap ∧
      (set_data m this self array data_type vertex data num_values rt).1._format =
        (set_data_grown this self array data_type vertex rt).1._format ∧
      (b = (set_data_grown this self array data_type vertex rt).1.array_bytes
          (set_data_grown this self array data_type vertex rt).2.heap array ∨
        ∃ stored, set_data_bytes m data_type data num_values = .ok stored ∧
          b = store_at ((set_data_grown this self array data_type vertex rt).1.array_bytes
            (set_data_grown this self array data_type vertex rt).2.heap array)
            (vertex * (self._format.get_array array).get_stride + data_type.get_start) stored) ∧
      ((∀ stored, set_data_bytes m data_type data num_values ≠ .ok stored) →
        b = (set_data_grown this self array data_type vertex rt).1.array_bytes
          (set_data_grown this self array data_type vertex rt).2.heap array) ∧
      (∀ stored, set_data_bytes m data_type data num_values = .ok stored →
        vertex * (self._format.get_array array).get_stride + data_type.get_start +
          data_type.get_total_bytes ≤
          ((set_data_grown this self array data_type vertex rt).1.array_bytes
            (set_data_grown this self array data_type vertex rt).2.heap array).length →
        b = store_at ((set_data_grown this self array data_type vertex rt).1.array_bytes
            (set_data_grown this self array data_type vertex rt).2.heap array)
            (vertex * (self._format.get_array array).get_stride + data_type.get_start) stored) := by
  unfold set_data
  simp only []
  generalize set_data_grown this self array data_type vertex rt = r1 at harray hok
  obtain ⟨-, -, -, -, hb, -⟩ := modify_array_data_valid this r1.1 r1.2 array harray hok
  have hq := modify_array_data_handle this r1.1 r1.2 array harray
  have hfmt2 := modify_array_data_format this r1.1 (array : Int) r1.2
  have hbq : PTA_uchar.bytes (modify_array_data this r1.1 (array : Int) r1.2).2.2.heap
      (modify_array_data this r1.1 (array : Int) r1.2).1 = r1.1.array_bytes r1.2.heap array := by
    rw [← hb array, hq]; rfl
  have hnull : ∀ b, slot r1.1._cycler._arrays array = none →
      b = r1.1.array_bytes r1.2.heap array ∨
        (∃ off stored, b = store_at (r1.1.array_bytes r1.2.heap array) off stored) → b = [] := by
    intro b hs hbb
    have he : r1.1.array_bytes r1.2.heap array = [] := by
      show PTA_uchar.bytes _ (slot _ array) = []
      rw [hs]; rfl
    rcases hbb with h | ⟨off, stored, h⟩
    · rw [h, he]
    · rw [h, he, store_at_nil]
  have hkeep := modify_write_release this r1.1 r1.2 array (r1.1.array_bytes r1.2.heap array)
    harray hok (fun hs => hnull _ hs (Or.inl rfl))
  rw [← hbq, write_bytes_self] at hkeep
  rw [hbq] at hkeep
  by_cases hsize : vertex * (self._format.get_array array).get_stride + data_type.get_start +
      data_type.get_total_bytes ≤ PTA_uchar.size (modify_array_data this r1.1 (array : Int) r1.2).2.2.heap
        (modify_array_data this r1.1 (array : Int) r1.2).1
  · rw [if_neg (not_not.mpr hsize)]
    cases hst : set_data_bytes m data_type data num_values with
    | error line =>
      simp only []
      refine ⟨_, hkeep, hfmt2, Or.inl rfl, fun _ => rfl, fun stored h => by cases h⟩
    | ok stored =>
      simp only []
      have hw := modify_write_release this r1.1 r1.2 array
        (store_at (r1.1.array_bytes r1.2.heap array)
          (vertex * (self._format.get_array array).get_stride + data_type.get_start) stored)
        harray hok (fun hs => hnull _ hs (Or.inr ⟨_, _, rfl⟩))
      refine ⟨_, ?_, hfmt2, Or.inr ⟨stored, rfl, rfl⟩, fun h => absurd rfl (h stored),
        fun s h _ => by cases h; rfl⟩
      unfold PTA_uchar.store
      rw [hbq]
      exact hw
  · rw [if_pos hsize]
    simp only []
    refine ⟨_, hkeep, hfmt2, Or.inl rfl, fun _ => rfl, ?_⟩
    intro stored _ hfits
    exfalso
    apply hsize
    unfold PTA_uchar.size
    rw [hbq]
    exact hfits

theorem set_data_grown_cases (this : Nat) (self : qpGeomVertexData) (array : Nat)
    (data_type : qpGeomVertexDataType) (vertex : Nat) (rt : Runtime) (c : Nat)
    (hcount : ∀ i, i < self._cycler._arrays.length →
      (self.array_bytes rt.heap i).length = c * self.stride i)
    (harray : array < self._cycler._arrays.length)
    (hfit : data_type.get_start + data_type.get_total_bytes ≤ self.stride array) :
    (vertex < c → set_data_grown this self array data_type vertex rt = (self, rt)) ∧
    (c ≤ vertex → 0 < data_type.get_total_bytes →
      set_data_grown this self array data_type vertex rt =
        set_num_vertices this self (vertex + 1) rt) := by
  have hsize : PTA_uchar.size rt.heap (slot self._cycler._arrays array) =
      c * self.stride array := hcount array harray
  unfold set_data_grown
  simp only []
  rw [hsize]
  constructor
  · intro hv
    have := vertex_block (self.stride array) hv
    unfold stride at this hfit ⊢
    rw [if_neg (by omega)]
  · intro hv hpos
    have : c * self.stride array ≤ vertex * self.stride array := Nat.mul_le_mul_right _ hv
    unfold stride at this hfit ⊢
    rw [if_pos (by omega)]

theorem set_data_bytes_length {F : Type} (m : Machine F) (data_type : qpGeomVertexDataType)
    (data : Nat → F) (num_values : Int) (stored : List uchar)
    (h : set_data_bytes m data_type data num_values = .ok stored) (hsup : data_type.Supported) :
    stored.length ≤ data_type.get_total_bytes ∧
    (data_type.get_numeric_type = .NT_uint8 →
      stored.length = num_values.toNat ∧ num_values ≤ data_type.get_num_values) ∧
    (data_type.get_numeric_type = .NT_packed_argb → num_values = 4) ∧
    (data_type.get_numeric_type = .NT_float → num_values = data_type.get_num_values) := by
  unfold set_data_bytes at h
  cases ht : data_type.get_numeric_type with
  | NT_uint8 =>
    rw [ht] at h
    simp only [] at h
    split at h
    · cases h
    · rename_i hk
      cases h
      have h1 := hsup.1 ht
      have hk' : num_values ≤ data_type.get_num_values := not_not.mp hk
      refine ⟨?_, fun _ => ⟨by simp, hk'⟩, fun h => (by cases h), fun h => (by cases h)⟩
      simp only [List.length_map, List.length_range]
      omega
  | NT_packed_argb =>
    rw [ht] at h
    simp only [] at h
    split at h
    · cases h
    · rename_i hk
      cases h
      have h1 := hsup.2 ht
      refine ⟨?_, fun h => (by cases h), fun _ => not_not.mp hk, fun h => (by cases h)⟩
      simp only [List.length_ofFn]
      exact h1
  | NT_float =>
    rw [ht] at h
    simp only [] at h
    split at h
    · cases h
    · rename_i hk
      cases h
      refine ⟨?_, fun h => (by cases h), fun h => (by cases h), fun _ => not_not.mp hk⟩
      simp

theorem set_data_bytes_error {F : Type} (m : Machine F) (data_type : qpGeomVertexDataType)
    (data : Nat → F) (num_values : Int)
    (h : (data_type.get_numeric_type = .NT_packed_argb ∧ num_values ≠ 4) ∨
      (data_type.get_numeric_type = .NT_float ∧ num_values ≠ data_type.get_num_values) ∨
      (data_type.get_numeric_type = .NT_uint8 ∧ num_values > data_type.get_num_values)) :
    ∀ stored, set_data_bytes m data_type data num_values ≠ .ok stored := by
  intro stored hs
  unfold set_data_bytes at hs
  rcases h with ⟨ht, hk⟩ | ⟨ht, hk⟩ | ⟨ht, hk⟩
  · rw [ht] at hs
    simp only [] at hs
    rw [if_pos hk] at hs
    cases hs
  · rw [ht] at hs
    simp only [] at hs
    rw [if_pos hk] at hs
    cases hs
  · rw [ht] at hs
    simp only [] at hs
    rw [if_pos (by omega)] at hs
    cases hs

theorem set_data_arrays {F : Type} (m : Machine F) (this : Nat) (self : qpGeomVertexData)
    (array : Nat) (data_type : qpGeomVertexDataType) (vertex : Nat) (data : Nat → F)
    (num_values : Int) (rt : Runtime)
    (harray : array <
      (set_data_grown this self array data_type vertex rt).1._cycler._arrays.length)
    (hok : RefsOk (set_data_grown this self array data_type vertex rt).1._cycler._arrays
      (set_data_grown this self array data_type vertex rt).2.heap)
    (hsup : data_type.Supported) :
    (set_data m this self array data_type vertex data num_values rt).1._format =
      (set_data_grown this self array data_type vertex rt).1._format ∧
    (set_data m this self array data_type vertex data num_values rt).1._cycler._arrays.length =
      (set_data_grown this self array data_type vertex rt).1._cycler._arrays.length ∧
    RefsOk (set_data m this self array data_type vertex data num_values rt).1._cycler._arrays
      (set_data m this self array data_type vertex data num_values rt).2.heap ∧
    (∀ j, j ≠ array →
      slot (set_data m this self array data_type vertex data num_values rt).1._cycler._arrays j =
        slot (set_data_grown this self array data_type vertex rt).1._cycler._arrays j ∧
      (set_data m this self array data_type vertex data num_values rt).1.array_bytes
        (set_data m this self array data_type vertex data num_values rt).2.heap j =
      (set_data_grown this self array data_type vertex rt).1.array_bytes
        (set_data_grown this self array data_type vertex rt).2.heap j) ∧
    ((set_data m this self array data_type vertex data num_values rt).1.array_bytes
      (set_data m this self array data_type vertex data num_values rt).2.heap array).length =
      ((set_data_grown this self array data_type vertex rt).1.array_bytes
        (set_data_grown this self array data_type vertex rt).2.heap array).length ∧
    (∀ p, p < vertex * (self._format.get_array array).get_stride + data_type.get_start ∨
        vertex * (self._format.get_array array).get_stride + data_type.get_start +
          data_type.get_total_bytes ≤ p →
      ((set_data m this self array data_type vertex data num_values rt).1.array_bytes
        (set_data m this self array data_type vertex data num_values rt).2.heap array)[p]? =
      ((set_data_grown this self array data_type vertex rt).1.array_bytes
        (set_data_grown this self array data_type vertex rt).2.heap array)[p]?) ∧
    (data_type.get_numeric_type = .NT_uint8 →
      ∀ p, p < vertex * (self._format.get_array array).get_stride + data_type.get_start ∨
        vertex * (self._format.get_array array).get_stride + data_type.get_start +
          num_values.toNat ≤ p →
      ((set_data m this self array data_type vertex data num_values rt).1.array_bytes
        (set_data m this self array data_type vertex data num_values rt).2.heap array)[p]? =
      ((set_data_grown this self array data_type vertex rt).1.array_bytes
        (set_data_grown this self array data_type vertex rt).2.heap array)[p]?) ∧
    ((∀ stored, set_data_bytes m data_type data num_values ≠ .ok stored) →
      (set_data m this self array data_type vertex data num_values rt).1.array_bytes
        (set_data m this self array data_type vertex data num_values rt).2.heap array =
      (set_data_grown this self array data_type vertex rt).1.array_bytes
        (set_data_grown this self array data_type vertex rt).2.heap array) := by
  obtain ⟨b, he, hfmt, hb, herr, -⟩ := set_data_effect m this self array data_type vertex data
    num_values rt harray hok
  have hself := effect_self hok harray he
  have hself' : (set_data m this self array data_type vertex data num_values rt).1.array_bytes
      (set_data m this self array data_type vertex data num_values rt).2.heap array = b := hself
  refine ⟨hfmt, effect_length he, effect_refsOk hok harray he, ?_, ?_, ?_, ?_, ?_⟩
  · intro j hj
    exact effect_frame hok he hj
  · rw [hself']
    rcases hb with h | ⟨stored, -, h⟩
    · rw [h]
    · rw [h, store_at_length]
  · intro p hp
    rw [hself']
    rcases hb with h | ⟨stored, hst, h⟩
    · rw [h]
    · rw [h]
      have hl := (set_data_bytes_length m data_type data num_values stored hst hsup).1
      exact store_at_getElem?_out _ _ _ _ (by omega)
  · intro ht p hp
    rw [hself']
    rcases hb with h | ⟨stored, hst, h⟩
    · rw [h]
    · rw [h]
      have hl := ((set_data_bytes_length m data_type data num_values stored hst hsup).2.1 ht).1
      exact store_at_getElem?_out _ _ _ _ (by omega)
  · intro hno
    rw [hself']
    exact herr hno

theorem set_data_float {F : Type} (m : Machine F) (this : Nat) (self : qpGeomVertexData)
    (array : Nat) (data_type : qpGeomVertexDataType) (vertex : Nat) (data : Nat → F) (N : Nat)
    (rt : Runtime)
    (hwf : self.WF rt.heap) (hsame : self.SameCount rt.heap)
    (harray : array < self._cycler._arrays.length)
    (htype : data_type.get_numeric_type = .NT_float)
    (hN : data_type.get_num_values = N)
    (htotal : data_type.get_total_bytes = 4 * N)
    (hfit : data_type.get_start + data_type.get_total_bytes ≤ self.stride array) :
    (∀ i, i < N → ∀ k : Fin 4,
      ((set_data m this self array data_type vertex data N rt).1.array_bytes
        (set_data m this self array data_type vertex data N rt).2.heap array).getD
          (vertex * self.stride array + data_type.get_start + 4 * i + k.val) 0 =
        m.float_raw (data i) k) ∧
    get_data m (set_data m this self array data_type vertex data N rt).1 array data_type vertex N
        (set_data m this self array data_type vertex data N rt).2 =
      ((List.range N).map fun i => m.float_of_raw (m.float_raw (data i)),
       (set_data m this self array data_type vertex data N rt).2) ∧
    (set_data m this self array data_type vertex data N rt).2.nassert_failed =
      rt.nassert_failed := by
  have hstored : set_data_bytes m data_type data (N : Int) =
      .ok ((List.range data_type.get_total_bytes).map fun k =>
        m.float_raw (data (k / 4)) (Fin.ofNat k)) := by
    unfold set_data_bytes
    rw [htype]
    simp only []
    rw [if_neg (by rw [hN]; simp)]
  obtain ⟨hb, hfmt, hlog⟩ := set_data_stored m this self array data_type vertex data N rt _
    hwf hsame harray hfit hstored
  obtain ⟨-, -, -, -, hfits⟩ :=
    set_data_grown_fits this self array data_type vertex rt hwf hsame harray hfit
  have hbyte : ∀ i, i < N → ∀ k : Fin 4,
      ((set_data m this self array data_type vertex data N rt).1.array_bytes
        (set_data m this self array data_type vertex data N rt).2.heap array).getD
          (vertex * self.stride array + data_type.get_start + 4 * i + k.val) 0 =
        m.float_raw (data i) k := by
    intro i hi k
    have hk := k.isLt
    have hlt : 4 * i + k.val < data_type.get_total_bytes := by omega
    rw [hb, Nat.add_assoc (vertex * self.stride array + data_type.get_start) (4 * i) k.val,
      store_at_getD _ _ _ (4 * i + k.val) (by simpa using hlt) (by omega)]
    simp only [List.getD_eq_getElem?_getD]
    rw [List.getElem?_map, List.getElem?_range hlt]
    show m.float_raw (data ((4 * i + k.val) / 4)) (Fin.ofNat (4 * i + k.val)) = _
    have e1 : (4 * i + k.val) / 4 = i := by omega
    have e2 : (Fin.ofNat (4 * i + k.val) : Fin 4) = k := by
      apply Fin.ext
      show (4 * i + k.val) % 4 = k.val
      omega
    rw [e1, e2]
  refine ⟨hbyte, ?_, hlog⟩
  unfold get_data
  simp only []
  have hst : (((set_data m this self array data_type vertex data N rt).1)._format.get_array
      array).get_stride = self.stride array := by rw [hfmt]; rfl
  rw [hst]
  have hlen : vertex * self.stride array + data_type.get_start + data_type.get_total_bytes ≤
      ((set_data m this self array data_type vertex data N rt).1.array_bytes
        (set_data m this self array data_type vertex data N rt).2.heap array).length := by
    rw [hb, store_at_length]; exact hfits
  rw [if_neg (not_not.mpr hlen)]
  unfold get_data_values
  rw [htype]
  simp only []
  rw [if_neg (by rw [hN]; simp)]
  simp only [Int.toNat_ofNat]
  congr 1
  apply List.map_congr_left
  intro i hi
  have hi' : i < N := List.mem_range.mp hi
  congr 1
  funext k
  exact hbyte i hi' k

theorem dist_add_smul {K : Type} [LinearOrderedField K] (p : LPlane K) (o v : LVecBase3 K)
    (t : K) :
    p.dist_to_plane (o + t * v) = p.dist_to_plane o + t * p.get_normal.dot v := by
  show p.a * (o.x + t * v.x) + p.b * (o.y + t * v.y) + p.c * (o.z + t * v.z) + p.d =
    p.a * o.x + p.b * o.y + p.c * o.z + p.d + t * (p.a * v.x + p.b * v.y + p.c * v.z)
  ring

theorem normal_dot_sub {K : Type} [LinearOrderedField K] (p : LPlane K) (a b : LVecBase3 K) :
    p.get_normal.dot (b - a) = p.dist_to_plane b - p.dist_to_plane a := by
  show p.a * (b.x - a.x) + p.b * (b.y - a.y) + p.c * (b.z - a.z) =
    p.a * b.x + p.b * b.y + p.c * b.z + p.d - (p.a * a.x + p.b * a.y + p.c * a.z + p.d)
  ring

theorem dist_sub_normal {K : Type} [LinearOrderedField K] (p : LPlane K) (c : LVecBase3 K)
    (s : K) :
    p.dist_to_plane (c - p.get_normal * s) =
      p.dist_to_plane c - s * p.get_normal.dot p.get_normal := by
  show p.a * (c.x - p.a * s) + p.b * (c.y - p.b * s) + p.c * (c.z - p.c * s) + p.d =
    p.a * c.x + p.b * c.y + p.c * c.z + p.d - s * (p.a * p.a + p.b * p.b + p.c * p.c)
  ring

theorem add_zero_smul {K : Type} [LinearOrderedField K] (o v : LVecBase3 K) :
    o + (0 : K) * v = o := by
  cases o with
  | mk x y z =>
    show (⟨x + 0 * v.x, y + 0 * v.y, z + 0 * v.z⟩ : LVecBase3 K) = ⟨x, y, z⟩
    simp

theorem intersects_line_some {K : Type} [LinearOrderedField K] (p : LPlane K)
    (o v : LVecBase3 K) (t : K) (h : p.intersects_line o v = some t) :
    p.get_normal.dot v ≠ 0 ∧ t = -(p.dist_to_plane o) / p.get_normal.dot v ∧
    p.dist_to_plane (o + t * v) = 0 := by
  unfold LPlane.intersects_line at h
  by_cases hz : p.get_normal.dot v = 0
  · rw [if_pos hz] at h
    cases h
  · rw [if_neg hz] at h
    have ht : t = -(p.dist_to_plane o) / p.get_normal.dot v := by
      cases h; rfl
    refine ⟨hz, ht, ?_⟩
    rw [dist_add_smul, ht]
    field_simp

theorem intersects_line_none {K : Type} [LinearOrderedField K] (p : LPlane K)
    (o v : LVecBase3 K) : p.intersects_line o v = none ↔ p.get_normal.dot v = 0 := by
  unfold LPlane.intersects_line
  by_cases hz : p.get_normal.dot v = 0
  · rw [if_pos hz]; simp [hz]
  · rw [if_neg hz]; simp [hz]

theorem segment_surface_point {K : Type} [LinearOrderedField K] (self : CollisionPlane K)
    (entry : CollisionEntry K) (point_a point_b : LVecBase3 K) (respect : Bool)
    (hfrom : entry.get_from = .segment point_a point_b respect)
    (e : CollisionEntry K) (he : self.test_intersection_from_segment entry = some e) :
    e.surface_point =
      match self._plane.intersects_line (entry.get_wrt_mat.xform_point point_a)
        (entry.get_wrt_mat.xform_point point_b - entry.get_wrt_mat.xform_point point_a) with
      | some t =>
        if t ≥ 0 ∧ t ≤ 1 then
          some (entry.get_wrt_mat.xform_point point_a + t *
            (entry.get_wrt_mat.xform_point point_b - entry.get_wrt_mat.xform_point point_a))
        else entry.surface_point
      | none => entry.surface_point := by
  unfold CollisionPlane.test_intersection_from_segment at he
  rw [hfrom] at he
  simp only [] at he
  generalize entry.get_wrt_mat.xform_point point_a = A at he ⊢
  generalize entry.get_wrt_mat.xform_point point_b = B at he ⊢
  split at he
  · cases he
  · cases ho : self._plane.intersects_line A (B - A) with
    | none =>
      rw [ho] at he
      simp only [] at he
      split at he
      · cases he; rfl
      · split at he
        · cases he; rfl
        · cases he; rfl
    | some t =>
      rw [ho] at he
      simp only [] at he
      by_cases ht : t ≥ 0 ∧ t ≤ 1
      · simp only [if_pos ht] at he ⊢
        split at he
        · cases he; rfl
        · split at he
          · cases he; rfl
          · cases he; rfl
      · simp only [if_neg ht] at he ⊢
        split at he
        · cases he; rfl
        · split at he
          · cases he; rfl
          · cases he; rfl

theorem crossing_parameter {K : Type} [LinearOrderedField K] (dA dB : K)
    (hmin : ¬ (dA ≥ 0 ∧ dB ≥ 0)) :
    (0 ≤ max dA dB → dB - dA ≠ 0 ∧ 0 ≤ -dA / (dB - dA) ∧ -dA / (dB - dA) ≤ 1) ∧
    (max dA dB < 0 → dB - dA ≠ 0 → ¬ (-dA / (dB - dA) ≥ 0 ∧ -dA / (dB - dA) ≤ 1)) := by
  constructor
  · intro hmax
    by_cases hA : 0 ≤ dA
    · have hB : dB < 0 := by
        by_contra h
        exact hmin ⟨hA, not_lt.mp h⟩
      have hD : dB - dA < 0 := by linarith
      refine ⟨ne_of_lt hD, ?_, ?_⟩
      · exact div_nonneg_of_nonpos (by linarith) (le_of_lt hD)
      · rw [div_le_one_of_neg hD]
        linarith
    · have hA' : dA < 0 := not_le.mp hA
      have hB : 0 ≤ dB := by
        rcases le_max_iff.mp hmax with h | h
        · exact absurd h hA
        · exact h
      have hD : 0 < dB - dA := by linarith
      refine ⟨ne_of_gt hD, ?_, ?_⟩
      · exact div_nonneg (by linarith) (le_of_lt hD)
      · rw [div_le_one hD]
        linarith
  · intro hmax hD hcon
    have hA : dA < 0 := lt_of_le_of_lt (le_max_left _ _) hmax
    have hB : dB < 0 := lt_of_le_of_lt (le_max_right _ _) hmax
    rcases lt_or_gt_of_ne hD with h | h
    · have : -dA / (dB - dA) < 0 := div_neg_of_pos_of_neg (by linarith) h
      linarith [hcon.1]
    · have h1 := hcon.2
      rw [div_le_one h] at h1
      linarith

theorem vec_add {K : Type} [LinearOrderedField K] (a b c d e f : K) :
    (⟨a, b, c⟩ + ⟨d, e, f⟩ : LVecBase3 K) = ⟨a + d, b + e, c + f⟩ := rfl

theorem vec_sub {K : Type} [LinearOrderedField K] (a b c d e f : K) :
    (⟨a, b, c⟩ - ⟨d, e, f⟩ : LVecBase3 K) = ⟨a - d, b - e, c - f⟩ := rfl

theorem vec_mul {K : Type} [LinearOrderedField K] (a b c t : K) :
    ((⟨a, b, c⟩ : LVecBase3 K) * t : LVecBase3 K) = ⟨a * t, b * t, c * t⟩ := rfl

theorem vec_smul {K : Type} [LinearOrderedField K] (a b c t : K) :
    (t * (⟨a, b, c⟩ : LVecBase3 K) : LVecBase3 K) = ⟨t * a, t * b, t * c⟩ := rfl

/-- On the plane z = 0 the segment from (0, 0, 1) to (0, 0, -3) is reported with
the surface point (0, 0, 0). -/
theorem segment_example_crossing :
    (plane_floor.test_intersection_from_segment entry_segment).map (fun e => e.surface_point) =
      some (some ⟨0, 0, 0⟩) := by
  simp [CollisionPlane.test_intersection_from_segment, entry_segment, plane_floor,
    LMatrix4.xform_point, LMatrix4.ident, LPlane.dist_to_plane, LPlane.intersects_line,
    LPlane.get_normal, LVecBase3.dot, vec_add, vec_sub, vec_mul, vec_smul]
  norm_num

/-- On the plane z = 0 the segment from (0, 0, -1) to (0, 0, -3), wholly behind the
plane, is reported without a surface point. -/
theorem segment_example_behind :
    (plane_floor.test_intersection_from_segment (entry_of segment_behind)).map
      (fun e => e.surface_point) = some none := by
  simp [CollisionPlane.test_intersection_from_segment, entry_of, segment_behind, plane_floor,
    LMatrix4.xform_point, LMatrix4.ident, LPlane.dist_to_plane, LPlane.intersects_line,
    LPlane.get_normal, LVecBase3.dot, vec_add, vec_sub, vec_mul, vec_smul]
  norm_num

theorem sphere_result {K : Type} [LinearOrderedField K] (length : LVecBase3 K → K)
    (self : CollisionPlane K) (entry : CollisionEntry K) (center : LVecBase3 K) (radius : K)
    (respect : Bool) (hfrom : entry.get_from = .sphere center radius respect) :
    (self.test_intersection_from_sphere length entry ≠ none ↔
      self.dist_to_plane (entry.get_wrt_mat.xform_point center) ≤
        length (entry.get_wrt_mat.xform_vec ⟨radius, 0, 0⟩)) ∧
    ∀ e, self.test_intersection_from_sphere length entry = some e →
      e.surface_point = some (entry.get_wrt_mat.xform_point center -
        self.get_normal * self.dist_to_plane (entry.get_wrt_mat.xform_point center)) ∧
      e.interior_point = some (entry.get_wrt_mat.xform_point center -
        self.get_normal * length (entry.get_wrt_mat.xform_vec ⟨radius, 0, 0⟩)) := by
  unfold CollisionPlane.test_intersection_from_sphere
  rw [hfrom]
  simp only []
  generalize entry.get_wrt_mat.xform_point center = c
  generalize length (entry.get_wrt_mat.xform_vec ⟨radius, 0, 0⟩) = r
  by_cases hc : self.dist_to_plane c > r
  · rw [if_pos hc]
    exact ⟨⟨fun h => absurd rfl h, fun h => absurd hc (not_lt.mpr h)⟩, fun e he => by cases he⟩
  · rw [if_neg hc]
    refine ⟨⟨fun _ => not_lt.mp hc, fun _ h => by cases h⟩, ?_⟩
    intro e he
    cases he
    exact ⟨rfl, rfl⟩

theorem box_result {K : Type} [LinearOrderedField K] (self : CollisionPlane K)
    (entry : CollisionEntry K) (center dimensions : LVecBase3 K) (respect : Bool)
    (hfrom : entry.get_from = .box center dimensions respect) :
    (self.test_intersection_from_box entry = none ↔
      |self.dist_to_plane (entry.get_wrt_mat.xform_point center)| >
        |(entry.get_wrt_mat.get_row3 0).dot self._plane.get_normal *
            (entry.get_wrt_mat.xform_vec dimensions * (1 / 2 : K)).x| +
        |(entry.get_wrt_mat.get_row3 1).dot self._plane.get_normal *
            (entry.get_wrt_mat.xform_vec dimensions * (1 / 2 : K)).y| +
        |(entry.get_wrt_mat.get_row3 2).dot self._plane.get_normal *
            (entry.get_wrt_mat.xform_vec dimensions * (1 / 2 : K)).z|) := by
  unfold CollisionPlane.test_intersection_from_box CollisionPlane.dist_to_plane
  rw [hfrom]
  simp only []
  split
  · rename_i h
    exact ⟨fun _ => h, fun _ => rfl⟩
  · rename_i h
    exact ⟨fun hn => (by cases hn), fun hc => absurd hc h⟩

/-- The branch conditions of `fill_viz_geom`: in each branch the coefficient it
divides by has the largest absolute value and is not zero. -/
theorem viz_branch {K : Type} [LinearOrderedField K] (a b c : K)
    (hn : ¬ (a = 0 ∧ b = 0 ∧ c = 0)) :
    (|a| > |b| ∧ |a| > |c| → a ≠ 0) ∧
    (¬ (|a| > |b| ∧ |a| > |c|) → |b| > |c| → |a| ≤ |b| ∧ b ≠ 0) ∧
    (¬ (|a| > |b| ∧ |a| > |c|) → ¬ |b| > |c| → |a| ≤ |c| ∧ |b| ≤ |c| ∧ c ≠ 0) := by
  refine ⟨?_, ?_, ?_⟩
  · intro h ha
    rw [ha, abs_zero] at h
    exact absurd h.1 (not_lt.mpr (abs_nonneg b))
  · intro h1 h2
    have hab : |a| ≤ |b| := by
      by_contra h
      exact h1 ⟨not_le.mp h, lt_trans h2 (not_le.mp h)⟩
    refine ⟨hab, ?_⟩
    intro hb
    rw [hb, abs_zero] at h2
    exact absurd h2 (not_lt.mpr (abs_nonneg c))
  · intro h1 h2
    have hbc : |b| ≤ |c| := not_lt.mp h2
    have hac : |a| ≤ |c| := by
      by_contra h
      exact h1 ⟨lt_of_le_of_lt hbc (not_le.mp h), not_le.mp h⟩
    refine ⟨hac, hbc, ?_⟩
    intro hc
    rw [hc, abs_zero] at hac hbc
    exact hn ⟨abs_eq_zero.mp (le_antisymm hac (abs_nonneg a)),
      abs_eq_zero.mp (le_antisymm hbc (abs_nonneg b)), hc⟩

theorem viz_result {K : Type} [LinearOrderedField K] (a b c d : K)
    (en : Option (LVecBase3 K)) (hn : ¬ (a = 0 ∧ b = 0 ∧ c = 0)) :
    ((|b| ≤ |a| ∧ |c| ≤ |a| ∧ a ≠ 0 ∧
        (CollisionPlane.mk ⟨a, b, c, d⟩ en).fill_viz_geom =
          (⟨-d / a, 0, 0⟩, ⟨-(b + c + d) / a, 1, 1⟩,
            (⟨-(b + c + d) / a, 1, 1⟩ : LVecBase3 K) - ⟨-d / a, 0, 0⟩)) ∨
      (|a| ≤ |b| ∧ |c| ≤ |b| ∧ b ≠ 0 ∧
        (CollisionPlane.mk ⟨a, b, c, d⟩ en).fill_viz_geom =
          (⟨0, -d / b, 0⟩, ⟨1, -(a + c + d) / b, 1⟩,
            (⟨1, -(a + c + d) / b, 1⟩ : LVecBase3 K) - ⟨0, -d / b, 0⟩)) ∨
      (|a| ≤ |c| ∧ |b| ≤ |c| ∧ c ≠ 0 ∧
        (CollisionPlane.mk ⟨a, b, c, d⟩ en).fill_viz_geom =
          (⟨0, 0, -d / c⟩, ⟨1, 1, -(a + b + d) / c⟩,
            (⟨1, 1, -(a + b + d) / c⟩ : LVecBase3 K) - ⟨0, 0, -d / c⟩))) ∧
    (CollisionPlane.mk ⟨a, b, c, d⟩ en).dist_to_plane
      (CollisionPlane.mk ⟨a, b, c, d⟩ en).fill_viz_geom.1 = 0 ∧
    (CollisionPlane.mk ⟨a, b, c, d⟩ en).dist_to_plane
      (CollisionPlane.mk ⟨a, b, c, d⟩ en).fill_viz_geom.2.1 = 0 := by
  obtain ⟨hb1, hb2, hb3⟩ := viz_branch a b c hn
  by_cases h1 : |a| > |b| ∧ |a| > |c|
  · have ha := hb1 h1
    have hf : (CollisionPlane.mk ⟨a, b, c, d⟩ en).fill_viz_geom =
        (⟨-d / a, 0, 0⟩, ⟨-(b + c + d) / a, 1, 1⟩,
          (⟨-(b + c + d) / a, 1, 1⟩ : LVecBase3 K) - ⟨-d / a, 0, 0⟩) := by
      unfold CollisionPlane.fill_viz_geom
      exact if_pos h1
    rw [hf]
    refine ⟨Or.inl ⟨le_of_lt h1.1, le_of_lt h1.2, ha, rfl⟩, ?_, ?_⟩
    · show a * (-d / a) + b * 0 + c * 0 + d = 0
      field_simp
      ring
    · show a * (-(b + c + d) / a) + b * 1 + c * 1 + d = 0
      field_simp
      ring
  · by_cases h2 : |b| > |c|
    · obtain ⟨hab, hb⟩ := hb2 h1 h2
      have hf : (CollisionPlane.mk ⟨a, b, c, d⟩ en).fill_viz_geom =
          (⟨0, -d / b, 0⟩, ⟨1, -(a + c + d) / b, 1⟩,
            (⟨1, -(a + c + d) / b, 1⟩ : LVecBase3 K) - ⟨0, -d / b, 0⟩) := by
        unfold CollisionPlane.fill_viz_geom
        exact (if_neg h1).trans (if_pos h2)
      rw [hf]
      refine ⟨Or.inr (Or.inl ⟨hab, le_of_lt h2, hb, rfl⟩), ?_, ?_⟩
      · show a * 0 + b * (-d / b) + c * 0 + d = 0
        field_simp
        ring
      · show a * 1 + b * (-(a + c + d) / b) + c * 1 + d = 0
        field_simp
        ring
    · obtain ⟨hac, hbc, hc⟩ := hb3 h1 h2
      have hf : (CollisionPlane.mk ⟨a, b, c, d⟩ en).fill_viz_geom =
          (⟨0, 0, -d / c⟩, ⟨1, 1, -(a + b + d) / c⟩,
            (⟨1, 1, -(a + b + d) / c⟩ : LVecBase3 K) - ⟨0, 0, -d / c⟩) := by
        unfold CollisionPlane.fill_viz_geom
        exact (if_neg h1).trans (if_neg h2)
      rw [hf]
      refine ⟨Or.inr (Or.inr ⟨hac, hbc, hc, rfl⟩), ?_, ?_⟩
      · show a * 0 + b * 0 + c * (-d / c) + d = 0
        field_simp
        ring
      · show a * 1 + b * 1 + c * (-(a + b + d) / c) + d = 0
        field_simp
        ring

/-- The round trip of a conversion that is built by the call.  For a store that satisfies its invariant
and holds the same number of vertices in every array, and a registered format
`new_format` that is not a key of its conversion cache, both formats with sound
layouts and unique names, and a record conversion that writes exactly the size
of the target data type, leaves a record alone when the two data types are
the same, and is undone by the conversion back on every data type common to
both formats (no precision is lost): in
`convert_to(convert_to(s, new_format), s.format)` the record of every data type
that occurs in both formats is, vertex by vertex, the record of that data type
in `s`. -/
theorem convert_to_round_trip (cv : Converter) (this : Nat)
    (new_format : qpGeomVertexFormat) (w : World)
    (hmiss : cache_find new_format (w.objects this)._cycler._converted_cache = none)
    (hthis : this < w.next_object)
    (hregA : (w.objects this)._format.is_registered = true)
    (hregB : new_format.is_registered = true)
    (hwf : (w.objects this).WF w.rt.heap)
    (hsame : (w.objects this).SameCount w.rt.heap)
    (hstride : ∀ j, j < new_format.get_num_arrays → 0 < (new_format.get_array j).get_stride)
    (hlayoutA : ∀ i, i < (w.objects this)._format.get_num_arrays →
      ((w.objects this)._format.get_array i).Layout)
    (hlayoutB : ∀ j, j < new_format.get_num_arrays → (new_format.get_array j).Layout)
    (huniqA : (w.objects this)._format.UniqueNames) (huniqB : new_format.UniqueNames)
    (hcvlen : ∀ t s r, (cv t s r).length = t.get_total_bytes)
    (hcvid : ∀ t r, r.length = t.get_total_bytes → cv t t r = r)
    (hcvrt : ∀ i j ta tb, i < (w.objects this)._format.get_num_arrays →
      j < new_format.get_num_arrays →
      ta ∈ ((w.objects this)._format.get_array i).data_types →
      tb ∈ (new_format.get_array j).data_types → ta.get_name = tb.get_name →
      ∀ r, r.length = ta.get_total_bytes → cv ta tb (cv tb ta r) = r) :
    ∀ i j ta tb, i < (w.objects this)._format.get_num_arrays →
      j < new_format.get_num_arrays →
      ta ∈ ((w.objects this)._format.get_array i).data_types →
      tb ∈ (new_format.get_array j).data_types → ta.get_name = tb.get_name →
      ∀ v, v < (get_num_vertices (w.objects this) w.rt).1 →
        record_at
          (((convert_to cv (convert_to cv this new_format w).1 (w.objects this)._format
              (convert_to cv this new_format w).2).2.objects
            (convert_to cv (convert_to cv this new_format w).1 (w.objects this)._format
              (convert_to cv this new_format w).2).1).array_bytes
            (convert_to cv (convert_to cv this new_format w).1 (w.objects this)._format
              (convert_to cv this new_format w).2).2.rt.heap i)
          ((w.objects this)._format.get_array i).get_stride ta v =
        record_at ((w.objects this).array_bytes w.rt.heap i)
          ((w.objects this)._format.get_array i).get_stride ta v := by
  intro i j ta tb hi hj hta htb hname v hv
  by_cases hne : new_format = (w.objects this)._format
  · have e1 : convert_to cv this (w.objects this)._format w = (this, w) := by
      unfold convert_to
      rw [if_pos rfl]
    rw [hne, e1]
    simp only []
    rw [e1]
  · obtain ⟨c, hc⟩ := hsame
    have hi' : i < (w.objects this)._cycler._arrays.length := by
      rw [← hwf.1]; exact hi
    have hn := count_num_vertices (w.objects this) w.rt hwf c hc (by omega)
    rw [hn] at hv
    obtain ⟨r1, r2, r3, r4, r5, r6⟩ := convert_to_result cv this new_format w hne hmiss hthis
      hregB hwf c hc hstride
    have rec1 := convert_to_records cv this new_format w hne hmiss hthis hregB hwf c hc hstride
      hlayoutB huniqA huniqB hcvlen i j ta tb hi hj hta htb hname v hv
    rw [hn] at r6
    rw [r1]
    generalize (convert_to cv this new_format w).2 = w1 at r2 r3 r4 r5 r6 rec1 ⊢
    have hne1 : (w.objects this)._format ≠ (w1.objects w.next_object)._format := by
      rw [r3]; exact Ne.symm hne
    have hstrideA : ∀ i, i < (w.objects this)._format.get_num_arrays →
        0 < ((w.objects this)._format.get_array i).get_stride := by
      intro i hi
      exact hwf.2.1 i (by rw [← hwf.1]; exact hi)
    obtain ⟨s1, -, -, -, -, -⟩ := convert_to_result cv w.next_object (w.objects this)._format w1
      hne1 (r4 _) (by omega) hregA r5 c r6 hstrideA
    have rec2 := convert_to_records cv w.next_object (w.objects this)._format w1
      hne1 (r4 _) (by omega) hregA r5 c r6 hstrideA hlayoutA (by rw [r3]; exact huniqB) huniqA
      hcvlen j i tb ta (by rw [r3]; exact hj) hi (by rw [r3]; exact htb) hta hname.symm v hv
    rw [r3] at rec2
    rw [s1, r2]
    rw [r2] at rec2
    have hlenS : (record_at ((w.objects this).array_bytes w.rt.heap i)
        ((w.objects this)._format.get_array i).get_stride ta v).length = ta.get_total_bytes := by
      apply record_at_length
      rw [hc i hi']
      have h1 := vertex_block ((w.objects this).stride i) hv
      have h2 := (hlayoutA i hi).1 ta hta
      unfold stride at h1 ⊢
      omega
    rcases rec1 with h1 | ⟨e1, -, h1⟩ <;> rcases rec2 with h2 | ⟨e2, -, h2⟩
    · rw [h2, h1]
      exact hcvrt i j ta tb hi hj hta htb hname _ hlenS
    · rw [h2, h1, e2]
      exact hcvid tb _ (by rw [← e2]; exact hlenS)
    · rw [h2, h1, e1]
      exact hcvid ta _ hlenS
    · rw [h2, h1]

/-- The round trip on `world_pc`: after `store_pc` is converted to
`format_split` and back to `format_pc`, the colour of the second vertex is the
colour it has in `store_pc`. -/
theorem convert_to_round_trip_example :
    record_at
      (((convert_to converter_pad (convert_to converter_pad 7 format_split world_pc).1
          (world_pc.objects 7)._format (convert_to converter_pad 7 format_split world_pc).2).2.objects
        (convert_to converter_pad (convert_to converter_pad 7 format_split world_pc).1
          (world_pc.objects 7)._format
          (convert_to converter_pad 7 format_split world_pc).2).1).array_bytes
        (convert_to converter_pad (convert_to converter_pad 7 format_split world_pc).1
          (world_pc.objects 7)._format
          (convert_to converter_pad 7 format_split world_pc).2).2.rt.heap 0)
      ((world_pc.objects 7)._format.get_array 0).get_stride type_col 1 =
    record_at ((world_pc.objects 7).array_bytes world_pc.rt.heap 0)
      ((world_pc.objects 7)._format.get_array 0).get_stride type_col 1 :=
  convert_to_round_trip converter_pad 7 format_split world_pc (by decide) (by decide)
    (by decide) (by decide) (by decide) ⟨2, by decide⟩ (by decide) (by decide) (by decide)
    (by decide) (by decide) converter_pad_length converter_pad_id
    (fun i j ta tb hi hj hta htb hn r hr => converter_pad_round ta tb
      ((by decide : ∀ i, i < (world_pc.objects 7)._format.get_num_arrays →
        ∀ j, j < format_split.get_num_arrays →
        ∀ ta ∈ ((world_pc.objects 7)._format.get_array i).data_types,
        ∀ tb ∈ (format_split.get_array j).data_types,
          ta.get_name = tb.get_name → ta.get_total_bytes = tb.get_total_bytes)
        i hi j hj ta hta tb htb hn) r hr)
    0 1 type_col type_col (by decide) (by decide) (by decide) (by decide) (by decide) 1
    (by decide)

end Panda

/-! ### The claims -/

namespace Panda
open qpGeomVertexData

/-- C1: copy-on-write isolation of `modify_array_data`.  When a store holds at
index `i` a buffer whose reference count is at least 2 and another store holds
the same buffer, then after `modify_array_data(i)` the handle returned shows
the bytes the array had before the call and is the handle now in the store;
whatever bytes are then written through it, the other store's array keeps the
bytes (hence the length) it had, while the calling store sees the written
bytes. -/
theorem C1_modify_array_data_isolation (this : Nat) (self other : qpGeomVertexData)
    (rt : Runtime) (i j a : Nat) (data : List uchar)
    (hi : i < self._cycler._arrays.length)
    (hself : slot self._cycler._arrays i = some a)
    (hother : slot other._cycler._arrays j = some a)
    (hvalid : a < rt.heap.next)
    (hshared : 2 ≤ PTA_uchar.get_ref_count rt.heap (some a)) :
    PTA_uchar.bytes (modify_array_data this self (i : Int) rt).2.2.heap
        (modify_array_data this self (i : Int) rt).1 = self.array_bytes rt.heap i ∧
    slot (modify_array_data this self (i : Int) rt).2.1._cycler._arrays i =
        (modify_array_data this self (i : Int) rt).1 ∧
    other.array_bytes (modify_array_data this self (i : Int) rt).2.2.heap j =
        other.array_bytes rt.heap j ∧
    other.array_bytes (PTA_uchar.write (modify_array_data this self (i : Int) rt).2.2.heap
        (modify_array_data this self (i : Int) rt).1 data) j = other.array_bytes rt.heap j ∧
    (modify_array_data this self (i : Int) rt).2.1.array_bytes
        (PTA_uchar.write (modify_array_data this self (i : Int) rt).2.2.heap
          (modify_array_data this self (i : Int) rt).1 data) i = data := by
  have hne : a ≠ rt.heap.next := by omega
  have hsh : 1 < (rt.heap.cell a).ref_count := hshared
  have hg : slot (self._cycler._arrays.set i (some rt.heap.next)) i = some rt.heap.next :=
    slot_set_self hi _
  rw [modify_array_data_shared this self rt i a hi hself hsh]
  simp only [array_bytes, slot_bytes, hself, hother, hg, PTA_uchar.bytes, PTA_uchar.write,
    Heap.alloc, Heap.unref, Heap.ref, Heap.set_v, Function.update_apply, hne, hne.symm, if_true,
    if_false, and_self]

/-- Witness of C1 on `store_two` and `store_other`, which share buffer 0: after
`store_two` has modified its array 0 and the bytes 9, 9, 9 were written through
the handle, `store_other` still reads 1, 2. -/
theorem C1_modify_array_data_isolation_witness :
    2 ≤ PTA_uchar.get_ref_count runtime_shared.heap (some 0) ∧
    store_other.array_bytes
      (PTA_uchar.write (modify_array_data 7 store_two ((0 : Nat) : Int) runtime_shared).2.2.heap
        (modify_array_data 7 store_two ((0 : Nat) : Int) runtime_shared).1 [9, 9, 9]) 0 = [1, 2] :=
  ⟨by decide,
   (C1_modify_array_data_isolation 7 store_two store_other runtime_shared 0 0 0 [9, 9, 9]
    (by decide) rfl rfl (by decide) (by decide)).2.2.2.1⟩

/-- C2, as stated, fails: the store the constructor makes for a format without
arrays reports 0 vertices after `set_num_vertices(5)`. -/
theorem C2_zero_arrays_counterexample :
    store_none.WF runtime_empty.heap ∧
    (get_num_vertices (set_num_vertices 7 store_none 5 runtime_empty).1
      (set_num_vertices 7 store_none 5 runtime_empty).2).1 = 0 ∧
    (get_num_vertices (set_num_vertices 7 store_none 5 runtime_empty).1
      (set_num_vertices 7 store_none 5 runtime_empty).2).1 ≠ 5 := by
  refine ⟨by decide, rfl, by decide⟩

/-- C2 amended: for every store whose format has at least one array and every
`n`, `set_num_vertices(n)` followed by `get_num_vertices()` returns `n`, and
no assertion fails in `get_num_vertices`. -/
theorem C2_set_then_get (this : Nat) (self : qpGeomVertexData) (n : Nat) (rt : Runtime)
    (hwf : self.WF rt.heap) (hpos : 0 < self._format.get_num_arrays) :
    get_num_vertices (set_num_vertices this self n rt).1 (set_num_vertices this self n rt).2 =
      (n, (set_num_vertices this self n rt).2) := by
  have hwf' := set_num_vertices_wf this self n rt hwf
  obtain ⟨-, -, hfmt, -⟩ := set_num_vertices_state this self n rt hwf.1
  have hlen : 0 < self._cycler._arrays.length := by rw [← hwf.1]; exact hpos
  have hout := set_num_vertices_outcome this self n rt hwf 0 hlen
  have hcount := resizeOutcome_count (hwf.2.1 0 hlen) hout
  unfold get_num_vertices
  rw [if_neg (not_not.mpr hwf'.1), if_neg (by rw [hfmt]; omega)]
  simp only [hfmt]
  unfold array_bytes slot_bytes stride at hcount
  unfold PTA_uchar.size
  rw [hcount]

/-- Witness of the amended C2 on `store_two`: after `set_num_vertices(3)` the
store reports 3 vertices. -/
theorem C2_set_then_get_witness :
    store_two.WF runtime_shared.heap ∧
    (get_num_vertices (set_num_vertices 7 store_two 3 runtime_shared).1
      (set_num_vertices 7 store_two 3 runtime_shared).2).1 = 3 :=
  ⟨by decide,
   congrArg Prod.fst (C2_set_then_get 7 store_two 3 runtime_shared (by decide) (by decide))⟩

/-- C3: resize preserves and zero-fills bytes.  For a store whose arrays each
hold `old * stride` bytes, after `set_num_vertices(n)` every array `i` has
length `n * stride_i`, its first `min(old, n) * stride_i` bytes are the bytes it
had, and every byte from offset `old * stride_i` on is zero.  The reference
counts are arbitrary (within the counting discipline), so this covers the
copying branch and the in-place branch alike. -/
theorem C3_resize_bytes (this : Nat) (self : qpGeomVertexData) (n old : Nat) (rt : Runtime)
    (hwf : self.WF rt.heap)
    (hold : ∀ i, i < self._cycler._arrays.length →
      (self.array_bytes rt.heap i).length = old * self.stride i) :
    ∀ i, i < self._cycler._arrays.length →
      ((set_num_vertices this self n rt).1.array_bytes
          (set_num_vertices this self n rt).2.heap i).length = n * self.stride i ∧
      ((set_num_vertices this self n rt).1.array_bytes
          (set_num_vertices this self n rt).2.heap i).take (min old n * self.stride i) =
        (self.array_bytes rt.heap i).take (min old n * self.stride i) ∧
      (∀ k, old * self.stride i ≤ k → k < n * self.stride i →
        ((set_num_vertices this self n rt).1.array_bytes
          (set_num_vertices this self n rt).2.heap i)[k]? = some 0) :=
  fun i hi => set_num_vertices_bytes this self n old rt hwf hold i hi

/-- Witness of C3 on `store_two`, grown from 1 to 2 vertices: array 0 is shared
and is copied, array 1 is not shared and grows in place. -/
theorem C3_resize_bytes_witness :
    1 < PTA_uchar.get_ref_count runtime_shared.heap (slot store_two._cycler._arrays 0) ∧
    ¬ 1 < PTA_uchar.get_ref_count runtime_shared.heap (slot store_two._cycler._arrays 1) ∧
    ((set_num_vertices 7 store_two 2 runtime_shared).1.array_bytes
      (set_num_vertices 7 store_two 2 runtime_shared).2.heap 0).length = 2 * store_two.stride 0 ∧
    ((set_num_vertices 7 store_two 2 runtime_shared).1.array_bytes
      (set_num_vertices 7 store_two 2 runtime_shared).2.heap 1).length = 2 * store_two.stride 1 :=
  ⟨by decide, by decide,
   (C3_resize_bytes 7 store_two 2 1 runtime_shared (by decide) (by decide) 0 (by decide)).1,
   (C3_resize_bytes 7 store_two 2 1 runtime_shared (by decide) (by decide) 1 (by decide)).1⟩

/-- C4: copy-on-write isolation of resize.  When array `i` of a store is a
buffer that another owner holds as well and `n` differs from the store's vertex
count, `set_num_vertices(n)` leaves the bytes (hence the length) of that buffer
as they were for the other owner, and the store ends up with a different
buffer at index `i`. -/
theorem C4_resize_isolation (this : Nat) (self other : qpGeomVertexData) (n : Nat) (rt : Runtime)
    (i j a : Nat)
    (hwf : self.WF rt.heap) (hsame : self.SameCount rt.heap)
    (hself : slot self._cycler._arrays i = some a)
    (hheld : HeldElsewhere self._cycler._arrays rt.heap a)
    (hother : slot other._cycler._arrays j = some a)
    (hn : n ≠ (get_num_vertices self rt).1) :
    1 < PTA_uchar.get_ref_count rt.heap (some a) ∧
    other.array_bytes (set_num_vertices this self n rt).2.heap j = other.array_bytes rt.heap j ∧
    slot (set_num_vertices this self n rt).1._cycler._arrays i ≠ some a := by
  have inv := set_num_vertices_inv this self n rt hwf
  obtain ⟨hv, -, hfresh⟩ := inv.held a hheld
  have hi := slot_some_lt hself
  refine ⟨?_, ?_, ?_⟩
  · have h1 := one_le_count_of_slot hself
    have h2 := hheld.2
    show 1 < (rt.heap.cell a).ref_count
    omega
  · unfold array_bytes slot_bytes
    rw [hother]
    exact hv
  · have hcount := sameCount_count self rt hwf hsame i hi
    obtain ⟨q, hq, hle⟩ := hfresh i hi hself (by
      unfold array_bytes stride at hcount
      rw [hcount]; exact fun h => hn h.symm)
    rw [hq]
    intro heq
    cases heq
    have := hheld.1
    omega

/-- Witness of C4: `store_two` is resized to 4 vertices and `store_other`
still reads 1, 2 from the buffer they shared. -/
theorem C4_resize_isolation_witness :
    HeldElsewhere store_two._cycler._arrays runtime_shared.heap 0 ∧
    store_other.array_bytes (set_num_vertices 7 store_two 4 runtime_shared).2.heap 0 = [1, 2] ∧
    slot (set_num_vertices 7 store_two 4 runtime_shared).1._cycler._arrays 0 ≠ some 0 :=
  ⟨by decide,
   (C4_resize_isolation 7 store_two store_other 4 runtime_shared 0 0 0 (by decide)
     ⟨1, by decide⟩ rfl (by decide) rfl (by decide)).2⟩

/-- C5: a resize is a no-op exactly when nothing changes.  If every array
already holds `n` vertices, `set_num_vertices(n)` returns the store and the
runtime as they were; if some array holds a different number, then afterwards
the conversion cache of the store is empty, the cache manager has received
`remove_data(this, F)` for every cached format `F`, in the order of the cache,
and holds no entry of this store for any of them. -/
theorem C5_resize_noop_iff (this : Nat) (self : qpGeomVertexData) (n : Nat) (rt : Runtime)
    (hwf : self.WF rt.heap) :
    ((∀ i, i < self._cycler._arrays.length →
        (self.array_bytes rt.heap i).length / self.stride i = n) →
      set_num_vertices this self n rt = (self, rt)) ∧
    ((∃ i, i < self._cycler._arrays.length ∧
        (self.array_bytes rt.heap i).length / self.stride i ≠ n) →
      (set_num_vertices this self n rt).1._cycler._converted_cache = [] ∧
      (set_num_vertices this self n rt).2.cache_mgr =
        self._cycler._converted_cache.foldl (fun m ci => m.remove_data this ci.1) rt.cache_mgr ∧
      ∀ ci, ci ∈ self._cycler._converted_cache →
        ∀ e, e ∈ (set_num_vertices this self n rt).2.cache_mgr.entries →
          ¬ (e.source = this ∧ e.modifier = ci.1)) := by
  constructor
  · intro hall
    have hloop := loop_noop self._format n (self._cycler._arrays, rt.heap, false)
      self._cycler._arrays.length hall
    unfold set_num_vertices
    rw [if_neg (not_not.mpr hwf.1)]
    simp only [hloop]
    rfl
  · intro hex
    have inv := set_num_vertices_inv this self n rt hwf
    have hflag := inv.changed.mpr hex
    obtain ⟨h1, h2⟩ := set_num_vertices_cache this self n rt hwf.1 hflag
    refine ⟨h1, h2, ?_⟩
    intro ci hci e he
    rw [h2, mem_fold_remove_data] at he
    exact he.2 ci hci

/-- Witness of C5 on `store_two`, which holds 1 vertex: `set_num_vertices(1)`
changes nothing, `set_num_vertices(2)` empties the cache and the entry of the
cache manager. -/
theorem C5_resize_noop_iff_witness :
    set_num_vertices 7 store_two 1 runtime_shared = (store_two, runtime_shared) ∧
    store_two._cycler._converted_cache ≠ [] ∧
    (set_num_vertices 7 store_two 2 runtime_shared).1._cycler._converted_cache = [] ∧
    (set_num_vertices 7 store_two 2 runtime_shared).2.cache_mgr =
      runtime_shared.cache_mgr.remove_data 7 format_none :=
  ⟨(C5_resize_noop_iff 7 store_two 1 runtime_shared (by decide)).1 (by decide),
   by decide,
   ((C5_resize_noop_iff 7 store_two 2 runtime_shared (by decide)).2 ⟨0, by decide⟩).1,
   ((C5_resize_noop_iff 7 store_two 2 runtime_shared (by decide)).2 ⟨0, by decide⟩).2.1⟩

/-- C6: every successful `modify_array_data` invalidates the cache.  For a valid
index `i`, after `modify_array_data(i)` the conversion cache of the store is
empty, the cache manager has received `remove_data(this, F)` for every cached
format `F` and holds no entry of this store for any of them, no array has
changed its bytes or its length, and no assertion has failed. -/
theorem C6_modify_invalidates (this : Nat) (self : qpGeomVertexData) (rt : Runtime) (i : Nat)
    (hi : i < self._cycler._arrays.length) (hok : RefsOk self._cycler._arrays rt.heap) :
    (modify_array_data this self (i : Int) rt).2.1._cycler._converted_cache = [] ∧
    (modify_array_data this self (i : Int) rt).2.2.cache_mgr =
      self._cycler._converted_cache.foldl (fun m ci => m.remove_data this ci.1) rt.cache_mgr ∧
    (∀ ci, ci ∈ self._cycler._converted_cache →
      ∀ e, e ∈ (modify_array_data this self (i : Int) rt).2.2.cache_mgr.entries →
        ¬ (e.source = this ∧ e.modifier = ci.1)) ∧
    (modify_array_data this self (i : Int) rt).2.1._cycler._arrays.length =
      self._cycler._arrays.length ∧
    (∀ j, (modify_array_data this self (i : Int) rt).2.1.array_bytes
        (modify_array_data this self (i : Int) rt).2.2.heap j = self.array_bytes rt.heap j) ∧
    (modify_array_data this self (i : Int) rt).2.2.nassert_failed = rt.nassert_failed :=
  modify_array_data_valid this self rt i hi hok

/-- Witness of C6 on `store_two`: modifying array 1 empties the cache, removes
the entry of the cache manager and leaves the bytes of array 0 and array 1. -/
theorem C6_modify_invalidates_witness :
    store_two._cycler._converted_cache ≠ [] ∧
    (modify_array_data 7 store_two ((1 : Nat) : Int) runtime_shared).2.1._cycler._converted_cache
      = [] ∧
    (modify_array_data 7 store_two ((1 : Nat) : Int) runtime_shared).2.2.cache_mgr.entries = [] ∧
    (modify_array_data 7 store_two ((1 : Nat) : Int) runtime_shared).2.1.array_bytes
      (modify_array_data 7 store_two ((1 : Nat) : Int) runtime_shared).2.2.heap 0 = [1, 2] :=
  ⟨by decide,
   (C6_modify_invalidates 7 store_two runtime_shared 1 (by decide) (by decide)).1,
   congrArg qpGeomVertexCacheManager.entries
     (C6_modify_invalidates 7 store_two runtime_shared 1 (by decide) (by decide)).2.1,
   (C6_modify_invalidates 7 store_two runtime_shared 1 (by decide) (by decide)).2.2.2.2.1 0⟩

/-- C7 fails on the code: `clear_vertices()` takes `store_two` from 1 vertex to
0 and `set_array_data(1, ...)` replaces the bytes of its array 1, and both leave
the cached conversion in the conversion cache and its entry in the cache
manager. -/
theorem C7_cache_survives_clear_vertices :
    (get_num_vertices store_two runtime_shared).1 = 1 ∧
    (get_num_vertices (clear_vertices store_two runtime_shared).1
      (clear_vertices store_two runtime_shared).2).1 = 0 ∧
    (clear_vertices store_two runtime_shared).1._cycler._converted_cache = [(format_none, 9)] ∧
    (clear_vertices store_two runtime_shared).2.cache_mgr = runtime_shared.cache_mgr ∧
    store_two.array_bytes runtime_shared.heap 1 = [3] ∧
    (set_array_data store_two 1 (some 0) runtime_shared).1.array_bytes
      (set_array_data store_two 1 (some 0) runtime_shared).2.heap 1 = [1, 2] ∧
    (set_array_data store_two 1 (some 0) runtime_shared).1._cycler._converted_cache =
      [(format_none, 9)] ∧
    (set_num_vertices 7 store_two 0 runtime_shared).1._cycler._converted_cache = [] :=
  ⟨rfl, rfl, rfl, rfl, rfl, rfl, rfl, rfl⟩

/-- C8, as stated, fails: `store_other` holds one vertex of stride 2, and after
`set_array_data(0, ...)` with a buffer of one byte no count `c` gives the
length of its array as `c * 2`. -/
theorem C8_set_array_data_counterexample :
    store_other.SameCount runtime_shared.heap ∧
    ¬ (set_array_data store_other 0 (some 1) runtime_shared).1.SameCount
        (set_array_data store_other 0 (some 1) runtime_shared).2.heap := by
  refine ⟨⟨1, by decide⟩, ?_⟩
  rintro ⟨c, hc⟩
  have h := hc 0 (by decide)
  have hb : (set_array_data store_other 0 (some 1) runtime_shared).1.array_bytes
      (set_array_data store_other 0 (some 1) runtime_shared).2.heap 0 = [3] := rfl
  have hs : (set_array_data store_other 0 (some 1) runtime_shared).1.stride 0 = 2 := rfl
  rw [hb, hs] at h
  simp only [List.length_singleton] at h
  omega

/-- C8 amended: the same-vertex-count invariant holds for a freshly constructed
store and is preserved by `set_num_vertices`, `clear_vertices`,
`modify_array_data`, `set_data`, and by `set_array_data` when the new buffer
has the length of the array it replaces. -/
theorem C8_same_count_invariant {F : Type} (m : Machine F) (this : Nat)
    (self : qpGeomVertexData) (rt : Runtime)
    (hwf : self.WF rt.heap) (hsame : self.SameCount rt.heap) :
    (∀ format rt0, (new format rt0).1.SameCount (new format rt0).2.heap) ∧
    (∀ n, (set_num_vertices this self n rt).1.SameCount (set_num_vertices this self n rt).2.heap) ∧
    (clear_vertices self rt).1.SameCount (clear_vertices self rt).2.heap ∧
    (∀ array, (modify_array_data this self array rt).2.1.SameCount
      (modify_array_data this self array rt).2.2.heap) ∧
    (∀ array data_type vertex data num_values,
      (set_data m this self array data_type vertex data num_values rt).1.SameCount
        (set_data m this self array data_type vertex data num_values rt).2.heap) ∧
    (∀ array array_data,
      PTA_uchar.size rt.heap array_data =
        PTA_uchar.size rt.heap (slot self._cycler._arrays array.toNat) →
      (set_array_data self array array_data rt).1.SameCount
        (set_array_data self array array_data rt).2.heap) :=
  ⟨sameCount_new,
   fun n => sameCount_set_num_vertices this self n rt hwf hsame,
   sameCount_clear_vertices self rt hsame,
   fun array => sameCount_modify_array_data this self array rt hwf.2.2 hsame,
   fun array data_type vertex data num_values =>
     sameCount_set_data m this self array data_type vertex data num_values rt hwf hsame,
   fun array array_data hsize => sameCount_set_array_data self array array_data rt hsame hsize⟩

/-- Witness of the amended C8 on `store_two`: the invariant holds before and
after `set_num_vertices(3)`. -/
theorem C8_same_count_invariant_witness :
    store_two.WF runtime_shared.heap ∧ store_two.SameCount runtime_shared.heap ∧
    (set_num_vertices 7 store_two 3 runtime_shared).1.SameCount
      (set_num_vertices 7 store_two 3 runtime_shared).2.heap :=
  ⟨by decide, ⟨1, by decide⟩,
   (C8_same_count_invariant machine_nat 7 store_two runtime_shared (by decide)
     ⟨1, by decide⟩).2.1 3⟩

/-- C9: an out-of-range `modify_array_data` is reported.  For an index `i < 0`
or `i >= ` the number of arrays, the call returns the null handle, leaves the
store (its arrays and its conversion cache), the heap and the cache manager as
they were, and records the failed assertion of line 213. -/
theorem C9_modify_out_of_range (this : Nat) (self : qpGeomVertexData) (rt : Runtime) (i : Int)
    (hi : i < 0 ∨ i ≥ self._cycler._arrays.length) :
    modify_array_data this self i rt = (none, self, rt.nassert 213) ∧
    (rt.nassert 213).heap = rt.heap ∧
    (rt.nassert 213).cache_mgr = rt.cache_mgr ∧
    (rt.nassert 213).nassert_failed = rt.nassert_failed ++ [213] :=
  modify_array_data_out_of_range this self rt i hi

/-- Witness of C9 on `store_two`, which has two arrays, at the indices 2 and -1. -/
theorem C9_modify_out_of_range_witness :
    modify_array_data 7 store_two 2 runtime_shared = (none, store_two, runtime_shared.nassert 213) ∧
    modify_array_data 7 store_two (-1) runtime_shared =
      (none, store_two, runtime_shared.nassert 213) :=
  ⟨(C9_modify_out_of_range 7 store_two runtime_shared 2 (Or.inr (by decide))).1,
   (C9_modify_out_of_range 7 store_two runtime_shared (-1) (Or.inl (by decide))).1⟩

/-- C10: zero arrays means zero vertices.  For a store whose format declares no
arrays `get_num_vertices()` returns 0 and no assertion fails; for a store with
at least one array it returns the length of array 0 divided by the (positive)
stride of array 0. -/
theorem C10_get_num_vertices (self : qpGeomVertexData) (rt : Runtime)
    (hlen : self._format.get_num_arrays = self._cycler._arrays.length) :
    (self._format.get_num_arrays = 0 → get_num_vertices self rt = (0, rt)) ∧
    (0 < self._format.get_num_arrays → 0 < (self._format.get_array 0).get_stride →
      get_num_vertices self rt =
        (PTA_uchar.size rt.heap (slot self._cycler._arrays 0) /
          (self._format.get_array 0).get_stride, rt)) := by
  constructor
  · intro h0
    unfold get_num_vertices
    rw [if_neg (not_not.mpr hlen), if_pos h0]
  · intro hpos _
    unfold get_num_vertices
    rw [if_neg (not_not.mpr hlen), if_neg (by omega)]

/-- Witness of C10 on the store constructed for a format without arrays and on
`store_other`, whose array 0 holds 2 bytes at stride 2. -/
theorem C10_get_num_vertices_witness :
    get_num_vertices store_none runtime_empty = (0, runtime_empty) ∧
    (get_num_vertices store_other runtime_shared).1 = 2 / 2 :=
  ⟨(C10_get_num_vertices store_none runtime_empty rfl).1 rfl,
   congrArg Prod.fst
     ((C10_get_num_vertices store_other runtime_shared rfl).2 (by decide) (by decide))⟩

/-- C18: packed-ARGB encode/decode tolerance, in exact arithmetic.  For channel
values in [0, 1], every channel of `unpack_argb(pack_argb(d))` is at most the
channel of `d` and less than `1/255` below it; and (1, 1/2, 0, 1/4) packs to
`0x3FFF7F00`, which decodes to (1, 127/255, 0, 63/255). -/
theorem C18_packed_argb_tolerance (m : Machine ℚ) (hm : m.Exact) (r g b a : ℚ)
    (hr : 0 ≤ r ∧ r ≤ 1) (hg : 0 ≤ g ∧ g ≤ 1) (hb : 0 ≤ b ∧ b ≤ 1) (ha : 0 ≤ a ∧ a ≤ 1) :
    (∀ i, i < 4 →
      (unpack_argb m (pack_argb m (channels r g b a))).getD i 0 ≤ channels r g b a i ∧
      channels r g b a i - (unpack_argb m (pack_argb m (channels r g b a))).getD i 0 < 1 / 255) ∧
    pack_argb m (channels 1 (1 / 2) 0 (1 / 4)) = 0x3FFF7F00 ∧
    unpack_argb m 0x3FFF7F00 = [1, 127 / 255, 0, 63 / 255] := by
  refine ⟨?_, ?_, ?_⟩
  · rw [(unpack_pack_exact m hm r g b a hr hg hb ha).2]
    have hR := floor_scaled_unit r hr.1 hr.2
    have hG := floor_scaled_unit g hg.1 hg.2
    have hB := floor_scaled_unit b hb.1 hb.2
    have hA := floor_scaled_unit a ha.1 ha.2
    intro i hi
    interval_cases i
    · exact ⟨hR.2.1, hR.2.2⟩
    · exact ⟨hG.2.1, hG.2.2⟩
    · exact ⟨hB.2.1, hB.2.2⟩
    · exact ⟨hA.2.1, hA.2.2⟩
  · rw [(unpack_pack_exact m hm 1 (1 / 2) 0 (1 / 4) (by norm_num) (by norm_num) (by norm_num)
      (by norm_num)).1]
    have e1 : ⌊(1 : ℚ) * 255⌋ = 255 := by norm_num
    have e2 : ⌊(1 / 2 : ℚ) * 255⌋ = 127 := by norm_num
    have e3 : ⌊(0 : ℚ) * 255⌋ = 0 := by norm_num
    have e4 : ⌊(1 / 4 : ℚ) * 255⌋ = 63 := by norm_num
    rw [e1, e2, e3, e4]
    rfl
  · have e1 : (0x3FFF7F00 >>> 16) &&& 0xff = 255 := by decide
    have e2 : (0x3FFF7F00 >>> 8) &&& 0xff = 127 := by decide
    have e3 : 0x3FFF7F00 &&& 0xff = 0 := by decide
    have e4 : (0x3FFF7F00 >>> 24) &&& 0xff = 63 := by decide
    unfold unpack_argb
    rw [e1, e2, e3, e4, hm.2.2, hm.2.2, hm.2.2, hm.2.2]
    norm_num

/-- Witness of C18 on the exact machine: (1, 1/2, 0, 1/4) packs to `0x3FFF7F00`. -/
theorem C18_packed_argb_tolerance_witness :
    machine_exact.Exact ∧ pack_argb machine_exact (channels 1 (1 / 2) 0 (1 / 4)) = 0x3FFF7F00 :=
  ⟨machine_exact_exact,
   (C18_packed_argb_tolerance machine_exact machine_exact_exact 1 (1 / 2) 0 (1 / 4)
     (by norm_num) (by norm_num) (by norm_num) (by norm_num)).2.1⟩

/-- C19: decoding then encoding is the identity on packed words, in exact
arithmetic: for every 32-bit word `w`, `pack_argb(unpack_argb(w)) = w`. -/
theorem C19_pack_unpack_identity (m : Machine ℚ) (hm : m.Exact) (w : Nat) (hw : w < 2 ^ 32) :
    pack_argb m (fun i => (unpack_argb m w).getD i 0) = w := by
  rw [pack_argb_eq]
  have h256 : ∀ x : Nat, x &&& 0xff < 256 := fun x => by
    rw [and_ff]; exact Nat.mod_lt _ (by decide)
  show (m.scale_uint (m.unscale ((w >>> 24) &&& 0xff)) % 256) * 2 ^ 24 +
      (m.scale_uint (m.unscale ((w >>> 16) &&& 0xff)) % 256) * 2 ^ 16 +
      (m.scale_uint (m.unscale ((w >>> 8) &&& 0xff)) % 256) * 2 ^ 8 +
      m.scale_uint (m.unscale (w &&& 0xff)) % 256 = w
  rw [scale_uint_unscale m hm _ (h256 _), scale_uint_unscale m hm _ (h256 _),
    scale_uint_unscale m hm _ (h256 _), scale_uint_unscale m hm _ (h256 _)]
  exact channels_of_word w hw

/-- Witness of C19 on the exact machine and the word `0x3FFF7F00`. -/
theorem C19_pack_unpack_identity_witness :
    machine_exact.Exact ∧
    pack_argb machine_exact (fun i => (unpack_argb machine_exact 0x3FFF7F00).getD i 0) =
      0x3FFF7F00 :=
  ⟨machine_exact_exact,
   C19_pack_unpack_identity machine_exact machine_exact_exact 0x3FFF7F00 (by norm_num)⟩

/-- C20, as stated, fails: in exact arithmetic `set_data` of the value 1/2 on a
normalized 8-bit attribute stores the byte 127, whereas `round(1/2 * 255)` is
128. -/
theorem C20_rounding_counterexample :
    (((set_data machine_exact 7 store_color 0 color_type 0 (channels (1 / 2) 0 0 0)
        ((1 : ℕ) : ℤ) runtime_empty).1.array_bytes
      (set_data machine_exact 7 store_color 0 color_type 0 (channels (1 / 2) 0 0 0)
        ((1 : ℕ) : ℤ) runtime_empty).2.heap 0).getD 0 0).val = 127 ∧
    round ((1 / 2 : ℚ) * 255) = 128 := by
  constructor
  · have h := (set_data_uint8 machine_exact machine_exact_exact 7 store_color 0 color_type 0
      (channels (1 / 2) 0 0 0) 1 runtime_empty (by decide) ⟨0, by decide⟩ (by decide) rfl
      (by decide) (by decide) (by decide) (by
        intro i hi
        interval_cases i
        exact ⟨by norm_num [channels], by norm_num [channels]⟩)).1 0 (by decide)
    have e : ⌊channels (1 / 2) 0 0 0 0 * 255⌋ = 127 := by
      show ⌊(1 / 2 : ℚ) * 255⌋ = 127
      norm_num
    rw [e] at h
    exact h
  · rw [round_eq]
    norm_num

/-- C20 amended: the normalized 8-bit encoding truncates.  In exact arithmetic,
for component values in [0, 1], `set_data` on an `NT_uint8` attribute stores for
each value `v` the byte `floor(v * 255)`, and `get_data` then returns for each
stored byte `b` the value `b / 255`. -/
theorem C20_uint8_truncates (m : Machine ℚ) (hm : m.Exact) (this : Nat)
    (self : qpGeomVertexData) (array : Nat) (data_type : qpGeomVertexDataType) (vertex : Nat)
    (data : Nat → ℚ) (k : Nat) (rt : Runtime)
    (hwf : self.WF rt.heap) (hsame : self.SameCount rt.heap)
    (harray : array < self._cycler._arrays.length)
    (htype : data_type.get_numeric_type = .NT_uint8)
    (hk : k ≤ data_type.get_num_values)
    (hbytes : data_type.get_num_values ≤ data_type.get_total_bytes)
    (hfit : data_type.get_start + data_type.get_total_bytes ≤ self.stride array)
    (hunit : ∀ i, i < k → 0 ≤ data i ∧ data i ≤ 1) :
    (∀ i, i < k →
      (((set_data m this self array data_type vertex data k rt).1.array_bytes
        (set_data m this self array data_type vertex data k rt).2.heap array).getD
          (vertex * self.stride array + data_type.get_start + i) 0).val =
        ⌊data i * 255⌋.toNat) ∧
    (get_data m (set_data m this self array data_type vertex data k rt).1 array data_type vertex k
        (set_data m this self array data_type vertex data k rt).2).1 =
      (List.range k).map fun i => ((⌊data i * 255⌋.toNat : ℕ) : ℚ) / 255 :=
  set_data_uint8 m hm this self array data_type vertex data k rt hwf hsame harray htype hk
    hbytes hfit hunit

/-- Witness of the amended C20 on `store_color`: the value 1/2 written to
vertex 0 is read back as `floor(1/2 * 255) / 255`. -/
theorem C20_uint8_truncates_witness :
    machine_exact.Exact ∧ store_color.WF runtime_empty.heap ∧
    (get_data machine_exact
      (set_data machine_exact 7 store_color 0 color_type 0 (channels (1 / 2) 0 0 0)
        ((1 : ℕ) : ℤ) runtime_empty).1 0 color_type 0 ((1 : ℕ) : ℤ)
      (set_data machine_exact 7 store_color 0 color_type 0 (channels (1 / 2) 0 0 0)
        ((1 : ℕ) : ℤ) runtime_empty).2).1 =
      (List.range 1).map fun i => ((⌊channels (1 / 2) 0 0 0 i * 255⌋.toNat : ℕ) : ℚ) / 255 :=
  ⟨machine_exact_exact, by decide,
   (C20_uint8_truncates machine_exact machine_exact_exact 7 store_color 0 color_type 0
      (channels (1 / 2) 0 0 0) 1 runtime_empty (by decide) ⟨0, by decide⟩ (by decide) rfl
      (by decide) (by decide) (by decide) (by
        intro i hi
        interval_cases i
        exact ⟨by norm_num [channels], by norm_num [channels]⟩)).2⟩

/-- C11: identity conversion.  `convert_to(s, s.format)` returns the address of
`s` itself and leaves the whole world, hence the conversion cache of `s` and
the cache manager, as it was. -/
theorem C11_identity_conversion (cv : Converter) (this : Nat) (w : World) :
    convert_to cv this (w.objects this)._format w = (this, w) := by
  unfold convert_to
  rw [if_pos rfl]

/-- C12: conversion idempotence.  For a format other than the format of the
store, a second `convert_to` with no mutation in between returns the object
the first call returned and leaves the world as the first call left it; in
particular the total byte count of the cache manager has not grown. -/
theorem C12_conversion_idempotent (cv : Converter) (this : Nat)
    (new_format : qpGeomVertexFormat) (w : World)
    (hne : new_format ≠ (w.objects this)._format) (hthis : this < w.next_object) :
    convert_to cv this new_format (convert_to cv this new_format w).2 =
      ((convert_to cv this new_format w).1, (convert_to cv this new_format w).2) ∧
    qpGeomVertexCacheManager.get_total_size
        (convert_to cv this new_format (convert_to cv this new_format w).2).2.rt.cache_mgr.entries ≤
      qpGeomVertexCacheManager.get_total_size
        (convert_to cv this new_format w).2.rt.cache_mgr.entries := by
  obtain ⟨w0, z, hshape, hfmt, hfind, hz⟩ := convert_to_shape cv this new_format w hne hthis
  have h2 : (convert_to cv this new_format w).2 = w0.record_data this new_format z :=
    congrArg Prod.snd hshape
  have hagain := convert_to_again cv this new_format w0 z _ (by rw [hfmt]; exact hne) hfind hz
  rw [← h2] at hagain
  refine ⟨hagain, ?_⟩
  rw [hagain]

/-- Witness of C12 on `world_two`: converting `store_two` to `format_one` twice
returns the same store. -/
theorem C12_conversion_idempotent_witness :
    (convert_to converter_copy 7 format_one (convert_to converter_copy 7 format_one world_two).2).1 =
      (convert_to converter_copy 7 format_one world_two).1 :=
  congrArg Prod.fst
    (C12_conversion_idempotent converter_copy 7 format_one world_two (by decide) (by decide)).1

/-- C13, as stated, fails: in `world_tight` the cache budget is one byte, and
recording the two bytes of the conversion of `store_two` to `format_one` evicts
the older conversion of `store_two` to `format_none`, which the cache of
`store_two` held before the call. -/
theorem C13_other_keys_counterexample :
    cache_find format_none (world_tight.objects 7)._cycler._converted_cache = some 9 ∧
    format_one ≠ (world_tight.objects 7)._format ∧
    cache_find format_one (world_tight.objects 7)._cycler._converted_cache = none ∧
    cache_find format_none
      ((convert_to converter_copy 7 format_one world_tight).2.objects 7)._cycler._converted_cache
      = none := by
  decide



/-- C13 (amended): cache-miss postcondition of `convert_to`.  For a store at
`this` that satisfies its invariant and a registered format `new_format` that is
neither the format of the store nor a key of its conversion cache, after
`r = convert_to(s, new_format)` the cache of the store maps `new_format` to `r`;
every other key maps to what it mapped to before or has been evicted, and it
is unchanged when the recorded bytes fit the budget of the cache manager; the
world is the one in which the cache manager was sent
`record_data(s, new_format, get_num_bytes(r))`, whose entry is the most recently
used one, with `get_num_bytes(r)` the sum of the lengths of the arrays of `r`;
the format of `r` is `new_format`; and the handles and the bytes of the arrays of
the store are unchanged. -/
theorem C13_cache_miss_postcondition (cv : Converter) (this : Nat)
    (new_format : qpGeomVertexFormat) (w : World)
    (hne : new_format ≠ (w.objects this)._format)
    (hmiss : cache_find new_format (w.objects this)._cycler._converted_cache = none)
    (hthis : this < w.next_object)
    (hreg : new_format.is_registered = true)
    (hlen : (w.objects this)._format.get_num_arrays = (w.objects this)._cycler._arrays.length)
    (hok : RefsOk (w.objects this)._cycler._arrays w.rt.heap) :
    cache_find new_format
        ((convert_to cv this new_format w).2.objects this)._cycler._converted_cache =
      some (convert_to cv this new_format w).1 ∧
    (∀ G, G ≠ new_format →
      cache_find G ((convert_to cv this new_format w).2.objects this)._cycler._converted_cache =
        cache_find G (w.objects this)._cycler._converted_cache ∨
      cache_find G ((convert_to cv this new_format w).2.objects this)._cycler._converted_cache =
        none) ∧
    (qpGeomVertexCacheManager.get_total_size
        (w.rt.cache_mgr.entries.filter fun e => ¬ (e.source = this ∧ e.modifier = new_format)) +
      get_num_bytes ((convert_to cv this new_format w).2.objects (convert_to cv this new_format w).1)
        (convert_to cv this new_format w).2.rt ≤ w.rt.cache_mgr.max_size →
      ∀ G, G ≠ new_format →
        cache_find G ((convert_to cv this new_format w).2.objects this)._cycler._converted_cache =
          cache_find G (w.objects this)._cycler._converted_cache) ∧
    (convert_to cv this new_format w).2 =
      (convert_cached cv this new_format w).record_data this new_format
        (get_num_bytes
          ((convert_to cv this new_format w).2.objects (convert_to cv this new_format w).1)
          (convert_to cv this new_format w).2.rt) ∧
    (convert_to cv this new_format w).2.rt.cache_mgr.entries.getLast? =
      some { source := this, modifier := new_format,
             result_size := get_num_bytes
              ((convert_to cv this new_format w).2.objects (convert_to cv this new_format w).1)
              (convert_to cv this new_format w).2.rt } ∧
    get_num_bytes ((convert_to cv this new_format w).2.objects (convert_to cv this new_format w).1)
        (convert_to cv this new_format w).2.rt =
      (((convert_to cv this new_format w).2.objects
          (convert_to cv this new_format w).1)._cycler._arrays.map
        fun ai => PTA_uchar.size (convert_to cv this new_format w).2.rt.heap ai).sum ∧
    ((convert_to cv this new_format w).2.objects (convert_to cv this new_format w).1)._format =
      new_format ∧
    ((convert_to cv this new_format w).2.objects this)._cycler._arrays =
      (w.objects this)._cycler._arrays ∧
    ∀ i, ((convert_to cv this new_format w).2.objects this).array_bytes
        (convert_to cv this new_format w).2.rt.heap i = (w.objects this).array_bytes w.rt.heap i := by
  obtain ⟨sized, B⟩ := convert_build_inv cv (w.objects this) new_format w.next_object w.rt
    hreg hlen hok
  obtain ⟨m1, m2, m3, m4, -, m6, -⟩ := convert_to_miss cv this new_format w hne hmiss hthis
  obtain ⟨c1, -, -, c4⟩ := convert_cached_objects cv this new_format w hthis
  have h1 : (convert_to cv this new_format w).1 = w.next_object := congrArg Prod.fst m1
  have h2 := congrArg Prod.snd m1
  simp only [] at h2
  have hz : get_num_bytes
      ((convert_to cv this new_format w).2.objects (convert_to cv this new_format w).1)
      (convert_to cv this new_format w).2.rt =
      get_num_bytes (convert_build cv (w.objects this) new_format w.next_object w.rt).1
        (convert_build cv (w.objects this) new_format w.next_object w.rt).2.1 := by
    rw [h1]
    exact get_num_bytes_congr _ _ _ _ m3 m4
  rw [hz]
  generalize get_num_bytes (convert_build cv (w.objects this) new_format w.next_object w.rt).1
    (convert_build cv (w.objects this) new_format w.next_object w.rt).2.1 = z at h2 hz ⊢
  refine ⟨?_, ?_, ?_, h2, ?_, ?_, ?_, m6, ?_⟩
  · rw [h1, h2, (record_data_frame _ this new_format z).2.2.2.2, c4, cache_find_insert,
      if_pos rfl]
  · intro G hG
    rw [h2]
    rcases record_data_cache_or (convert_cached cv this new_format w) this new_format z this G
      with h | h
    · left
      rw [h, c4, cache_find_insert, if_neg (Ne.symm hG)]
    · exact Or.inr h
  · intro hfit G hG
    have hfit1 : qpGeomVertexCacheManager.get_total_size
        ((convert_cached cv this new_format w).rt.cache_mgr.entries.filter
          fun e => ¬ (e.source = this ∧ e.modifier = new_format)) + z ≤
        (convert_cached cv this new_format w).rt.cache_mgr.max_size := by
      rw [c1, B.mgr_eq]
      exact hfit
    rw [h2, record_data_fits _ this new_format z hfit1, c4, cache_find_insert,
      if_neg (Ne.symm hG)]
  · rw [h2]
    exact record_data_last _ _ _ _
  · rw [← hz]
    exact get_num_bytes_sum _ _
  · rw [h1]
    exact m2.trans B.format_eq
  · intro i
    show slot_bytes _ _ i = slot_bytes _ _ i
    rw [m6, m4]
    exact B.src_bytes i

/-- Witness of C13 on `world_two`: after `store_two` is converted to
`format_one`, its cache maps `format_one` to the store returned. -/
theorem C13_cache_miss_postcondition_witness :
    cache_find format_one
        ((convert_to converter_copy 7 format_one world_two).2.objects 7)._cycler._converted_cache =
      some (convert_to converter_copy 7 format_one world_two).1 :=
  (C13_cache_miss_postcondition converter_copy 7 format_one world_two (by decide) (by decide)
    (by decide) (by decide) (by decide) (by decide)).1

/-- C14, as stated, fails: both arrays of `format_split` are data subsets of the
only array of `format_pc`, but the conversion of `store_pc` hands the buffer of
that array to the first of them only; the second one is a new buffer, filled by
`copy_records`. -/
theorem C14_second_subset_counterexample :
    (format_split.get_array 0).is_data_subset_of (format_pc.get_array 0) = true ∧
    (format_split.get_array 1).is_data_subset_of (format_pc.get_array 0) = true ∧
    format_split ≠ (world_pc.objects 7)._format ∧
    cache_find format_split (world_pc.objects 7)._cycler._converted_cache = none ∧
    slot (world_pc.objects 7)._cycler._arrays 0 = some 0 ∧
    slot ((convert_to converter_copy 7 format_split world_pc).2.objects
      (convert_to converter_copy 7 format_split world_pc).1)._cycler._arrays 0 = some 0 ∧
    slot ((convert_to converter_copy 7 format_split world_pc).2.objects
      (convert_to converter_copy 7 format_split world_pc).1)._cycler._arrays 1 = some 1 ∧
    ((convert_to converter_copy 7 format_split world_pc).2.objects
      (convert_to converter_copy 7 format_split world_pc).1).array_bytes
        (convert_to converter_copy 7 format_split world_pc).2.rt.heap 1 = [0, 2, 0, 4] := by
  decide



/-- C14 (amended): aliasing of reusable arrays.  In a cache-miss
`convert_to(s, new_format)` on a store that satisfies its invariant and holds
the same number of vertices in every array, for every array `j` of `new_format`
that is the first array of `new_format` (lowest index) that is a data subset of
some array of the source format, array `j` of the result is the buffer of such
a source array itself, with its bytes, shared with `s` and not copied.  Every
other array of `new_format`, also one that is a data subset of a source array
that was handed to an earlier array, is null or a buffer allocated by the
call, never a buffer of `s`. -/
theorem C14_first_match_aliased (cv : Converter) (this : Nat)
    (new_format : qpGeomVertexFormat) (w : World)
    (hne : new_format ≠ (w.objects this)._format)
    (hmiss : cache_find new_format (w.objects this)._cycler._converted_cache = none)
    (hthis : this < w.next_object)
    (hreg : new_format.is_registered = true)
    (hwf : (w.objects this).WF w.rt.heap)
    (hsame : (w.objects this).SameCount w.rt.heap) :
    (∀ i j, i < (w.objects this)._format.get_num_arrays →
      first_match new_format (w.objects this)._format i = some j →
      ∃ i', i' < (w.objects this)._format.get_num_arrays ∧
        first_match new_format (w.objects this)._format i' = some j ∧
        slot ((convert_to cv this new_format w).2.objects
          (convert_to cv this new_format w).1)._cycler._arrays j =
          slot ((convert_to cv this new_format w).2.objects this)._cycler._arrays i' ∧
        ((convert_to cv this new_format w).2.objects
          (convert_to cv this new_format w).1).array_bytes
            (convert_to cv this new_format w).2.rt.heap j =
          (w.objects this).array_bytes w.rt.heap i') ∧
    (∀ j, j < new_format.get_num_arrays →
      (∀ i, i < (w.objects this)._format.get_num_arrays →
        first_match new_format (w.objects this)._format i ≠ some j) →
      slot ((convert_to cv this new_format w).2.objects
          (convert_to cv this new_format w).1)._cycler._arrays j = none ∨
      ∃ q, slot ((convert_to cv this new_format w).2.objects
          (convert_to cv this new_format w).1)._cycler._arrays j = some q ∧
        w.rt.heap.next ≤ q) := by
  obtain ⟨sized, B⟩ := convert_build_inv cv (w.objects this) new_format w.next_object w.rt
    hreg hwf.1 hwf.2.2
  obtain ⟨m1, -, m3, m4, -, m6, -⟩ := convert_to_miss cv this new_format w hne hmiss hthis
  have h1 : (convert_to cv this new_format w).1 = w.next_object := congrArg Prod.fst m1
  rw [h1]
  constructor
  · intro i j hi hfm
    obtain ⟨i', hi', hfm', hres, hkept, -⟩ := B.aliased j ((B.done_iff j).mpr ⟨i, hi, hfm⟩)
    have hi'' : i' < (w.objects this)._cycler._arrays.length := by
      rw [← hwf.1]; exact hi'
    have hn : (slot_bytes (w.objects this)._cycler._arrays w.rt.heap i').length /
        (new_format.get_array j).get_stride = (get_num_vertices (w.objects this) w.rt).1 := by
      rw [subset_stride (first_match_some hfm').2]
      exact sameCount_count (w.objects this) w.rt hwf hsame i' hi''
    refine ⟨i', hi', hfm', ?_, ?_⟩
    · rw [m3, m6]
      exact hkept hn
    · show slot_bytes _ _ j = slot_bytes _ _ i'
      rw [m3, m4, B.contents j, copy_plan_done _ _ _ _ _ _ _ _ _
        ((B.done_iff j).mpr ⟨i, hi, hfm⟩)]
      exact resizeOutcome_same hres hn
  · intro j hj hnone
    rw [m3]
    refine (B.fresh j hj ?_).2
    intro hd
    obtain ⟨i, hi, hfm⟩ := (B.done_iff j).mp hd
    exact hnone i hi hfm

/-- Witness of C14 on `world_pc`: the first array of the conversion of
`store_pc` to `format_split` is the buffer of `store_pc`. -/
theorem C14_first_match_aliased_witness :
    ∃ i', i' < (world_pc.objects 7)._format.get_num_arrays ∧
      first_match format_split (world_pc.objects 7)._format i' = some 0 ∧
      slot ((convert_to converter_copy 7 format_split world_pc).2.objects
        (convert_to converter_copy 7 format_split world_pc).1)._cycler._arrays 0 =
        slot ((convert_to converter_copy 7 format_split world_pc).2.objects 7)._cycler._arrays i' ∧
      ((convert_to converter_copy 7 format_split world_pc).2.objects
        (convert_to converter_copy 7 format_split world_pc).1).array_bytes
          (convert_to converter_copy 7 format_split world_pc).2.rt.heap 0 =
        (world_pc.objects 7).array_bytes world_pc.rt.heap i' :=
  (C14_first_match_aliased converter_copy 7 format_split world_pc (by decide) (by decide)
    (by decide) (by decide) (by decide) ⟨2, by decide⟩).1 0 0 (by decide) (by decide)

/-- C15: fresh arrays are sized and zero-filled.  In a cache-miss
`convert_to(s, new_format)` on a store that satisfies its invariant, with a
target format whose strides are positive and whose data types lie within the
stride without sharing a byte, and a record conversion that never writes more
than the size of the target data type: every target array that was not handed
a source array has length `get_num_vertices(s) * stride`; the result reports the
number of vertices of `s` whenever `new_format` has an array; and every byte of
a target data type whose name does not occur in the source format is zero. -/
theorem C15_fresh_arrays_sized_zeroed (cv : Converter) (this : Nat)
    (new_format : qpGeomVertexFormat) (w : World)
    (hne : new_format ≠ (w.objects this)._format)
    (hmiss : cache_find new_format (w.objects this)._cycler._converted_cache = none)
    (hthis : this < w.next_object)
    (hreg : new_format.is_registered = true)
    (hlen : (w.objects this)._format.get_num_arrays = (w.objects this)._cycler._arrays.length)
    (hok : RefsOk (w.objects this)._cycler._arrays w.rt.heap)
    (hstride : ∀ j, j < new_format.get_num_arrays → 0 < (new_format.get_array j).get_stride)
    (hlayout : ∀ j, j < new_format.get_num_arrays → (new_format.get_array j).Layout)
    (hcv : ∀ t s r, (cv t s r).length ≤ t.get_total_bytes) :
    (∀ j, j < new_format.get_num_arrays →
      (∀ i, i < (w.objects this)._format.get_num_arrays →
        first_match new_format (w.objects this)._format i ≠ some j) →
      (((convert_to cv this new_format w).2.objects
        (convert_to cv this new_format w).1).array_bytes
          (convert_to cv this new_format w).2.rt.heap j).length =
        (get_num_vertices (w.objects this) w.rt).1 * (new_format.get_array j).get_stride) ∧
    (0 < new_format.get_num_arrays →
      (get_num_vertices ((convert_to cv this new_format w).2.objects
        (convert_to cv this new_format w).1) (convert_to cv this new_format w).2.rt).1 =
        (get_num_vertices (w.objects this) w.rt).1) ∧
    (∀ j t, j < new_format.get_num_arrays → t ∈ (new_format.get_array j).data_types →
      ¬ (w.objects this)._format.has_name t.get_name →
      ∀ v k, v < (get_num_vertices (w.objects this) w.rt).1 → k < t.get_total_bytes →
        (((convert_to cv this new_format w).2.objects
          (convert_to cv this new_format w).1).array_bytes
            (convert_to cv this new_format w).2.rt.heap j)[
              v * (new_format.get_array j).get_stride + t.get_start + k]? = some 0) := by
  obtain ⟨sized, B⟩ := convert_build_inv cv (w.objects this) new_format w.next_object w.rt
    hreg hlen hok
  obtain ⟨m1, m2, m3, m4, -, -, -⟩ := convert_to_miss cv this new_format w hne hmiss hthis
  have h1 : (convert_to cv this new_format w).1 = w.next_object := congrArg Prod.fst m1
  rw [h1]
  have hbytes : ∀ j, ((convert_to cv this new_format w).2.objects w.next_object).array_bytes
      (convert_to cv this new_format w).2.rt.heap j =
      copy_plan cv (w.objects this)._format new_format
        (convert_build cv (w.objects this) new_format w.next_object w.rt).2.2
        (get_num_vertices (w.objects this) w.rt).1
        (slot_bytes (w.objects this)._cycler._arrays w.rt.heap)
        (w.objects this)._format.get_num_arrays sized j := by
    intro j
    show slot_bytes _ _ j = _
    rw [m3, m4]
    exact B.contents j
  have hfresh : ∀ j, j < new_format.get_num_arrays →
      j ∉ (convert_build cv (w.objects this) new_format w.next_object w.rt).2.2 →
      sized j = List.replicate
        ((get_num_vertices (w.objects this) w.rt).1 * (new_format.get_array j).get_stride) 0 :=
    fun j hj hnd => resizeOutcome_nil (hstride j hj) (B.fresh j hj hnd).1
  refine ⟨?_, ?_, ?_⟩
  · intro j hj hnone
    have hnd : j ∉ (convert_build cv (w.objects this) new_format w.next_object w.rt).2.2 := by
      intro hd
      obtain ⟨i, hi, hfm⟩ := (B.done_iff j).mp hd
      exact hnone i hi hfm
    rw [hbytes, copy_plan_length, hfresh j hj hnd, List.length_replicate]
  · intro hpos
    have hlenR : ((convert_to cv this new_format w).2.objects w.next_object)._format.get_num_arrays
        = ((convert_to cv this new_format w).2.objects w.next_object)._cycler._arrays.length := by
      rw [m2, m3, B.format_eq, B.length_eq]
    have hposR : 0 <
        ((convert_to cv this new_format w).2.objects w.next_object)._cycler._arrays.length := by
      rw [m3, B.length_eq]; exact hpos
    rw [get_num_vertices_eq _ _ hlenR hposR]
    show (array_bytes _ _ 0).length / _ = _
    rw [hbytes, copy_plan_length]
    unfold stride
    rw [m2, B.format_eq]
    by_cases hd : 0 ∈ (convert_build cv (w.objects this) new_format w.next_object w.rt).2.2
    · obtain ⟨i, -, -, hres, -, -⟩ := B.aliased 0 hd
      exact resizeOutcome_count (hstride 0 hpos) hres
    · exact resizeOutcome_count (hstride 0 hpos) (B.fresh 0 hpos hd).1
  · intro j t hj ht hname v k hv hk
    have hnd : j ∉ (convert_build cv (w.objects this) new_format w.next_object w.rt).2.2 := by
      intro hd
      obtain ⟨i, hi, hfm, -⟩ := B.aliased j hd
      exact hname ⟨i, hi, t, subset_mem (first_match_some hfm).2 ht, rfl⟩
    rw [hbytes, copy_plan_out cv _ _ _ _ _ _ _ _ _ hcv (le_refl _)
      (layout_untouched _ _ j (hlayout j hj) t ht hname v k hk), hfresh j hj hnd]
    have h2 := (hlayout j hj).1 t ht
    have h3 : (v + 1) * (new_format.get_array j).get_stride ≤
        (get_num_vertices (w.objects this) w.rt).1 * (new_format.get_array j).get_stride :=
      Nat.mul_le_mul_right _ hv
    rw [Nat.add_mul, Nat.one_mul] at h3
    rw [List.getElem?_replicate, if_pos (by omega)]

/-- Witness of C15 on `world_pc`: in the conversion of `store_pc` to
`format_pn` the byte of the normal of the first vertex, a data type that
`format_pc` does not have, is zero. -/
theorem C15_fresh_arrays_sized_zeroed_witness :
    (((convert_to converter_pad 7 format_pn world_pc).2.objects
      (convert_to converter_pad 7 format_pn world_pc).1).array_bytes
        (convert_to converter_pad 7 format_pn world_pc).2.rt.heap 0)[
          0 * (format_pn.get_array 0).get_stride + type_nrm.get_start + 0]? = some 0 :=
  (C15_fresh_arrays_sized_zeroed converter_pad 7 format_pn world_pc (by decide) (by decide)
    (by decide) (by decide) (by decide) (by decide) (by decide) (by decide)
    (fun t s r => le_of_eq (converter_pad_length t s r))).2.2 0 type_nrm (by decide) (by decide)
    (by decide) 0 0 (by decide) (by decide)

/-- C16 on the code: on `world_stale` the store at address 7 is well formed,
has format `format_pc` and holds the bytes [0, 2, 0, 4], so its first position
is 0; its conversion cache still maps `format_split` to store 10, built before
`set_array_data` replaced the bytes.  `convert_to(format_split)` returns that
store, and converting it back to `format_pc` gives the bytes [1, 2, 3, 4],
whose first position is 1. -/
theorem C16_stale_cache_round_trip :
    (world_stale.objects 7)._format = format_pc ∧
    (world_stale.objects 7).WF world_stale.rt.heap ∧
    (world_stale.objects 7).array_bytes world_stale.rt.heap 0 = [0, 2, 0, 4] ∧
    cache_find format_split (world_stale.objects 7)._cycler._converted_cache = some 10 ∧
    (convert_to converter_pad 7 format_split world_stale).1 = 10 ∧
    ((convert_to converter_pad (convert_to converter_pad 7 format_split world_stale).1
        format_pc (convert_to converter_pad 7 format_split world_stale).2).2.objects
      (convert_to converter_pad (convert_to converter_pad 7 format_split world_stale).1
        format_pc (convert_to converter_pad 7 format_split world_stale).2).1).array_bytes
      (convert_to converter_pad (convert_to converter_pad 7 format_split world_stale).1
        format_pc (convert_to converter_pad 7 format_split world_stale).2).2.rt.heap 0 =
      [1, 2, 3, 4] ∧
    record_at [1, 2, 3, 4] 2 type_pos 0 = [1] ∧
    record_at [0, 2, 0, 4] 2 type_pos 0 = [0] := by
  decide

/-- C23: widening pads with 0 and defaults w to 1.  For every input `data`,
`to_vec2` given 1 value returns `(d0, 0)`; `to_vec3` given 1 value returns
`(d0, 0, 0)` and given 2 values `(d0, d1, 0)`; `to_vec4` given 1, 2 or 3 values
returns `(d0, 0, 0, 1)`, `(d0, d1, 0, 1)`, `(d0, d1, d2, 1)`; and given as many
values as components each returns the input unchanged. -/
theorem C23_widening_pads {F : Type} [Zero F] [One F] [Div F] (data : Nat → F) :
    to_vec2 data 1 = (data 0, 0) ∧
    to_vec3 data 1 = (data 0, 0, 0) ∧
    to_vec3 data 2 = (data 0, data 1, 0) ∧
    to_vec4 data 1 = (data 0, 0, 0, 1) ∧
    to_vec4 data 2 = (data 0, data 1, 0, 1) ∧
    to_vec4 data 3 = (data 0, data 1, data 2, 1) ∧
    to_vec2 data 2 = (data 0, data 1) ∧
    to_vec3 data 3 = (data 0, data 1, data 2) ∧
    to_vec4 data 4 = (data 0, data 1, data 2, data 3) := by
  refine ⟨?_, ?_, ?_, ?_, ?_, ?_, ?_, ?_, ?_⟩ <;> simp [to_vec2, to_vec3, to_vec4]

/-- C24: perspective narrowing.  For every input of 4 or more values,
`to_vec2` returns `(d0 / w, d1 / w)` and `to_vec3` returns
`(d0 / w, d1 / w, d2 / w)`, where `w` is the 4th value; in particular, in exact
arithmetic, the 4 values (2, 4, 6, 2) narrow to (1, 2). -/
theorem C24_perspective_narrowing {F : Type} [Zero F] [Div F] (data : Nat → F)
    (num_values : Int) (h : 4 ≤ num_values) :
    to_vec2 data num_values = (data 0 / data 3, data 1 / data 3) ∧
    to_vec3 data num_values = (data 0 / data 3, data 1 / data 3, data 2 / data 3) ∧
    to_vec2 (channels 2 4 6 2) 4 = (1, 2) := by
  refine ⟨?_, ?_, ?_⟩
  · unfold to_vec2
    rw [if_neg (by omega), if_neg (by omega)]
  · unfold to_vec3
    rw [if_neg (by omega), if_neg (by omega), if_neg (by omega)]
  · unfold to_vec2
    rw [if_neg (by decide), if_neg (by decide)]
    norm_num [channels]

/-- Witness of C24 on the 5 values (3, 6, 9, 3, 0) in exact arithmetic. -/
theorem C24_perspective_narrowing_witness :
    to_vec3 (fun i => [(3 : ℚ), 6, 9, 3, 0].getD i 0) 5 =
      ((fun i => [(3 : ℚ), 6, 9, 3, 0].getD i 0) 0 / (fun i => [(3 : ℚ), 6, 9, 3, 0].getD i 0) 3,
       (fun i => [(3 : ℚ), 6, 9, 3, 0].getD i 0) 1 / (fun i => [(3 : ℚ), 6, 9, 3, 0].getD i 0) 3,
       (fun i => [(3 : ℚ), 6, 9, 3, 0].getD i 0) 2 / (fun i => [(3 : ℚ), 6, 9, 3, 0].getD i 0) 3) :=
  (C24_perspective_narrowing (fun i => [(3 : ℚ), 6, 9, 3, 0].getD i 0) 5 (by decide)).2.1

/-- C29: widening then narrowing agrees with direct narrowing.  For a `float`
division with `x / 1 = x`, and every input of `n >= 1` values, `to_vec4`
followed by `to_vec3` (respectively `to_vec2`) on the 4 values it gives is
`to_vec3` (respectively `to_vec2`) on the input. -/
theorem C29_widen_then_narrow {F : Type} [Zero F] [One F] [Div F]
    (hone : ∀ x : F, x / 1 = x) (data : Nat → F) (num_values : Int) (h : 1 ≤ num_values) :
    to_vec3 (vec4_data (to_vec4 data num_values)) 4 = to_vec3 data num_values ∧
    to_vec2 (vec4_data (to_vec4 data num_values)) 4 = to_vec2 data num_values := by
  by_cases h1 : num_values = 1
  · subst h1
    simp [to_vec2, to_vec3, to_vec4, vec4_data, hone]
  · by_cases h2 : num_values = 2
    · subst h2
      simp [to_vec2, to_vec3, to_vec4, vec4_data, hone]
    · by_cases h3 : num_values = 3
      · subst h3
        simp [to_vec2, to_vec3, to_vec4, vec4_data, hone]
      · simp [to_vec2, to_vec3, to_vec4, vec4_data, h1, h2, h3]

/-- Witness of C29 in exact arithmetic on the 2 values (5, 7). -/
theorem C29_widen_then_narrow_witness :
    to_vec3 (vec4_data (to_vec4 (channels 5 7 0 0) 2)) 4 = to_vec3 (channels 5 7 0 0) 2 :=
  (C29_widen_then_narrow (fun x : ℚ => div_one x) (channels 5 7 0 0) 2 (by decide)).1

/-- C30: segment against plane.  For a plane and a segment with transformed
endpoints A and B, `test_intersection_from_segment` reports no intersection iff
both signed distances are non-negative; whenever it reports one, the interior
point it sets is A if `dist(A) < dist(B)`, B if `dist(B) < dist(A)` and the
midpoint on a tie, and its signed distance to the plane is strictly negative. -/
theorem C30_segment_against_plane {K : Type} [LinearOrderedField K] (self : CollisionPlane K)
    (entry : CollisionEntry K) (point_a point_b : LVecBase3 K) (respect : Bool)
    (hfrom : entry.get_from = .segment point_a point_b respect) :
    (self.test_intersection_from_segment entry = none ↔
      0 ≤ self.dist_to_plane (entry.get_wrt_mat.xform_point point_a) ∧
      0 ≤ self.dist_to_plane (entry.get_wrt_mat.xform_point point_b)) ∧
    ∀ e, self.test_intersection_from_segment entry = some e →
      e.interior_point = some (
        if self.dist_to_plane (entry.get_wrt_mat.xform_point point_a) <
            self.dist_to_plane (entry.get_wrt_mat.xform_point point_b)
          then entry.get_wrt_mat.xform_point point_a
        else if self.dist_to_plane (entry.get_wrt_mat.xform_point point_b) <
            self.dist_to_plane (entry.get_wrt_mat.xform_point point_a)
          then entry.get_wrt_mat.xform_point point_b
        else (entry.get_wrt_mat.xform_point point_a + entry.get_wrt_mat.xform_point point_b) *
          (1 / 2 : K)) ∧
      ∀ p, e.interior_point = some p → self.dist_to_plane p < 0 :=
  segment_result self entry point_a point_b respect hfrom

/-- Witness of C30: the plane `z = 0` and the segment from (0, 0, 1) to
(0, 0, -3). -/
theorem C30_segment_against_plane_witness :
    (plane_floor.test_intersection_from_segment entry_segment = none ↔
      0 ≤ plane_floor.dist_to_plane (entry_segment.get_wrt_mat.xform_point ⟨0, 0, 1⟩) ∧
      0 ≤ plane_floor.dist_to_plane (entry_segment.get_wrt_mat.xform_point ⟨0, 0, -3⟩)) :=
  (C30_segment_against_plane plane_floor entry_segment ⟨0, 0, 1⟩ ⟨0, 0, -3⟩ false rfl).1

/-- C25 on the code: the datagram `write_datagram` produces is the one
`TypedWritable::write_datagram` produced, whatever the store holds, so the
stores `store_two` and `store_none` are written alike although their arrays
differ; and `make_from_bam` returns the store of the default constructor,
without format and without arrays, whatever the datagram holds. -/
theorem C25_datagram_carries_no_data (base : Datagram → Datagram) (self : qpGeomVertexData)
    (null_format : qpGeomVertexFormat) (dg : Datagram) :
    write_datagram base self dg = base dg ∧
    write_datagram base store_two dg = write_datagram base store_none dg ∧
    store_two.array_bytes runtime_shared.heap 0 = [1, 2] ∧
    (make_from_bam null_format (write_datagram base store_two dg))._cycler._arrays = [] ∧
    (make_from_bam null_format (write_datagram base self dg))._format = null_format := by
  refine ⟨rfl, rfl, by decide, rfl, rfl⟩

/-- C26 on the code: on `store_two`, which has one vertex, a conversion cache
with one entry and shares buffer 0 with another holder, `clear_vertices` and
`set_num_vertices(0)` both leave every array without bytes and the bytes of the
shared buffer alone, but `clear_vertices` keeps the conversion cache and the
entry of the cache manager, which `set_num_vertices(0)` drops. -/
theorem C26_clear_vertices_keeps_cache :
    (∀ i, (clear_vertices store_two runtime_shared).1.array_bytes
        (clear_vertices store_two runtime_shared).2.heap i = []) ∧
    (∀ i, i < 2 → (set_num_vertices 7 store_two 0 runtime_shared).1.array_bytes
        (set_num_vertices 7 store_two 0 runtime_shared).2.heap i = []) ∧
    ((clear_vertices store_two runtime_shared).2.heap.cell 0).v = [1, 2] ∧
    ((set_num_vertices 7 store_two 0 runtime_shared).2.heap.cell 0).v = [1, 2] ∧
    (clear_vertices store_two runtime_shared).1._cycler._converted_cache = [(format_none, 9)] ∧
    (set_num_vertices 7 store_two 0 runtime_shared).1._cycler._converted_cache = [] ∧
    (clear_vertices store_two runtime_shared).2.cache_mgr.entries =
      [{ source := 7, modifier := format_none, result_size := 0 }] ∧
    (set_num_vertices 7 store_two 0 runtime_shared).2.cache_mgr.entries = [] := by
  refine ⟨?_, by decide, by decide, by decide, by decide, by decide, by decide, by decide⟩
  intro i
  have h : (clear_vertices store_two runtime_shared).1._cycler._arrays = [none, none] := by
    decide
  show PTA_uchar.bytes _ (slot _ i) = []
  rw [h]
  match i with
  | 0 => rfl
  | 1 => rfl
  | (n + 2) => rfl

/-- C28: frame of `set_data`.  For a store that satisfies its invariant and
holds `c` vertices in every array, a data type that lies within the stride and
whose values fit its bytes, and a vertex `vertex < c`, `set_data` leaves the
handle and the bytes of every other array alone, keeps the length of the
array, changes no byte of it outside
`[vertex * stride + start, vertex * stride + start + total_bytes)`, for
`NT_uint8` with `num_values` values no byte outside the first `num_values`
bytes of that range, and changes no byte at all when the assertion on
`num_values` fails (`num_values != 4` for packed ARGB,
`num_values != get_num_values()` for float, `num_values > get_num_values()` for
uint8). -/
theorem C28_set_data_frame {F : Type} (m : Machine F) (this : Nat) (self : qpGeomVertexData)
    (array : Nat) (data_type : qpGeomVertexDataType) (vertex : Nat) (data : Nat → F)
    (num_values : Int) (rt : Runtime) (c : Nat)
    (hwf : self.WF rt.heap)
    (hcount : ∀ i, i < self._cycler._arrays.length →
      (self.array_bytes rt.heap i).length = c * self.stride i)
    (harray : array < self._cycler._arrays.length)
    (hfit : data_type.get_start + data_type.get_total_bytes ≤ self.stride array)
    (hsup : data_type.Supported) (hv : vertex < c) :
    (∀ j, j ≠ array →
      slot (set_data m this self array data_type vertex data num_values rt).1._cycler._arrays j =
        slot self._cycler._arrays j ∧
      (set_data m this self array data_type vertex data num_values rt).1.array_bytes
        (set_data m this self array data_type vertex data num_values rt).2.heap j =
      self.array_bytes rt.heap j) ∧
    ((set_data m this self array data_type vertex data num_values rt).1.array_bytes
      (set_data m this self array data_type vertex data num_values rt).2.heap array).length =
      (self.array_bytes rt.heap array).length ∧
    (∀ p, p < vertex * self.stride array + data_type.get_start ∨
        vertex * self.stride array + data_type.get_start + data_type.get_total_bytes ≤ p →
      ((set_data m this self array data_type vertex data num_values rt).1.array_bytes
        (set_data m this self array data_type vertex data num_values rt).2.heap array)[p]? =
      (self.array_bytes rt.heap array)[p]?) ∧
    (data_type.get_numeric_type = .NT_uint8 →
      ∀ p, p < vertex * self.stride array + data_type.get_start ∨
        vertex * self.stride array + data_type.get_start + num_values.toNat ≤ p →
      ((set_data m this self array data_type vertex data num_values rt).1.array_bytes
        (set_data m this self array data_type vertex data num_values rt).2.heap array)[p]? =
      (self.array_bytes rt.heap array)[p]?) ∧
    ((data_type.get_numeric_type = .NT_packed_argb ∧ num_values ≠ 4) ∨
      (data_type.get_numeric_type = .NT_float ∧ num_values ≠ data_type.get_num_values) ∨
      (data_type.get_numeric_type = .NT_uint8 ∧ num_values > data_type.get_num_values) →
      ∀ j, (set_data m this self array data_type vertex data num_values rt).1.array_bytes
        (set_data m this self array data_type vertex data num_values rt).2.heap j =
      self.array_bytes rt.heap j) := by
  have hg := (set_data_grown_cases this self array data_type vertex rt c hcount harray hfit).1 hv
  have A := set_data_arrays m this self array data_type vertex data num_values rt
    (by rw [hg]; exact harray) (by rw [hg]; exact hwf.2.2) hsup
  rw [hg] at A
  obtain ⟨-, -, -, a4, a5, a6, a7, a8⟩ := A
  refine ⟨a4, a5, a6, a7, ?_⟩
  intro hfail j
  by_cases hj : j = array
  · subst hj
    exact a8 (set_data_bytes_error m data_type data num_values hfail)
  · exact (a4 j hj).2

/-- Witness of C28 on `store_color2`: writing two values to the second vertex
leaves the first byte of the array alone. -/
theorem C28_set_data_frame_witness :
    ((set_data machine_nat 7 store_color2 0 color_type 1 (fun _ => 0) 2 runtime_color).1.array_bytes
      (set_data machine_nat 7 store_color2 0 color_type 1 (fun _ => 0) 2 runtime_color).2.heap 0)[0]? =
    (store_color2.array_bytes runtime_color.heap 0)[0]? :=
  (C28_set_data_frame machine_nat 7 store_color2 0 color_type 1 (fun _ => 0) 2 runtime_color 2
    (by decide) (by decide) (by decide) (by decide) (by decide) (by decide)).2.2.1 0
    (Or.inl (by decide))

/-- C27: `set_data` grows and never shrinks.  For a store that satisfies its
invariant and holds `c` vertices in every array, a data type of at least one
byte that lies within the stride and whose values fit its bytes, and a vertex
index `vertex`: if `vertex >= c`, after `set_data` every array holds exactly
`vertex + 1` vertices, and every byte added, other than those of the data type
at `vertex` in the array written, is zero; if `vertex < c`, every array still
holds `c` vertices; in both cases the number of vertices has not gone down. -/
theorem C27_set_data_grows {F : Type} (m : Machine F) (this : Nat) (self : qpGeomVertexData)
    (array : Nat) (data_type : qpGeomVertexDataType) (vertex : Nat) (data : Nat → F)
    (num_values : Int) (rt : Runtime) (c : Nat)
    (hwf : self.WF rt.heap)
    (hcount : ∀ i, i < self._cycler._arrays.length →
      (self.array_bytes rt.heap i).length = c * self.stride i)
    (harray : array < self._cycler._arrays.length)
    (hfit : data_type.get_start + data_type.get_total_bytes ≤ self.stride array)
    (hpos : 0 < data_type.get_total_bytes)
    (hsup : data_type.Supported) :
    (set_data m this self array data_type vertex data num_values rt).1._cycler._arrays.length =
      self._cycler._arrays.length ∧
    (c ≤ vertex →
      (∀ j, j < self._cycler._arrays.length →
        ((set_data m this self array data_type vertex data num_values rt).1.array_bytes
          (set_data m this self array data_type vertex data num_values rt).2.heap j).length =
          (vertex + 1) * self.stride j) ∧
      (∀ j p, j < self._cycler._arrays.length → c * self.stride j ≤ p →
        p < (vertex + 1) * self.stride j →
        (j ≠ array ∨ p < vertex * self.stride array + data_type.get_start ∨
          vertex * self.stride array + data_type.get_start + data_type.get_total_bytes ≤ p) →
        ((set_data m this self array data_type vertex data num_values rt).1.array_bytes
          (set_data m this self array data_type vertex data num_values rt).2.heap j)[p]? =
          some 0)) ∧
    (vertex < c →
      ∀ j, j < self._cycler._arrays.length →
        ((set_data m this self array data_type vertex data num_values rt).1.array_bytes
          (set_data m this self array data_type vertex data num_values rt).2.heap j).length =
          c * self.stride j) ∧
    (get_num_vertices (set_data m this self array data_type vertex data num_values rt).1
        (set_data m this self array data_type vertex data num_values rt).2).1 =
      max c (vertex + 1) := by
  obtain ⟨hin, hout⟩ :=
    set_data_grown_cases this self array data_type vertex rt c hcount harray hfit
  have hlenall : (set_data m this self array data_type vertex data num_values rt).1._cycler._arrays.length
      = self._cycler._arrays.length ∧
      (set_data m this self array data_type vertex data num_values rt).1._format = self._format ∧
      (∀ j, j < self._cycler._arrays.length →
        ((set_data m this self array data_type vertex data num_values rt).1.array_bytes
          (set_data m this self array data_type vertex data num_values rt).2.heap j).length =
          max c (vertex + 1) * self.stride j) ∧
      (c ≤ vertex → ∀ j p, j < self._cycler._arrays.length → c * self.stride j ≤ p →
        p < (vertex + 1) * self.stride j →
        (j ≠ array ∨ p < vertex * self.stride array + data_type.get_start ∨
          vertex * self.stride array + data_type.get_start + data_type.get_total_bytes ≤ p) →
        ((set_data m this self array data_type vertex data num_values rt).1.array_bytes
          (set_data m this self array data_type vertex data num_values rt).2.heap j)[p]? =
          some 0) := by
    by_cases hv : vertex < c
    · have hg := hin hv
      have A := set_data_arrays m this self array data_type vertex data num_values rt
        (by rw [hg]; exact harray) (by rw [hg]; exact hwf.2.2) hsup
      rw [hg] at A
      obtain ⟨a1, a2, -, a4, a5, -, -, -⟩ := A
      refine ⟨a2, a1, ?_, fun h => absurd hv (by omega)⟩
      intro j hj
      rw [max_eq_left (by omega)]
      by_cases hja : j = array
      · subst hja
        rw [a5]; exact hcount j hj
      · rw [(a4 j hja).2]; exact hcount j hj
    · have hg := hout (by omega) hpos
      have inv := set_num_vertices_inv this self (vertex + 1) rt hwf
      have hwf1 := set_num_vertices_wf this self (vertex + 1) rt hwf
      obtain ⟨-, -, hfmt1, -⟩ := set_num_vertices_state this self (vertex + 1) rt hwf.1
      have hlen1 : (set_num_vertices this self (vertex + 1) rt).1._cycler._arrays.length =
          self._cycler._arrays.length := inv.length_eq
      have A := set_data_arrays m this self array data_type vertex data num_values rt
        (by rw [hg, hlen1]; exact harray) (by rw [hg]; exact hwf1.2.2) hsup
      rw [hg] at A
      obtain ⟨a1, a2, -, a4, a5, a6, -, -⟩ := A
      refine ⟨a2.trans hlen1, a1.trans hfmt1, ?_, ?_⟩
      · intro j hj
        rw [max_eq_right (by omega)]
        by_cases hja : j = array
        · subst hja
          rw [a5]
          exact (set_num_vertices_bytes this self (vertex + 1) c rt hwf hcount j hj).1
        · rw [(a4 j hja).2]
          exact (set_num_vertices_bytes this self (vertex + 1) c rt hwf hcount j hj).1
      · intro _ j p hj hp1 hp2 hp3
        have hz := (set_num_vertices_bytes this self (vertex + 1) c rt hwf hcount j hj).2.2 p
          hp1 hp2
        by_cases hja : j = array
        · subst hja
          rcases hp3 with h | h
          · exact absurd rfl h
          · rw [a6 p h]
            exact hz
        · rw [(a4 j hja).2]
          exact hz
  obtain ⟨h1, h2, h3, h4⟩ := hlenall
  refine ⟨h1, ?_, ?_, ?_⟩
  · intro hv
    refine ⟨?_, h4 hv⟩
    intro j hj
    rw [h3 j hj, max_eq_right (by omega)]
  · intro hv j hj
    rw [h3 j hj, max_eq_left (by omega)]
  · have hpos0 : 0 < self._cycler._arrays.length := by omega
    have hlenR : (set_data m this self array data_type vertex data num_values rt).1._format.get_num_arrays
        = (set_data m this self array data_type vertex data num_values rt).1._cycler._arrays.length := by
      rw [h1, h2]; exact hwf.1
    rw [get_num_vertices_eq _ _ hlenR (by rw [h1]; exact hpos0), h3 0 hpos0]
    unfold stride
    rw [h2]
    exact Nat.mul_div_cancel _ (hwf.2.1 0 hpos0)

/-- Witness of C27 on `store_color2`, which has two vertices: writing vertex 3
leaves four vertices. -/
theorem C27_set_data_grows_witness :
    (get_num_vertices
      (set_data machine_nat 7 store_color2 0 color_type 3 (fun _ => 0) 2 runtime_color).1
      (set_data machine_nat 7 store_color2 0 color_type 3 (fun _ => 0) 2 runtime_color).2).1 =
      max 2 (3 + 1) :=
  (C27_set_data_grows machine_nat 7 store_color2 0 color_type 3 (fun _ => 0) 2 runtime_color 2
    (by decide) (by decide) (by decide) (by decide) (by decide) (by decide)).2.2.2

/-- C22: float data types round-trip exactly.  For a store that satisfies its
invariant, an `NT_float` data type of `N` values and `4 * N` bytes within the
stride of array `array`, every vertex index and every `N` values `data` that
the object representation of `float` keeps (reading the four bytes of a value
gives the value): after `set_data(array, data_type, vertex, data, N)` the
`4 * N` bytes at offset `vertex * stride + start` are the bytes of `data`,
untransformed, and `get_data(array, data_type, vertex, out, N)` yields
`out = data`, component for component. -/
theorem C22_float_round_trip {F : Type} (m : Machine F) (this : Nat) (self : qpGeomVertexData)
    (array : Nat) (data_type : qpGeomVertexDataType) (vertex : Nat) (data : Nat → F) (N : Nat)
    (rt : Runtime)
    (hwf : self.WF rt.heap) (hsame : self.SameCount rt.heap)
    (harray : array < self._cycler._arrays.length)
    (htype : data_type.get_numeric_type = .NT_float)
    (hN : data_type.get_num_values = N)
    (htotal : data_type.get_total_bytes = 4 * N)
    (hfit : data_type.get_start + data_type.get_total_bytes ≤ self.stride array)
    (hkeeps : ∀ i, i < N → m.float_of_raw (m.float_raw (data i)) = data i) :
    (get_data m (set_data m this self array data_type vertex data N rt).1 array data_type vertex N
        (set_data m this self array data_type vertex data N rt).2).1 = (List.range N).map data ∧
    (get_data m (set_data m this self array data_type vertex data N rt).1 array data_type vertex N
        (set_data m this self array data_type vertex data N rt).2).2.nassert_failed =
      rt.nassert_failed ∧
    ∀ i, i < N → ∀ k : Fin 4,
      ((set_data m this self array data_type vertex data N rt).1.array_bytes
        (set_data m this self array data_type vertex data N rt).2.heap array).getD
          (vertex * self.stride array + data_type.get_start + 4 * i + k.val) 0 =
        m.float_raw (data i) k := by
  obtain ⟨hbyte, hget, hlog⟩ := set_data_float m this self array data_type vertex data N rt hwf
    hsame harray htype hN htotal hfit
  refine ⟨?_, ?_, hbyte⟩
  · rw [hget]
    apply List.map_congr_left
    intro i hi
    exact hkeeps i (List.mem_range.mp hi)
  · rw [hget]
    exact hlog

/-- Witness of C22 on `store_float`: the value 258 written to vertex 1 is read
back. -/
theorem C22_float_round_trip_witness :
    (get_data machine_nat
      (set_data machine_nat 7 store_float 0 float_type 1 (fun _ => 258) 1 runtime_empty).1 0
      float_type 1 1
      (set_data machine_nat 7 store_float 0 float_type 1 (fun _ => 258) 1 runtime_empty).2).1 =
      (List.range 1).map fun _ => 258 :=
  (C22_float_round_trip machine_nat 7 store_float 0 float_type 1 (fun _ => 258) 1 runtime_empty
    (by decide) ⟨0, by decide⟩ (by decide) rfl rfl rfl (by decide) (by decide)).1

/-- C31: surface point of the segment test.  Whenever
`test_intersection_from_segment` reports an intersection for a segment with
transformed endpoints A and B: if `max(dist(A), dist(B)) >= 0` it sets the
surface point `A + t (B - A)` for some `0 <= t <= 1`, and that point has signed
distance 0 to the plane; if both endpoints are strictly behind the plane it sets
no surface point (the entry keeps the one it had). -/
theorem C31_segment_surface_point {K : Type} [LinearOrderedField K] (self : CollisionPlane K)
    (entry : CollisionEntry K) (point_a point_b : LVecBase3 K) (respect : Bool)
    (hfrom : entry.get_from = .segment point_a point_b respect) :
    ∀ e, self.test_intersection_from_segment entry = some e →
      (0 ≤ max (self.dist_to_plane (entry.get_wrt_mat.xform_point point_a))
            (self.dist_to_plane (entry.get_wrt_mat.xform_point point_b)) →
        ∃ t : K, 0 ≤ t ∧ t ≤ 1 ∧
          e.surface_point = some (entry.get_wrt_mat.xform_point point_a + t *
            (entry.get_wrt_mat.xform_point point_b - entry.get_wrt_mat.xform_point point_a)) ∧
          self.dist_to_plane (entry.get_wrt_mat.xform_point point_a + t *
            (entry.get_wrt_mat.xform_point point_b - entry.get_wrt_mat.xform_point point_a)) = 0) ∧
      (max (self.dist_to_plane (entry.get_wrt_mat.xform_point point_a))
            (self.dist_to_plane (entry.get_wrt_mat.xform_point point_b)) < 0 →
        e.surface_point = entry.surface_point) := by
  intro e he
  have hs := segment_surface_point self entry point_a point_b respect hfrom e he
  have hmin : ¬ (self.dist_to_plane (entry.get_wrt_mat.xform_point point_a) ≥ 0 ∧
      self.dist_to_plane (entry.get_wrt_mat.xform_point point_b) ≥ 0) := by
    intro hc
    have hn := (segment_result self entry point_a point_b respect hfrom).1.2 hc
    rw [hn] at he
    cases he
  revert hs hmin
  unfold CollisionPlane.dist_to_plane
  generalize entry.get_wrt_mat.xform_point point_a = A
  generalize entry.get_wrt_mat.xform_point point_b = B
  intro hs hmin
  have hd := normal_dot_sub self._plane A B
  have hcp := crossing_parameter _ _ hmin
  constructor
  · intro hmax
    obtain ⟨hne, h0, h1⟩ := hcp.1 hmax
    have hi : self._plane.intersects_line A (B - A) =
        some (-(self._plane.dist_to_plane A) /
          (self._plane.dist_to_plane B - self._plane.dist_to_plane A)) := by
      unfold LPlane.intersects_line
      rw [hd, if_neg hne]
    rw [hi] at hs
    simp only [] at hs
    rw [if_pos ⟨h0, h1⟩] at hs
    exact ⟨_, h0, h1, hs, (intersects_line_some _ _ _ _ hi).2.2⟩
  · intro hmax
    cases hi : self._plane.intersects_line A (B - A) with
    | none =>
      rw [hi] at hs
      exact hs
    | some t =>
      rw [hi] at hs
      simp only [] at hs
      obtain ⟨hne, ht, -⟩ := intersects_line_some _ _ _ _ hi
      rw [hd] at hne ht
      have hcon := hcp.2 hmax hne
      rw [← ht] at hcon
      rw [if_neg hcon] at hs
      exact hs

/-- Witness of C31: the plane z = 0 and the segment from (0, 0, 1) to
(0, 0, -3), which is reported and crosses the plane at the origin. -/
theorem C31_segment_surface_point_witness :
    entry_segment.get_from = .segment ⟨0, 0, 1⟩ ⟨0, 0, -3⟩ false ∧
    ∃ e, plane_floor.test_intersection_from_segment entry_segment = some e ∧
      e.surface_point = some ⟨0, 0, 0⟩ ∧
      ∃ t : ℚ, 0 ≤ t ∧ t ≤ 1 ∧
        e.surface_point = some (entry_segment.get_wrt_mat.xform_point ⟨0, 0, 1⟩ + t *
          (entry_segment.get_wrt_mat.xform_point ⟨0, 0, -3⟩ -
            entry_segment.get_wrt_mat.xform_point ⟨0, 0, 1⟩)) ∧
        plane_floor.dist_to_plane (entry_segment.get_wrt_mat.xform_point ⟨0, 0, 1⟩ + t *
          (entry_segment.get_wrt_mat.xform_point ⟨0, 0, -3⟩ -
            entry_segment.get_wrt_mat.xform_point ⟨0, 0, 1⟩)) = 0 := by
  refine ⟨rfl, ?_⟩
  have hx := segment_example_crossing
  cases h : plane_floor.test_intersection_from_segment entry_segment with
  | none =>
    rw [h] at hx
    cases hx
  | some e =>
    rw [h] at hx
    refine ⟨e, rfl, Option.some.inj hx, ?_⟩
    refine (C31_segment_surface_point plane_floor entry_segment ⟨0, 0, 1⟩ ⟨0, 0, -3⟩ false rfl
      e h).1 ?_
    simp [CollisionPlane.dist_to_plane, LPlane.dist_to_plane, plane_floor, entry_segment,
      LMatrix4.xform_point, LMatrix4.ident]

/-- C32: sphere against plane.  For a plane with unit normal and a sphere with
transformed centre c and transformed radius r, `test_intersection_from_sphere`
reports an intersection iff `dist(c) <= r`, so for `r >= 0` a sphere wholly
behind the plane (`dist(c) < -r`) is reported; when it reports one, the surface
point is `c - normal * dist(c)` and has signed distance 0, and the interior
point is `c - normal * r` and has signed distance `dist(c) - r <= 0`. -/
theorem C32_sphere_half_space {K : Type} [LinearOrderedField K] (length : LVecBase3 K → K)
    (self : CollisionPlane K) (entry : CollisionEntry K) (center : LVecBase3 K) (radius : K)
    (respect : Bool) (hfrom : entry.get_from = .sphere center radius respect)
    (hunit : self.get_normal.dot self.get_normal = 1) :
    (self.test_intersection_from_sphere length entry ≠ none ↔
      self.dist_to_plane (entry.get_wrt_mat.xform_point center) ≤
        length (entry.get_wrt_mat.xform_vec ⟨radius, 0, 0⟩)) ∧
    (0 ≤ length (entry.get_wrt_mat.xform_vec ⟨radius, 0, 0⟩) →
      self.dist_to_plane (entry.get_wrt_mat.xform_point center) <
        -length (entry.get_wrt_mat.xform_vec ⟨radius, 0, 0⟩) →
      self.test_intersection_from_sphere length entry ≠ none) ∧
    ∀ e, self.test_intersection_from_sphere length entry = some e →
      e.surface_point = some (entry.get_wrt_mat.xform_point center -
        self.get_normal * self.dist_to_plane (entry.get_wrt_mat.xform_point center)) ∧
      self.dist_to_plane (entry.get_wrt_mat.xform_point center -
        self.get_normal * self.dist_to_plane (entry.get_wrt_mat.xform_point center)) = 0 ∧
      e.interior_point = some (entry.get_wrt_mat.xform_point center -
        self.get_normal * length (entry.get_wrt_mat.xform_vec ⟨radius, 0, 0⟩)) ∧
      self.dist_to_plane (entry.get_wrt_mat.xform_point center -
        self.get_normal * length (entry.get_wrt_mat.xform_vec ⟨radius, 0, 0⟩)) =
        self.dist_to_plane (entry.get_wrt_mat.xform_point center) -
          length (entry.get_wrt_mat.xform_vec ⟨radius, 0, 0⟩) ∧
      self.dist_to_plane (entry.get_wrt_mat.xform_point center) -
        length (entry.get_wrt_mat.xform_vec ⟨radius, 0, 0⟩) ≤ 0 := by
  have hr := sphere_result length self entry center radius respect hfrom
  have hd : ∀ (c : LVecBase3 K) (s : K), self.dist_to_plane (c - self.get_normal * s) =
      self.dist_to_plane c - s := by
    intro c s
    have h := dist_sub_normal self._plane c s
    have hu : self._plane.get_normal.dot self._plane.get_normal = 1 := hunit
    rw [hu, mul_one] at h
    exact h
  refine ⟨hr.1, fun h0 hb => hr.1.2 (by linarith), ?_⟩
  intro e he
  have hle := hr.1.1 (by rw [he]; exact fun h => by cases h)
  refine ⟨(hr.2 e he).1, ?_, (hr.2 e he).2, hd _ _, by linarith⟩
  rw [hd, sub_self]

/-- Witness of C32: the plane z = 0 and the sphere of radius 1 about
(0, 0, -5), wholly behind the plane, which is reported with the surface point
(0, 0, 0) and the interior point (0, 0, -6). -/
theorem C32_sphere_half_space_witness :
    (entry_of sphere_behind).get_from = .sphere ⟨0, 0, -5⟩ 1 false ∧
    plane_floor.get_normal.dot plane_floor.get_normal = 1 ∧
    plane_floor.test_intersection_from_sphere length_axis (entry_of sphere_behind) ≠ none ∧
    plane_floor.dist_to_plane ((entry_of sphere_behind).get_wrt_mat.xform_point ⟨0, 0, -5⟩) = -5 ∧
    length_axis ((entry_of sphere_behind).get_wrt_mat.xform_vec ⟨1, 0, 0⟩) = 1 := by
  have hu : plane_floor.get_normal.dot plane_floor.get_normal = 1 := by
    simp [CollisionPlane.get_normal, LPlane.get_normal, plane_floor, LVecBase3.dot]
  have hd : plane_floor.dist_to_plane
      ((entry_of sphere_behind).get_wrt_mat.xform_point ⟨0, 0, -5⟩) = -5 := by
    simp [CollisionPlane.dist_to_plane, LPlane.dist_to_plane, plane_floor, entry_of,
      LMatrix4.xform_point, LMatrix4.ident]
  have hl : length_axis ((entry_of sphere_behind).get_wrt_mat.xform_vec ⟨1, 0, 0⟩) = 1 := by
    simp [length_axis, entry_of, LMatrix4.xform_vec, LMatrix4.ident]
  refine ⟨rfl, hu, ?_, hd, hl⟩
  refine (C32_sphere_half_space length_axis plane_floor (entry_of sphere_behind) ⟨0, 0, -5⟩ 1
    false rfl hu).2.1 ?_ ?_
  · rw [hl]
    norm_num
  · rw [hd, hl]
    norm_num

/-- C33: box against plane.  `test_intersection_from_box` reports no
intersection iff `|dist(centre)|` exceeds the sum over the three box axes of
`|axis_i . normal * half_extent_i|`; hence a box whose centre has negative
distance beyond that sum is reported as not intersecting, whereas
`test_intersection_from_sphere` reports a sphere with the same transformed
centre (and a radius of non-negative length) as intersecting. -/
theorem C33_box_two_sided {K : Type} [LinearOrderedField K] (length : LVecBase3 K → K)
    (self : CollisionPlane K) (entry : CollisionEntry K) (center dimensions : LVecBase3 K)
    (respect : Bool) (entry_s : CollisionEntry K) (center_s : LVecBase3 K) (radius : K)
    (respect_s : Bool)
    (hfrom : entry.get_from = .box center dimensions respect)
    (hfrom_s : entry_s.get_from = .sphere center_s radius respect_s)
    (hsame : entry_s.get_wrt_mat.xform_point center_s = entry.get_wrt_mat.xform_point center)
    (hlen : 0 ≤ length (entry_s.get_wrt_mat.xform_vec ⟨radius, 0, 0⟩)) :
    (self.test_intersection_from_box entry = none ↔
      |self.dist_to_plane (entry.get_wrt_mat.xform_point center)| >
        |(entry.get_wrt_mat.get_row3 0).dot self._plane.get_normal *
            (entry.get_wrt_mat.xform_vec dimensions * (1 / 2 : K)).x| +
        |(entry.get_wrt_mat.get_row3 1).dot self._plane.get_normal *
            (entry.get_wrt_mat.xform_vec dimensions * (1 / 2 : K)).y| +
        |(entry.get_wrt_mat.get_row3 2).dot self._plane.get_normal *
            (entry.get_wrt_mat.xform_vec dimensions * (1 / 2 : K)).z|) ∧
    (self.dist_to_plane (entry.get_wrt_mat.xform_point center) < 0 →
      |self.dist_to_plane (entry.get_wrt_mat.xform_point center)| >
        |(entry.get_wrt_mat.get_row3 0).dot self._plane.get_normal *
            (entry.get_wrt_mat.xform_vec dimensions * (1 / 2 : K)).x| +
        |(entry.get_wrt_mat.get_row3 1).dot self._plane.get_normal *
            (entry.get_wrt_mat.xform_vec dimensions * (1 / 2 : K)).y| +
        |(entry.get_wrt_mat.get_row3 2).dot self._plane.get_normal *
            (entry.get_wrt_mat.xform_vec dimensions * (1 / 2 : K)).z| →
      self.test_intersection_from_box entry = none ∧
      self.test_intersection_from_sphere length entry_s ≠ none) := by
  have hb := box_result self entry center dimensions respect hfrom
  refine ⟨hb, fun hneg hbig => ⟨hb.2 hbig, ?_⟩⟩
  refine (sphere_result length self entry_s center_s radius respect_s hfrom_s).1.2 ?_
  rw [hsame]
  linarith

/-- Witness of C33: on the plane z = 0 the box of side 2 about (0, 0, -5) is
not reported, the sphere of radius 1 about the same centre is. -/
theorem C33_box_two_sided_witness :
    (entry_of box_behind).get_from = .box ⟨0, 0, -5⟩ ⟨2, 2, 2⟩ false ∧
    (entry_of sphere_behind).get_from = .sphere ⟨0, 0, -5⟩ 1 false ∧
    plane_floor.dist_to_plane ((entry_of box_behind).get_wrt_mat.xform_point ⟨0, 0, -5⟩) = -5 ∧
    plane_floor.test_intersection_from_box (entry_of box_behind) = none ∧
    plane_floor.test_intersection_from_sphere length_axis (entry_of sphere_behind) ≠ none := by
  have hd : plane_floor.dist_to_plane
      ((entry_of box_behind).get_wrt_mat.xform_point ⟨0, 0, -5⟩) = -5 := by
    simp [CollisionPlane.dist_to_plane, LPlane.dist_to_plane, plane_floor, entry_of,
      LMatrix4.xform_point, LMatrix4.ident]
  have hl : length_axis ((entry_of sphere_behind).get_wrt_mat.xform_vec ⟨1, 0, 0⟩) = 1 := by
    simp [length_axis, entry_of, LMatrix4.xform_vec, LMatrix4.ident]
  refine ⟨rfl, rfl, hd, ?_⟩
  refine (C33_box_two_sided length_axis plane_floor (entry_of box_behind) ⟨0, 0, -5⟩ ⟨2, 2, 2⟩
    false (entry_of sphere_behind) ⟨0, 0, -5⟩ 1 false rfl rfl rfl ?_).2 ?_ ?_
  · rw [hl]
    norm_num
  · rw [hd]
    norm_num
  · rw [hd]
    simp [plane_floor, entry_of, LMatrix4.xform_vec, LMatrix4.ident, LMatrix4.get_row3,
      LPlane.get_normal, LVecBase3.dot, vec_mul]

/-- C34: ray against plane.  If the transformed ray origin has negative signed
distance, `test_intersection_from_ray` reports an intersection whose surface
point is the origin itself; otherwise it reports one iff the ray is not
parallel to the plane (`normal . direction` is not 0) and the line parameter
`t = -dist(origin) / (normal . direction)` of the crossing is `>= 0`, and then
the surface point is `origin + t * direction` and has signed distance 0. -/
theorem C34_ray_against_plane {K : Type} [LinearOrderedField K] (self : CollisionPlane K)
    (entry : CollisionEntry K) (origin direction : LVecBase3 K) (respect : Bool)
    (hfrom : entry.get_from = .ray origin direction respect) :
    (self.dist_to_plane (entry.get_wrt_mat.xform_point origin) < 0 →
      ∃ e, self.test_intersection_from_ray entry = some e ∧
        e.surface_point = some (entry.get_wrt_mat.xform_point origin)) ∧
    (¬ self.dist_to_plane (entry.get_wrt_mat.xform_point origin) < 0 →
      (self.test_intersection_from_ray entry ≠ none ↔
        self.get_normal.dot (entry.get_wrt_mat.xform_vec direction) ≠ 0 ∧
        0 ≤ -(self.dist_to_plane (entry.get_wrt_mat.xform_point origin)) /
          self.get_normal.dot (entry.get_wrt_mat.xform_vec direction)) ∧
      ∀ e, self.test_intersection_from_ray entry = some e →
        e.surface_point = some (entry.get_wrt_mat.xform_point origin +
          (-(self.dist_to_plane (entry.get_wrt_mat.xform_point origin)) /
            self.get_normal.dot (entry.get_wrt_mat.xform_vec direction)) *
          entry.get_wrt_mat.xform_vec direction) ∧
        self.dist_to_plane (entry.get_wrt_mat.xform_point origin +
          (-(self.dist_to_plane (entry.get_wrt_mat.xform_point origin)) /
            self.get_normal.dot (entry.get_wrt_mat.xform_vec direction)) *
          entry.get_wrt_mat.xform_vec direction) = 0) := by
  unfold CollisionPlane.test_intersection_from_ray CollisionPlane.dist_to_plane
    CollisionPlane.get_normal
  rw [hfrom]
  simp only []
  generalize entry.get_wrt_mat.xform_point origin = O
  generalize entry.get_wrt_mat.xform_vec direction = V
  by_cases h1 : self._plane.dist_to_plane O < 0
  · rw [if_pos h1]
    refine ⟨fun _ => ⟨_, rfl, ?_⟩, fun h => absurd h1 h⟩
    show some (O + (0 : K) * V) = some O
    rw [add_zero_smul]
  · rw [if_neg h1]
    refine ⟨fun h => absurd h h1, fun _ => ?_⟩
    cases hi : self._plane.intersects_line O V with
    | none =>
      have h0 := (intersects_line_none _ _ _).1 hi
      simp only []
      exact ⟨⟨fun h => absurd rfl h, fun h => absurd h0 h.1⟩, fun e he => by cases he⟩
    | some t =>
      obtain ⟨hne, ht, hz⟩ := intersects_line_some _ _ _ _ hi
      simp only []
      rw [← ht]
      by_cases h3 : t < 0
      · rw [if_pos h3]
        exact ⟨⟨fun h => absurd rfl h, fun h => absurd h3 (not_lt.mpr h.2)⟩,
          fun e he => by cases he⟩
      · rw [if_neg h3]
        refine ⟨⟨fun _ => ⟨hne, not_lt.mp h3⟩, fun _ h => by cases h⟩, ?_⟩
        intro e he
        cases he
        exact ⟨rfl, hz⟩

/-- Witness of C34: on the plane z = 0 the ray from (0, 0, 2) in the direction
(0, 0, -1), whose origin is in front of the plane, is reported. -/
theorem C34_ray_against_plane_witness :
    (entry_of ray_down).get_from = .ray ⟨0, 0, 2⟩ ⟨0, 0, -1⟩ false ∧
    plane_floor.dist_to_plane ((entry_of ray_down).get_wrt_mat.xform_point ⟨0, 0, 2⟩) = 2 ∧
    plane_floor.get_normal.dot ((entry_of ray_down).get_wrt_mat.xform_vec ⟨0, 0, -1⟩) = -1 ∧
    plane_floor.test_intersection_from_ray (entry_of ray_down) ≠ none := by
  have hd : plane_floor.dist_to_plane
      ((entry_of ray_down).get_wrt_mat.xform_point ⟨0, 0, 2⟩) = 2 := by
    simp [CollisionPlane.dist_to_plane, LPlane.dist_to_plane, plane_floor, entry_of,
      LMatrix4.xform_point, LMatrix4.ident]
  have hv : plane_floor.get_normal.dot
      ((entry_of ray_down).get_wrt_mat.xform_vec ⟨0, 0, -1⟩) = -1 := by
    simp [CollisionPlane.get_normal, LPlane.get_normal, LVecBase3.dot, plane_floor, entry_of,
      LMatrix4.xform_vec, LMatrix4.ident]
  refine ⟨rfl, hd, hv, ?_⟩
  refine ((C34_ray_against_plane plane_floor (entry_of ray_down) ⟨0, 0, 2⟩ ⟨0, 0, -1⟩ false
    rfl).2 ?_).1.2 ?_
  · rw [hd]
    norm_num
  · rw [hd, hv]
    norm_num

/-- C35: centre point of the visualisation.  For a plane whose normal
(a, b, c) is not the zero vector, `fill_viz_geom` takes the X branch, the Y
branch or the Z branch; in the branch taken the coefficient it divides by has
the largest absolute value of the three and is not zero, and the centre point
`cp` and the first corner point (the point of which `cp` is subtracted to give
`p1`, before `p1` is normalised) both satisfy the plane equation. -/
theorem C35_viz_centre_point {K : Type} [LinearOrderedField K] (self : CollisionPlane K)
    (hn : self.get_normal ≠ ⟨0, 0, 0⟩) :
    ((|self._plane.b| ≤ |self._plane.a| ∧ |self._plane.c| ≤ |self._plane.a| ∧
        self._plane.a ≠ 0 ∧
        self.fill_viz_geom =
          (⟨-self._plane.d / self._plane.a, 0, 0⟩,
            ⟨-(self._plane.b + self._plane.c + self._plane.d) / self._plane.a, 1, 1⟩,
            (⟨-(self._plane.b + self._plane.c + self._plane.d) / self._plane.a, 1, 1⟩ :
              LVecBase3 K) - ⟨-self._plane.d / self._plane.a, 0, 0⟩)) ∨
      (|self._plane.a| ≤ |self._plane.b| ∧ |self._plane.c| ≤ |self._plane.b| ∧
        self._plane.b ≠ 0 ∧
        self.fill_viz_geom =
          (⟨0, -self._plane.d / self._plane.b, 0⟩,
            ⟨1, -(self._plane.a + self._plane.c + self._plane.d) / self._plane.b, 1⟩,
            (⟨1, -(self._plane.a + self._plane.c + self._plane.d) / self._plane.b, 1⟩ :
              LVecBase3 K) - ⟨0, -self._plane.d / self._plane.b, 0⟩)) ∨
      (|self._plane.a| ≤ |self._plane.c| ∧ |self._plane.b| ≤ |self._plane.c| ∧
        self._plane.c ≠ 0 ∧
        self.fill_viz_geom =
          (⟨0, 0, -self._plane.d / self._plane.c⟩,
            ⟨1, 1, -(self._plane.a + self._plane.b + self._plane.d) / self._plane.c⟩,
            (⟨1, 1, -(self._plane.a + self._plane.b + self._plane.d) / self._plane.c⟩ :
              LVecBase3 K) - ⟨0, 0, -self._plane.d / self._plane.c⟩))) ∧
    self._plane.a * self.fill_viz_geom.1.x + self._plane.b * self.fill_viz_geom.1.y +
      self._plane.c * self.fill_viz_geom.1.z + self._plane.d = 0 ∧
    self._plane.a * self.fill_viz_geom.2.1.x + self._plane.b * self.fill_viz_geom.2.1.y +
      self._plane.c * self.fill_viz_geom.2.1.z + self._plane.d = 0 := by
  obtain ⟨⟨a, b, c, d⟩, en⟩ := self
  refine viz_result a b c d en (fun h => hn ?_)
  show (⟨a, b, c⟩ : LVecBase3 K) = ⟨0, 0, 0⟩
  rw [h.1, h.2.1, h.2.2]

/-- Witness of C35: the plane x + 2 y - 2 z + 6 = 0, where the coefficients of
y and z tie for the largest absolute value and the Z branch is taken: the
centre point is (0, 0, 3) and the first corner point (1, 1, 9/2). -/
theorem C35_viz_centre_point_witness :
    plane_tilted.get_normal ≠ ⟨0, 0, 0⟩ ∧
    plane_tilted.fill_viz_geom.1 = ⟨0, 0, 3⟩ ∧
    plane_tilted.fill_viz_geom.2.1 = ⟨1, 1, 9 / 2⟩ ∧
    plane_tilted._plane.a * plane_tilted.fill_viz_geom.1.x +
      plane_tilted._plane.b * plane_tilted.fill_viz_geom.1.y +
      plane_tilted._plane.c * plane_tilted.fill_viz_geom.1.z + plane_tilted._plane.d = 0 ∧
    plane_tilted._plane.a * plane_tilted.fill_viz_geom.2.1.x +
      plane_tilted._plane.b * plane_tilted.fill_viz_geom.2.1.y +
      plane_tilted._plane.c * plane_tilted.fill_viz_geom.2.1.z + plane_tilted._plane.d = 0 := by
  have hn : plane_tilted.get_normal ≠ ⟨0, 0, 0⟩ := by
    simp [CollisionPlane.get_normal, LPlane.get_normal, plane_tilted]
  have hf : plane_tilted.fill_viz_geom =
      (⟨0, 0, 3⟩, ⟨1, 1, 9 / 2⟩, (⟨1, 1, 9 / 2⟩ : LVecBase3 ℚ) - ⟨0, 0, 3⟩) := by
    simp [CollisionPlane.fill_viz_geom, CollisionPlane.get_normal, LPlane.get_normal,
      plane_tilted]
    norm_num
  exact ⟨hn, by rw [hf], by rw [hf], (C35_viz_centre_point plane_tilted hn).2⟩

end Panda
